import Mathlib

/-! Accelio RDMA transport core: shallow embedding and verified properties.

The development follows three C sources:

* `src/usr/transport/xio_mempool.c`: the slab pool of pre-registered blocks;
* `src/usr/transport/rdma/xio_rdma_verbs.c`: the memory-region registry and
  the rkey table;
* `src/usr/transport/rdma/xio_rdma_management.c`: completion queues, remote-key
  remapping of tasks.

Conventions of the embedding.

* A C pointer is modelled by the address of the object it points to: a slab is
  addressed by its index in the pool's slab array, a block by the pair
  (region, index in the region's block array), devices, CQs, MRs and MR elements
  by a natural number.  `none` is `NULL`.
* C `int` fields are `Int`; `size_t` and `uint32_t` values are `Nat`.
* A function that may dereference a pointer outside any allocated object returns
  `Option`/`Except`, the failure standing for undefined behaviour.
* Results of the environment (does `ucalloc` succeed, what `ibv_reg_mr` returns)
  are explicit arguments.
* All functions are executed by one thread: a `__sync_bool_compare_and_swap`
  whose expected value was read just before succeeds, so each CAS retry loop is
  its single successful iteration.
-/

namespace Accelio

/-! ## Part 1. `xio_mempool.c` -/

/-- Value of `SIZE_MAX` on the 64-bit targets of the library. -/
def SIZE_MAX : Nat := 2 ^ 64 - 1

/-- The errno value `EINVAL` (Linux). -/
def EINVAL : Int := 22

/-- The errno value `ENOMEM` (Linux). -/
def ENOMEM : Int := 12

/-- The errno value `EEXIST` (Linux). -/
def EEXIST : Int := 17

/-- Conversion of a `size_t` to `int` (two's complement truncation to 32 bits), as
performed by the assignments `new_slab[ix].init_mb_nr = min` etc. -/
def int_of_size_t (n : Nat) : Int :=
  if n % 2 ^ 32 < 2 ^ 31 then ((n % 2 ^ 32 : Nat) : Int) else ((n % 2 ^ 32 : Nat) : Int) - 2 ^ 32

/-- Pointer to a `struct xio_mem_block`.  The blocks of one region are one array
(`block`, `block + 1`, ...) placed behind the region header in a single `ucalloc`
buffer: `region` names the buffer and `index` the position in its array.  The
pointer is valid only when `index` is below the number of blocks of the region. -/
structure BlockPtr where
  region : Nat
  index : Nat
deriving DecidableEq, Repr

/-- The fields of `struct xio_mem_block` used outside `DEBUG_MEMPOOL_MT`.
`parent_slab` is the index of the slab in the pool's array, `omr` the region's
memory registration, `buf` the data address (region, byte offset). -/
structure xio_mem_block where
  parent_slab : Nat
  omr : Option Nat
  buf : Nat × Nat
  next : Option BlockPtr
  refcnt_claim : Int
deriving DecidableEq, Repr

/-- The block arrays of all regions allocated so far; entry `r` is region `r`. -/
abbrev BlockMem := List (List xio_mem_block)

/-- Read of `*p`; `none` when `p` is not the address of a block. -/
def mem_read (mem : BlockMem) (p : BlockPtr) : Option xio_mem_block :=
  match mem[p.region]? with
  | none => none
  | some r => r[p.index]?

/-- Write of `*p := b` (no effect on an address that is not a block). -/
def mem_write (mem : BlockMem) (p : BlockPtr) (b : xio_mem_block) : BlockMem :=
  match mem[p.region]? with
  | none => mem
  | some r => mem.set p.region (r.set p.index b)

/-- The fields of `struct xio_mem_slab` (the lock and the back pointer to the pool
are left out).  `mem_regions_list` holds the region names, most recent first;
`blocks_list` every block created for the slab, most recent first. -/
structure xio_mem_slab where
  mem_regions_list : List Nat
  free_blocks_list : Option BlockPtr
  blocks_list : List BlockPtr
  mb_size : Nat
  init_mb_nr : Int
  curr_mb_nr : Int
  max_mb_nr : Int
  alloc_quantum_nr : Int
  used_mb_nr : Int
deriving DecidableEq, Repr

/-- The tests made on `p->flags`: each field is `(flags & XIO_MEMPOOL_FLAG_...) != 0`
for the mask of that name (the numeric masks are declared outside these sources). -/
structure xio_mempool_flags where
  reg_mr : Bool
  huge_pages_alloc : Bool
  numa_alloc : Bool
  regular_pages_alloc : Bool
  use_smallest_slab : Bool
deriving DecidableEq, Repr

/-- The fields of `struct xio_mempool`, together with the memory of the blocks it
created.  `slab = []` is the `NULL` array of a pool without slabs; otherwise the
array has `slabs_nr + 1` entries, the last being the sentinel. -/
structure xio_mempool where
  slabs_nr : Nat
  flags : xio_mempool_flags
  nodeid : Int
  safe_mt : Bool
  slab : List xio_mem_slab
  mem : BlockMem
deriving DecidableEq, Repr

/-- The fields of `struct xio_mempool_obj`. -/
structure xio_mempool_obj where
  addr : Option (Nat × Nat)
  mr : Option Nat
  cache : Option BlockPtr
  length : Nat
deriving DecidableEq, Repr

/-- Ways in which a run leaves the model: a dereference of an address that is not
an object, or the exhaustion of the iteration bound of a loop. -/
inductive Fault where
  | invalid_deref
  | out_of_fuel
deriving DecidableEq, Repr

/-- The function `decrement_and_test_and_set` on the counter value `c`: the value
stored and the value returned. -/
def decrement_and_test_and_set (c : Int) : Int × Int :=
  let old := c
  let new0 := old - 2
  let new1 := if new0 = 0 then 1 else new0
  (new1, (old - new1) % 2)

/-- The function `clear_lowest_bit`: the value stored. -/
def clear_lowest_bit (c : Int) : Int := c - 1

/-- The function `safe_release` for a non-`NULL` block `p` whose contents are `b`:
the block is pushed on the free list (`reclaim`) only when
`decrement_and_test_and_set` returns nonzero. -/
def safe_release (slab : xio_mem_slab) (mem : BlockMem) (p : BlockPtr) (b : xio_mem_block) :
    xio_mem_slab × BlockMem :=
  let d := decrement_and_test_and_set b.refcnt_claim
  let b1 := { b with refcnt_claim := d.1 }
  if d.2 = 0 then (slab, mem_write mem p b1)
  else ({ slab with free_blocks_list := some p },
        mem_write mem p { b1 with next := slab.free_blocks_list })

/-- The function `non_safe_release` for a non-`NULL` block. -/
def non_safe_release (slab : xio_mem_slab) (mem : BlockMem) (p : BlockPtr) (b : xio_mem_block) :
    xio_mem_slab × BlockMem :=
  ({ slab with free_blocks_list := some p },
   mem_write mem p { b with next := slab.free_blocks_list })

/-- The function `safe_new_block` (with `safe_read` inlined): the head `q` is claimed
(`refcnt_claim += 2`), the head is swung to `q->next`, the claim bit is cleared.
`none` is a dereference of a head that is not a block. -/
def safe_new_block (slab : xio_mem_slab) (mem : BlockMem) :
    Option (xio_mem_slab × BlockMem × Option BlockPtr) :=
  match slab.free_blocks_list with
  | none => some (slab, mem, none)
  | some q =>
    match mem_read mem q with
    | none => none
    | some b =>
      some ({ slab with free_blocks_list := b.next },
            mem_write mem q { b with refcnt_claim := clear_lowest_bit (b.refcnt_claim + 2) },
            some q)

/-- The function `non_safe_new_block`. -/
def non_safe_new_block (slab : xio_mem_slab) (mem : BlockMem) :
    Option (xio_mem_slab × BlockMem × Option BlockPtr) :=
  match slab.free_blocks_list with
  | none => some (slab, mem, none)
  | some q =>
    match mem_read mem q with
    | none => none
    | some b =>
      some ({ slab with free_blocks_list := b.next },
            mem_write mem q { b with next := none },
            some q)

/-- The choice `p->safe_mt ? safe_new_block(slab) : non_safe_new_block(slab)`. -/
def new_block (safe_mt : Bool) (slab : xio_mem_slab) (mem : BlockMem) :
    Option (xio_mem_slab × BlockMem × Option BlockPtr) :=
  if safe_mt then safe_new_block slab mem else non_safe_new_block slab mem

/-- The first statement of `xio_mem_slab_resize`: on the first growth an initial
count above the maximum is clamped. -/
def resize_clamp (slab : xio_mem_slab) : xio_mem_slab :=
  if slab.curr_mb_nr = 0 ∧ slab.init_mb_nr > slab.max_mb_nr then
    { slab with init_mb_nr := slab.max_mb_nr }
  else slab

/-- The value of `nr_blocks` computed by `xio_mem_slab_resize` (after the clamp). -/
def resize_nr_blocks (slab : xio_mem_slab) : Int :=
  if slab.curr_mb_nr = 0 then
    if slab.init_mb_nr = 0 then min slab.max_mb_nr slab.alloc_quantum_nr
    else slab.init_mb_nr
  else min (slab.max_mb_nr - slab.curr_mb_nr) slab.alloc_quantum_nr

/-- The block array of a new region `r` of `n` blocks as the `for` loop of
`xio_mem_slab_resize` leaves it: block `i` links to block `i + 1`, the last one
still has the `NULL` link of `ucalloc`. -/
def resize_init_blocks (self : Nat) (omr : Option Nat) (mb_size : Nat) (r n : Nat) :
    List xio_mem_block :=
  (List.range n).map fun i =>
    { parent_slab := self
      omr := omr
      buf := (r, i * mb_size)
      next := if i + 1 < n then some ⟨r, i + 1⟩ else none
      refcnt_claim := 1 }

/-- The block array of the new region `r` at the end of `xio_mem_slab_resize`:
after the `for` loop, the first block is taken out for the caller when `alloc` is
set (`block->next = NULL; block->refcnt_claim = 2`), then the last block `qblock`
is linked to the old list head (`qblock->next = slab->free_blocks_list`). -/
def resize_region_blocks (self : Nat) (omr : Option Nat) (mb_size r n : Nat) (alloc : Bool)
    (old_head : Option BlockPtr) : List xio_mem_block :=
  List.modify (fun b => { b with next := old_head }) (n - 1)
    (if alloc then
      (resize_init_blocks self omr mb_size r n).modifyHead
        fun b => { b with next := none, refcnt_claim := 2 }
     else resize_init_blocks self omr mb_size r n)

/-- The slab at the end of a successful `xio_mem_slab_resize` that created the
region `r` of `n = nr_blocks` blocks: every block was added at the head of
`blocks_list`, the free list head is `pblock` (`block + 1` when `alloc` is set,
`block` otherwise), `curr_mb_nr` is raised and the region recorded. -/
def resize_slab (slab1 : xio_mem_slab) (r n : Nat) (nr_blocks : Int) (alloc : Bool) :
    xio_mem_slab :=
  { slab1 with
    free_blocks_list := some (if alloc then ⟨r, 1⟩ else ⟨r, 0⟩)
    blocks_list := ((List.range n).map fun i => (⟨r, i⟩ : BlockPtr)).reverse ++ slab1.blocks_list
    curr_mb_nr := slab1.curr_mb_nr + nr_blocks
    mem_regions_list := r :: slab1.mem_regions_list }

/-- Outcome of the allocations of `xio_mem_slab_resize`: the region header
(`ucalloc`), the data buffer, taken from the allocator selected by the page-source
flag (with none of the three flags set `region->buf` stays `NULL`), and the
registration `xio_reg_mr` when `XIO_MEMPOOL_FLAG_REG_MR` is set.  `ok` tells whether
the calls that are made succeed. -/
def region_obtained (flags : xio_mempool_flags) (ok : Bool) : Bool :=
  ok && (flags.huge_pages_alloc || flags.numa_alloc || flags.regular_pages_alloc)

/-- The function `xio_mem_slab_resize(slab, alloc)`.  `self` is the address of the
slab (its index), `flags` the flags of its pool, `ok` the answer of the environment
to the allocations.  The result is the slab, the memory and the returned block. -/
def xio_mem_slab_resize (self : Nat) (flags : xio_mempool_flags) (ok : Bool)
    (slab : xio_mem_slab) (mem : BlockMem) (alloc : Bool) :
    xio_mem_slab × BlockMem × Option BlockPtr :=
  let slab1 := resize_clamp slab
  let nr_blocks := resize_nr_blocks slab1
  if nr_blocks ≤ 0 then (slab1, mem, none)
  else if region_obtained flags ok = false then (slab1, mem, none)
  else
    let n := nr_blocks.toNat
    let r := mem.length
    (resize_slab slab1 r n nr_blocks alloc,
     mem ++ [resize_region_blocks self (if flags.reg_mr then some r else none) slab1.mb_size r n
               alloc slab1.free_blocks_list],
     some ⟨r, 0⟩)

/-- The function `xio_mempool_create` when it succeeds: the page-source flags are
made exclusive, the pool has no slab. `cur_node` is `numa_node_of_cpu(xio_get_cpu())`. -/
def xio_mempool_create (nodeid : Int) (cur_node : Int) (flags : xio_mempool_flags) : xio_mempool :=
  let flags1 : xio_mempool_flags :=
    if flags.huge_pages_alloc then
      { flags with regular_pages_alloc := false, numa_alloc := false }
    else if flags.numa_alloc then
      { flags with regular_pages_alloc := false, huge_pages_alloc := false }
    else
      { flags with huge_pages_alloc := false, numa_alloc := false, regular_pages_alloc := true }
  { slabs_nr := 0
    flags := flags1
    nodeid := if flags1.numa_alloc ∧ nodeid = -1 then cur_node else nodeid
    safe_mt := true
    slab := []
    mem := [] }

/-- The loop of `size2index`: `k` iterations remain, the index is `i`.  The result
is the value of `i` when the loop is left; `none` is a read outside the array. -/
def size2index_scan (slab : List xio_mem_slab) (sz : Nat) : Nat → Nat → Option Nat
  | 0, i => some i
  | k + 1, i =>
    match slab[i]? with
    | none => none
    | some s => if sz ≤ s.mb_size then some i else size2index_scan slab sz k (i + 1)

/-- The function `size2index`. -/
def size2index (p : xio_mempool) (sz : Nat) : Option Int :=
  match size2index_scan p.slab sz (p.slabs_nr + 1) 0 with
  | none => none
  | some i => some (if i = p.slabs_nr then -1 else (i : Int))

/-- What `xio_mempool_alloc` leaves behind: the return value, the value written to
`errno` (if any), the output object and the pool. -/
structure alloc_result where
  ret : Int
  errno : Option Int
  mp_obj : xio_mempool_obj
  pool : xio_mempool
deriving DecidableEq, Repr

/-- The tail of `xio_mempool_alloc` once a block was obtained from slab `index`:
the output object is filled from the block and `used_mb_nr` is incremented. -/
def alloc_finish (p : xio_mempool) (index : Nat) (slab : xio_mem_slab) (mem : BlockMem)
    (block : BlockPtr) (length : Nat) : Except Fault alloc_result :=
  match mem_read mem block with
  | none => .error .invalid_deref
  | some b =>
    .ok { ret := 0
          errno := none
          mp_obj := { addr := some b.buf, mr := b.omr, cache := some block, length := length }
          pool := { p with
                    slab := p.slab.set index { slab with used_mb_nr := slab.used_mb_nr + 1 }
                    mem := mem } }

/-- The body of `xio_mempool_alloc` from the label `retry` on, with the current
`index`.  The first argument bounds the number of passes through `retry`;
`ok i` is the answer of the environment to the allocations of a growth of slab `i`. -/
def xio_mempool_alloc_retry (length : Nat) (ok : Nat → Bool) :
    Nat → xio_mempool → Int → Except Fault alloc_result
  | 0, _, _ => .error .out_of_fuel
  | fuel + 1, p, index =>
    if index = -1 then
      .ok { ret := -1
            errno := some EINVAL
            mp_obj := { addr := none, mr := none, cache := none, length := 0 }
            pool := p }
    else
      match p.slab[index.toNat]? with
      | none => .error .invalid_deref
      | some slab =>
        match new_block p.safe_mt slab p.mem with
        | none => .error .invalid_deref
        | some (slab1, mem1, some block) => alloc_finish p index.toNat slab1 mem1 block length
        | some (slab1, mem1, none) =>
          -- second attempt (under the slab lock in safe mode)
          match new_block p.safe_mt slab1 mem1 with
          | none => .error .invalid_deref
          | some (slab2, mem2, some block) => alloc_finish p index.toNat slab2 mem2 block length
          | some (slab2, mem2, none) =>
            match xio_mem_slab_resize index.toNat p.flags (ok index.toNat) slab2 mem2 true with
            | (slab3, mem3, some block) => alloc_finish p index.toNat slab3 mem3 block length
            | (slab3, mem3, none) =>
              let index1 : Int :=
                if index + 1 = (p.slabs_nr : Int) ∨ p.flags.use_smallest_slab = true then -1
                else index + 1
              xio_mempool_alloc_retry length ok fuel
                { p with slab := p.slab.set index.toNat slab3, mem := mem3 } index1

/-- The function `xio_mempool_alloc(p, length, mp_obj)`. -/
def xio_mempool_alloc (p : xio_mempool) (length : Nat) (ok : Nat → Bool) :
    Except Fault alloc_result :=
  match size2index p length with
  | none => .error .invalid_deref
  | some index => xio_mempool_alloc_retry length ok (p.slabs_nr + 1) p index

/-- The function `xio_mempool_free(mp_obj)` on the pool owning the block; the
argument `none` is a `NULL` object.  The result `none` is a dereference of a cache
pointer that is not a block. -/
def xio_mempool_free (p : xio_mempool) (mp_obj : Option xio_mempool_obj) : Option xio_mempool :=
  match mp_obj with
  | none => some p
  | some obj =>
    match obj.cache with
    | none => some p
    | some block =>
      match mem_read p.mem block with
      | none => none
      | some b =>
        match p.slab[b.parent_slab]? with
        | none => none
        | some slab =>
          let slab1 := { slab with used_mb_nr := slab.used_mb_nr - 1 }
          let r := if p.safe_mt then safe_release slab1 p.mem block b
                   else non_safe_release slab1 p.mem block b
          some { p with slab := p.slab.set b.parent_slab r.1, mem := r.2 }

/-- The search loop of `xio_mempool_add_slab` over the slabs `ix, ix + 1, ...`:
`none` is the return of `-EEXIST`, `some k` the value of `slab_ix`. -/
def add_slab_search (slabs_nr : Nat) (size : Nat) : List xio_mem_slab → Nat → Option Nat
  | [], _ => some slabs_nr
  | s :: rest, ix =>
    if s.mb_size = size then none
    else if s.mb_size > size then some ix
    else add_slab_search slabs_nr size rest (ix + 1)

/-- The loop `list_for_each_entry(block, &new_slab[ix].blocks_list, ...)
block->parent_slab = &new_slab[ix]`. -/
def reparent (mem : BlockMem) (ix : Nat) : List BlockPtr → BlockMem
  | [] => mem
  | b :: bs =>
    match mem_read mem b with
    | none => reparent mem ix bs
    | some blk => reparent (mem_write mem b { blk with parent_slab := ix }) ix bs

/-- The re-parenting of the blocks of the slabs copied to positions `ix, ix + 1, ...`. -/
def reparent_slabs (mem : BlockMem) : List xio_mem_slab → Nat → BlockMem
  | [], _ => mem
  | s :: rest, ix => reparent_slabs (reparent mem ix s.blocks_list) rest (ix + 1)

/-- The sentinel entry: a zeroed slab (from `ucalloc`) with `mb_size = SIZE_MAX`. -/
def sentinel_slab : xio_mem_slab :=
  { mem_regions_list := [], free_blocks_list := none, blocks_list := [], mb_size := SIZE_MAX
    init_mb_nr := 0, curr_mb_nr := 0, max_mb_nr := 0, alloc_quantum_nr := 0, used_mb_nr := 0 }

/-- The initialisation of the new entry in `xio_mempool_add_slab` up to
`new_slab[ix].free_blocks_list = NULL`. -/
def add_slab_fresh (size min max alloc_quantum_nr : Nat) : xio_mem_slab :=
  { mem_regions_list := [], free_blocks_list := none, blocks_list := [], mb_size := size
    init_mb_nr := int_of_size_t min, curr_mb_nr := 0, max_mb_nr := int_of_size_t max
    alloc_quantum_nr := int_of_size_t alloc_quantum_nr, used_mb_nr := 0 }

/-- The statement `if (new_slab[ix].init_mb_nr) (void) xio_mem_slab_resize(&new_slab[ix], 0)`
on the new entry at index `slab_ix`. -/
def add_slab_grow (slab_ix : Nat) (flags : xio_mempool_flags) (ok : Bool) (fresh : xio_mem_slab)
    (mem : BlockMem) : xio_mem_slab × BlockMem :=
  if fresh.init_mb_nr ≠ 0 then
    let r := xio_mem_slab_resize slab_ix flags ok fresh mem false
    (r.1, r.2.1)
  else (fresh, mem)

/-- The second half of `xio_mempool_add_slab`, for the position `slab_ix` found by
the search: the array `new_slab` is filled (slabs below `slab_ix` copied in place,
the new slab initialised and possibly grown, the slabs from `slab_ix` on shifted by
one, every copied slab's blocks re-parented), the sentinel is written and the
array is installed. -/
def add_slab_at (p : xio_mempool) (slab_ix : Nat) (size min max alloc_quantum_nr : Nat)
    (ok : Bool) : xio_mempool :=
  let old := p.slab.take p.slabs_nr
  let mem1 := reparent_slabs p.mem (old.take slab_ix) 0
  let grown := add_slab_grow slab_ix p.flags ok
                 (add_slab_fresh size min max alloc_quantum_nr) mem1
  let mem3 := reparent_slabs grown.2 (old.drop slab_ix) (slab_ix + 1)
  { p with
    slab := old.take slab_ix ++ grown.1 :: old.drop slab_ix ++ [sentinel_slab]
    slabs_nr := p.slabs_nr + 1
    mem := mem3 }

/-- The function `xio_mempool_add_slab(p, size, min, max, alloc_quantum_nr)`
(the array `new_slab` is assumed to be obtained).  `ok` is the answer of the
environment to the allocations of the initial growth of the new slab. -/
def xio_mempool_add_slab (p : xio_mempool) (size min max alloc_quantum_nr : Nat) (ok : Bool) :
    Int × xio_mempool :=
  match add_slab_search p.slabs_nr size (p.slab.take p.slabs_nr) 0 with
  | none => (-EEXIST, p)
  | some slab_ix => (0, add_slab_at p slab_ix size min max alloc_quantum_nr ok)

/-! ## Part 2. `xio_rdma_verbs.c`: memory-region registry and rkey table -/

/-- The constant `MAX_DEVS` of `xio_reg_mr_ex`. -/
def MAX_DEVS : Nat := 32

/-- The fields of `struct ibv_mr` used by the transport. -/
structure ibv_mr where
  addr : Nat
  lkey : Nat
  rkey : Nat
deriving DecidableEq, Repr

/-- A `struct xio_mr_elem`: `id` is the address of the element, `dev` the address
of its device, `mr` the registration.  The element is linked in the `dm_list` of
its memory region and in the `xm_list` of its device. -/
structure xio_mr_elem where
  id : Nat
  dev : Nat
  mr : ibv_mr
deriving DecidableEq, Repr

/-- A `struct xio_mr`: `id` is its address, `dm_list` its elements (head first). -/
structure xio_mr where
  id : Nat
  addr : Option Nat
  length : Nat
  access : Nat
  dm_list : List xio_mr_elem
deriving DecidableEq, Repr

/-- The fields of `struct xio_cq` set by `xio_cq_get`; `id` is the address of the
CQ, `ctx` and `dev` the addresses of its context and device, `cqe` the field `cqe`
of the verbs CQ `tcq->cq`, `kref` the value of the reference counter. -/
structure xio_cq where
  id : Nat
  ctx : Nat
  dev : Nat
  cqe : Int
  wc_array_len : Int
  max_cqe : Int
  cq_depth : Int
  alloc_sz : Int
  cqe_avail : Int
  kref : Int
  trans_list : List Nat
deriving DecidableEq, Repr

/-- The fields of `struct xio_device` used here: `id` is the address of the device,
`max_cqe` is `device_attr.max_cqe`; both lists are given head first. -/
structure xio_device where
  id : Nat
  max_cqe : Int
  cq_list : List xio_cq
  xm_list : List xio_mr_elem
deriving DecidableEq, Repr

/-- The globals of the registry: the devices linked on `dev_list` (head first), the
device objects that exist without being linked there (a device being set up, or
moved to `dev_del_list`), `mr_list` (head first), `mr_num`, and the next address
handed out by `ucalloc` for an MR or an element. -/
structure mr_registry where
  dev_list : List xio_device
  other_devs : List xio_device
  mr_list : List xio_mr
  mr_num : Nat
  next_id : Nat
deriving DecidableEq, Repr

/-- Application of `f` to the device at address `dev`, wherever it is kept. -/
def update_dev (st : mr_registry) (dev : Nat) (f : xio_device → xio_device) : mr_registry :=
  { st with
    dev_list := st.dev_list.map fun d => if d.id = dev then f d else d
    other_devs := st.other_devs.map fun d => if d.id = dev then f d else d }

/-- The device at address `dev`. -/
def find_dev (st : mr_registry) (dev : Nat) : Option xio_device :=
  (st.dev_list ++ st.other_devs).find? fun d => d.id = dev

/-- The pair `list_add(&tmr_elem->dm_list_entry, &tmr->dm_list);
list_add(&tmr_elem->xm_list_entry, &dev->xm_list)` for an MR kept on `mr_list`. -/
def link_elem (st : mr_registry) (tmr : Nat) (e : xio_mr_elem) : mr_registry :=
  update_dev
    { st with mr_list := st.mr_list.map fun m =>
                if m.id = tmr then { m with dm_list := e :: m.dm_list } else m }
    e.dev (fun d => { d with xm_list := e :: d.xm_list })

/-- The pair `list_del(&tmr_elem->dm_list_entry); list_del(&tmr_elem->xm_list_entry)`:
the element at address `e` leaves the two lists it is linked in. -/
def unlink_elem (st : mr_registry) (e : Nat) : mr_registry :=
  { st with
    dev_list := st.dev_list.map fun d => { d with xm_list := d.xm_list.filter fun x => x.id ≠ e }
    other_devs := st.other_devs.map fun d => { d with xm_list := d.xm_list.filter fun x => x.id ≠ e }
    mr_list := st.mr_list.map fun m => { m with dm_list := m.dm_list.filter fun x => x.id ≠ e } }

/-- The function `xio_dereg_mr(p_tmr)`: the return value, the new `*p_tmr` and the
registry.  An MR that is not on `mr_list` is left alone. -/
def xio_dereg_mr (st : mr_registry) (p_tmr : Option Nat) : Int × Option Nat × mr_registry :=
  match p_tmr with
  | none => (0, none, st)
  | some tmr =>
    match st.mr_list.find? fun m => m.id = tmr with
    | none => (0, some tmr, st)
    | some m =>
      let st1 := { st with mr_list := st.mr_list.filter fun x => x.id ≠ tmr }
      (0, none, m.dm_list.foldl (fun s e => unlink_elem s e.id) st1)

/-- The function `xio_dereg_mr_by_dev(dev)`. -/
def xio_dereg_mr_by_dev (st : mr_registry) (dev : Nat) : Int × mr_registry :=
  match find_dev st dev with
  | none => (0, st)
  | some d => (0, d.xm_list.foldl (fun s e => unlink_elem s e.id) st)

/-- The registration loop of `xio_reg_mr_ex` over the devices of `devs_arr` not yet
handled.  `tmr` is the MR under construction (not yet on `mr_list`), `reg d` the
result of `xio_reg_mr_ex_dev` on device `d`.  The result `none` is the jump to
`cleanup1`. -/
def reg_mr_ex_loop (reg : Nat → Option ibv_mr) :
    List Nat → mr_registry → xio_mr → Option Nat → Bool → mr_registry × Option (xio_mr × Option Nat × Bool)
  | [], st, tmr, addr, allocate_mr => (st, some (tmr, addr, allocate_mr))
  | d :: rest, st, tmr, addr, allocate_mr =>
    match reg d with
    | none => (st, none)
    | some mr =>
      let e : xio_mr_elem := { id := st.next_id, dev := d, mr := mr }
      let st1 := update_dev { st with next_id := st.next_id + 1 } d
                   (fun x => { x with xm_list := e :: x.xm_list })
      let tmr1 := { tmr with dm_list := e :: tmr.dm_list }
      if allocate_mr then reg_mr_ex_loop reg rest st1 tmr1 (some mr.addr) false
      else reg_mr_ex_loop reg rest st1 tmr1 addr allocate_mr

/-- The function `xio_reg_mr_ex(addr, length, access)` once the transport is
initialised.  `allocate_mr` is the test of `IBV_XIO_ACCESS_ALLOCATE_MR` in `access`,
`tmr_ok` the success of the `ucalloc` of the MR, `reg d` what registering on device
`d` returns.  The result is the MR address returned (or `NULL`), the final `*addr`
and the registry. -/
def xio_reg_mr_ex (st : mr_registry) (addr : Option Nat) (length access : Nat)
    (allocate_mr : Bool) (tmr_ok : Bool) (reg : Nat → Option ibv_mr) :
    Option Nat × Option Nat × mr_registry :=
  if st.dev_list = [] then (none, addr, st)
  else
    let devs_arr := (st.dev_list.take MAX_DEVS).map fun d => d.id
    if tmr_ok = false then (none, addr, st)
    else
      let tmr : xio_mr := { id := st.next_id, addr := none, length := 0, access := 0, dm_list := [] }
      match reg_mr_ex_loop reg devs_arr { st with next_id := st.next_id + 1 } tmr addr allocate_mr with
      | (st1, none) =>
        -- cleanup1: xio_dereg_mr(&tmr) does not find tmr on mr_list
        (none, addr, (xio_dereg_mr st1 (some tmr.id)).2.2)
      | (st1, some (tmr1, addr1, _)) =>
        let tmr2 := { tmr1 with addr := addr1, length := length, access := access }
        (some tmr2.id, addr1,
         { st1 with mr_num := st1.mr_num + 1, mr_list := tmr2 :: st1.mr_list })

/-- The loop of `xio_reg_mr_add_dev` over the MRs of `mr_list` not yet visited;
`false` is the jump to `cleanup`. -/
def reg_mr_add_dev_loop (dev : Nat) (reg : Nat → Option ibv_mr) :
    List Nat → mr_registry → Bool × mr_registry
  | [], st => (true, st)
  | tmr :: rest, st =>
    match reg tmr with
    | none => (false, st)
    | some mr =>
      let e : xio_mr_elem := { id := st.next_id, dev := dev, mr := mr }
      reg_mr_add_dev_loop dev reg rest (link_elem { st with next_id := st.next_id + 1 } tmr e)

/-- The function `xio_reg_mr_add_dev(dev)`; `reg m` is what registering the MR at
address `m` on the device returns. -/
def xio_reg_mr_add_dev (st : mr_registry) (dev : Nat) (reg : Nat → Option ibv_mr) :
    Int × mr_registry :=
  match reg_mr_add_dev_loop dev reg (st.mr_list.map fun m => m.id) st with
  | (true, st1) => (0, st1)
  | (false, st1) => (-1, (xio_dereg_mr_by_dev st1 dev).2)

/-- A `struct xio_rkey_tbl` entry. -/
structure xio_rkey_tbl where
  old_rkey : Nat
  new_rkey : Nat
deriving DecidableEq, Repr

/-- The `for` loop of `xio_rkey_table_create`.  A cursor is the part of the list
from the cursor on, `[]` being the list head itself; `new_all` is `new_h->next`.
The step is `old_n = old_n->next, new_n = new_h->next`.  The result is the two
cursors after the loop and the entries written through `te`, in order. -/
def rkey_table_loop (new_all : List xio_mr_elem) :
    List xio_mr_elem → List xio_mr_elem → List xio_rkey_tbl →
    List xio_mr_elem × List xio_mr_elem × List xio_rkey_tbl
  | [], new_n, acc => ([], new_n, acc)
  | old_e :: old_rest, [], acc => (old_e :: old_rest, [], acc)
  | old_e :: old_rest, new_e :: _, acc =>
    rkey_table_loop new_all old_rest new_all
      (acc ++ [{ old_rkey := old_e.mr.rkey, new_rkey := new_e.mr.rkey }])

/-- The outcome of `xio_rkey_table_create`: the return value, `*htbl` and `*len`. -/
structure rkey_table_result where
  ret : Int
  htbl : Option (List xio_rkey_tbl)
  len : Nat
deriving DecidableEq, Repr

/-- The function `xio_rkey_table_create(old, _new, htbl, len)`.  `htbl` is the value
of `*htbl` before the call, `tbl_ok` the success of `ucalloc`.  The table has
`mr_num` zeroed entries, of which the loop fills the first ones; writing more than
`mr_num` entries runs over the table (`Fault.invalid_deref`). -/
def xio_rkey_table_create (mr_num : Nat) (old new : xio_device)
    (htbl : Option (List xio_rkey_tbl)) (tbl_ok : Bool) : Except Fault rkey_table_result :=
  if mr_num = 0 then .ok { ret := 0, htbl := htbl, len := 0 }
  else if tbl_ok = false then .ok { ret := -ENOMEM, htbl := htbl, len := 0 }
  else
    match rkey_table_loop new.xm_list old.xm_list new.xm_list [] with
    | (old_n, new_n, entries) =>
      if entries.length > mr_num then .error .invalid_deref
      else if old_n ≠ [] ∨ new_n ≠ [] then .ok { ret := -1, htbl := htbl, len := 0 }
      else
        .ok { ret := 0
              htbl := some (entries ++ List.replicate (mr_num - entries.length) ⟨0, 0⟩)
              len := mr_num % 2 ^ 16 }

/-! ## Part 3. `xio_rdma_management.c`: rkey remapping and completion queues -/

/-- A `struct xio_sge`. -/
structure xio_sge where
  addr : Nat
  length : Nat
  stag : Nat
deriving DecidableEq, Repr

/-- The fields of `struct xio_rdma_task` that describe scatter/gather lists: the
counters of the local lists, and the counters and arrays received from the peer. -/
structure xio_rdma_task where
  read_num_sge : Nat
  write_num_sge : Nat
  recv_num_sge : Nat
  req_read_num_sge : Nat
  req_write_num_sge : Nat
  req_recv_num_sge : Nat
  rsp_write_num_sge : Nat
  req_read_sge : List xio_sge
  req_write_sge : List xio_sge
  req_recv_sge : List xio_sge
deriving DecidableEq, Repr

/-- The loop of `xio_new_rkey` with `k` iterations left at index `i`: the return
value and the new `*key`; `none` is a read outside the table. -/
def xio_new_rkey_scan (tbl : List xio_rkey_tbl) (key : Nat) : Nat → Nat → Option (Int × Nat)
  | 0, _ => some (-1, key)
  | k + 1, i =>
    match tbl[i]? with
    | none => none
    | some e => if e.old_rkey = key then some (0, e.new_rkey) else xio_new_rkey_scan tbl key k (i + 1)

/-- The function `xio_new_rkey(rdma_hndl, key)` for the handle's `peer_rkey_tbl`
and `peer_rkey_tbl_size`. -/
def xio_new_rkey (peer_rkey_tbl : List xio_rkey_tbl) (peer_rkey_tbl_size : Nat) (key : Nat) :
    Option (Int × Nat) :=
  if key = 0 then some (0, key)
  else xio_new_rkey_scan peer_rkey_tbl key peer_rkey_tbl_size 0

/-- One loop of `xio_rdma_update_task`: `for (i = ...; i < num; i++) if
(xio_new_rkey(rdma_hndl, &sge[i].stag)) return -1;` with `k` iterations left at
index `i`.  The result is `true` when the loop runs to its end and `false` on the
`return -1`, with the array as modified. -/
def update_task_loop (tbl : List xio_rkey_tbl) (size : Nat) :
    List xio_sge → Nat → Nat → Option (Bool × List xio_sge)
  | sge, 0, _ => some (true, sge)
  | sge, k + 1, i =>
    match sge[i]? with
    | none => none
    | some e =>
      match xio_new_rkey tbl size e.stag with
      | none => none
      | some (r, key) =>
        if r ≠ 0 then some (false, sge.set i { e with stag := key })
        else update_task_loop tbl size (sge.set i { e with stag := key }) k (i + 1)

/-- The function `xio_rdma_update_task(trans_hndl, task)`: the return value and the
task; `none` is an access outside a table or an array. -/
def xio_rdma_update_task (peer_rkey_tbl : List xio_rkey_tbl) (peer_rkey_tbl_size : Nat)
    (task : xio_rdma_task) : Option (Int × xio_rdma_task) :=
  match update_task_loop peer_rkey_tbl peer_rkey_tbl_size task.req_recv_sge task.req_recv_num_sge 0 with
  | none => none
  | some (false, sge) => some (-1, { task with req_recv_sge := sge })
  | some (true, sge) =>
    let task1 := { task with req_recv_sge := sge }
    match update_task_loop peer_rkey_tbl peer_rkey_tbl_size task1.req_read_sge task1.req_read_num_sge 0 with
    | none => none
    | some (false, sge) => some (-1, { task1 with req_read_sge := sge })
    | some (true, sge) =>
      let task2 := { task1 with req_read_sge := sge }
      match update_task_loop peer_rkey_tbl peer_rkey_tbl_size task2.req_write_sge task2.write_num_sge 0 with
      | none => none
      | some (false, sge) => some (-1, { task2 with req_write_sge := sge })
      | some (true, sge) => some (0, { task2 with req_write_sge := sge })

/-- The constant `MAX_POLL_WC`. -/
def MAX_POLL_WC : Int := 128

/-- The constant `MAX_CQE_PER_QP = MAX_SEND_WR + MAX_RECV_WR + EXTRA_RQE`. -/
def MAX_CQE_PER_QP : Int := 257 + 256 + 32

/-- The constant `CQE_ALLOC_SIZE`. -/
def CQE_ALLOC_SIZE : Int := 10 * MAX_CQE_PER_QP

/-- Modelled from the spec: the reference counter `struct kref` with `kref_init`,
`kref_get` and `kref_put`, which are declared outside these sources ("reference-counted
by the connections that attach", "`get` returns a CQ with +1 on its refcount; `put`
calls a deleter").  `kref_init` sets the counter to one. -/
def kref_init : Int := 1

/-- Modelled from the spec: `kref_get` adds one reference. -/
def kref_get (k : Int) : Int := k + 1

/-- Modelled from the spec: `kref_put` drops one reference; the second component
tells whether the counter reached zero, in which case the deleter runs. -/
def kref_put (k : Int) : Int × Bool := (k - 1, decide (k - 1 = 0))

/-- What the environment answers to the steps of a CQ creation in `xio_cq_get`:
the address of the `ucalloc`ed CQ, the success of the later steps, and the `cqe`
field of the CQ returned by `ibv_create_cq`. -/
structure cq_env where
  tcq : Option Nat
  wc_array_ok : Bool
  channel_ok : Bool
  fcntl_ok : Bool
  add_ev_handler_ok : Bool
  create_cq : Option Int
  req_notify_ok : Bool
deriving DecidableEq, Repr

/-- The loop `list_for_each_entry(tcq, &dev->cq_list, cq_list_entry) if (tcq->ctx ==
ctx) { kref_get(&tcq->kref); return tcq; }`: the CQ found, and the list with its
counter raised. -/
def cq_lookup (ctx : Nat) : List xio_cq → Option (Nat × List xio_cq)
  | [] => none
  | c :: rest =>
    if c.ctx = ctx then some (c.id, { c with kref := kref_get c.kref } :: rest)
    else
      match cq_lookup ctx rest with
      | none => none
      | some (id, rest1) => some (id, c :: rest1)

/-- The CQ object that `xio_cq_get` has built when it links it: `addr` is the
address returned by `ucalloc`, `cqe` the depth reported by `ibv_create_cq`.  The
counter is set by `kref_init` and raised once by `kref_get` ("one reference count
for the context and one for the rdma handle"). -/
def cq_created (dev : xio_device) (ctx addr : Nat) (cqe : Int) : xio_cq :=
  { id := addr
    ctx := ctx
    dev := dev.id
    cqe := cqe
    wc_array_len := MAX_POLL_WC
    max_cqe := dev.max_cqe
    cq_depth := cqe
    alloc_sz := min dev.max_cqe CQE_ALLOC_SIZE
    cqe_avail := cqe
    kref := kref_get kref_init
    trans_list := [] }

/-- The function `xio_cq_get(dev, ctx)`: the CQ returned (`none` is `NULL`) and the
device. -/
def xio_cq_get (dev : xio_device) (ctx : Nat) (env : cq_env) : Option Nat × xio_device :=
  match cq_lookup ctx dev.cq_list with
  | some (id, l) => (some id, { dev with cq_list := l })
  | none =>
    match env.tcq with
    | none => (none, dev)
    | some addr =>
      if env.wc_array_ok = false then (none, dev)
      else if env.channel_ok = false then (none, dev)
      else if env.fcntl_ok = false then (none, dev)
      else if env.add_ev_handler_ok = false then (none, dev)
      else
        match env.create_cq with
        | none => (none, dev)
        | some cqe =>
          if env.req_notify_ok = false then (none, dev)
          else
            (some addr, { dev with cq_list := cq_created dev ctx addr cqe :: dev.cq_list })

/-- The function `xio_cq_release(tcq)` (a `kref_put` with the deleter `xio_cq_down`,
which unlinks the CQ from the list of its device and destroys it) on the device of
the CQ; `none` is the use of a CQ that does not exist. -/
def xio_cq_release (dev : xio_device) (tcq : Nat) : Option xio_device :=
  match dev.cq_list.find? fun c => c.id = tcq with
  | none => none
  | some c =>
    if (kref_put c.kref).2 then
      some { dev with cq_list := dev.cq_list.filter fun x => x.id ≠ tcq }
    else
      some { dev with cq_list := dev.cq_list.map fun x =>
                        if x.id = tcq then { x with kref := (kref_put x.kref).1 } else x }

/-- A call made on the CQs of one device. -/
inductive cq_op where
  | get (ctx : Nat) (env : cq_env)
  | release (tcq : Nat)
deriving DecidableEq, Repr

/-- The device after one call. -/
def cq_step (dev : xio_device) : cq_op → Option xio_device
  | .get ctx env => some (xio_cq_get dev ctx env).2
  | .release tcq => xio_cq_release dev tcq

/-- The device after a sequence of calls. -/
def cq_run (dev : xio_device) : List cq_op → Option xio_device
  | [] => some dev
  | op :: rest =>
    match cq_step dev op with
    | none => none
    | some dev1 => cq_run dev1 rest


/-! ## Part 3b. `xio_rdma_management.c`: CQ slots -/

/-- The constant `MAX_SEND_WR`. -/
def MAX_SEND_WR : Int := 257

/-- The constant `MAX_RECV_WR`. -/
def MAX_RECV_WR : Int := 256

/-- The constant `XIO_TIMEWAIT_EXIT_TIMEOUT` (milliseconds). -/
def XIO_TIMEWAIT_EXIT_TIMEOUT : Nat := 60000

/-- The constant `XIO_TIMEWAIT_EXIT_FAST_TIMEOUT` (milliseconds). -/
def XIO_TIMEWAIT_EXIT_FAST_TIMEOUT : Nat := 0

/-- What `ibv_resize_cq` answers: its return value and the field `cqe` of the verbs
CQ after the call. -/
structure resize_env where
  retval : Int
  cqe : Int
deriving DecidableEq, Repr

/-- The function `xio_cq_alloc_slots(tcq, cqe_num)`: the value returned and the CQ.
The values are taken inside the range of `int`. -/
def xio_cq_alloc_slots (tcq : xio_cq) (cqe_num : Int) (env : resize_env) : Int × xio_cq :=
  if cqe_num < tcq.cqe_avail then
    (0, { tcq with cqe_avail := tcq.cqe_avail - cqe_num })
  else if tcq.cq_depth + tcq.alloc_sz < tcq.max_cqe then
    let cqe := tcq.cqe
    let tcq1 := { tcq with cqe := env.cqe }
    if env.retval ≠ 0 ∨ cqe = tcq1.cqe then (-1, tcq1)
    else
      (0, { tcq1 with cq_depth := tcq1.cq_depth + (tcq1.cqe - cqe)
                      cqe_avail := tcq1.cqe_avail + (tcq1.cqe - cqe) - cqe_num })
  else (0, tcq)

/-- The function `xio_cq_free_slots(tcq, cqe_num)`: the value returned and the CQ. -/
def xio_cq_free_slots (tcq : xio_cq) (cqe_num : Int) : Int × xio_cq :=
  if tcq.cqe_avail + cqe_num ≤ tcq.cq_depth then
    (0, { tcq with cqe_avail := tcq.cqe_avail + cqe_num })
  else (0, tcq)

/-- The CQ at address `tcq` among the CQs of the device (`none`: there is no such
object). -/
def cq_deref (dev : xio_device) (tcq : Nat) : Option xio_cq :=
  dev.cq_list.find? fun c => c.id = tcq

/-- A store through the pointer `tcq`: the CQ at that address is replaced. -/
def cq_store (dev : xio_device) (tcq : Nat) (c : xio_cq) : xio_device :=
  { dev with cq_list := dev.cq_list.map fun x => if x.id = tcq then c else x }

/-! ## Part 3c. `xio_rdma_management.c`: the connection object and its collaborators -/

/-- Modelled from the spec: the enumeration `enum xio_transport_state`, declared
outside these sources ("States: INIT, LISTEN, CONNECTING, CONNECTED, DISCONNECTED,
RECONNECT, CLOSED, DESTROYED").  `XIO_STATE_INIT` is the state of a zero-filled
connection object. -/
inductive xio_transport_state where
  | XIO_STATE_INIT
  | XIO_STATE_LISTEN
  | XIO_STATE_CONNECTING
  | XIO_STATE_CONNECTED
  | XIO_STATE_DISCONNECTED
  | XIO_STATE_RECONNECT
  | XIO_STATE_CLOSED
  | XIO_STATE_DESTROYED
deriving DecidableEq, Repr

/-- The reasons handed to `xio_transport_notify_observer_error`: the constants used
by `on_cm_error`, and `xio_errno` for the value of `xio_errno()`. -/
inductive xio_status where
  | XIO_E_CONNECT_ERROR
  | XIO_E_ADDR_ERROR
  | XIO_E_ROUTE_ERROR
  | XIO_E_UNREACHABLE
  | XIO_E_NOT_SUPPORTED
  | xio_errno
deriving DecidableEq, Repr

/-- Modelled from the spec: the upcalls ("Upcall observer accepts events:
NEW_CONNECTION, ESTABLISHED, REFUSED, DISCONNECTED, CLOSED, ERROR(code)"). -/
inductive xio_transport_event where
  | XIO_TRANSPORT_NEW_CONNECTION (child : Nat)
  | XIO_TRANSPORT_ESTABLISHED
  | XIO_TRANSPORT_REFUSED
  | XIO_TRANSPORT_DISCONNECTED
  | XIO_TRANSPORT_CLOSED
  | XIO_TRANSPORT_ERROR (reason : xio_status)
deriving DecidableEq, Repr

/-- The event types of the connection manager (`enum rdma_cm_event_type`). -/
inductive rdma_cm_event_type where
  | RDMA_CM_EVENT_ADDR_RESOLVED
  | RDMA_CM_EVENT_ADDR_ERROR
  | RDMA_CM_EVENT_ROUTE_RESOLVED
  | RDMA_CM_EVENT_ROUTE_ERROR
  | RDMA_CM_EVENT_CONNECT_REQUEST
  | RDMA_CM_EVENT_CONNECT_RESPONSE
  | RDMA_CM_EVENT_CONNECT_ERROR
  | RDMA_CM_EVENT_UNREACHABLE
  | RDMA_CM_EVENT_REJECTED
  | RDMA_CM_EVENT_ESTABLISHED
  | RDMA_CM_EVENT_DISCONNECTED
  | RDMA_CM_EVENT_DEVICE_REMOVAL
  | RDMA_CM_EVENT_MULTICAST_JOIN
  | RDMA_CM_EVENT_MULTICAST_ERROR
  | RDMA_CM_EVENT_ADDR_CHANGE
  | RDMA_CM_EVENT_TIMEWAIT_EXIT
deriving DecidableEq, Repr

/-- The fields of `struct rdma_cm_event` read by the handlers: the event type, the
CM id `ev->id`, and the two connection parameters of a connect request. -/
structure rdma_cm_event where
  event : rdma_cm_event_type
  id : Nat
  initiator_depth : Nat
  responder_resources : Nat
deriving DecidableEq, Repr

/-- The two one-shot events a connection owns (`struct xio_ev_data`). -/
inductive xio_ev_data where
  | ev_data_close
  | ev_data_timewait_exit
deriving DecidableEq, Repr

/-- The global `rdma_options`. -/
structure xio_rdma_options where
  enable_mem_pool : Int
  enable_dma_latency : Int
  max_in_iovsz : Int
  max_out_iovsz : Int
deriving DecidableEq, Repr

/-- The fields of `struct xio_rdma_transport` (with those of its `base`) that the
functions below read or write; `id` is the address of the object, the pointers are
addresses (`none` is `NULL`), `trans_attr_tos` is the test of
`XIO_TRANSPORT_ATTR_TOS` in `trans_attr_mask`.  The task lists are not
represented. -/
structure xio_rdma_transport where
  id : Nat
  kref : Int
  state : xio_transport_state
  ctx : Nat
  portal_uri : Option Nat
  peer_addr : Nat
  local_addr : Nat
  cm_channel : Option Nat
  cm_id : Option Nat
  qp : Option Nat
  tcq : Option Nat
  dev : Option Nat
  rdma_mempool : Option Nat
  phantom_tasks_pool : Option Nat
  rq_depth : Int
  sq_depth : Int
  sqe_avail : Int
  peer_credits : Nat
  max_inline_data : Int
  handler_nesting : Int
  timewait : Nat
  ignore_timewait : Nat
  client_initiator_depth : Nat
  client_responder_resources : Nat
  kick_rdma_rd : Int
  rdma_in_flight : Int
  reqs_in_flight_nr : Int
  rsps_in_flight_nr : Int
  tx_ready_tasks_num : Int
  rkey_tbl : Option (List xio_rkey_tbl)
  rkey_tbl_size : Nat
  peer_rkey_tbl : Option (List xio_rkey_tbl)
  peer_rkey_tbl_size : Nat
  trans_attr_tos : Bool
deriving DecidableEq, Repr

/-- The calls made to the collaborators (connection manager, verbs, context,
observers, device registry), each with the address of the connection, CM id,
context or device it is made for. -/
inductive cm_call where
  | rdma_disconnect (hndl : Nat)
  | ibv_post_send_beacon (hndl : Nat)
  | rdma_destroy_id (hndl : Nat) (cm_id : Nat)
  | rdma_create_qp (hndl : Nat)
  | rdma_destroy_qp (hndl : Nat)
  | rdma_connect (hndl : Nat)
  | rdma_reject (cm_id : Option Nat)
  | rdma_resolve_route (hndl : Nat)
  | rdma_set_option_tos (hndl : Nat)
  | notify_observer (hndl : Nat) (ev : xio_transport_event)
  | reg_observer (hndl : Nat)
  | unreg_all_observers (hndl : Nat)
  | ctx_add_event (hndl : Nat) (ev : xio_ev_data)
  | ctx_remove_event (hndl : Nat) (ev : xio_ev_data)
  | ctx_add_delayed_work (hndl : Nat) (timeout : Nat)
  | ctx_del_delayed_work (hndl : Nat)
  | context_destroy_resume (ctx : Nat)
  | flush_task_lists (hndl : Nat)
  | tasks_pool_destroy (hndl : Nat)
  | cm_channel_get (ctx : Nat)
  | cm_channel_release (channel : Nat)
  | device_lookup_init
  | device_lookup
  | device_put (dev : Nat)
  | device_release (dev : Nat)
  | ufree (hndl : Nat)
deriving DecidableEq, Repr

/-- What the functions share besides the connection object: the global options,
the device of the connection with its CQs, the one-shot events pending on the
context (each with the connection that owns it), and the calls made so far. -/
structure cm_world where
  options : xio_rdma_options
  dev : xio_device
  events : List (Nat × xio_ev_data)
  calls : List cm_call
deriving DecidableEq, Repr

/-- What the environment answers to the calls of the connection functions. -/
structure cm_env where
  verbs : Option Nat
  device_ok : Bool
  device_known : Bool
  set_tos_ok : Bool
  resolve_route_ok : Bool
  cq : cq_env
  resize : resize_env
  create_qp : Option Nat
  max_inline_data : Int
  connect_ok : Bool
  reject_ok : Bool
  disconnect_ok : Bool
  post_send_ok : Bool
  add_delayed_work_ok : Bool
  max_qp_rd_atom : Nat
  max_qp_init_rd_atom : Nat
  dst_storage : Nat
  src_storage : Nat
  ucalloc : Option Nat
  mempool : Option Nat
  cm_channel : Option Nat
deriving DecidableEq, Repr

/-- A connection together with the shared state, `none` when the function has
used an object that does not exist. -/
abbrev cm_result := Option (xio_rdma_transport × cm_world)

/-- A registered observer: what it does to the connection when it is notified. -/
abbrev xio_observer :=
  xio_transport_event → xio_rdma_transport → cm_world → cm_result

/-- Records a call. -/
def cm_emit (w : cm_world) (c : cm_call) : cm_world :=
  { w with calls := w.calls ++ [c] }

/-- Modelled from the spec: `xio_ctx_add_event`, declared outside these sources
("schedule-one-shot event"): every call puts the event at the end of the queue of
the context. -/
def xio_ctx_add_event (w : cm_world) (hndl : Nat) (ev : xio_ev_data) : cm_world :=
  let w1 := cm_emit w (.ctx_add_event hndl ev)
  { w1 with events := w1.events ++ [(hndl, ev)] }

/-- Modelled from the spec: `xio_ctx_remove_event`, declared outside these sources:
the event object is taken off the queue of the context. -/
def xio_ctx_remove_event (w : cm_world) (hndl : Nat) (ev : xio_ev_data) : cm_world :=
  let w1 := cm_emit w (.ctx_remove_event hndl ev)
  { w1 with events := w1.events.filter fun e => e ≠ (hndl, ev) }

/-- Modelled from the spec: `xio_transport_notify_observer`, declared outside these
sources: the upcall is made, and the observer `obs` reacts to it. -/
def xio_transport_notify_observer (obs : xio_observer) (t : xio_rdma_transport) (w : cm_world)
    (ev : xio_transport_event) : cm_result :=
  obs ev t (cm_emit w (.notify_observer t.id ev))

/-- The call `kref_put(&rdma_hndl->base.kref, release)`. -/
def transport_kref_put (release : xio_rdma_transport → cm_world → cm_result)
    (t : xio_rdma_transport) (w : cm_world) : cm_result :=
  let t1 := { t with kref := (kref_put t.kref).1 }
  if (kref_put t.kref).2 = true then release t1 w else some (t1, w)

/-- The function `xio_qp_create(rdma_hndl)`: the value returned, the connection and
the shared state. -/
def xio_qp_create (t : xio_rdma_transport) (w : cm_world) (env : cm_env) :
    Option (Int × xio_rdma_transport × cm_world) :=
  match t.dev with
  | none => none
  | some d =>
    if d ≠ w.dev.id then none
    else
      match xio_cq_get w.dev t.ctx env.cq with
      | (none, dev1) => some (-1, t, { w with dev := dev1 })
      | (some tcq, dev1) =>
        match cq_deref dev1 tcq with
        | none => none
        | some c =>
          let r := xio_cq_alloc_slots c MAX_CQE_PER_QP env.resize
          let dev2 := cq_store dev1 tcq r.2
          if r.1 ≠ 0 then
            match xio_cq_release dev2 tcq with
            | none => none
            | some dev3 => some (-1, t, { w with dev := dev3 })
          else
            let w1 := cm_emit { w with dev := dev2 } (.rdma_create_qp t.id)
            match env.create_qp with
            | none =>
              match cq_deref w1.dev tcq with
              | none => none
              | some c1 =>
                match xio_cq_release (cq_store w1.dev tcq (xio_cq_free_slots c1 MAX_CQE_PER_QP).2)
                    tcq with
                | none => none
                | some dev3 => some (-1, t, { w1 with dev := dev3 })
            | some qp =>
              match cq_deref w1.dev tcq with
              | none => none
              | some c1 =>
                some (0,
                  { t with tcq := some tcq, qp := some qp, sqe_avail := MAX_SEND_WR
                           max_inline_data := env.max_inline_data },
                  { w1 with dev := cq_store w1.dev tcq
                              { c1 with trans_list := t.id :: c1.trans_list } })

/-- The function `xio_qp_release(rdma_hndl)`. -/
def xio_qp_release (t : xio_rdma_transport) (w : cm_world) : cm_result :=
  match t.qp with
  | none => some (t, w)
  | some _ =>
    match t.tcq with
    | none => none
    | some tcq =>
      match cq_deref w.dev tcq with
      | none => none
      | some c =>
        let c1 := (xio_cq_free_slots c MAX_CQE_PER_QP).2
        let dev1 := cq_store w.dev tcq { c1 with trans_list := c1.trans_list.erase t.id }
        let w1 := cm_emit { w with dev := dev1 } (.rdma_destroy_qp t.id)
        match xio_cq_release w1.dev tcq with
        | none => none
        | some dev2 => some ({ t with qp := none }, { w1 with dev := dev2 })

/-- The function `xio_rdma_post_close(trans_base)`. -/
def xio_rdma_post_close (t : xio_rdma_transport) (w : cm_world) : cm_result :=
  if t.handler_nesting ≠ 0 then
    some ({ t with state := .XIO_STATE_DESTROYED }, w)
  else
    let w1 := cm_emit w (.ctx_del_delayed_work t.id)
    let w2 := xio_ctx_remove_event w1 t.id .ev_data_timewait_exit
    let w3 := xio_ctx_remove_event w2 t.id .ev_data_close
    let w4 := cm_emit w3 (.unreg_all_observers t.id)
    let w5 := if t.phantom_tasks_pool.isSome then cm_emit w4 (.tasks_pool_destroy t.id) else w4
    match xio_qp_release t w5 with
    | none => none
    | some (t1, w6) =>
      let t2 := { t1 with cm_id := none }
      let w7 := match t1.cm_id with
        | some c => cm_emit w6 (.rdma_destroy_id t1.id c)
        | none => w6
      match t2.cm_channel with
      | none => none
      | some ch =>
        let w8 := cm_emit w7 (.cm_channel_release ch)
        let w9 := cm_emit w8 (.context_destroy_resume t2.ctx)
        let t3 := { t2 with rkey_tbl := none, peer_rkey_tbl := none, portal_uri := none }
        some (t3, cm_emit w9 (.ufree t3.id))

/-- The function `xio_rdma_close_cb(kref)`, the deleter of the connection. -/
def xio_rdma_close_cb (obs : xio_observer) (t : xio_rdma_transport) (w : cm_world) :
    cm_result :=
  match xio_transport_notify_observer obs t w .XIO_TRANSPORT_CLOSED with
  | none => none
  | some (t1, w1) => xio_rdma_post_close t1 w1

/-- The function `xio_rdma_disconnect(rdma_hndl, send_beacon)`: the value returned
and the shared state. -/
def xio_rdma_disconnect (t : xio_rdma_transport) (w : cm_world) (send_beacon : Bool)
    (env : cm_env) : Int × cm_world :=
  let w1 := cm_emit w (.rdma_disconnect t.id)
  if env.disconnect_ok = false then (-1, w1)
  else if send_beacon = false then (0, w1)
  else
    let w2 := cm_emit w1 (.ibv_post_send_beacon t.id)
    if env.post_send_ok = false then (-1, w2) else (0, w2)

/-- The function `xio_set_timewait_timer(rdma_hndl)`. -/
def xio_set_timewait_timer (t : xio_rdma_transport) (w : cm_world) : cm_world :=
  if t.timewait ≠ 0 then w
  else
    let timeout :=
      if t.ignore_timewait ≠ 0 then XIO_TIMEWAIT_EXIT_FAST_TIMEOUT else XIO_TIMEWAIT_EXIT_TIMEOUT
    cm_emit w (.ctx_add_delayed_work t.id timeout)

/-- The function `xio_rdma_close(transport)`. -/
def xio_rdma_close (obs : xio_observer) (t : xio_rdma_transport) (w : cm_world)
    (env : cm_env) : cm_result :=
  match t.state with
  | .XIO_STATE_LISTEN =>
    transport_kref_put (xio_rdma_close_cb obs) { t with state := .XIO_STATE_CLOSED } w
  | .XIO_STATE_CONNECTED =>
    let t1 := { t with state := .XIO_STATE_CLOSED }
    transport_kref_put (xio_rdma_close_cb obs) t1 (xio_rdma_disconnect t1 w false env).2
  | .XIO_STATE_DISCONNECTED =>
    let t1 := { t with state := .XIO_STATE_CLOSED }
    let w1 :=
      if t1.ignore_timewait ≠ 0 ∧ t1.timewait = 0 then
        xio_set_timewait_timer t1 (cm_emit w (.ctx_del_delayed_work t1.id))
      else w
    transport_kref_put (xio_rdma_close_cb obs) t1 w1
  | .XIO_STATE_CLOSED => some (t, w)
  | _ => transport_kref_put (xio_rdma_close_cb obs) { t with state := .XIO_STATE_CLOSED } w

/-- The function `xio_rdma_flush_all_tasks(rdma_hndl)`: the task lists are flushed
and the counters cleared. -/
def xio_rdma_flush_all_tasks (t : xio_rdma_transport) (w : cm_world) :
    xio_rdma_transport × cm_world :=
  ({ t with kick_rdma_rd := 0, rdma_in_flight := 0, reqs_in_flight_nr := 0
            rsps_in_flight_nr := 0, tx_ready_tasks_num := 0 },
   cm_emit w (.flush_task_lists t.id))

/-- The function `on_cm_timewait_exit(trans_hndl)`. -/
def on_cm_timewait_exit (obs : xio_observer) (t : xio_rdma_transport) (w : cm_world) :
    cm_result :=
  if t.timewait ≠ 0 then some (t, w)
  else
    let t1 := { t with timewait := (t.timewait + 1) % 2 ^ 16 }
    let w1 := cm_emit w (.ctx_del_delayed_work t1.id)
    let r := xio_rdma_flush_all_tasks t1 w1
    let notified :=
      if r.1.state = .XIO_STATE_DISCONNECTED then
        xio_transport_notify_observer obs r.1 r.2 .XIO_TRANSPORT_DISCONNECTED
      else some r
    match notified with
    | none => none
    | some (t2, w2) => transport_kref_put (xio_rdma_close_cb obs) t2 w2

/-- The function `xio_device_lookup_init(verbs)` as seen by a connection: the
devices are kept by the registry of Part 2, here the call yields the device of the
shared state, or `NULL`. -/
def xio_device_lookup_init (w : cm_world) (env : cm_env) : Option Nat × cm_world :=
  match env.verbs with
  | none => (none, w)
  | some _ =>
    let w1 := cm_emit w .device_lookup_init
    if env.device_ok then (some w1.dev.id, w1) else (none, w1)

/-- The object returned by `ucalloc(1, sizeof(struct xio_rdma_transport))` at address
`addr`: every field is zero. -/
def transport_zeroed (addr : Nat) : xio_rdma_transport :=
  { id := addr
    kref := 0
    state := .XIO_STATE_INIT
    ctx := 0
    portal_uri := none
    peer_addr := 0
    local_addr := 0
    cm_channel := none
    cm_id := none
    qp := none
    tcq := none
    dev := none
    rdma_mempool := none
    phantom_tasks_pool := none
    rq_depth := 0
    sq_depth := 0
    sqe_avail := 0
    peer_credits := 0
    max_inline_data := 0
    handler_nesting := 0
    timewait := 0
    ignore_timewait := 0
    client_initiator_depth := 0
    client_responder_resources := 0
    kick_rdma_rd := 0
    rdma_in_flight := 0
    reqs_in_flight_nr := 0
    rsps_in_flight_nr := 0
    tx_ready_tasks_num := 0
    rkey_tbl := none
    rkey_tbl_size := 0
    peer_rkey_tbl := none
    peer_rkey_tbl_size := 0
    trans_attr_tos := false }

/-- The function `xio_rdma_open(transport, ctx, observer, trans_attr_mask, attr)`:
`observer` tells whether an observer is given, `tos` is the test of
`XIO_TRANSPORT_ATTR_TOS` in a mask given with attributes. -/
def xio_rdma_open (w : cm_world) (ctx : Nat) (observer : Bool) (tos : Bool) (env : cm_env) :
    Option xio_rdma_transport × cm_world :=
  match env.ucalloc with
  | none => (none, w)
  | some addr =>
    let t := { transport_zeroed addr with trans_attr_tos := tos }
    if w.options.enable_mem_pool ≠ 0 ∧ env.mempool = none then (none, w)
    else
      let t1 :=
        { t with rdma_mempool := if w.options.enable_mem_pool ≠ 0 then env.mempool else none }
      let w1 := cm_emit w (.cm_channel_get ctx)
      let t2 :=
        { t1 with portal_uri := none
                  kref := kref_init
                  cm_id := none
                  qp := none
                  tcq := none
                  ctx := ctx
                  rq_depth := MAX_RECV_WR
                  sq_depth := MAX_SEND_WR
                  peer_credits := 0
                  cm_channel := env.cm_channel }
      match t2.cm_channel with
      | none => (none, w1)
      | some _ =>
        (some t2, if observer then cm_emit w1 (.reg_observer t2.id) else w1)

/-- The function `xio_rdma_reject(transport)`: the value returned and the shared
state. -/
def xio_rdma_reject (t : xio_rdma_transport) (w : cm_world) (env : cm_env) : Int × cm_world :=
  let w1 := cm_emit w (.rdma_reject t.cm_id)
  if env.reject_ok = false then (-1, w1) else (0, w1)

/-- The function `on_cm_addr_resolved(ev, rdma_hndl)`. -/
def on_cm_addr_resolved (obs : xio_observer) (t : xio_rdma_transport) (w : cm_world)
    (env : cm_env) : cm_result :=
  match t.cm_id with
  | none => none
  | some _ =>
    let r := xio_device_lookup_init w env
    let t1 := { t with dev := r.1 }
    match r.1 with
    | none =>
      xio_transport_notify_observer obs t1 r.2 (.XIO_TRANSPORT_ERROR .xio_errno)
    | some d =>
      let w1 := if t1.trans_attr_tos then cm_emit r.2 (.rdma_set_option_tos t1.id) else r.2
      let w2 := cm_emit w1 (.rdma_resolve_route t1.id)
      if env.resolve_route_ok then some (t1, w2)
      else
        xio_transport_notify_observer obs t1 (cm_emit w2 (.device_put d))
          (.XIO_TRANSPORT_ERROR .xio_errno)

/-- The function `on_cm_route_resolved(ev, rdma_hndl)`. -/
def on_cm_route_resolved (obs : xio_observer) (t : xio_rdma_transport) (w : cm_world)
    (env : cm_env) : cm_result :=
  match xio_qp_create t w env with
  | none => none
  | some (retval, t1, w1) =>
    if retval ≠ 0 then
      xio_transport_notify_observer obs t1 w1 (.XIO_TRANSPORT_ERROR .xio_errno)
    else
      let w2 := cm_emit w1 (.rdma_connect t1.id)
      if env.connect_ok = false then
        match xio_qp_release t1 w2 with
        | none => none
        | some (t2, w3) =>
          xio_transport_notify_observer obs t2 w3 (.XIO_TRANSPORT_ERROR .xio_errno)
      else
        some ({ t1 with client_responder_resources := env.max_qp_rd_atom
                        client_initiator_depth := env.max_qp_init_rd_atom
                        state := .XIO_STATE_CONNECTING }, w2)

/-- What a dispatch leaves: the connection the event was dispatched to, the child
connection opened by a connect request (as it is when the handler returns), and
the shared state; `none` when an object that does not exist has been used. -/
structure cm_outcome where
  hndl : xio_rdma_transport
  child : Option xio_rdma_transport
  world : cm_world
deriving DecidableEq, Repr

/-- An outcome without a child connection. -/
def cm_outcome_of (r : cm_result) : Option cm_outcome :=
  match r with
  | none => none
  | some (t, w) => some { hndl := t, child := none, world := w }

/-- The observer of a connection on which no observer is registered. -/
def observer_none : xio_observer := fun _ t w => some (t, w)

/-- The function `on_cm_connect_request(ev, parent_hndl)`.  The child is opened
without an observer, so nothing reacts to its upcalls. -/
def on_cm_connect_request (obs : xio_observer) (ev : rdma_cm_event)
    (parent : xio_rdma_transport) (w : cm_world) (env : cm_env) : Option cm_outcome :=
  let r := xio_device_lookup_init w env
  match r.1 with
  | none =>
    let w1 := cm_emit r.2 (.rdma_reject (some ev.id))
    cm_outcome_of
      (xio_transport_notify_observer obs parent w1 (.XIO_TRANSPORT_ERROR .xio_errno))
  | some d =>
    match xio_rdma_open r.2 parent.ctx false false env with
    | (none, w1) =>
      let w2 := cm_emit (cm_emit w1 (.rdma_reject (some ev.id))) (.device_put d)
      cm_outcome_of
        (xio_transport_notify_observer obs parent w2 (.XIO_TRANSPORT_ERROR .xio_errno))
    | (some c, w1) =>
      let child :=
        { c with state := .XIO_STATE_CONNECTING
                 cm_id := some ev.id
                 tcq := none
                 dev := some d
                 client_initiator_depth := ev.initiator_depth
                 client_responder_resources := ev.responder_resources
                 peer_addr := env.dst_storage
                 local_addr := env.src_storage }
      match xio_qp_create child w1 env with
      | none => none
      | some (retval, child1, w2) =>
        if retval ≠ 0 then
          let w3 := (xio_rdma_reject child1 w2 env).2
          match xio_rdma_close observer_none child1 w3 env with
          | none => none
          | some (child2, w4) =>
            match xio_transport_notify_observer obs parent (cm_emit w4 (.device_put d))
                (.XIO_TRANSPORT_ERROR .xio_errno) with
            | none => none
            | some (p1, w5) => some { hndl := p1, child := some child2, world := w5 }
        else
          match xio_transport_notify_observer obs parent w2
              (.XIO_TRANSPORT_NEW_CONNECTION child1.id) with
          | none => none
          | some (p1, w3) => some { hndl := p1, child := some child1, world := w3 }

/-- The function `on_cm_refused(ev, rdma_hndl)`. -/
def on_cm_refused (obs : xio_observer) (t : xio_rdma_transport) (w : cm_world) : cm_result :=
  xio_transport_notify_observer obs t w .XIO_TRANSPORT_REFUSED

/-- The function `on_cm_established(ev, rdma_hndl)`. -/
def on_cm_established (obs : xio_observer) (t : xio_rdma_transport) (w : cm_world)
    (env : cm_env) : cm_result :=
  match t.cm_id with
  | none => none
  | some _ =>
    let t1 := { t with peer_addr := env.dst_storage, local_addr := env.src_storage }
    let t2 := { t1 with kref := kref_get t1.kref }
    let t3 := { t2 with kref := kref_get t2.kref }
    xio_transport_notify_observer obs t3 w .XIO_TRANSPORT_ESTABLISHED

/-- The function `on_cm_disconnected(ev, rdma_hndl)`. -/
def on_cm_disconnected (obs : xio_observer) (t : xio_rdma_transport) (w : cm_world)
    (env : cm_env) : cm_result :=
  let t0 := { t with timewait := 0 }
  match t0.state with
  | .XIO_STATE_CONNECTED =>
    let t1 := { t0 with state := .XIO_STATE_DISCONNECTED }
    some (t1, (xio_rdma_disconnect t1 w true env).2)
  | .XIO_STATE_CONNECTING =>
    let t1 := { t0 with state := .XIO_STATE_DISCONNECTED }
    transport_kref_put (xio_rdma_close_cb obs) t1 (xio_rdma_disconnect t1 w false env).2
  | .XIO_STATE_CLOSED => some (t0, (xio_rdma_disconnect t0 w true env).2)
  | .XIO_STATE_INIT => some (t0, w)
  | .XIO_STATE_LISTEN => some (t0, w)
  | .XIO_STATE_DISCONNECTED => some (t0, w)
  | .XIO_STATE_RECONNECT => some (t0, w)
  | .XIO_STATE_DESTROYED => some (t0, w)

/-- The function `on_cm_device_release(ev, rdma_hndl)`; `xio_device_lookup` and
`xio_device_release` act on the registry of devices and are recorded as calls. -/
def on_cm_device_release (t : xio_rdma_transport) (w : cm_world) (env : cm_env) : cm_result :=
  match t.cm_id with
  | none => some (t, w)
  | some _ =>
    let w1 := cm_emit w .device_lookup
    if env.device_known then some (t, cm_emit w1 (.device_release w1.dev.id)) else some (t, w1)

/-- The function `on_cm_error(ev, rdma_hndl)`. -/
def on_cm_error (obs : xio_observer) (ev : rdma_cm_event) (t : xio_rdma_transport)
    (w : cm_world) : cm_result :=
  let reason :=
    match ev.event with
    | .RDMA_CM_EVENT_CONNECT_ERROR => xio_status.XIO_E_CONNECT_ERROR
    | .RDMA_CM_EVENT_ADDR_ERROR => xio_status.XIO_E_ADDR_ERROR
    | .RDMA_CM_EVENT_ROUTE_ERROR => xio_status.XIO_E_ROUTE_ERROR
    | .RDMA_CM_EVENT_UNREACHABLE => xio_status.XIO_E_UNREACHABLE
    | _ => xio_status.XIO_E_NOT_SUPPORTED
  xio_transport_notify_observer obs t w (.XIO_TRANSPORT_ERROR reason)

/-- The function `xio_close_handler(hndl)`, the handler of the close event. -/
def xio_close_handler (t : xio_rdma_transport) (w : cm_world) : cm_result :=
  xio_rdma_post_close t w

/-- The `switch (ev->event)` of `xio_handle_cm_event`. -/
def cm_dispatch (obs : xio_observer) (ev : rdma_cm_event) (t : xio_rdma_transport)
    (w : cm_world) (env : cm_env) : Option cm_outcome :=
  match ev.event with
  | .RDMA_CM_EVENT_ADDR_RESOLVED => cm_outcome_of (on_cm_addr_resolved obs t w env)
  | .RDMA_CM_EVENT_ROUTE_RESOLVED => cm_outcome_of (on_cm_route_resolved obs t w env)
  | .RDMA_CM_EVENT_CONNECT_REQUEST => on_cm_connect_request obs ev t w env
  | .RDMA_CM_EVENT_ESTABLISHED => cm_outcome_of (on_cm_established obs t w env)
  | .RDMA_CM_EVENT_REJECTED => cm_outcome_of (on_cm_refused obs t w)
  | .RDMA_CM_EVENT_ADDR_CHANGE => cm_outcome_of (on_cm_disconnected obs t w env)
  | .RDMA_CM_EVENT_DISCONNECTED => cm_outcome_of (on_cm_disconnected obs t w env)
  | .RDMA_CM_EVENT_TIMEWAIT_EXIT =>
    cm_outcome_of (some (t, xio_ctx_add_event w t.id .ev_data_timewait_exit))
  | .RDMA_CM_EVENT_MULTICAST_JOIN => cm_outcome_of (some (t, w))
  | .RDMA_CM_EVENT_MULTICAST_ERROR => cm_outcome_of (some (t, w))
  | .RDMA_CM_EVENT_DEVICE_REMOVAL => cm_outcome_of (on_cm_device_release t w env)
  | .RDMA_CM_EVENT_CONNECT_RESPONSE => cm_outcome_of (some (t, w))
  | .RDMA_CM_EVENT_CONNECT_ERROR => cm_outcome_of (on_cm_error obs ev t w)
  | .RDMA_CM_EVENT_ADDR_ERROR => cm_outcome_of (on_cm_error obs ev t w)
  | .RDMA_CM_EVENT_ROUTE_ERROR => cm_outcome_of (on_cm_error obs ev t w)
  | .RDMA_CM_EVENT_UNREACHABLE => cm_outcome_of (on_cm_error obs ev t w)

/-- The function `xio_handle_cm_event(ev, rdma_hndl)`. -/
def xio_handle_cm_event (obs : xio_observer) (ev : rdma_cm_event) (t : xio_rdma_transport)
    (w : cm_world) (env : cm_env) : Option cm_outcome :=
  match cm_dispatch obs ev { t with handler_nesting := t.handler_nesting + 1 } w env with
  | none => none
  | some o =>
    let t1 := { o.hndl with handler_nesting := o.hndl.handler_nesting - 1 }
    if t1.state = .XIO_STATE_DESTROYED then
      some { hndl := t1, child := o.child
             world := xio_ctx_add_event o.world t1.id .ev_data_close }
    else some { hndl := t1, child := o.child, world := o.world }

/-- Modelled from the spec: the drop of the beacon's reference, made by the
completion handler of the beacon outside these sources ("the connection holds
three references across shutdown: the owner's, the beacon's, and the timewait
deadline's"): a `kref_put` with the deleter `xio_rdma_close_cb`. -/
def beacon_drop (obs : xio_observer) (t : xio_rdma_transport) (w : cm_world) : cm_result :=
  transport_kref_put (xio_rdma_close_cb obs) t w

/-! ## Part 3d. `xio_rdma_management.c`: validation of messages -/

/-- The types of scatter/gather list (`enum xio_sgl_type`). -/
inductive xio_sgl_type where
  | XIO_SGL_TYPE_IOV
  | XIO_SGL_TYPE_IOV_PTR
  | XIO_SGL_TYPE_SCATTERLIST
deriving DecidableEq, Repr

/-- An entry of a scatter/gather table, as read by `sge_addr`, `sge_length` and
`sge_mr` (`none` is `NULL`). -/
structure xio_sg_entry where
  addr : Option Nat
  length : Nat
  mr : Option Nat
deriving DecidableEq, Repr

/-- One side of a message (`struct xio_vmsg`): the header, the type of its
scatter/gather table, and the table as read by `tbl_nents`, `tbl_max_nents` and
`for_each_sge` (the entries, first to last). -/
structure xio_vmsg where
  header_iov_base : Option Nat
  header_iov_len : Nat
  sgl_type : xio_sgl_type
  nents : Int
  max_nents : Int
  sglist : List xio_sg_entry
deriving DecidableEq, Repr

/-- The conversion `(size_t)v` of an `int`. -/
def size_t_of_int (v : Int) : Nat := (v % 2 ^ 64).toNat

/-- The loop `for_each_sge` of `xio_rdma_is_valid_in_req` over the entries it
visits: `none` when an entry makes the function return 0, else the final
`mr_found`. -/
def valid_in_scan : List xio_sg_entry → Int → Option Int
  | [], mr_found => some mr_found
  | sge :: rest, mr_found =>
    let mr_found1 := if sge.mr.isSome then mr_found + 1 else mr_found
    if sge.addr = none then
      if sge.mr.isSome then none else valid_in_scan rest mr_found1
    else
      if sge.length = 0 then none else valid_in_scan rest mr_found1

/-- The loop `for_each_sge` of `xio_rdma_is_valid_out_msg`. -/
def valid_out_scan : List xio_sg_entry → Int → Option Int
  | [], mr_found => some mr_found
  | sge :: rest, mr_found =>
    let mr_found1 := if sge.mr.isSome then mr_found + 1 else mr_found
    if sge.addr = none ∨ sge.length = 0 then none else valid_out_scan rest mr_found1

/-- The entries visited by `for_each_sge`, which runs `i` from 0 while
`i < nents`; `none` when the table does not hold that many entries (`i` is
unsigned, so a negative `nents` counts as a huge bound). -/
def sge_visited (vmsg : xio_vmsg) : Option (List xio_sg_entry) :=
  if vmsg.nents < 0 ∨ vmsg.sglist.length < vmsg.nents.toNat then none
  else some (vmsg.sglist.take vmsg.nents.toNat)

/-- The function `xio_rdma_is_valid_in_req(msg)` on `msg->in`; `iovlen` is the
constant `XIO_IOVLEN`.  `none` is a read outside the table. -/
def xio_rdma_is_valid_in_req (options : xio_rdma_options) (iovlen : Int) (vmsg : xio_vmsg) :
    Option Int :=
  if vmsg.nents > options.max_in_iovsz ∨ vmsg.nents > vmsg.max_nents then some 0
  else if vmsg.sgl_type = .XIO_SGL_TYPE_IOV ∧ vmsg.nents > iovlen then some 0
  else if vmsg.header_iov_base ≠ none ∧ vmsg.header_iov_len = 0 then some 0
  else
    match sge_visited vmsg with
    | none => none
    | some l =>
      match valid_in_scan l 0 with
      | none => some 0
      | some mr_found => if mr_found ≠ vmsg.nents ∧ mr_found ≠ 0 then some 0 else some 1

/-- The function `xio_rdma_is_valid_out_msg(msg)` on `msg->out`; `iovlen` is the
constant `XIO_IOVLEN`, `max_inline_hdr` is `g_options.max_inline_hdr`. -/
def xio_rdma_is_valid_out_msg (options : xio_rdma_options) (iovlen : Int)
    (max_inline_hdr : Int) (vmsg : xio_vmsg) : Option Int :=
  if vmsg.nents > options.max_out_iovsz ∨ vmsg.nents > vmsg.max_nents then some 0
  else if vmsg.sgl_type = .XIO_SGL_TYPE_IOV ∧ vmsg.nents > iovlen then some 0
  else if vmsg.header_iov_base = none ∧ vmsg.header_iov_len ≠ 0 then some 0
  else if vmsg.header_iov_len > size_t_of_int max_inline_hdr then some 0
  else
    match sge_visited vmsg with
    | none => none
    | some l =>
      match valid_out_scan l 0 with
      | none => some 0
      | some mr_found => if mr_found ≠ vmsg.nents ∧ mr_found ≠ 0 then some 0 else some 1

/-! ## Part 3d. `xio_rdma_management.c`: transport options and `xio_rdma_dup2` -/

/-- The option names tested by `xio_rdma_set_opt` and `xio_rdma_get_opt`.  The
enumerators are declared outside these sources; `other n` is any value that is not
one of the six names. -/
inductive xio_optname where
  | XIO_OPTNAME_ENABLE_MEM_POOL
  | XIO_OPTNAME_ENABLE_DMA_LATENCY
  | XIO_OPTNAME_MAX_IN_IOVLEN
  | XIO_OPTNAME_MAX_OUT_IOVLEN
  | XIO_OPTNAME_ENABLE_FORK_INIT
  | XIO_OPTNAME_RDMA_NUM_DEVICES
  | other (n : Int)
deriving DecidableEq, Repr

/-- The value handed to `xio_set_error`: a library status or an `errno` value. -/
inductive xio_error where
  | status (s : xio_status)
  | os (errno : Int)
deriving DecidableEq, Repr

/-- The globals read and written by the option functions: `rdma_options`,
`rdma_num_devices`, and the error recorded last by `xio_set_error`. -/
structure opt_state where
  rdma_options : xio_rdma_options
  rdma_num_devices : Int
  error : Option xio_error
deriving DecidableEq, Repr

/-- The value of `sizeof(int)`. -/
def sizeof_int : Int := 4

/-- The function `xio_rdma_enable_fork_support()`; `retval` is what `ibv_fork_init`
returns and `errno` the value of `errno` after it. -/
def xio_rdma_enable_fork_support (st : opt_state) (retval errno : Int) : Int × opt_state :=
  if retval ≠ 0 then (-1, { st with error := some (.os errno) }) else (0, st)

/-- The function `xio_rdma_set_opt(xio_obj, optname, optval, optlen)`; `optval` is
the `int` read through the pointer.  The macro `VALIDATE_SZ` is declared outside
these sources: `validate_sz optlen sz` is the error with which it leaves the
function, `none` when it lets the function go on. -/
def xio_rdma_set_opt (validate_sz : Int → Int → Option xio_error) (st : opt_state)
    (optname : xio_optname) (optval optlen : Int) (fork_retval fork_errno : Int) :
    Int × opt_state :=
  match optname with
  | .XIO_OPTNAME_ENABLE_MEM_POOL =>
    match validate_sz optlen sizeof_int with
    | some e => (-1, { st with error := some e })
    | none => (0, { st with rdma_options := { st.rdma_options with enable_mem_pool := optval } })
  | .XIO_OPTNAME_ENABLE_DMA_LATENCY =>
    match validate_sz optlen sizeof_int with
    | some e => (-1, { st with error := some e })
    | none =>
      (0, { st with rdma_options := { st.rdma_options with enable_dma_latency := optval } })
  | .XIO_OPTNAME_MAX_IN_IOVLEN =>
    match validate_sz optlen sizeof_int with
    | some e => (-1, { st with error := some e })
    | none => (0, { st with rdma_options := { st.rdma_options with max_in_iovsz := optval } })
  | .XIO_OPTNAME_MAX_OUT_IOVLEN =>
    match validate_sz optlen sizeof_int with
    | some e => (-1, { st with error := some e })
    | none => (0, { st with rdma_options := { st.rdma_options with max_out_iovsz := optval } })
  | .XIO_OPTNAME_ENABLE_FORK_INIT => xio_rdma_enable_fork_support st fork_retval fork_errno
  | _ => (-1, { st with error := some (.status .XIO_E_NOT_SUPPORTED) })

/-- What `xio_rdma_get_opt` leaves behind: the value returned, `*optval`, `*optlen`
and the globals. -/
structure get_opt_result where
  ret : Int
  optval : Int
  optlen : Int
  state : opt_state
deriving DecidableEq, Repr

/-- The function `xio_rdma_get_opt(xio_obj, optname, optval, optlen)`; `optval` and
`optlen` are the values behind the two pointers before the call. -/
def xio_rdma_get_opt (st : opt_state) (optname : xio_optname) (optval optlen : Int) :
    get_opt_result :=
  match optname with
  | .XIO_OPTNAME_ENABLE_MEM_POOL =>
    { ret := 0, optval := st.rdma_options.enable_mem_pool, optlen := sizeof_int, state := st }
  | .XIO_OPTNAME_ENABLE_DMA_LATENCY =>
    { ret := 0, optval := st.rdma_options.enable_dma_latency, optlen := sizeof_int, state := st }
  | .XIO_OPTNAME_MAX_IN_IOVLEN =>
    { ret := 0, optval := st.rdma_options.max_in_iovsz, optlen := sizeof_int, state := st }
  | .XIO_OPTNAME_MAX_OUT_IOVLEN =>
    { ret := 0, optval := st.rdma_options.max_out_iovsz, optlen := sizeof_int, state := st }
  | .XIO_OPTNAME_RDMA_NUM_DEVICES =>
    { ret := 0, optval := st.rdma_num_devices, optlen := sizeof_int, state := st }
  | _ =>
    { ret := -1, optval := optval, optlen := optlen
      state := { st with error := some (.status .XIO_E_NOT_SUPPORTED) } }

/-- The read `tcq->dev` for the `tcq` of a connection: the device address kept in
the CQ at that address, looked up among the CQs of all devices.  `none` is a `NULL`
`tcq` or an address that is not a CQ. -/
def tcq_dev (st : mr_registry) (tcq : Option Nat) : Option Nat :=
  match tcq with
  | none => none
  | some a =>
    match ((st.dev_list ++ st.other_devs).map fun d => d.cq_list).flatten.find? fun c => c.id = a with
    | none => none
    | some c => some c.dev

/-- What `xio_rdma_dup2` leaves behind: the value returned, the two connection
objects, the address stored in `*new_trans_hndl`, and the shared state. -/
structure dup2_result where
  ret : Int
  old_hndl : xio_rdma_transport
  new_hndl : xio_rdma_transport
  new_trans_hndl : Nat
  world : cm_world
deriving DecidableEq, Repr

/-- The tail of `xio_rdma_dup2`: `xio_rdma_close(*new_trans_hndl);
kref_get(&old_trans_hndl->kref); *new_trans_hndl = old_trans_hndl; return 0`. -/
def dup2_finish (obs : xio_observer) (old_hndl new_hndl : xio_rdma_transport) (w : cm_world)
    (env : cm_env) : Option dup2_result :=
  match xio_rdma_close obs new_hndl w env with
  | none => none
  | some (new1, w1) =>
    some { ret := 0, old_hndl := { old_hndl with kref := kref_get old_hndl.kref }
           new_hndl := new1, new_trans_hndl := old_hndl.id, world := w1 }

/-- The function `xio_rdma_dup2(old_trans_hndl, new_trans_hndl)` for two distinct
connection objects.  `st` holds the devices with their CQs and MR elements and
`mr_num`, `tbl_ok` is the success of the `ucalloc` of the table, `w` the shared
state of the connection that is closed.  `none` is the use of an object that does
not exist (a `NULL` `tcq`, a device that is not there, a write behind the table). -/
def xio_rdma_dup2 (obs : xio_observer) (st : mr_registry) (tbl_ok : Bool)
    (old_hndl new_hndl : xio_rdma_transport) (w : cm_world) (env : cm_env) :
    Option dup2_result :=
  match tcq_dev st old_hndl.tcq, tcq_dev st new_hndl.tcq with
  | some old_dev, some new_dev =>
    if old_dev ≠ new_dev then
      match find_dev st new_dev, find_dev st old_dev with
      | some nd, some od =>
        match xio_rkey_table_create st.mr_num nd od old_hndl.rkey_tbl tbl_ok with
        | .error _ => none
        | .ok r =>
          let old1 := { old_hndl with rkey_tbl := r.htbl, rkey_tbl_size := r.len }
          if r.ret ≠ 0 then
            some { ret := -1, old_hndl := old1, new_hndl := new_hndl
                   new_trans_hndl := new_hndl.id, world := w }
          else dup2_finish obs old1 new_hndl w env
      | _, _ => none
    else dup2_finish obs old_hndl new_hndl w env
  | _, _ => none

/-! ## Part 1b. `xio_mempool.c`: allocation and release by several threads

The calls of the threads are interleaved at the points where `xio_mempool_alloc`
passes from one of its steps to the next: the first `safe_new_block`, the
`pthread_spin_lock`, the second `safe_new_block`, `xio_mem_slab_resize`.  Each step
runs without interruption, as it does when the thread is not preempted inside it;
`xio_mempool_free` is one step. -/

/-- Where a thread stands in `xio_mempool_alloc`: outside a call, at the label
`retry` with the current `index`, before `pthread_spin_lock(&slab->lock)`, before
the second `safe_new_block` (lock held), before `xio_mem_slab_resize` (lock held),
or returned with the value `ret` and the block in `mp_obj->cache`. -/
inductive mt_phase where
  | idle
  | try_first (index : Int)
  | lock (index : Nat)
  | try_second (index : Nat)
  | grow (index : Nat)
  | done (ret : Int) (block : Option BlockPtr)
deriving DecidableEq, Repr

/-- A thread: where it stands, and the `length` argument of its call. -/
structure mt_thread where
  phase : mt_phase
  length : Nat
deriving DecidableEq, Repr

/-- The pool shared by the threads, the slabs whose spin lock is held, the threads,
and the blocks the callers hold (each with its thread). -/
structure mt_state where
  pool : xio_mempool
  locks : List Nat
  threads : List mt_thread
  held : List (Nat × BlockPtr)
deriving DecidableEq, Repr

/-- What a thread is scheduled to do: enter `xio_mempool_alloc(p, length, ...)`,
run the next step of the call it is in, or call `xio_mempool_free` on an object. -/
inductive mt_action where
  | start_alloc (length : Nat)
  | step
  | free (obj : Option xio_mempool_obj)

/-- The thread `tid` leaves `xio_mempool_alloc` with the block `block` of the slab
`index` (the statements from `mp_obj->addr = block->buf` on). -/
def mt_finish (st : mt_state) (tid : Nat) (t : mt_thread) (index : Nat) (slab : xio_mem_slab)
    (mem : BlockMem) (block : BlockPtr) (locks : List Nat) : Option mt_state :=
  match alloc_finish st.pool index slab mem block t.length with
  | .error _ => none
  | .ok res =>
    some { pool := res.pool, locks := locks
           threads := st.threads.set tid { t with phase := .done res.ret res.mp_obj.cache }
           held := (tid, block) :: st.held }

/-- One step of the thread `tid` inside `xio_mempool_alloc` on a pool in safe mode;
`ok i` is the answer of the environment to the allocations of a growth of slab `i`.
A thread that finds the spin lock taken keeps spinning (the state is unchanged).
`none` is a dereference of an address that is not an object. -/
def mt_alloc_step (ok : Nat → Bool) (st : mt_state) (tid : Nat) (t : mt_thread) :
    Option mt_state :=
  match t.phase with
  | .idle => some st
  | .done _ _ => some st
  | .try_first index =>
    if index = -1 then
      some { st with threads := st.threads.set tid { t with phase := .done (-1) none } }
    else
      match st.pool.slab[index.toNat]? with
      | none => none
      | some slab =>
        match safe_new_block slab st.pool.mem with
        | none => none
        | some (slab1, mem1, some block) =>
          mt_finish st tid t index.toNat slab1 mem1 block st.locks
        | some (slab1, mem1, none) =>
          some { st with
                 pool := { st.pool with slab := st.pool.slab.set index.toNat slab1, mem := mem1 }
                 threads := st.threads.set tid { t with phase := .lock index.toNat } }
  | .lock index =>
    if index ∈ st.locks then some st
    else
      some { st with locks := index :: st.locks
                     threads := st.threads.set tid { t with phase := .try_second index } }
  | .try_second index =>
    match st.pool.slab[index]? with
    | none => none
    | some slab =>
      match safe_new_block slab st.pool.mem with
      | none => none
      | some (slab1, mem1, some block) =>
        mt_finish st tid t index slab1 mem1 block (st.locks.erase index)
      | some (slab1, mem1, none) =>
        some { st with
               pool := { st.pool with slab := st.pool.slab.set index slab1, mem := mem1 }
               threads := st.threads.set tid { t with phase := .grow index } }
  | .grow index =>
    match st.pool.slab[index]? with
    | none => none
    | some slab =>
      match xio_mem_slab_resize index st.pool.flags (ok index) slab st.pool.mem true with
      | (slab1, mem1, some block) =>
        mt_finish st tid t index slab1 mem1 block (st.locks.erase index)
      | (slab1, mem1, none) =>
        let index1 : Int :=
          if (index : Int) + 1 = (st.pool.slabs_nr : Int) ∨ st.pool.flags.use_smallest_slab = true
          then -1 else (index : Int) + 1
        some { pool := { st.pool with slab := st.pool.slab.set index slab1, mem := mem1 }
               locks := st.locks.erase index
               threads := st.threads.set tid { t with phase := .try_first index1 }
               held := st.held }

/-- One scheduled action of the thread `tid`.  A call is entered by a thread that
is in no call; `xio_mempool_free` gives back a block the thread holds (or is called
on `NULL`). -/
def mt_step (ok : Nat → Bool) (st : mt_state) (tid : Nat) (a : mt_action) : Option mt_state :=
  match st.threads[tid]? with
  | none => none
  | some t =>
    match a with
    | .start_alloc length =>
      match t.phase with
      | .idle | .done _ _ =>
        match size2index st.pool length with
        | none => none
        | some index =>
          some { st with threads := st.threads.set tid
                           { phase := .try_first index, length := length } }
      | _ => none
    | .step => mt_alloc_step ok st tid t
    | .free obj =>
      match t.phase with
      | .idle | .done _ _ =>
        match xio_mempool_free st.pool obj with
        | none => none
        | some p1 =>
          some { st with pool := p1
                         held := match obj with
                           | none => st.held
                           | some o =>
                             match o.cache with
                             | none => st.held
                             | some b => st.held.erase (tid, b) }
      | _ => none

/-- A schedule: the actions of the threads in the order in which they run. -/
def mt_run (ok : Nat → Bool) (st : mt_state) : List (Nat × mt_action) → Option mt_state
  | [] => some st
  | (tid, a) :: rest =>
    match mt_step ok st tid a with
    | none => none
    | some st1 => mt_run ok st1 rest
/-! ## Part 4. Predicates and concrete scenarios used by the statements -/

/-- No two CQs of the device's CQ list have the same context. -/
def cq_ctx_unique (dev : xio_device) : Prop :=
  (dev.cq_list.map fun c => c.ctx).Nodup

/-- For each element of the `xm_list` of the device at address `dev`, in list order,
the addresses of the MRs on `mr_list` whose `dm_list` holds that element. -/
def xm_list_owners (st : mr_registry) (dev : Nat) : Option (List (List Nat)) :=
  match find_dev st dev with
  | none => none
  | some d =>
    some (d.xm_list.map fun e =>
      (st.mr_list.filter fun m => m.dm_list.any fun x => x.id = e.id).map fun m => m.id)

/-- A pool flag word with no flag set. -/
def flags_none : xio_mempool_flags :=
  { reg_mr := false, huge_pages_alloc := false, numa_alloc := false
    regular_pages_alloc := false, use_smallest_slab := false }

/-- Scenario: a pool with the single slab `{size 64, min 0, max 1, quantum 1}`. -/
def pool_one_block : xio_mempool :=
  (xio_mempool_add_slab (xio_mempool_create 0 0 flags_none) 64 0 1 1 true).2

/-- Scenario: device `100` is on `dev_list`, device `200` has been initialised but is
not yet linked; no memory is registered. -/
def registry_two_devs : mr_registry :=
  { dev_list := [{ id := 100, max_cqe := 1000, cq_list := [], xm_list := [] }]
    other_devs := [{ id := 200, max_cqe := 1000, cq_list := [], xm_list := [] }]
    mr_list := []
    mr_num := 0
    next_id := 1 }

/-- Scenario: two regions are registered (`xio_reg_mr_ex` twice, the registrations
yielding rkeys 11 and 12), then device `200` is added by `xio_reg_mr_add_dev` (the
registrations yielding rkey `20 + address of the MR`). -/
def registry_after_add_dev : Int × mr_registry :=
  let st1 := (xio_reg_mr_ex registry_two_devs (some 5000) 64 7 false true
                (fun _ => some { addr := 5000, lkey := 11, rkey := 11 })).2.2
  let st2 := (xio_reg_mr_ex st1 (some 6000) 64 7 false true
                (fun _ => some { addr := 6000, lkey := 12, rkey := 12 })).2.2
  xio_reg_mr_add_dev st2 200 (fun m => some { addr := 0, lkey := 20 + m, rkey := 20 + m })

/-- Scenario: a device whose `xm_list` holds one element with rkey 10. -/
def dev_rkey_10 : xio_device :=
  { id := 1, max_cqe := 1000, cq_list := []
    xm_list := [{ id := 1, dev := 1, mr := { addr := 0, lkey := 10, rkey := 10 } }] }

/-- Scenario: a device whose `xm_list` holds one element with rkey 20. -/
def dev_rkey_20 : xio_device :=
  { id := 2, max_cqe := 1000, cq_list := []
    xm_list := [{ id := 2, dev := 2, mr := { addr := 0, lkey := 20, rkey := 20 } }] }

/-- Scenario: a task that received one write segment from the peer, with rkey
`stag`, and has no local write segment (`write_num_sge = 0`). -/
def task_one_req_write (stag : Nat) : xio_rdma_task :=
  { read_num_sge := 0, write_num_sge := 0, recv_num_sge := 0
    req_read_num_sge := 0, req_write_num_sge := 1, req_recv_num_sge := 0
    rsp_write_num_sge := 0
    req_read_sge := [], req_write_sge := [{ addr := 0, length := 8, stag := stag }]
    req_recv_sge := [] }

/-- The block sizes of the slabs `slab[0 .. slabs_nr)`. -/
def slab_sizes (p : xio_mempool) : List Nat :=
  (p.slab.take p.slabs_nr).map fun s => s.mb_size

/-- The slab array has `slabs_nr + 1` entries, the sizes of `slab[0 .. slabs_nr)` are
strictly increasing and `slab[slabs_nr].mb_size` is `SIZE_MAX`. -/
def slabs_ordered (p : xio_mempool) : Prop :=
  p.slab.length = p.slabs_nr + 1 ∧
  (slab_sizes p).Pairwise (fun a b => a < b) ∧
  (p.slab[p.slabs_nr]?).map (fun s => s.mb_size) = some SIZE_MAX

/-- The arguments of one `xio_mempool_add_slab` call. -/
structure add_slab_call where
  size : Nat
  min : Nat
  max : Nat
  alloc_quantum_nr : Nat
  ok : Bool

/-- The pool after a sequence of `xio_mempool_add_slab` calls. -/
def add_slabs (p : xio_mempool) : List add_slab_call → xio_mempool
  | [] => p
  | c :: cs => add_slabs (xio_mempool_add_slab p c.size c.min c.max c.alloc_quantum_nr c.ok).2 cs


/-- Well-formedness of a pool: either it has no slab yet, or the slab array is
ordered with its sentinel; every block of the memory belongs to a slab below
`slabs_nr` and is on that slab's `blocks_list`; every entry of a slab's
`blocks_list` is a block of that slab; the head of a slab's free list and the
`next` link of a block lie in an allocated region and, when they are blocks, are
blocks of the same slab. -/
def pool_wf (p : xio_mempool) : Prop :=
  ((p.slab = [] ∧ p.slabs_nr = 0) ∨ slabs_ordered p) ∧
  (∀ ptr b, mem_read p.mem ptr = some b →
      b.parent_slab < p.slabs_nr ∧ ∃ s, p.slab[b.parent_slab]? = some s ∧ ptr ∈ s.blocks_list) ∧
  (∀ k s ptr, p.slab[k]? = some s → ptr ∈ s.blocks_list →
      ∃ b, mem_read p.mem ptr = some b ∧ b.parent_slab = k) ∧
  (∀ k s q, p.slab[k]? = some s → s.free_blocks_list = some q →
      q.region < p.mem.length ∧ ∀ b, mem_read p.mem q = some b → b.parent_slab = k) ∧
  (∀ ptr b q, mem_read p.mem ptr = some b → b.next = some q →
      q.region < p.mem.length ∧ ∀ c, mem_read p.mem q = some c → c.parent_slab = b.parent_slab)

/-- A growth of the slab yields nothing: `xio_mem_slab_resize` computes no block to
add (in particular when `curr_mb_nr = max_mb_nr`), or the memory of the region is
not obtained (`mem_ok = false`). -/
def slab_cannot_grow (s : xio_mem_slab) (mem_ok : Bool) : Prop :=
  resize_nr_blocks (resize_clamp s) ≤ 0 ∨ mem_ok = false

/-- A growth of the slab yields blocks: `xio_mem_slab_resize` computes at least one
block to add and the memory of the region is obtained. -/
def slab_can_grow (s : xio_mem_slab) (mem_ok : Bool) : Prop :=
  0 < resize_nr_blocks (resize_clamp s) ∧ mem_ok = true

/-- The fields of a slab that an allocation may change. -/
def slab_alloc_state (s : xio_mem_slab) : Option BlockPtr × Int × Int × List BlockPtr :=
  (s.free_blocks_list, s.used_mb_nr, s.curr_mb_nr, s.blocks_list)

/-- Scenario: a pool with the two slabs `{16, min 0, max 2, quantum 2}` and
`{64, min 0, max 2, quantum 2}`, created with or without
`XIO_MEMPOOL_FLAG_USE_SMALLEST_SLAB`. -/
def pool_two_slabs (use_smallest : Bool) : xio_mempool :=
  (xio_mempool_add_slab
    (xio_mempool_add_slab
      (xio_mempool_create 0 0 { flags_none with use_smallest_slab := use_smallest })
      16 0 2 2 true).2
    64 0 2 2 true).2

/-- The pool of a successful allocation, the pool itself otherwise. -/
def pool_after_alloc (p : xio_mempool) (length : Nat) : xio_mempool :=
  match xio_mempool_alloc p length (fun _ => true) with
  | .ok res => res.pool
  | .error _ => p

/-- Scenario: the pool `pool_two_slabs` after two allocations of 16 bytes, which
use up the two blocks the 16-byte slab may hold. -/
def pool_small_slab_exhausted (use_smallest : Bool) : xio_mempool :=
  pool_after_alloc (pool_after_alloc (pool_two_slabs use_smallest) 16) 16

/-- The contents of the block at `ptr` after the re-parenting loops of
`xio_mempool_add_slab` over the slabs copied to positions `ix, ix + 1, ...`, given
its contents `b` before: each slab whose `blocks_list` holds `ptr` writes its new
position to `parent_slab`. -/
def reparent_of : List xio_mem_slab → Nat → BlockPtr → xio_mem_block → xio_mem_block
  | [], _, _, b => b
  | s :: rest, ix, ptr, b =>
    reparent_of rest (ix + 1) ptr (if ptr ∈ s.blocks_list then { b with parent_slab := ix } else b)

/-- A call of the pool interface: `xio_mempool_add_slab`, `xio_mempool_alloc` or
`xio_mempool_free`, with what the environment answers. -/
inductive pool_op where
  | add_slab (size min max alloc_quantum_nr : Nat) (ok : Bool)
  | alloc (length : Nat) (ok : Nat → Bool)
  | free (obj : Option xio_mempool_obj)

/-- The pool after one call; `none` when the call leaves the model (a dereference of
an address that is not a block) or passes a length that is not a `size_t`. -/
def pool_step (p : xio_mempool) : pool_op → Option xio_mempool
  | .add_slab size min max q ok => some (xio_mempool_add_slab p size min max q ok).2
  | .alloc length ok =>
    if length ≤ SIZE_MAX then
      match xio_mempool_alloc p length ok with
      | .ok res => some res.pool
      | .error _ => none
    else none
  | .free obj => xio_mempool_free p obj

/-- The pool after a sequence of calls. -/
def pool_run (p : xio_mempool) : List pool_op → Option xio_mempool
  | [] => some p
  | op :: rest =>
    match pool_step p op with
    | none => none
    | some p1 => pool_run p1 rest

/-- The slab `u` of index `m` has an empty free list and cannot grow. -/
def slab_exhausted (u : xio_mem_slab) (mem_ok : Bool) : Prop :=
  u.free_blocks_list = none ∧ slab_cannot_grow u mem_ok

/-- The states of a slab in which `xio_mempool_alloc` obtains a block from it: the
head of its free list is a block of the memory, or its free list is `NULL` and a
growth yields blocks.  A slab whose free-list head is an address that is no block
(as a growth of a single block leaves it) is in neither state, whether it can
still grow or not. -/
def slab_yields_block (mem : BlockMem) (t : xio_mem_slab) (mem_ok : Bool) : Prop :=
  (∃ q b, t.free_blocks_list = some q ∧ mem_read mem q = some b) ∨
  (t.free_blocks_list = none ∧ slab_can_grow t mem_ok)

/-- The allocation returned 0 with a block of slab `j`: the output object holds the
block in `cache`, the requested length, and the block's buffer and registration,
and the block's `parent_slab` is `j`. -/
def alloc_gave_block_of (r : Except Fault alloc_result) (j : Nat) (length : Nat) : Prop :=
  ∃ res blk b, r = .ok res ∧ res.ret = 0 ∧ res.mp_obj.cache = some blk ∧
    res.mp_obj.length = length ∧ mem_read res.pool.mem blk = some b ∧ b.parent_slab = j ∧
    res.mp_obj.addr = some b.buf ∧ res.mp_obj.mr = b.omr

/-- Scenario: the calls that create the slabs `{16K, 64K, 256K, 1M}` (each with
min 0, max 2, quantum 2) and then allocate 64K twice, which brings the 64K slab to
its maximum. -/
def ops_64k_exhausted : List pool_op :=
  [.add_slab 16384 0 2 2 true, .add_slab 65536 0 2 2 true, .add_slab 262144 0 2 2 true,
   .add_slab 1048576 0 2 2 true, .alloc 65536 (fun _ => true), .alloc 65536 (fun _ => true)]

/-- Scenario: the pool after `ops_64k_exhausted`, created without
`XIO_MEMPOOL_FLAG_USE_SMALLEST_SLAB`. -/
def pool_64k_exhausted : xio_mempool :=
  match pool_run (xio_mempool_create 0 0 flags_none) ops_64k_exhausted with
  | some p => p
  | none => xio_mempool_create 0 0 flags_none

/-- Scenario: a CQ creation environment in which every step succeeds; the CQ is
placed at address `addr` and gets the default depth. -/
def cq_env_ok (addr : Nat) : cq_env :=
  { tcq := some addr, wc_array_ok := true, channel_ok := true, fcntl_ok := true
    add_ev_handler_ok := true, create_cq := some CQE_ALLOC_SIZE, req_notify_ok := true }

/-- Scenario: a device right after `xio_device_init` (empty CQ and MR-element lists). -/
def dev_fresh : xio_device :=
  { id := 100, max_cqe := 65536, cq_list := [], xm_list := [] }


/-! ## Part 4b. Scenarios and predicates for the connection claims -/

/-- Scenario: an observer that calls `xio_rdma_close` on the connection when it is
notified of an event selected by `react`, and does nothing otherwise; nothing
reacts to the upcalls made by that close. -/
def observer_closes (react : xio_transport_event → Bool) (env : cm_env) : xio_observer :=
  fun ev t w => if react ev then xio_rdma_close observer_none t w env else some (t, w)

/-- Scenario: the shared state before any connection exists: one device without
CQs, nothing pending on the context, no call made. -/
def world_init : cm_world :=
  { options := { enable_mem_pool := 1, enable_dma_latency := 0, max_in_iovsz := 4
                 max_out_iovsz := 4 }
    dev := dev_fresh
    events := []
    calls := [] }

/-- Scenario: an environment in which every call succeeds; a new connection object
is placed at address `addr`, a new CQ at address 500, a new QP at address 600. -/
def env_ok (addr : Nat) : cm_env :=
  { verbs := some 1, device_ok := true, device_known := true, set_tos_ok := true
    resolve_route_ok := true, cq := cq_env_ok 500, resize := { retval := 0, cqe := 0 }
    create_qp := some 600, max_inline_data := 200, connect_ok := true, reject_ok := true
    disconnect_ok := true, post_send_ok := true, add_delayed_work_ok := true
    max_qp_rd_atom := 16, max_qp_init_rd_atom := 16, dst_storage := 2, src_storage := 3
    ucalloc := some addr, mempool := some 50, cm_channel := some 60 }

/-- The number of `xio_cq_get` calls in a sequence of calls. -/
def cq_gets : List cq_op → Nat
  | [] => 0
  | .get _ _ :: rest => cq_gets rest + 1
  | .release _ :: rest => cq_gets rest

/-- The number of `xio_cq_release` calls in a sequence of calls. -/
def cq_releases : List cq_op → Nat
  | [] => 0
  | .get _ _ :: rest => cq_releases rest
  | .release _ :: rest => cq_releases rest + 1

/-- Every release gives back a reference obtained by an earlier get: no prefix of
the sequence has more releases than gets. -/
def cq_balanced (ops : List cq_op) : Prop :=
  ∀ n, cq_releases (ops.take n) ≤ cq_gets (ops.take n)

/-- Every step of a CQ creation succeeds, and the new CQ is placed at `addr`. -/
def cq_env_succeeds (env : cq_env) (addr : Nat) : Prop :=
  env.tcq = some addr ∧ env.wc_array_ok = true ∧ env.channel_ok = true ∧ env.fcntl_ok = true ∧
  env.add_ev_handler_ok = true ∧ env.create_cq.isSome = true ∧ env.req_notify_ok = true

/-- The device holds, for the context `ctx`, the CQ at address `addr` and no other,
and its reference counter is `k`. -/
def cq_holds (dev : xio_device) (ctx addr : Nat) (k : Int) : Prop :=
  ∃ l1 c l2, dev.cq_list = l1 ++ c :: l2 ∧ c.id = addr ∧ c.ctx = ctx ∧ c.kref = k ∧
    ∀ x ∈ l1 ++ l2, x.ctx ≠ ctx ∧ x.id ≠ addr

/-- Scenario: the connection returned by `xio_rdma_open` on context 9 when its
object is placed at `addr`. -/
def conn_opened (addr : Nat) : xio_rdma_transport :=
  ((xio_rdma_open world_init 9 true false (env_ok addr)).1).getD (transport_zeroed addr)

/-- Scenario: `n` connections of context 9 (at addresses 1000, 1001, ...) have each
a QP created by `xio_qp_create` on the device of the shared state. -/
def qp_create_many (env : cm_env) : Nat → cm_world → Option cm_world
  | 0, w => some w
  | n + 1, w =>
    match qp_create_many env n w with
    | none => none
    | some w1 =>
      match xio_qp_create { conn_opened (1000 + n) with dev := some w1.dev.id
                                                        cm_id := some (2000 + n) } w1 env with
      | none => none
      | some r => if r.1 = 0 then some r.2.2 else none

/-- Scenario: a device whose `max_cqe` is the default CQ size, so that its CQs
cannot be grown. -/
def world_small_device : cm_world :=
  { world_init with dev := { dev_fresh with max_cqe := CQE_ALLOC_SIZE } }

/-- Scenario: the shared state after nine connections have created their QPs on
the device of `world_small_device`. -/
def world_nine_qps : cm_world :=
  (qp_create_many (env_ok 0) 9 world_small_device).getD world_small_device

/-- Scenario: the CQ of context 9 in `world_nine_qps`. -/
def cq_nine_qps : xio_cq :=
  (cq_deref world_nine_qps.dev 500).getD (cq_created dev_fresh 9 500 0)

/-- The calls made between the shared states `w` and `w1`. -/
def new_calls (w w1 : cm_world) : List cm_call :=
  w1.calls.drop w.calls.length

/-- Scenario: a CM event of the given type for the CM id 70. -/
def cm_event_of (e : rdma_cm_event_type) : rdma_cm_event :=
  { event := e, id := 70, initiator_depth := 1, responder_resources := 1 }

/-- Scenario: the next event is dispatched to the connection of an outcome, with
an observer that only records. -/
def cm_then (o : Option cm_outcome) (e : rdma_cm_event_type) (env : cm_env) :
    Option cm_outcome :=
  match o with
  | none => none
  | some o => xio_handle_cm_event observer_none (cm_event_of e) o.hndl o.world env

/-- Scenario: a client connection opened at address 1000 on context 9, with the CM
id 70 made by `xio_rdma_connect`, after ADDR_RESOLVED and ROUTE_RESOLVED have been
handled: its QP exists and its state is CONNECTING. -/
def client_connecting : Option cm_outcome :=
  cm_then
    (cm_then
      (some { hndl := { conn_opened 1000 with cm_id := some 70 }, child := none
              world := (xio_rdma_open world_init 9 true false (env_ok 1000)).2 })
      .RDMA_CM_EVENT_ADDR_RESOLVED (env_ok 1000))
    .RDMA_CM_EVENT_ROUTE_RESOLVED (env_ok 1000)

/-- Scenario: the client connection after ESTABLISHED has been handled. -/
def client_established : Option cm_outcome :=
  cm_then client_connecting .RDMA_CM_EVENT_ESTABLISHED (env_ok 1000)

/-- Scenario: the established client connection once the data path has set its
state to CONNECTED. -/
def conn_connected : xio_rdma_transport :=
  { (client_established.map fun o => o.hndl).getD (transport_zeroed 1000) with
    state := .XIO_STATE_CONNECTED }

/-- Scenario: the shared state of the established client connection. -/
def world_connected : cm_world :=
  (client_established.map fun o => o.world).getD world_init

/-- The upcalls made for the connection at address `h` among a list of calls. -/
def upcalls_of (h : Nat) : List cm_call → List xio_transport_event
  | [] => []
  | .notify_observer h1 ev :: rest =>
    if h1 = h then ev :: upcalls_of h rest else upcalls_of h rest
  | _ :: rest => upcalls_of h rest

/-- Scenario: the client connection in state CONNECTING (one reference, the
owner's). -/
def conn_connecting : xio_rdma_transport :=
  (client_connecting.map fun o => o.hndl).getD (transport_zeroed 1000)

/-- Scenario: the client connection in state CONNECTING as `xio_handle_cm_event`
hands it to a handler. -/
def conn_connecting_in_handler : xio_rdma_transport :=
  { conn_connecting with handler_nesting := 1 }

/-- Scenario: the shared state of the client connection in state CONNECTING. -/
def world_connecting : cm_world :=
  (client_connecting.map fun o => o.world).getD world_init

/-- Scenario: the established connection after the peer has disconnected (state
DISCONNECTED) and the timewait exit has run (timewait flag 1). -/
def conn_after_timewait : Option (xio_rdma_transport × cm_world) :=
  match on_cm_disconnected observer_none conn_connected world_connected (env_ok 1000) with
  | none => none
  | some (t, w) => on_cm_timewait_exit observer_none t w

/-- Scenario: the connection of `conn_after_timewait`. -/
def conn_timewait_done : xio_rdma_transport :=
  (conn_after_timewait.map Prod.fst).getD (transport_zeroed 1000)

/-- Scenario: the shared state of `conn_after_timewait`. -/
def world_timewait_done : cm_world :=
  (conn_after_timewait.map Prod.snd).getD world_init

/-- The three drops of the references of an established connection. -/
inductive conn_drop where
  | owner_close
  | beacon
  | timewait_exit
deriving DecidableEq, Repr

/-- One drop, with an observer that only records. -/
def apply_drop (env : cm_env) (d : conn_drop) (t : xio_rdma_transport) (w : cm_world) :
    cm_result :=
  match d with
  | .owner_close => xio_rdma_close observer_none t w env
  | .beacon => beacon_drop observer_none t w
  | .timewait_exit => on_cm_timewait_exit observer_none t w

/-- A sequence of drops. -/
def apply_drops (env : cm_env) : List conn_drop → xio_rdma_transport → cm_world → cm_result
  | [], t, w => some (t, w)
  | d :: rest, t, w =>
    match apply_drop env d t w with
    | none => none
    | some (t1, w1) => apply_drops env rest t1 w1

/-- The six orders of the three drops. -/
def drop_orders : List (List conn_drop) :=
  [[.owner_close, .beacon, .timewait_exit], [.owner_close, .timewait_exit, .beacon],
   [.beacon, .owner_close, .timewait_exit], [.beacon, .timewait_exit, .owner_close],
   [.timewait_exit, .owner_close, .beacon], [.timewait_exit, .beacon, .owner_close]]

/-- The timewait exit comes before the owner's close in a sequence of drops. -/
def timewait_before_close : List conn_drop → Bool
  | [] => false
  | .timewait_exit :: _ => true
  | .owner_close :: _ => false
  | .beacon :: rest => timewait_before_close rest

/-- The connection object as the three drops leave it when the teardown starts:
closed, the timewait exit done, the task counters cleared, no reference left. -/
def conn_drained (t : xio_rdma_transport) : xio_rdma_transport :=
  { t with state := .XIO_STATE_CLOSED, timewait := 1, kref := 0, kick_rdma_rd := 0
           rdma_in_flight := 0, reqs_in_flight_nr := 0, rsps_in_flight_nr := 0
           tx_ready_tasks_num := 0 }

/-- The shared state after the calls `xio_rdma_close` makes before it drops the
reference, in a state other than CLOSED. -/
def close_world (t : xio_rdma_transport) (w : cm_world) (env : cm_env) : cm_world :=
  match t.state with
  | .XIO_STATE_CONNECTED =>
    (xio_rdma_disconnect { t with state := .XIO_STATE_CLOSED } w false env).2
  | .XIO_STATE_DISCONNECTED =>
    if t.ignore_timewait ≠ 0 ∧ t.timewait = 0 then
      xio_set_timewait_timer { t with state := .XIO_STATE_CLOSED }
        (cm_emit w (.ctx_del_delayed_work t.id))
    else w
  | _ => w

/-- The shared state after the calls `on_cm_timewait_exit` makes before it drops
the reference, when nothing reacts to the upcall. -/
def timewait_world (t : xio_rdma_transport) (w : cm_world) : cm_world :=
  let w1 := cm_emit (cm_emit w (.ctx_del_delayed_work t.id)) (.flush_task_lists t.id)
  if t.state = .XIO_STATE_DISCONNECTED then
    cm_emit w1 (.notify_observer t.id .XIO_TRANSPORT_DISCONNECTED)
  else w1

/-- The connection object after the field updates of `on_cm_timewait_exit`, before
it drops the reference. -/
def timewait_conn (t : xio_rdma_transport) : xio_rdma_transport :=
  { t with timewait := 1, kick_rdma_rd := 0, rdma_in_flight := 0, reqs_in_flight_nr := 0
           rsps_in_flight_nr := 0, tx_ready_tasks_num := 0 }

/-- The calls `xio_rdma_close` makes before it drops the reference, in a state
other than CLOSED. -/
def close_calls (t : xio_rdma_transport) : List cm_call :=
  match t.state with
  | .XIO_STATE_CONNECTED => [.rdma_disconnect t.id]
  | .XIO_STATE_DISCONNECTED =>
    if t.ignore_timewait ≠ 0 ∧ t.timewait = 0 then
      [.ctx_del_delayed_work t.id, .ctx_add_delayed_work t.id XIO_TIMEWAIT_EXIT_FAST_TIMEOUT]
    else []
  | _ => []

/-- The calls `on_cm_timewait_exit` makes before it drops the reference. -/
def timewait_calls (t : xio_rdma_transport) : List cm_call :=
  [.ctx_del_delayed_work t.id, .flush_task_lists t.id] ++
    if t.state = .XIO_STATE_DISCONNECTED then
      [.notify_observer t.id .XIO_TRANSPORT_DISCONNECTED]
    else []

/-- The connection object after a drop that is not the last one. -/
def drop_conn (d : conn_drop) (t : xio_rdma_transport) : xio_rdma_transport :=
  match d with
  | .owner_close => { t with state := .XIO_STATE_CLOSED, kref := t.kref - 1 }
  | .beacon => { t with kref := t.kref - 1 }
  | .timewait_exit => { timewait_conn t with kref := t.kref - 1 }

/-- The calls a drop makes before it lowers the counter. -/
def drop_calls (d : conn_drop) (t : xio_rdma_transport) : List cm_call :=
  match d with
  | .owner_close => close_calls t
  | .beacon => []
  | .timewait_exit => timewait_calls t

/-- The drop can be made on the connection: it has not been made before. -/
def drop_ready (d : conn_drop) (t : xio_rdma_transport) : Prop :=
  match d with
  | .owner_close => t.state ≠ .XIO_STATE_CLOSED
  | .beacon => True
  | .timewait_exit => t.timewait = 0

/-- Scenario: a listener at address 1000 on context 9, with the CM id 70 made by
`xio_rdma_listen`, in state LISTEN. -/
def conn_listening : xio_rdma_transport :=
  { conn_opened 1000 with cm_id := some 70, state := .XIO_STATE_LISTEN }

/-- Scenario: the shared state of the listener. -/
def world_listening : cm_world :=
  (xio_rdma_open world_init 9 true false (env_ok 1000)).2

/-- Scenario: a connect request with the CM id 71 for the new connection. -/
def connect_request_71 : rdma_cm_event :=
  { event := .RDMA_CM_EVENT_CONNECT_REQUEST, id := 71, initiator_depth := 1
    responder_resources := 1 }

/-- Scenario: the child object is placed at address 2000 and `rdma_create_qp`
fails; every other call succeeds. -/
def env_create_qp_fails : cm_env :=
  { env_ok 2000 with create_qp := none }

/-- The calls of a teardown (`rdma_destroy_id`, release of the object) and the
scheduling of a close event among a list of calls. -/
def teardown_calls (l : List cm_call) : List cm_call :=
  l.filter fun c =>
    match c with
    | .rdma_destroy_id _ _ => true
    | .ufree _ => true
    | .ctx_add_event _ .ev_data_close => true
    | _ => false

/-- The number of entries that carry a memory region. -/
def mr_count : List xio_sg_entry → Nat
  | [] => 0
  | sge :: rest => (if sge.mr.isSome then 1 else 0) + mr_count rest

/-- Scenario: a message side with two entries, the first with a memory region, the
second without. -/
def vmsg_mixed : xio_vmsg :=
  { header_iov_base := some 10, header_iov_len := 8, sgl_type := .XIO_SGL_TYPE_IOV
    nents := 2, max_nents := 4
    sglist := [{ addr := some 100, length := 64, mr := some 7 },
               { addr := some 200, length := 64, mr := none }] }

/-- Scenario: a message side with a header of 70000 bytes and no data entries. -/
def vmsg_long_header : xio_vmsg :=
  { header_iov_base := some 10, header_iov_len := 70000, sgl_type := .XIO_SGL_TYPE_IOV
    nents := 0, max_nents := 4, sglist := [] }

/-- The four options that `xio_rdma_set_opt` stores in `rdma_options`. -/
def stored_optnames : List xio_optname :=
  [.XIO_OPTNAME_ENABLE_MEM_POOL, .XIO_OPTNAME_ENABLE_DMA_LATENCY,
   .XIO_OPTNAME_MAX_IN_IOVLEN, .XIO_OPTNAME_MAX_OUT_IOVLEN]

/-- Scenario: a size check that leaves the function with `EINVAL` when the length
is not the expected size. -/
def validate_sz_einval (optlen sz : Int) : Option xio_error :=
  if optlen ≠ sz then some (.os EINVAL) else none

/-- Scenario: the globals with the options of `world_init` and two devices. -/
def opt_state_init : opt_state :=
  { rdma_options := world_init.options, rdma_num_devices := 2, error := none }

/-- The number of slots reserved on a CQ: `cq_depth - cqe_avail`. -/
def cq_reserved (c : xio_cq) : Int := c.cq_depth - c.cqe_avail

/-- The handler `on_cm_timewait_exit` invoked `n` times in a row on a connection. -/
def timewait_exit_repeat (obs : xio_observer) :
    Nat → xio_rdma_transport → cm_world → cm_result
  | 0, t, w => some (t, w)
  | n + 1, t, w =>
    match on_cm_timewait_exit obs t w with
    | none => none
    | some (t1, w1) => timewait_exit_repeat obs n t1 w1

/-- Scenario: the established connection after the peer has disconnected. -/
def conn_disconnected : xio_rdma_transport :=
  ((on_cm_disconnected observer_none conn_connected world_connected (env_ok 1000)).map
    Prod.fst).getD (transport_zeroed 1000)

/-- Scenario: the shared state of `conn_disconnected`. -/
def world_disconnected : cm_world :=
  ((on_cm_disconnected observer_none conn_connected world_connected (env_ok 1000)).map
    Prod.snd).getD world_init

/-- Scenario: `conn_disconnected` after the first timewait exit. -/
def conn_timewait_first : xio_rdma_transport × cm_world :=
  (on_cm_timewait_exit observer_none conn_disconnected world_disconnected).getD
    (conn_disconnected, world_disconnected)

/-- Scenario: two devices on `dev_list`, each with one CQ of context 9 (at the
addresses 500 and 501); `k` memory regions are registered, each with one element on
either device (rkeys `10 + i` on device 100 and `20 + i` on device 200). -/
def registry_dup2 (k : Nat) : mr_registry :=
  { dev_list :=
      [{ id := 100, max_cqe := 65536, cq_list := [cq_created dev_fresh 9 500 CQE_ALLOC_SIZE]
         xm_list := (List.range k).map fun i =>
           { id := 2 * i + 1, dev := 100, mr := { addr := 0, lkey := 10 + i, rkey := 10 + i } } },
       { id := 200, max_cqe := 65536
         cq_list := [cq_created { dev_fresh with id := 200 } 9 501 CQE_ALLOC_SIZE]
         xm_list := (List.range k).map fun i =>
           { id := 2 * i + 2, dev := 200, mr := { addr := 0, lkey := 20 + i, rkey := 20 + i } } }]
    other_devs := []
    mr_list := []
    mr_num := k
    next_id := 2 * k + 1 }

/-- Scenario: a second connection, at address 1001, in state CONNECTED with two
references and its CQ (501) on device 200. -/
def conn_second : xio_rdma_transport :=
  { conn_connected with id := 1001, kref := 2, tcq := some 501, dev := some 200 }

/-- Scenario: `xio_rdma_dup2` of the established connection and `conn_second`, no
memory being registered. -/
def dup2_two_devices : dup2_result :=
  (xio_rdma_dup2 observer_none (registry_dup2 0) true conn_connected conn_second
    world_connected (env_ok 1000)).getD
    { ret := -1, old_hndl := conn_connected, new_hndl := conn_second, new_trans_hndl := 1001
      world := world_connected }

/-- The memory region kept on `mr_list` at the address `tmr` (an empty region at
address 0 when there is none). -/
def region_at (st : mr_registry) (tmr : Nat) : xio_mr :=
  (st.mr_list.find? fun x => x.id = tmr).getD
    { id := 0, addr := none, length := 0, access := 0, dm_list := [] }

/-- The addresses of the elements on the `xm_list` of each device, `dev_list` first. -/
def xm_ids (st : mr_registry) : List (Nat × List Nat) :=
  (st.dev_list ++ st.other_devs).map fun d => (d.id, d.xm_list.map fun e => e.id)

/-- The addresses of the elements on the `dm_list` of each region of `mr_list`. -/
def dm_ids (st : mr_registry) : List (Nat × List Nat) :=
  st.mr_list.map fun m => (m.id, m.dm_list.map fun e => e.id)

/-- The device `d` after the elements `news` were put at the head of the `xm_list`
of the device at address `dev`. -/
def add_elems (dev : Nat) (news : List xio_mr_elem) (d : xio_device) : xio_device :=
  if d.id = dev then { d with xm_list := news ++ d.xm_list } else d

/-- The region `m1` is the region `m` with one more element at the head of its
`dm_list`: an element of `news`, which holds the registration of `m`. -/
def gained_elem (reg : Nat → Option ibv_mr) (news : List xio_mr_elem) (m m1 : xio_mr) : Prop :=
  ∃ e ∈ news, reg m.id = some e.mr ∧ m1 = { m with dm_list := e :: m.dm_list }

/-- Every element linked in the registry has an address below `next_id`, the next
address handed out. -/
def elems_below_next (st : mr_registry) : Prop :=
  (∀ m ∈ st.mr_list, ∀ e ∈ m.dm_list, e.id < st.next_id) ∧
  (∀ d ∈ st.dev_list ++ st.other_devs, ∀ e ∈ d.xm_list, e.id < st.next_id)

/-- Scenario: two regions (at the addresses 3 and 1) are registered on device 100;
device 200 has been initialised and holds no element yet. -/
def registry_two_regions : mr_registry :=
  let st1 := (xio_reg_mr_ex registry_two_devs (some 5000) 64 7 false true
                (fun _ => some { addr := 5000, lkey := 11, rkey := 11 })).2.2
  (xio_reg_mr_ex st1 (some 6000) 64 7 false true
    (fun _ => some { addr := 6000, lkey := 12, rkey := 12 })).2.2

/-- Scenario: the registration on the new device succeeds for the region at 3 and
fails for the region at 1. -/
def reg_fails_at_1 (m : Nat) : Option ibv_mr :=
  if m = 1 then none else some { addr := 0, lkey := 20 + m, rkey := 20 + m }

/-- The number of blocks a growth of the slab adds: on the first growth of a slab
with a non-zero initial count the initial count (not above the maximum), otherwise
the growth quantum, not above what is left up to the maximum. -/
def growth_amount (s : xio_mem_slab) : Int :=
  if s.curr_mb_nr = 0 ∧ s.init_mb_nr ≠ 0 then min s.init_mb_nr s.max_mb_nr
  else min s.alloc_quantum_nr (s.max_mb_nr - s.curr_mb_nr)

/-- No slab of the pool holds more blocks than its maximum. -/
def slabs_bounded (p : xio_mempool) : Prop :=
  ∀ s ∈ p.slab, s.curr_mb_nr ≤ s.max_mb_nr

/-- The maximum passed to `xio_mempool_add_slab` is not negative as an `int`. -/
def op_max_ok : pool_op → Prop
  | .add_slab _ _ max _ _ => 0 ≤ int_of_size_t max
  | _ => True

/-- Scenario: a new slab `{64, min 5, max 10, quantum 2}` before its first growth. -/
def slab_init_5 : xio_mem_slab := add_slab_fresh 64 5 10 2

/-- Scenario: a pool with page source and the slab `{64, min 0, max 2^31, quantum 1}`. -/
def pool_huge_max : xio_mempool :=
  (xio_mempool_add_slab (xio_mempool_create 0 0 flags_none) 64 0 (2 ^ 31) 1 true).2

/-- Scenario: the pool created without flags (regular pages) with the slab
`{64, min 5, max 10, quantum 2}`, then one allocation of 64 bytes. -/
def ops_init_5 : List pool_op :=
  [.add_slab 64 5 10 2 true, .alloc 64 (fun _ => true)]

/-- Scenario: the pool after `ops_init_5`. -/
def pool_init_5 : xio_mempool :=
  (pool_run (xio_mempool_create 0 0 flags_none) ops_init_5).getD
    (xio_mempool_create 0 0 flags_none)

/-- The free list read from the head `h`: `is_chain mem h l` says that the blocks
of `l`, in order, are linked from `h` through their `next` fields, each with
`refcnt_claim = 1`, and that the link after the last one is `NULL` or an address
inside an allocated region that is not a block. -/
def is_chain (mem : BlockMem) : Option BlockPtr → List BlockPtr → Prop
  | h, [] => h = none ∨ ∃ q, h = some q ∧ q.region < mem.length ∧ mem_read mem q = none
  | h, q :: l =>
    h = some q ∧ ∃ b, mem_read mem q = some b ∧ b.refcnt_claim = 1 ∧ is_chain mem b.next l

/-- The blocks met by following at most `fuel` links of a free list from its head. -/
def free_chain (mem : BlockMem) : Nat → Option BlockPtr → List BlockPtr
  | 0, _ => []
  | _ + 1, none => []
  | fuel + 1, some q =>
    match mem_read mem q with
    | none => []
    | some b => q :: free_chain mem fuel b.next

/-- The fields of a block that the free-list protocol reads. -/
def block_view (b : xio_mem_block) : Option BlockPtr × Int := (b.next, b.refcnt_claim)

/-- The invariant of the claim-bit protocol for a pool in safe mode and the blocks
`held` by callers: the pool is well-formed, no block is held twice, every held
block has `refcnt_claim = 2`, and the free list of every slab is a chain of
distinct blocks with `refcnt_claim = 1`. -/
def claim_inv (p : xio_mempool) (held : List BlockPtr) : Prop :=
  p.safe_mt = true ∧ pool_wf p ∧ held.Nodup ∧
  (∀ q ∈ held, ∃ b, mem_read p.mem q = some b ∧ b.refcnt_claim = 2) ∧
  (∀ (k : Nat) (s : xio_mem_slab), p.slab[k]? = some s →
    ∃ l, is_chain p.mem s.free_blocks_list l ∧ l.Nodup)

/-- One call of a single-threaded run, with the blocks held by the callers: an
allocation that returns a block adds it to the held blocks, a free gives back a
held block.  `none` when the call leaves the model or frees a block that is not
held. -/
def claim_step (st : xio_mempool × List BlockPtr) :
    pool_op → Option (xio_mempool × List BlockPtr)
  | .add_slab size min max q ok => some ((xio_mempool_add_slab st.1 size min max q ok).2, st.2)
  | .alloc length ok =>
    if length ≤ SIZE_MAX then
      match xio_mempool_alloc st.1 length ok with
      | .ok res =>
        some (res.pool, match res.mp_obj.cache with
                        | some b => b :: st.2
                        | none => st.2)
      | .error _ => none
    else none
  | .free obj =>
    match obj with
    | none => some st
    | some o =>
      match o.cache with
      | none => some st
      | some b =>
        if b ∈ st.2 then
          match xio_mempool_free st.1 (some o) with
          | none => none
          | some p1 => some (p1, st.2.erase b)
        else none

/-- A single-threaded run of calls. -/
def claim_run (st : xio_mempool × List BlockPtr) :
    List pool_op → Option (xio_mempool × List BlockPtr)
  | [] => some st
  | op :: rest =>
    match claim_step st op with
    | none => none
    | some st1 => claim_run st1 rest

/-- Scenario: a slab `{64, min 2, max 4, quantum 2}` is added, two blocks are
allocated, the first one is given back, and one more is allocated. -/
def ops_claim_demo : List pool_op :=
  [.add_slab 64 2 4 2 true, .alloc 64 (fun _ => true), .alloc 64 (fun _ => true),
   .free (some { addr := some (0, 0), mr := none, cache := some ⟨0, 0⟩, length := 64 }),
   .alloc 64 (fun _ => true), .alloc 64 (fun _ => true)]

/-- Scenario: the pool and the held blocks after `ops_claim_demo` on a new pool. -/
def claim_demo : xio_mempool × List BlockPtr :=
  (claim_run (xio_mempool_create 0 0 flags_none, []) ops_claim_demo).getD
    (xio_mempool_create 0 0 flags_none, [])

/-- Scenario: two threads, neither in a call, on the pool made by
`xio_mempool_create` with the slab `{64, min 1, max 2, quantum 1}`: the slab holds
one block, which is on its free list. -/
def mt_init : mt_state :=
  { pool := (xio_mempool_add_slab (xio_mempool_create 0 0 flags_none) 64 1 2 1 true).2
    locks := []
    threads := [{ phase := .idle, length := 0 }, { phase := .idle, length := 0 }]
    held := [] }

/-- Scenario: thread 0 allocates the only block; thread 1 enters an allocation,
finds the free list empty twice and stands before `xio_mem_slab_resize`; thread 0
gives its block back; thread 1 grows the slab by one block. -/
def mt_schedule : List (Nat × mt_action) :=
  [(0, .start_alloc 64), (0, .step),
   (1, .start_alloc 64), (1, .step), (1, .step), (1, .step),
   (0, .free (some { addr := some (0, 0), mr := none, cache := some ⟨0, 0⟩, length := 64 })),
   (1, .step)]

/-- Scenario: the state after `mt_schedule`. -/
def mt_final : mt_state :=
  (mt_run (fun _ => true) mt_init mt_schedule).getD mt_init

/-- The block at `x` is lost: it is a block of the pool, no caller holds it, and
it is met on no free list, however far the lists are followed. -/
def block_lost (st : mt_state) (x : BlockPtr) : Prop :=
  (mem_read st.pool.mem x).isSome = true ∧ (∀ h ∈ st.held, h.2 ≠ x) ∧
  ∀ s ∈ st.pool.slab, ∀ fuel : Nat, x ∉ free_chain st.pool.mem fuel s.free_blocks_list

/-- Scenario: `mt_schedule`, after which thread 1 gives back the block it got from
the growth, so that no caller holds a block. -/
def mt_schedule_all : List (Nat × mt_action) :=
  mt_schedule ++
    [(1, .free (some { addr := some (1, 0), mr := none, cache := some ⟨1, 0⟩, length := 64 }))]

/-- Scenario: the state after `mt_schedule_all`. -/
def mt_final_all : mt_state :=
  (mt_run (fun _ => true) mt_init mt_schedule_all).getD mt_init

/-- The pool of an outcome of `xio_mempool_alloc`, if the call returned. -/
def alloc_pool : Except Fault alloc_result → Option xio_mempool
  | .ok r => some r.pool
  | .error _ => none

/-- Scenario: the slab `{64, min 0, max 3, quantum 1}` is added and one block of 64
bytes is allocated. -/
def ops_one_taken : List pool_op :=
  [.add_slab 64 0 3 1 true, .alloc 64 (fun _ => true)]

/-- Scenario: the pool after `ops_one_taken`. -/
def pool_one_taken : xio_mempool :=
  (pool_run (xio_mempool_create 0 0 flags_none) ops_one_taken).getD
    (xio_mempool_create 0 0 flags_none)

/-- Scenario: the slabs `{16, min 0, max 2, quantum 2}` and `{64, min 0, max 3,
quantum 1}` are added, two blocks of 16 bytes are allocated, which uses the 16-byte
slab up, and one block of 64 bytes is allocated. -/
def ops_small_used_up : List pool_op :=
  [.add_slab 16 0 2 2 true, .add_slab 64 0 3 1 true, .alloc 16 (fun _ => true),
   .alloc 16 (fun _ => true), .alloc 64 (fun _ => true)]

/-- Scenario: the pool after `ops_small_used_up`, created without
`XIO_MEMPOOL_FLAG_USE_SMALLEST_SLAB`. -/
def pool_small_used_up : xio_mempool :=
  (pool_run (xio_mempool_create 0 0 flags_none) ops_small_used_up).getD
    (xio_mempool_create 0 0 flags_none)

/-- What the allocation path reads of a slab: block size, current and maximal
number of blocks, and the head of the free list. -/
def slab_view (s : xio_mem_slab) : Nat × Int × Int × Option BlockPtr :=
  (s.mb_size, s.curr_mb_nr, s.max_mb_nr, s.free_blocks_list)

/-- Scenario: on the two devices of `registry_dup2 0` two memory regions are
registered with `xio_reg_mr_ex` and then deregistered with `xio_dereg_mr`: every
element list is empty again and `mr_num`, which `xio_dereg_mr` does not touch, is 2. -/
def registry_regions_gone : mr_registry :=
  let r1 := xio_reg_mr_ex (registry_dup2 0) (some 4096) 64 0 false true
    (fun d => some { addr := 4096, lkey := d + 1, rkey := d + 1 })
  let r2 := xio_reg_mr_ex r1.2.2 (some 8192) 64 0 false true
    (fun d => some { addr := 8192, lkey := d + 2, rkey := d + 2 })
  (xio_dereg_mr (xio_dereg_mr r2.2.2 r1.1).2.2 r2.1).2.2

/-- Scenario: `xio_rdma_dup2` of the established connection and `conn_second`, whose
CQs lie on different devices, after two memory regions were registered and
deregistered. -/
def dup2_table_built : dup2_result :=
  (xio_rdma_dup2 observer_none registry_regions_gone true conn_connected conn_second
    world_connected (env_ok 1000)).getD
    { ret := -1, old_hndl := conn_connected, new_hndl := conn_second, new_trans_hndl := 1001
      world := world_connected }
/-! ## Part 5. Theorems -/

/-- C1 (evaluation at the failing input): in the pool with the single slab
`{64, min 0, max 1, quantum 1}` the first `xio_mempool_alloc(64)` grows the slab by
one block and returns it; afterwards `free_blocks_list` is `block + 1`, an address
one past the only block created: it is not a block of the memory and is not on the
slab's `blocks_list`, although `curr_mb_nr = 1` and the only block is allocated. -/
theorem C1_single_block_growth_leaves_dangling_free_list :
    ∃ res slab,
      xio_mempool_alloc pool_one_block 64 (fun _ => true) = .ok res ∧
      res.ret = 0 ∧ res.mp_obj.cache = some ⟨0, 0⟩ ∧
      res.pool.slab[0]? = some slab ∧
      slab.curr_mb_nr = 1 ∧ slab.blocks_list = [⟨0, 0⟩] ∧
      slab.free_blocks_list = some ⟨0, 1⟩ ∧
      mem_read res.pool.mem ⟨0, 1⟩ = none ∧
      (⟨0, 1⟩ : BlockPtr) ∉ slab.blocks_list := by
  refine ⟨_, _, rfl, rfl, rfl, rfl, rfl, rfl, rfl, rfl, ?_⟩
  decide

/-- The loop of `xio_rkey_table_create` with a non-empty `xm_list` of the new
device: it runs once per element of the old list and leaves the new cursor on the
first element. -/
theorem rkey_table_loop_nonempty (new_all : List xio_mr_elem) (h : new_all ≠ []) :
    ∀ (old_n : List xio_mr_elem) (acc : List xio_rkey_tbl),
      ∃ entries, rkey_table_loop new_all old_n new_all acc = ([], new_all, entries) ∧
        entries.length = acc.length + old_n.length := by
  intro old_n
  induction old_n with
  | nil => intro acc; exact ⟨acc, by simp [rkey_table_loop]⟩
  | cons o os ih =>
    intro acc
    obtain ⟨n, ns, rfl⟩ := List.exists_cons_of_ne_nil h
    obtain ⟨entries, he, hl⟩ := ih (acc ++ [{ old_rkey := o.mr.rkey, new_rkey := n.mr.rkey }])
    refine ⟨entries, ?_, ?_⟩
    · simp only [rkey_table_loop]; exact he
    · simp at hl ⊢; omega

/-- With `mr_num ≠ 0`, a successful `ucalloc` and a non-empty `xm_list` of the new
device, `xio_rkey_table_create` returns `-1` with `*len = 0` and `*htbl` untouched
whenever the old list fits the table. -/
theorem rkey_table_create_nonempty (mr_num : Nat) (old new : xio_device)
    (htbl : Option (List xio_rkey_tbl)) (hnum : mr_num ≠ 0) (hn : new.xm_list ≠ [])
    (hlen : old.xm_list.length ≤ mr_num) :
    xio_rkey_table_create mr_num old new htbl true = .ok { ret := -1, htbl := htbl, len := 0 } := by
  obtain ⟨entries, he, hl⟩ := rkey_table_loop_nonempty new.xm_list hn old.xm_list []
  simp only [xio_rkey_table_create, he, if_neg hnum]
  have h1 : ¬ entries.length > mr_num := by simp at hl; omega
  simp [h1, hn]

/-- C6 (what the code does): for two devices whose `xm_list`s both have length
`k ≥ 1`, with `mr_num = k`, `xio_rkey_table_create` returns `-1` with `*len = 0` and
no table, instead of `0` with `*len = k`. -/
theorem C6_rkey_table_create_fails_for_equal_lists (k : Nat) (old new : xio_device)
    (htbl : Option (List xio_rkey_tbl)) (hk : 1 ≤ k)
    (ho : old.xm_list.length = k) (hn : new.xm_list.length = k) :
    xio_rkey_table_create k old new htbl true = .ok { ret := -1, htbl := htbl, len := 0 } := by
  apply rkey_table_create_nonempty
  · omega
  · intro h; rw [h] at hn; simp at hn; omega
  · omega

/-- C6, at the failing input: one region, rkey 10 on the old device and rkey 20 on the
new one. -/
theorem C6_rkey_table_create_fails_witness :
    xio_rkey_table_create 1 dev_rkey_10 dev_rkey_20 none true
      = .ok { ret := -1, htbl := none, len := 0 } :=
  C6_rkey_table_create_fails_for_equal_lists 1 dev_rkey_10 dev_rkey_20 none
    (by decide) (by decide) (by decide)

/-- C7 (what the code does): for two devices with `k ≥ 1` registered regions each,
neither `xio_rkey_table_create(A, B)` nor `xio_rkey_table_create(B, A)` produces a
table (both return `-1` and leave `*htbl` as it was), and with the empty table that
remains `xio_new_rkey` translates no nonzero rkey. -/
theorem C7_no_rkey_tables_to_compose (k : Nat) (a b : xio_device)
    (htbl : Option (List xio_rkey_tbl)) (hk : 1 ≤ k)
    (ha : a.xm_list.length = k) (hb : b.xm_list.length = k) :
    xio_rkey_table_create k a b htbl true = .ok { ret := -1, htbl := htbl, len := 0 } ∧
    xio_rkey_table_create k b a htbl true = .ok { ret := -1, htbl := htbl, len := 0 } ∧
    ∀ key, key ≠ 0 → xio_new_rkey [] 0 key = some (-1, key) := by
  refine ⟨?_, ?_, ?_⟩
  · apply rkey_table_create_nonempty
    · omega
    · intro h; rw [h] at hb; simp at hb; omega
    · omega
  · apply rkey_table_create_nonempty
    · omega
    · intro h; rw [h] at ha; simp at ha; omega
    · omega
  · intro key hkey
    simp [xio_new_rkey, hkey, xio_new_rkey_scan]

/-- C7, at the failing input: devices with one region each, rkeys 10 and 20. -/
theorem C7_no_rkey_tables_witness :
    xio_rkey_table_create 1 dev_rkey_10 dev_rkey_20 none true
        = .ok { ret := -1, htbl := none, len := 0 } ∧
    xio_rkey_table_create 1 dev_rkey_20 dev_rkey_10 none true
        = .ok { ret := -1, htbl := none, len := 0 } ∧
    ∀ key, key ≠ 0 → xio_new_rkey [] 0 key = some (-1, key) :=
  C7_no_rkey_tables_to_compose 1 dev_rkey_10 dev_rkey_20 none (by decide) (by decide) (by decide)

/-- C8 (evaluation at the failing input): two regions are registered while device
`100` is the only device, then device `200` is added.  `xio_reg_mr_add_dev` returns
0 and each device holds one element per region, but device `100` lists the regions
as (MR 3, MR 1) and device `200` as (MR 1, MR 3): the first elements of the two
lists belong to different regions. -/
theorem C8_added_device_lists_regions_in_reverse_order :
    registry_after_add_dev.1 = 0 ∧
    registry_after_add_dev.2.mr_list.map (fun m => m.id) = [3, 1] ∧
    xm_list_owners registry_after_add_dev.2 100 = some [[3], [1]] ∧
    xm_list_owners registry_after_add_dev.2 200 = some [[1], [3]] := by
  refine ⟨rfl, rfl, rfl, rfl⟩

/-- C9 (evaluation at the failing input): with the peer table `[(7, 9)]` and a task
holding one peer-provided write segment (`req_write_num_sge = 1`) but no local one
(`write_num_sge = 0`), `xio_rdma_update_task` returns 0 and leaves the rkey 7 of
`req_write_sge[0]` untranslated; with the unknown rkey 5 in its place it also
returns 0 instead of `-1`. -/
theorem C9_update_task_skips_req_write_sge :
    xio_rdma_update_task [⟨7, 9⟩] 1 (task_one_req_write 7) = some (0, task_one_req_write 7) ∧
    xio_new_rkey [⟨7, 9⟩] 1 7 = some (0, 9) ∧
    xio_rdma_update_task [⟨7, 9⟩] 1 (task_one_req_write 5) = some (0, task_one_req_write 5) ∧
    xio_new_rkey [⟨7, 9⟩] 1 5 = some (-1, 5) := by
  refine ⟨rfl, rfl, rfl, rfl⟩

theorem cq_lookup_none (ctx : Nat) (l : List xio_cq) :
    cq_lookup ctx l = none ↔ ∀ c ∈ l, c.ctx ≠ ctx := by
  induction l with
  | nil => simp [cq_lookup]
  | cons c rest ih =>
    by_cases h : c.ctx = ctx
    · simp [cq_lookup, h]
    · cases hr : cq_lookup ctx rest with
      | none => simp [cq_lookup, h, hr]; exact ih.mp hr
      | some v =>
        simp only [cq_lookup, h, hr, if_false]
        constructor
        · intro h1; cases h1
        · intro h1
          have : cq_lookup ctx rest = none := ih.mpr (fun c hc => h1 c (List.mem_cons_of_mem _ hc))
          rw [this] at hr; cases hr

theorem cq_lookup_some (ctx : Nat) (l : List xio_cq) (id : Nat) (l1 : List xio_cq)
    (h : cq_lookup ctx l = some (id, l1)) :
    l1.map (fun c => c.ctx) = l.map (fun c => c.ctx) ∧
    l1.map (fun c => c.id) = l.map (fun c => c.id) ∧
    ∃ c ∈ l, c.ctx = ctx ∧ c.id = id := by
  induction l generalizing l1 with
  | nil => simp [cq_lookup] at h
  | cons c rest ih =>
    by_cases hc : c.ctx = ctx
    · rw [cq_lookup, if_pos hc] at h
      simp only [Option.some.injEq, Prod.mk.injEq] at h
      obtain ⟨rfl, rfl⟩ := h
      exact ⟨rfl, rfl, c, List.mem_cons_self _ _, hc, rfl⟩
    · cases hr : cq_lookup ctx rest with
      | none => simp [cq_lookup, hc, hr] at h
      | some v =>
        obtain ⟨id2, rest1⟩ := v
        rw [cq_lookup, if_neg hc, hr] at h
        simp only [Option.some.injEq, Prod.mk.injEq] at h
        obtain ⟨rfl, rfl⟩ := h
        obtain ⟨h1, h2, c2, hc2, h3, h4⟩ := ih rest1 hr
        exact ⟨by simp [h1], by simp [h2], c2, List.mem_cons_of_mem _ hc2, h3, h4⟩

theorem xio_cq_get_ctx_unique (dev : xio_device) (ctx : Nat) (env : cq_env)
    (h : cq_ctx_unique dev) : cq_ctx_unique (xio_cq_get dev ctx env).2 := by
  unfold xio_cq_get
  cases hl : cq_lookup ctx dev.cq_list with
  | some v =>
    obtain ⟨id, l⟩ := v
    have := (cq_lookup_some ctx _ id l hl).1
    simp only [cq_ctx_unique] at h ⊢
    simpa [this] using h
  | none =>
    have hn := (cq_lookup_none ctx _).mp hl
    simp only []
    split
    · exact h
    · split
      · exact h
      · split
        · exact h
        · split
          · exact h
          · split
            · exact h
            · split
              · exact h
              · split
                · exact h
                · simp only [cq_ctx_unique, List.map_cons, List.nodup_cons]
                  refine ⟨?_, h⟩
                  intro hmem
                  obtain ⟨c, hc, hcc⟩ := List.mem_map.mp hmem
                  exact hn c hc hcc

theorem xio_cq_release_ctx_unique (dev dev1 : xio_device) (tcq : Nat)
    (h : cq_ctx_unique dev) (hr : xio_cq_release dev tcq = some dev1) : cq_ctx_unique dev1 := by
  unfold xio_cq_release at hr
  split at hr
  · cases hr
  · split at hr
    · cases hr
      simp only [cq_ctx_unique] at h ⊢
      exact List.Nodup.sublist (List.Sublist.map _ (List.filter_sublist _)) h
    · cases hr
      simp only [cq_ctx_unique, List.map_map] at h ⊢
      have : ((fun c : xio_cq => c.ctx) ∘ fun x : xio_cq =>
          if x.id = tcq then { x with kref := (kref_put x.kref).1 } else x) = fun c => c.ctx := by
        funext x; simp only [Function.comp]; split <;> rfl
      rw [this]; exact h

theorem cq_run_ctx_unique (ops : List cq_op) :
    ∀ (dev dev1 : xio_device), cq_ctx_unique dev → cq_run dev ops = some dev1 →
      cq_ctx_unique dev1 := by
  induction ops with
  | nil => intro dev dev1 h hr; simp [cq_run] at hr; subst hr; exact h
  | cons op rest ih =>
    intro dev dev1 h hr
    simp only [cq_run] at hr
    cases hs : cq_step dev op with
    | none => simp [hs] at hr
    | some d =>
      simp only [hs] at hr
      refine ih d dev1 ?_ hr
      cases op with
      | get ctx env =>
        simp only [cq_step, Option.some.injEq] at hs
        subst hs; exact xio_cq_get_ctx_unique dev ctx env h
      | release tcq => exact xio_cq_release_ctx_unique dev d tcq h hs

theorem cq_lookup_of_mem (ctx : Nat) (l : List xio_cq) (c : xio_cq)
    (hu : (l.map fun c => c.ctx).Nodup) (hc : c ∈ l) (hctx : c.ctx = ctx) :
    ∃ l1, cq_lookup ctx l = some (c.id, l1) := by
  cases hl : cq_lookup ctx l with
  | none => exact absurd hctx ((cq_lookup_none ctx l).mp hl c hc)
  | some v =>
    obtain ⟨id, l1⟩ := v
    obtain ⟨_, _, c2, hc2, h3, h4⟩ := cq_lookup_some ctx l id l1 hl
    have : c2 = c := by
      have hinj := List.inj_on_of_nodup_map hu
      exact hinj hc2 hc (by rw [h3, hctx])
    subst this
    exact ⟨l1, by rw [h4]⟩

/-- C10: (1) whatever sequence of `xio_cq_get` and `xio_cq_release` calls is made on
a device that starts with an empty CQ list, no two CQs of the list have the same
context; (2) an `xio_cq_get(dev, ctx)` that finds no CQ of that context and whose
environment steps all succeed returns a new CQ, linked at the head of the list with
two references, and any successful get without a match has created exactly this CQ;
(3) in every such reachable state, an `xio_cq_get(dev, ctx)` made while a CQ `c` of
that context is on the list returns `c` itself and adds no CQ to the list. -/
theorem C10_cq_sharing :
    (∀ (dev dev1 : xio_device) (ops : List cq_op),
        dev.cq_list = [] → cq_run dev ops = some dev1 → cq_ctx_unique dev1) ∧
    (∀ (dev : xio_device) (ctx : Nat) (env : cq_env),
        (∀ c ∈ dev.cq_list, c.ctx ≠ ctx) →
        (∀ addr cqe, env = ⟨some addr, true, true, true, true, some cqe, true⟩ →
          ∃ c, xio_cq_get dev ctx env = (some addr, { dev with cq_list := c :: dev.cq_list }) ∧
            c.id = addr ∧ c.ctx = ctx ∧ c.kref = 2) ∧
        (∀ id dev1, xio_cq_get dev ctx env = (some id, dev1) →
          env.tcq = some id ∧
          ∃ c, dev1 = { dev with cq_list := c :: dev.cq_list } ∧ c.id = id ∧ c.ctx = ctx)) ∧
    (∀ (dev0 dev : xio_device) (ops : List cq_op) (ctx : Nat) (env : cq_env) (c : xio_cq),
        dev0.cq_list = [] → cq_run dev0 ops = some dev → c ∈ dev.cq_list → c.ctx = ctx →
        (xio_cq_get dev ctx env).1 = some c.id ∧
        (xio_cq_get dev ctx env).2.cq_list.map (fun x => x.id) =
          dev.cq_list.map (fun x => x.id)) := by
  have hrun : ∀ (dev dev1 : xio_device) (ops : List cq_op),
      dev.cq_list = [] → cq_run dev ops = some dev1 → cq_ctx_unique dev1 := by
    intro dev dev1 ops h0 hr
    exact cq_run_ctx_unique ops dev dev1 (by simp [cq_ctx_unique, h0]) hr
  refine ⟨hrun, ?_, ?_⟩
  · intro dev ctx env hno
    have hl : cq_lookup ctx dev.cq_list = none := (cq_lookup_none ctx _).mpr hno
    constructor
    · intro addr cqe he
      subst he
      refine ⟨cq_created dev ctx addr cqe, ?_, rfl, rfl, rfl⟩
      simp only [xio_cq_get, hl]
      rfl
    · intro id dev1 hg
      simp only [xio_cq_get, hl] at hg
      split at hg
      · simp at hg
      · rename_i addr haddr
        split at hg
        · simp at hg
        · split at hg
          · simp at hg
          · split at hg
            · simp at hg
            · split at hg
              · simp at hg
              · split at hg
                · simp at hg
                · split at hg
                  · simp at hg
                  · simp only [Prod.mk.injEq, Option.some.injEq] at hg
                    obtain ⟨rfl, rfl⟩ := hg
                    rename_i cqe _ _
                    exact ⟨haddr, cq_created dev ctx addr cqe, rfl, rfl, rfl⟩
  · intro dev0 dev ops ctx env c h0 hr hc hctx
    have hu := hrun dev0 dev ops h0 hr
    obtain ⟨l1, hl⟩ := cq_lookup_of_mem ctx dev.cq_list c hu hc hctx
    have := (cq_lookup_some ctx _ _ _ hl).2.1
    have hg : xio_cq_get dev ctx env = (some c.id, { dev with cq_list := l1 }) := by
      simp only [xio_cq_get, hl]
    rw [hg]
    exact ⟨rfl, this⟩
theorem resize_mb_size (self : Nat) (flags : xio_mempool_flags) (ok : Bool) (slab : xio_mem_slab)
    (mem : BlockMem) (alloc : Bool) :
    (xio_mem_slab_resize self flags ok slab mem alloc).1.mb_size = slab.mb_size := by
  have hc : (resize_clamp slab).mb_size = slab.mb_size := by
    unfold resize_clamp; split <;> rfl
  unfold xio_mem_slab_resize
  simp only []
  split
  · exact hc
  · split
    · exact hc
    · exact hc

/-- The search loop on a strictly increasing list: a size already present is
refused, otherwise the result is the number of smaller sizes. -/
theorem add_slab_search_sorted (n size : Nat) :
    ∀ (l : List xio_mem_slab) (ix : Nat),
      (l.map fun s => s.mb_size).Pairwise (fun a b => a < b) → n = ix + l.length →
      (size ∈ (l.map fun s => s.mb_size) → add_slab_search n size l ix = none) ∧
      (size ∉ (l.map fun s => s.mb_size) →
        ∃ k, add_slab_search n size l ix = some (ix + k) ∧ k ≤ l.length ∧
          (∀ a ∈ (l.map fun s => s.mb_size).take k, a < size) ∧
          (∀ a ∈ (l.map fun s => s.mb_size).drop k, size < a)) := by
  intro l
  induction l with
  | nil =>
    intro ix _ hn
    refine ⟨by simp, fun _ => ⟨0, by simp [add_slab_search, hn], by simp, by simp, by simp⟩⟩
  | cons s rest ih =>
    intro ix hs hn
    simp only [List.map_cons, List.pairwise_cons] at hs
    obtain ⟨hlt, hrest⟩ := hs
    have hn1 : n = (ix + 1) + rest.length := by simp at hn; omega
    obtain ⟨ih1, ih2⟩ := ih (ix + 1) hrest hn1
    constructor
    · intro hmem
      simp only [List.map_cons, List.mem_cons] at hmem
      by_cases h1 : s.mb_size = size
      · simp [add_slab_search, h1]
      · have hm : size ∈ rest.map fun s => s.mb_size := by
          rcases hmem with h | h
          · exact absurd h.symm h1
          · exact h
        have hgt : ¬ s.mb_size > size := by
          have := hlt size hm; omega
        simp [add_slab_search, h1, hgt, ih1 hm]
    · intro hnot
      simp only [List.map_cons, List.mem_cons, not_or] at hnot
      obtain ⟨hne, hnm⟩ := hnot
      have h1 : ¬ s.mb_size = size := fun h => hne h.symm
      by_cases hgt : s.mb_size > size
      · refine ⟨0, by simp [add_slab_search, h1, hgt], by simp, by simp, ?_⟩
        intro a ha
        simp only [List.map_cons, List.drop_zero, List.mem_cons] at ha
        rcases ha with rfl | ha
        · exact hgt
        · have := hlt a ha; omega
      · obtain ⟨k, hk, hkl, hlo, hhi⟩ := ih2 hnm
        refine ⟨k + 1, ?_, by simp; omega, ?_, ?_⟩
        · simp only [add_slab_search, h1, hgt, if_false, hk]
          congr 1; omega
        · intro a ha
          simp only [List.map_cons, List.take_succ_cons, List.mem_cons] at ha
          rcases ha with rfl | ha
          · omega
          · exact hlo a ha
        · intro a ha
          simp only [List.map_cons, List.drop_succ_cons] at ha
          exact hhi a ha

theorem add_slab_exists (p : xio_mempool) (size min max q : Nat) (ok : Bool)
    (hlen : p.slabs_nr ≤ p.slab.length)
    (hs : (slab_sizes p).Pairwise (fun a b => a < b)) (hmem : size ∈ slab_sizes p) :
    xio_mempool_add_slab p size min max q ok = (-EEXIST, p) := by
  have hl : p.slabs_nr = 0 + (p.slab.take p.slabs_nr).length := by simp; omega
  have h := (add_slab_search_sorted p.slabs_nr size (p.slab.take p.slabs_nr) 0 hs hl).1 hmem
  simp only [xio_mempool_add_slab, h]

theorem add_slab_grow_mb_size (slab_ix : Nat) (flags : xio_mempool_flags) (ok : Bool)
    (fresh : xio_mem_slab) (mem : BlockMem) : (add_slab_grow slab_ix flags ok fresh mem).1.mb_size = fresh.mb_size := by
  unfold add_slab_grow
  split
  · exact resize_mb_size _ _ _ _ _ _
  · rfl

theorem add_slab_inserts (p : xio_mempool) (size min max q : Nat) (ok : Bool)
    (hlen : p.slabs_nr ≤ p.slab.length)
    (hs : (slab_sizes p).Pairwise (fun a b => a < b)) (hnot : size ∉ slab_sizes p) :
    ∃ k,
      k ≤ p.slabs_nr ∧
      (∀ a ∈ (slab_sizes p).take k, a < size) ∧
      (∀ a ∈ (slab_sizes p).drop k, size < a) ∧
      xio_mempool_add_slab p size min max q ok = (0, add_slab_at p k size min max q ok) := by
  have hl : p.slabs_nr = 0 + (p.slab.take p.slabs_nr).length := by simp; omega
  obtain ⟨k, hk, hkl, hlo, hhi⟩ :=
    (add_slab_search_sorted p.slabs_nr size (p.slab.take p.slabs_nr) 0 hs hl).2 hnot
  simp only [Nat.zero_add] at hk
  have hkl1 : k ≤ p.slabs_nr := by simp at hkl; omega
  exact ⟨k, hkl1, hlo, hhi, by simp only [xio_mempool_add_slab, hk]⟩

theorem slabs_ordered_of_insert (p : xio_mempool) (size k : Nat) (fresh : xio_mem_slab)
    (mem1 : BlockMem) (hlen : p.slabs_nr ≤ p.slab.length)
    (hs : (slab_sizes p).Pairwise (fun a b => a < b))
    (hk : k ≤ p.slabs_nr)
    (hlo : ∀ a ∈ (slab_sizes p).take k, a < size)
    (hhi : ∀ a ∈ (slab_sizes p).drop k, size < a)
    (hf : fresh.mb_size = size) :
    slabs_ordered { p with
      slab := (p.slab.take p.slabs_nr).take k ++ fresh ::
                (p.slab.take p.slabs_nr).drop k ++ [sentinel_slab]
      slabs_nr := p.slabs_nr + 1
      mem := mem1 } := by
  have hold : (p.slab.take p.slabs_nr).length = p.slabs_nr := by simp; omega
  have hlen2 : ((p.slab.take p.slabs_nr).take k ++ fresh ::
                (p.slab.take p.slabs_nr).drop k).length = p.slabs_nr + 1 := by
    simp only [List.length_append, List.length_cons, List.length_take, List.length_drop]
    omega
  refine ⟨?_, ?_, ?_⟩
  · show ((p.slab.take p.slabs_nr).take k ++ fresh ::
                (p.slab.take p.slabs_nr).drop k ++ [sentinel_slab]).length = p.slabs_nr + 1 + 1
    rw [List.length_append, hlen2]; rfl
  · show (((p.slab.take p.slabs_nr).take k ++ fresh ::
                (p.slab.take p.slabs_nr).drop k ++ [sentinel_slab]).take (p.slabs_nr + 1)).map
              (fun s => s.mb_size) |>.Pairwise (fun a b => a < b)
    rw [List.take_append_of_le_length (by omega),
      List.take_of_length_le (by omega)]
    simp only [List.map_append, List.map_cons, List.map_take, List.map_drop, hf]
    have hsz : List.take p.slabs_nr (List.map (fun s => s.mb_size) p.slab) = slab_sizes p := by
      simp [slab_sizes, List.map_take]
    rw [hsz]
    rw [List.pairwise_append]
    refine ⟨hs.sublist (List.take_sublist _ _), ?_, ?_⟩
    · rw [List.pairwise_cons]
      exact ⟨hhi, hs.sublist (List.drop_sublist _ _)⟩
    · intro a ha b hb
      rw [List.mem_cons] at hb
      rcases hb with rfl | hb
      · exact hlo a ha
      · exact lt_trans (hlo a ha) (hhi b hb)
  · show (((p.slab.take p.slabs_nr).take k ++ fresh ::
                (p.slab.take p.slabs_nr).drop k ++ [sentinel_slab])[p.slabs_nr + 1]?).map
              (fun s => s.mb_size) = some SIZE_MAX
    rw [List.getElem?_append_right (by omega), hlen2]
    simp [sentinel_slab]

theorem add_slab_ordered (p : xio_mempool) (size min max q : Nat) (ok : Bool)
    (hlen : p.slabs_nr ≤ p.slab.length)
    (hs : (slab_sizes p).Pairwise (fun a b => a < b))
    (h : slabs_ordered p ∨ p.slabs_nr = 0) :
    slabs_ordered (xio_mempool_add_slab p size min max q ok).2 := by
  by_cases hmem : size ∈ slab_sizes p
  · rw [add_slab_exists p size min max q ok hlen hs hmem]
    rcases h with h | h
    · exact h
    · simp [slab_sizes, h] at hmem
  · obtain ⟨k, hk, hlo, hhi, he⟩ := add_slab_inserts p size min max q ok hlen hs hmem
    rw [he]
    exact slabs_ordered_of_insert p size k _ _ hlen hs hk hlo hhi
      (add_slab_grow_mb_size _ _ _ _ _)

theorem add_slabs_ordered (cs : List add_slab_call) :
    ∀ p, slabs_ordered p → slabs_ordered (add_slabs p cs) := by
  induction cs with
  | nil => intro p h; exact h
  | cons c cs ih =>
    intro p h
    simp only [add_slabs]
    apply ih
    exact add_slab_ordered p _ _ _ _ _ (by rw [h.1]; omega) h.2.1 (Or.inl h)

theorem slab_sizes_add_slab_at (p : xio_mempool) (size min max q k : Nat) (ok : Bool)
    (hlen : p.slabs_nr ≤ p.slab.length) (hk : k ≤ p.slabs_nr) :
    slab_sizes (add_slab_at p k size min max q ok) =
      (slab_sizes p).take k ++ size :: (slab_sizes p).drop k := by
  have hold : (p.slab.take p.slabs_nr).length = p.slabs_nr := by simp; omega
  have hsz : List.take p.slabs_nr (List.map (fun s => s.mb_size) p.slab) = slab_sizes p := by
    simp [slab_sizes, List.map_take]
  simp only [slab_sizes, add_slab_at]
  rw [List.take_append_of_le_length (by simp; omega), List.take_of_length_le (by simp; omega)]
  simp only [List.map_append, List.map_cons, List.map_take, List.map_drop,
    add_slab_grow_mb_size, add_slab_fresh]

theorem add_slab_at_below (p : xio_mempool) (size min max q k : Nat) (ok : Bool)
    (hlen : p.slabs_nr ≤ p.slab.length) (hk : k ≤ p.slabs_nr) (i : Nat) (hi : i < k) :
    (add_slab_at p k size min max q ok).slab[i]? = p.slab[i]? := by
  simp only [add_slab_at]
  rw [List.getElem?_append_left (by simp; omega), List.getElem?_append_left (by simp; omega)]
  simp only [List.getElem?_take]
  rw [if_pos hi, if_pos (by omega)]

theorem add_slab_at_above (p : xio_mempool) (size min max q k : Nat) (ok : Bool)
    (hlen : p.slabs_nr ≤ p.slab.length) (hk : k ≤ p.slabs_nr) (i : Nat) (hi : k ≤ i)
    (hi2 : i < p.slabs_nr) :
    (add_slab_at p k size min max q ok).slab[i + 1]? = p.slab[i]? := by
  simp only [add_slab_at]
  rw [List.getElem?_append_left (by simp; omega), List.getElem?_append_right (by simp; omega)]
  have h1 : (List.take k (List.take p.slabs_nr p.slab)).length = k := by simp; omega
  rw [h1]
  have h2 : i + 1 - k = (i - k) + 1 := by omega
  rw [h2, List.getElem?_cons_succ, List.getElem?_drop, List.getElem?_take]
  rw [if_pos (by omega)]
  congr 1; omega

theorem add_slab_at_new (p : xio_mempool) (size min max q k : Nat) (ok : Bool)
    (hlen : p.slabs_nr ≤ p.slab.length) (hk : k ≤ p.slabs_nr) :
    ∃ s, (add_slab_at p k size min max q ok).slab[k]? = some s ∧ s.mb_size = size := by
  refine ⟨_, ?_, add_slab_grow_mb_size k p.flags ok (add_slab_fresh size min max q)
    (reparent_slabs p.mem ((p.slab.take p.slabs_nr).take k) 0)⟩
  simp only [add_slab_at]
  have h1 : (List.take k (List.take p.slabs_nr p.slab)).length = k := by simp; omega
  rw [List.getElem?_append_left (by simp; omega), List.getElem?_append_right (by omega)]
  rw [h1]; simp

/-- C5: (1) after `xio_mempool_create` and one or more `xio_mempool_add_slab` calls
the array has `slabs_nr + 1` entries, the sizes of `slab[0 .. slabs_nr)` are strictly
increasing and `slab[slabs_nr].mb_size = SIZE_MAX`; (2) on every such pool a call
with a size already present returns `-EEXIST` and leaves the pool unchanged, and a
call with a new size returns 0, keeps the ordering, raises `slabs_nr` by one and
inserts the new slab at the position `k` that has the smaller sizes before it and
the larger ones after it, every existing slab being carried over unchanged (to the
same index below `k`, to the next index from `k` on). -/
theorem C5_slab_size_ordering :
    (∀ (nodeid cur : Int) (flags : xio_mempool_flags) (c : add_slab_call)
        (cs : List add_slab_call),
        slabs_ordered (add_slabs (xio_mempool_create nodeid cur flags) (c :: cs))) ∧
    (∀ (p : xio_mempool) (size min max q : Nat) (ok : Bool), slabs_ordered p →
        (size ∈ slab_sizes p → xio_mempool_add_slab p size min max q ok = (-EEXIST, p)) ∧
        (size ∉ slab_sizes p →
          ∃ k, k ≤ p.slabs_nr ∧
            (∀ a ∈ (slab_sizes p).take k, a < size) ∧
            (∀ a ∈ (slab_sizes p).drop k, size < a) ∧
            (xio_mempool_add_slab p size min max q ok).1 = 0 ∧
            slabs_ordered (xio_mempool_add_slab p size min max q ok).2 ∧
            (xio_mempool_add_slab p size min max q ok).2.slabs_nr = p.slabs_nr + 1 ∧
            slab_sizes (xio_mempool_add_slab p size min max q ok).2 =
              (slab_sizes p).take k ++ size :: (slab_sizes p).drop k ∧
            (∃ s, (xio_mempool_add_slab p size min max q ok).2.slab[k]? = some s ∧
              s.mb_size = size) ∧
            (∀ i, i < k → (xio_mempool_add_slab p size min max q ok).2.slab[i]? = p.slab[i]?) ∧
            (∀ i, k ≤ i → i < p.slabs_nr →
              (xio_mempool_add_slab p size min max q ok).2.slab[i + 1]? = p.slab[i]?))) := by
  constructor
  · intro nodeid cur flags c cs
    simp only [add_slabs]
    apply add_slabs_ordered
    apply add_slab_ordered
    · simp [xio_mempool_create]
    · simp [slab_sizes, xio_mempool_create]
    · right; rfl
  · intro p size min max q ok hp
    have hlen : p.slabs_nr ≤ p.slab.length := by rw [hp.1]; omega
    constructor
    · exact add_slab_exists p size min max q ok hlen hp.2.1
    · intro hnot
      obtain ⟨k, hk, hlo, hhi, he⟩ := add_slab_inserts p size min max q ok hlen hp.2.1 hnot
      refine ⟨k, hk, hlo, hhi, ?_⟩
      rw [he]
      refine ⟨rfl, ?_, rfl, slab_sizes_add_slab_at p size min max q k ok hlen hk,
        add_slab_at_new p size min max q k ok hlen hk,
        add_slab_at_below p size min max q k ok hlen hk,
        add_slab_at_above p size min max q k ok hlen hk⟩
      have := add_slab_ordered p size min max q ok hlen hp.2.1 (Or.inl hp)
      rw [he] at this
      exact this

/-! ### Block memory -/

theorem mem_read_lt (mem : BlockMem) (q : BlockPtr) (b : xio_mem_block)
    (h : mem_read mem q = some b) : q.region < mem.length := by
  unfold mem_read at h
  cases hr : mem[q.region]? with
  | none => simp [hr] at h
  | some r =>
    exact (List.getElem?_eq_some.mp hr).1

theorem mem_write_length (mem : BlockMem) (p : BlockPtr) (b : xio_mem_block) :
    (mem_write mem p b).length = mem.length := by
  unfold mem_write
  cases mem[p.region]? <;> simp

theorem mem_read_write (mem : BlockMem) (p q : BlockPtr) (b : xio_mem_block) :
    mem_read (mem_write mem p b) q =
      if q = p then (mem_read mem p).map (fun _ => b) else mem_read mem q := by
  unfold mem_write
  cases hr : mem[p.region]? with
  | none =>
    by_cases hq : q = p
    · subst hq; simp [mem_read, hr]
    · simp [hq]
  | some r =>
    have hlt : p.region < mem.length := (List.getElem?_eq_some.mp hr).1
    by_cases hq : q = p
    · subst hq
      simp only [mem_read, hr, if_true, List.getElem?_set, hlt]
      by_cases hi : q.index < r.length
      · simp [hi, List.getElem?_eq_getElem hi]
      · simp [hi, List.getElem?_eq_none (Nat.le_of_not_lt hi)]
    · simp only [hq, if_false]
      by_cases hreg : q.region = p.region
      · have hidx : p.index ≠ q.index := by
          intro h; apply hq
          cases p; cases q; simp_all
        simp only [mem_read, hreg, List.getElem?_set, hlt, if_true, hr,
          List.getElem?_set_ne hidx]
      · have hne : p.region ≠ q.region := fun h => hreg h.symm
        simp only [mem_read, List.getElem?_set_ne hne]

theorem mem_read_append_lt (mem : BlockMem) (bl : List xio_mem_block) (q : BlockPtr)
    (h : q.region < mem.length) : mem_read (mem ++ [bl]) q = mem_read mem q := by
  simp only [mem_read, List.getElem?_append_left h]

theorem mem_read_append_new (mem : BlockMem) (bl : List xio_mem_block) (i : Nat) :
    mem_read (mem ++ [bl]) ⟨mem.length, i⟩ = bl[i]? := by
  simp [mem_read]

theorem mem_read_append_cases (mem : BlockMem) (bl : List xio_mem_block) (q : BlockPtr)
    (b : xio_mem_block) (h : mem_read (mem ++ [bl]) q = some b) :
    (q.region < mem.length ∧ mem_read mem q = some b) ∨
    (q.region = mem.length ∧ bl[q.index]? = some b) := by
  have hlt := mem_read_lt _ _ _ h
  simp only [List.length_append, List.length_singleton] at hlt
  by_cases hq : q.region < mem.length
  · left; exact ⟨hq, by rw [← mem_read_append_lt mem bl q hq]; exact h⟩
  · right
    have he : q.region = mem.length := by omega
    refine ⟨he, ?_⟩
    have : q = ⟨mem.length, q.index⟩ := by cases q; simp_all
    rw [this, mem_read_append_new] at h
    exact h

/-! ### The well-formedness of a pool is kept by an update of one slab -/

theorem slab_sizes_set (p : xio_mempool) (k : Nat) (s s1 : xio_mem_slab) (mem1 : BlockMem)
    (hk : p.slab[k]? = some s) (hsz : s1.mb_size = s.mb_size) :
    slab_sizes { p with slab := p.slab.set k s1, mem := mem1 } = slab_sizes p := by
  simp only [slab_sizes]
  apply List.ext_getElem?
  intro i
  simp only [List.getElem?_map, List.getElem?_take, List.getElem?_set]
  by_cases hi : i < p.slabs_nr
  · simp only [hi, if_true]
    by_cases hki : k = i
    · subst hki
      have hlt : k < p.slab.length := (List.getElem?_eq_some.mp hk).1
      simp [hlt, hk, hsz]
    · simp [hki]
  · simp [hi]

theorem pool_wf_update (p : xio_mempool) (k : Nat) (s s1 : xio_mem_slab) (mem1 : BlockMem)
    (hwf : pool_wf p) (hk : p.slab[k]? = some s) (hkn : k < p.slabs_nr)
    (ha : s1.mb_size = s.mb_size)
    (hb : p.mem.length ≤ mem1.length)
    (hc : ∀ ptr b1, mem_read mem1 ptr = some b1 →
      (∃ b, mem_read p.mem ptr = some b ∧ b1.parent_slab = b.parent_slab) ∨
      (p.mem.length ≤ ptr.region ∧ b1.parent_slab = k ∧ ptr ∈ s1.blocks_list))
    (hd : ∀ ptr b, mem_read p.mem ptr = some b →
      ∃ b1, mem_read mem1 ptr = some b1 ∧ b1.parent_slab = b.parent_slab)
    (he1 : ∀ ptr ∈ s.blocks_list, ptr ∈ s1.blocks_list)
    (he2 : ∀ ptr ∈ s1.blocks_list, ptr ∈ s.blocks_list ∨
      ∃ b1, mem_read mem1 ptr = some b1 ∧ b1.parent_slab = k)
    (hf : ∀ q, s1.free_blocks_list = some q →
      q.region < mem1.length ∧ ∀ b1, mem_read mem1 q = some b1 → b1.parent_slab = k)
    (hg : ∀ ptr b1 q, mem_read mem1 ptr = some b1 → b1.next = some q →
      q.region < mem1.length ∧ ∀ c, mem_read mem1 q = some c → c.parent_slab = b1.parent_slab) :
    pool_wf { p with slab := p.slab.set k s1, mem := mem1 } := by
  obtain ⟨hshape, hB1, hB2, hF, hN⟩ := hwf
  have hklt : k < p.slab.length := (List.getElem?_eq_some.mp hk).1
  have hord : slabs_ordered p := by
    rcases hshape with h | h
    · rw [h.1] at hk; simp at hk
    · exact h
  have hget : ∀ j, (p.slab.set k s1)[j]? = if k = j then some s1 else p.slab[j]? := by
    intro j; rw [List.getElem?_set]; simp [hklt]
  refine ⟨Or.inr ⟨?_, ?_, ?_⟩, ?_, ?_, ?_, ?_⟩
  · show (p.slab.set k s1).length = p.slabs_nr + 1
    rw [List.length_set]; exact hord.1
  · rw [slab_sizes_set p k s s1 mem1 hk ha]; exact hord.2.1
  · show ((p.slab.set k s1)[p.slabs_nr]?).map _ = _
    rw [hget, if_neg (by omega)]; exact hord.2.2
  · intro ptr b1 hr
    show b1.parent_slab < p.slabs_nr ∧ ∃ t, (p.slab.set k s1)[b1.parent_slab]? = some t ∧ _
    rcases hc ptr b1 hr with ⟨b, hb0, hpar⟩ | ⟨_, hpar, hmem⟩
    · obtain ⟨hlt, t, ht, hin⟩ := hB1 ptr b hb0
      rw [hpar]
      refine ⟨hlt, ?_⟩
      rw [hget]
      by_cases hkp : k = b.parent_slab
      · subst hkp
        rw [hk] at ht
        cases ht
        exact ⟨s1, by simp, he1 ptr hin⟩
      · exact ⟨t, by simp [hkp, ht], hin⟩
    · rw [hpar]
      exact ⟨hkn, s1, by rw [hget]; simp, hmem⟩
  · intro j t ptr ht hin
    show ∃ b, mem_read mem1 ptr = some b ∧ b.parent_slab = j
    change (p.slab.set k s1)[j]? = some t at ht
    rw [hget] at ht
    by_cases hkj : k = j
    · subst hkj
      simp only [if_true, Option.some.injEq] at ht
      subst ht
      rcases he2 ptr hin with h | h
      · obtain ⟨b, hb0, hpar⟩ := hB2 k s ptr hk h
        obtain ⟨b1, hb1, hp1⟩ := hd ptr b hb0
        exact ⟨b1, hb1, by rw [hp1, hpar]⟩
      · exact h
    · simp only [hkj, if_false] at ht
      obtain ⟨b, hb0, hpar⟩ := hB2 j t ptr ht hin
      obtain ⟨b1, hb1, hp1⟩ := hd ptr b hb0
      exact ⟨b1, hb1, by rw [hp1, hpar]⟩
  · intro j t q ht hq
    show q.region < mem1.length ∧ ∀ b, mem_read mem1 q = some b → b.parent_slab = j
    change (p.slab.set k s1)[j]? = some t at ht
    rw [hget] at ht
    by_cases hkj : k = j
    · subst hkj
      simp only [if_true, Option.some.injEq] at ht
      subst ht
      exact hf q hq
    · simp only [hkj, if_false] at ht
      obtain ⟨hreg, hown⟩ := hF j t q ht hq
      refine ⟨by omega, ?_⟩
      intro b1 hb1
      rcases hc q b1 hb1 with ⟨b, hb0, hpar⟩ | ⟨hge, _, _⟩
      · rw [hpar]; exact hown b hb0
      · omega
  · exact hg

theorem mem_read_append_cases_new (mem : BlockMem) (bl : List xio_mem_block) (q : BlockPtr)
    (b : xio_mem_block) (hreg : q.region = mem.length) (h : bl[q.index]? = some b) :
    mem_read (mem ++ [bl]) q = some b := by
  have : q = ⟨mem.length, q.index⟩ := by cases q; simp_all
  rw [this, mem_read_append_new]; exact h
/-! ### Taking a block, releasing a block -/

theorem new_block_cases (safe_mt : Bool) (s : xio_mem_slab) (mem : BlockMem)
    (r : xio_mem_slab × BlockMem × Option BlockPtr) (h : new_block safe_mt s mem = some r) :
    (s.free_blocks_list = none ∧ r = (s, mem, none)) ∨
    (∃ q b b1, s.free_blocks_list = some q ∧ mem_read mem q = some b ∧
      b1.parent_slab = b.parent_slab ∧ (b1.next = b.next ∨ b1.next = none) ∧
      b1.omr = b.omr ∧ b1.buf = b.buf ∧
      r = ({ s with free_blocks_list := b.next }, mem_write mem q b1, some q)) := by
  unfold new_block at h
  cases hf : s.free_blocks_list with
  | none =>
    left
    refine ⟨rfl, ?_⟩
    cases safe_mt <;> simp [safe_new_block, non_safe_new_block, hf] at h <;> exact h.symm
  | some q =>
    right
    cases hq : mem_read mem q with
    | none => cases safe_mt <;> simp [safe_new_block, non_safe_new_block, hf, hq] at h
    | some b =>
      cases safe_mt
      · simp only [Bool.false_eq_true, if_false, non_safe_new_block, hf, hq,
          Option.some.injEq] at h
        exact ⟨q, b, { b with next := none }, rfl, hq, rfl, Or.inr rfl, rfl, rfl, h.symm⟩
      · simp only [if_true, safe_new_block, hf, hq, Option.some.injEq] at h
        exact ⟨q, b, { b with refcnt_claim := clear_lowest_bit (b.refcnt_claim + 2) },
          rfl, hq, rfl, Or.inl rfl, rfl, rfl, h.symm⟩

theorem mem_read_write_of_some (mem : BlockMem) (q ptr : BlockPtr) (b b1 : xio_mem_block)
    (hq : mem_read mem q = some b) :
    mem_read (mem_write mem q b1) ptr = if ptr = q then some b1 else mem_read mem ptr := by
  rw [mem_read_write, hq]; rfl

theorem pool_wf_write (p : xio_mempool) (k : Nat) (s s1 : xio_mem_slab) (q : BlockPtr)
    (b b1 : xio_mem_block) (hwf : pool_wf p) (hk : p.slab[k]? = some s) (hkn : k < p.slabs_nr)
    (hq : mem_read p.mem q = some b)
    (hpar : b1.parent_slab = b.parent_slab)
    (hnext : ∀ q2, b1.next = some q2 →
      q2.region < p.mem.length ∧ ∀ c, mem_read p.mem q2 = some c → c.parent_slab = b.parent_slab)
    (ha : s1.mb_size = s.mb_size) (hbl : s1.blocks_list = s.blocks_list)
    (hfree : ∀ q2, s1.free_blocks_list = some q2 →
      q2.region < p.mem.length ∧ ∀ c, mem_read p.mem q2 = some c → c.parent_slab = k) :
    pool_wf { p with slab := p.slab.set k s1, mem := mem_write p.mem q b1 } := by
  have hrw := fun ptr => mem_read_write_of_some p.mem q ptr b b1 hq
  have hown : ∀ ptr c1, mem_read (mem_write p.mem q b1) ptr = some c1 →
      ∃ c, mem_read p.mem ptr = some c ∧ c1.parent_slab = c.parent_slab := by
    intro ptr c1 h
    rw [hrw] at h
    by_cases hp : ptr = q
    · subst hp
      simp only [if_true, Option.some.injEq] at h
      subst h
      exact ⟨b, hq, hpar⟩
    · simp only [hp, if_false] at h
      exact ⟨c1, h, rfl⟩
  have hN := hwf.2.2.2.2
  apply pool_wf_update p k s s1 _ hwf hk hkn ha
  · rw [mem_write_length]
  · intro ptr c1 h; exact Or.inl (hown ptr c1 h)
  · intro ptr c h
    by_cases hp : ptr = q
    · subst hp
      rw [hq] at h; cases h
      exact ⟨b1, by rw [hrw]; simp, hpar⟩
    · exact ⟨c, by rw [hrw]; simp [hp, h], rfl⟩
  · intro ptr h; rw [hbl]; exact h
  · intro ptr h; rw [hbl] at h; exact Or.inl h
  · intro q2 h2
    obtain ⟨hreg, hpar2⟩ := hfree q2 h2
    refine ⟨by rw [mem_write_length]; exact hreg, ?_⟩
    intro c1 hc1
    obtain ⟨c, hc, hp⟩ := hown q2 c1 hc1
    rw [hp]; exact hpar2 c hc
  · intro ptr c1 q2 hc1 hnx
    rw [mem_write_length]
    have hc1' := hc1
    rw [hrw] at hc1'
    by_cases hp : ptr = q
    · subst hp
      simp only [if_true, Option.some.injEq] at hc1'
      subst hc1'
      obtain ⟨hreg, hpar2⟩ := hnext q2 hnx
      refine ⟨hreg, ?_⟩
      intro c hc
      obtain ⟨c0, hc0, hp0⟩ := hown q2 c hc
      rw [hp0, hpar2 c0 hc0, hpar]
    · simp only [hp, if_false] at hc1'
      obtain ⟨hreg, hpar2⟩ := hN ptr c1 q2 hc1' hnx
      refine ⟨hreg, ?_⟩
      intro c hc
      obtain ⟨c0, hc0, hp0⟩ := hown q2 c hc
      rw [hp0, hpar2 c0 hc0]

/-- A slab update that touches neither the size, the lists nor the memory keeps
the pool well-formed. -/
theorem pool_wf_fields (p : xio_mempool) (k : Nat) (s s1 : xio_mem_slab)
    (hwf : pool_wf p) (hk : p.slab[k]? = some s) (hkn : k < p.slabs_nr)
    (ha : s1.mb_size = s.mb_size) (hbl : s1.blocks_list = s.blocks_list)
    (hfl : s1.free_blocks_list = s.free_blocks_list) :
    pool_wf { p with slab := p.slab.set k s1, mem := p.mem } := by
  have hwf' := hwf
  obtain ⟨_, _, _, hF, hN⟩ := hwf'
  apply pool_wf_update p k s s1 _ hwf hk hkn ha (Nat.le_refl _)
  · intro ptr c1 h; exact Or.inl ⟨c1, h, rfl⟩
  · intro ptr c h; exact ⟨c, h, rfl⟩
  · intro ptr h; rw [hbl]; exact h
  · intro ptr h; rw [hbl] at h; exact Or.inl h
  · intro q hq; rw [hfl] at hq; exact hF k s q hk hq
  · exact hN

theorem resize_clamp_fields (s : xio_mem_slab) :
    (resize_clamp s).mb_size = s.mb_size ∧ (resize_clamp s).blocks_list = s.blocks_list ∧
    (resize_clamp s).free_blocks_list = s.free_blocks_list ∧
    (resize_clamp s).curr_mb_nr = s.curr_mb_nr ∧ (resize_clamp s).max_mb_nr = s.max_mb_nr ∧
    (resize_clamp s).used_mb_nr = s.used_mb_nr ∧
    (resize_clamp s).alloc_quantum_nr = s.alloc_quantum_nr ∧
    (resize_clamp s).mem_regions_list = s.mem_regions_list := by
  unfold resize_clamp
  split <;> exact ⟨rfl, rfl, rfl, rfl, rfl, rfl, rfl, rfl⟩
/-! ### Growth of a slab -/

theorem resize_fail (self : Nat) (flags : xio_mempool_flags) (ok : Bool) (s : xio_mem_slab)
    (mem : BlockMem) (alloc : Bool)
    (h : resize_nr_blocks (resize_clamp s) ≤ 0 ∨ region_obtained flags ok = false) :
    xio_mem_slab_resize self flags ok s mem alloc = (resize_clamp s, mem, none) := by
  unfold xio_mem_slab_resize
  simp only []
  by_cases h1 : resize_nr_blocks (resize_clamp s) ≤ 0
  · rw [if_pos h1]
  · rw [if_neg h1]
    rcases h with h | h
    · exact absurd h h1
    · rw [if_pos h]

/-- The blocks of the region built by a successful `xio_mem_slab_resize`. -/
theorem resize_blocks (self : Nat) (omr : Option Nat) (mb_size r n : Nat) (alloc : Bool)
    (old_head : Option BlockPtr) (i : Nat) (b : xio_mem_block)
    (h : (resize_region_blocks self omr mb_size r n alloc old_head)[i]? = some b) :
    i < n ∧ b.parent_slab = self ∧ b.omr = omr ∧ b.buf = (r, i * mb_size) ∧
    (b.next = none ∨ b.next = old_head ∨ (b.next = some ⟨r, i + 1⟩ ∧ i + 1 < n)) := by
  unfold resize_region_blocks at h
  rw [List.getElem?_modify] at h
  have h0 : ∀ j, (resize_init_blocks self omr mb_size r n)[j]? =
      if j < n then some { parent_slab := self, omr := omr, buf := (r, j * mb_size),
                           next := if j + 1 < n then some ⟨r, j + 1⟩ else none,
                           refcnt_claim := 1 } else none := by
    intro j
    simp only [resize_init_blocks, List.getElem?_map]
    by_cases hj : j < n
    · simp [List.getElem?_range hj, hj]
    · rw [if_neg hj, List.getElem?_eq_none (by simp; omega)]; rfl
  by_cases hi : i < n
  · refine ⟨hi, ?_⟩
    cases alloc
    · simp only [Bool.false_eq_true, if_false, h0, hi, if_true, Option.map_eq_map,
        Option.map_some', Option.some.injEq] at h
      subst h
      by_cases h1 : n - 1 = i
      · simp [h1]
      · simp only [h1, if_false, true_and]
        by_cases h2 : i + 1 < n
        · simp [h2]
        · simp [h2]
    · simp only [if_true, List.getElem?_modifyHead, h0, hi, Option.map_eq_map] at h
      by_cases hz : i = 0
      · subst hz
        simp only [if_true, Option.map_some', Option.some.injEq] at h
        subst h
        by_cases h1 : n - 1 = 0
        · simp [h1]
        · simp [h1]
      · simp only [hz, if_false, Option.map_some', Option.some.injEq] at h
        subst h
        by_cases h1 : n - 1 = i
        · simp [h1]
        · simp only [h1, if_false, true_and]
          by_cases h2 : i + 1 < n
          · simp [h2]
          · simp [h2]
  · exfalso
    cases alloc
    · simp [h0, hi] at h
    · simp only [if_true, List.getElem?_modifyHead, h0, hi, if_false] at h
      by_cases hz : i = 0 <;> simp [hz] at h

theorem resize_region_blocks_length (self : Nat) (omr : Option Nat) (mb_size r n : Nat)
    (alloc : Bool) (old_head : Option BlockPtr) :
    (resize_region_blocks self omr mb_size r n alloc old_head).length = n := by
  unfold resize_region_blocks
  cases alloc <;> simp [resize_init_blocks]

/-- Shape of a successful `xio_mem_slab_resize`. -/
theorem resize_grow (self : Nat) (flags : xio_mempool_flags) (ok : Bool) (s : xio_mem_slab)
    (mem : BlockMem) (alloc : Bool) (hn : 0 < resize_nr_blocks (resize_clamp s))
    (hok : region_obtained flags ok = true) :
    xio_mem_slab_resize self flags ok s mem alloc =
      (resize_slab (resize_clamp s) mem.length (resize_nr_blocks (resize_clamp s)).toNat
          (resize_nr_blocks (resize_clamp s)) alloc,
       mem ++ [resize_region_blocks self (if flags.reg_mr then some mem.length else none)
                (resize_clamp s).mb_size mem.length (resize_nr_blocks (resize_clamp s)).toNat
                alloc (resize_clamp s).free_blocks_list],
       some ⟨mem.length, 0⟩) := by
  unfold xio_mem_slab_resize
  simp only []
  rw [if_neg (by omega), if_neg (by simp [hok])]

theorem mem_resize_slab (slab1 : xio_mem_slab) (r n : Nat) (nr : Int) (alloc : Bool)
    (ptr : BlockPtr) :
    ptr ∈ (resize_slab slab1 r n nr alloc).blocks_list ↔
      (ptr.region = r ∧ ptr.index < n) ∨ ptr ∈ slab1.blocks_list := by
  simp only [resize_slab, List.mem_append, List.mem_reverse, List.mem_map, List.mem_range]
  constructor
  · rintro (⟨i, hi, rfl⟩ | h)
    · exact Or.inl ⟨rfl, hi⟩
    · exact Or.inr h
  · rintro (⟨h1, h2⟩ | h)
    · exact Or.inl ⟨ptr.index, h2, by cases ptr; simp_all⟩
    · exact Or.inr h

theorem pool_wf_grow (p : xio_mempool) (k : Nat) (s s2 : xio_mem_slab) (n : Nat)
    (omr : Option Nat) (mbsz : Nat) (alloc : Bool) (j : Nat)
    (hwf : pool_wf p) (hk : p.slab[k]? = some s) (hkn : k < p.slabs_nr)
    (ha : s2.mb_size = s.mb_size)
    (hbl : ∀ ptr, ptr ∈ s2.blocks_list ↔
      (ptr.region = p.mem.length ∧ ptr.index < n) ∨ ptr ∈ s.blocks_list)
    (hfl : s2.free_blocks_list = some ⟨p.mem.length, j⟩) :
    pool_wf { p with
      slab := p.slab.set k s2
      mem := p.mem ++ [resize_region_blocks k omr mbsz p.mem.length n alloc s.free_blocks_list] } := by
  have hF := hwf.2.2.2.1
  have hN := hwf.2.2.2.2
  have hlen := resize_region_blocks_length k omr mbsz p.mem.length n alloc s.free_blocks_list
  have hnew : ∀ ptr b, ptr.region = p.mem.length →
      mem_read (p.mem ++ [resize_region_blocks k omr mbsz p.mem.length n alloc
        s.free_blocks_list]) ptr = some b →
      (resize_region_blocks k omr mbsz p.mem.length n alloc s.free_blocks_list)[ptr.index]?
        = some b := by
    intro ptr b hreg h
    rcases mem_read_append_cases _ _ _ _ h with ⟨h1, _⟩ | ⟨_, h2⟩
    · omega
    · exact h2
  apply pool_wf_update p k s s2 _ hwf hk hkn ha
  · simp
  · intro ptr b1 h
    rcases mem_read_append_cases _ _ _ _ h with ⟨_, h2⟩ | ⟨h1, h2⟩
    · exact Or.inl ⟨b1, h2, rfl⟩
    · right
      obtain ⟨hi, hpar, _⟩ := resize_blocks _ _ _ _ _ _ _ _ _ h2
      exact ⟨by omega, hpar, (hbl ptr).mpr (Or.inl ⟨h1, hi⟩)⟩
  · intro ptr b h
    exact ⟨b, by rw [mem_read_append_lt _ _ _ (mem_read_lt _ _ _ h)]; exact h, rfl⟩
  · intro ptr h; exact (hbl ptr).mpr (Or.inr h)
  · intro ptr h
    rcases (hbl ptr).mp h with ⟨h1, h2⟩ | h
    · right
      have : ptr = ⟨p.mem.length, ptr.index⟩ := by cases ptr; simp_all
      rw [this, mem_read_append_new]
      have hlt : ptr.index <
          (resize_region_blocks k omr mbsz p.mem.length n alloc s.free_blocks_list).length := by
        rw [hlen]; exact h2
      refine ⟨_, List.getElem?_eq_getElem hlt, ?_⟩
      exact (resize_blocks _ _ _ _ _ _ _ _ _ (List.getElem?_eq_getElem hlt)).2.1
    · exact Or.inl h
  · intro q hq
    rw [hfl] at hq
    cases hq
    refine ⟨by simp, ?_⟩
    intro b1 hb1
    exact (resize_blocks _ _ _ _ _ _ _ _ _ (hnew _ b1 rfl hb1)).2.1
  · intro ptr b1 q hb1 hnx
    rcases mem_read_append_cases _ _ _ _ hb1 with ⟨_, h2⟩ | ⟨h1, h2⟩
    · obtain ⟨hreg, hpar⟩ := hN ptr b1 q h2 hnx
      refine ⟨by simp; omega, ?_⟩
      intro c hc
      rw [mem_read_append_lt _ _ _ hreg] at hc
      exact hpar c hc
    · obtain ⟨hi, hpar, _, _, hnext⟩ := resize_blocks _ _ _ _ _ _ _ _ _ h2
      rcases hnext with h | h | ⟨h, hi1⟩
      · rw [h] at hnx; cases hnx
      · rw [h] at hnx
        obtain ⟨hreg, hown⟩ := hF k s q hk hnx
        refine ⟨by simp; omega, ?_⟩
        intro c hc
        rw [mem_read_append_lt _ _ _ hreg] at hc
        rw [hpar]; exact hown c hc
      · rw [h] at hnx
        cases hnx
        refine ⟨by simp, ?_⟩
        intro c hc
        rw [hpar]
        exact (resize_blocks _ _ _ _ _ _ _ _ _ (hnew _ c rfl hc)).2.1
/-! ### The three ways through one pass of `xio_mempool_alloc` -/

theorem int_index_ne (k : Nat) : ¬ ((k : Int) = -1) := by omega

/-- Pass through `retry` at a slab whose free list starts with a block: the block is
taken and returned. -/
theorem alloc_retry_take (length : Nat) (ok : Nat → Bool) (fuel : Nat) (p : xio_mempool)
    (k : Nat) (s : xio_mem_slab) (q : BlockPtr) (b : xio_mem_block)
    (hk : p.slab[k]? = some s) (hf : s.free_blocks_list = some q)
    (hq : mem_read p.mem q = some b) :
    ∃ b1, b1.parent_slab = b.parent_slab ∧ (b1.next = b.next ∨ b1.next = none) ∧
      b1.omr = b.omr ∧ b1.buf = b.buf ∧
      xio_mempool_alloc_retry length ok (fuel + 1) p (k : Int) =
        .ok { ret := 0
              errno := none
              mp_obj := { addr := some b.buf, mr := b.omr, cache := some q, length := length }
              pool := { p with
                        slab := p.slab.set k { s with free_blocks_list := b.next
                                                      used_mb_nr := s.used_mb_nr + 1 }
                        mem := mem_write p.mem q b1 } } := by
  cases hs : p.safe_mt
  · refine ⟨{ b with next := none }, rfl, Or.inr rfl, rfl, rfl, ?_⟩
    simp only [xio_mempool_alloc_retry, int_index_ne, if_false, Int.toNat_ofNat, hk, new_block,
      hs, Bool.false_eq_true, non_safe_new_block, hf, hq, alloc_finish,
      mem_read_write_of_some _ _ _ _ _ hq, if_true]
  · refine ⟨{ b with refcnt_claim := clear_lowest_bit (b.refcnt_claim + 2) }, rfl, Or.inl rfl,
      rfl, rfl, ?_⟩
    simp only [xio_mempool_alloc_retry, int_index_ne, if_false, Int.toNat_ofNat, hk, new_block,
      hs, if_true, safe_new_block, hf, hq, alloc_finish,
      mem_read_write_of_some _ _ _ _ _ hq]

theorem new_block_empty (safe_mt : Bool) (s : xio_mem_slab) (mem : BlockMem)
    (hf : s.free_blocks_list = none) : new_block safe_mt s mem = some (s, mem, none) := by
  cases safe_mt <;> simp [new_block, safe_new_block, non_safe_new_block, hf]

/-- Pass through `retry` at a slab with an empty free list that grows: the first
block of the new region is returned. -/
theorem alloc_retry_grow (length : Nat) (ok : Nat → Bool) (fuel : Nat) (p : xio_mempool)
    (k : Nat) (s : xio_mem_slab)
    (hk : p.slab[k]? = some s) (hf : s.free_blocks_list = none)
    (hn : 0 < resize_nr_blocks (resize_clamp s)) (hok : region_obtained p.flags (ok k) = true) :
    xio_mempool_alloc_retry length ok (fuel + 1) p (k : Int) =
      .ok { ret := 0
            errno := none
            mp_obj := { addr := some (p.mem.length, 0)
                        mr := if p.flags.reg_mr then some p.mem.length else none
                        cache := some ⟨p.mem.length, 0⟩
                        length := length }
            pool := { p with
                      slab := p.slab.set k
                        { resize_slab (resize_clamp s) p.mem.length
                            (resize_nr_blocks (resize_clamp s)).toNat
                            (resize_nr_blocks (resize_clamp s)) true with
                          used_mb_nr := s.used_mb_nr + 1 }
                      mem := p.mem ++ [resize_region_blocks k
                        (if p.flags.reg_mr then some p.mem.length else none)
                        (resize_clamp s).mb_size p.mem.length
                        (resize_nr_blocks (resize_clamp s)).toNat true
                        (resize_clamp s).free_blocks_list] } } := by
  have hpos : 0 < (resize_nr_blocks (resize_clamp s)).toNat := by omega
  have hlt : 0 < (resize_region_blocks k (if p.flags.reg_mr then some p.mem.length else none)
      (resize_clamp s).mb_size p.mem.length (resize_nr_blocks (resize_clamp s)).toNat true
      (resize_clamp s).free_blocks_list).length := by
    rw [resize_region_blocks_length]; exact hpos
  have hb := resize_blocks _ _ _ _ _ _ _ _ _ (List.getElem?_eq_getElem hlt)
  have hread := mem_read_append_new p.mem (resize_region_blocks k
      (if p.flags.reg_mr then some p.mem.length else none)
      (resize_clamp s).mb_size p.mem.length (resize_nr_blocks (resize_clamp s)).toNat true
      (resize_clamp s).free_blocks_list) 0
  rw [List.getElem?_eq_getElem hlt] at hread
  obtain ⟨_, _, hused, _⟩ := (resize_clamp_fields s).2.2.2
  simp only [xio_mempool_alloc_retry, int_index_ne, if_false, Int.toNat_ofNat, hk,
    new_block_empty _ _ _ hf, resize_grow _ _ _ _ _ _ hn hok, alloc_finish, hread]
  simp only [hb.2.2.1, hb.2.2.2.1, Nat.zero_mul]
  congr 3
  simp only [resize_slab, hused]

/-- Pass through `retry` at a slab with an empty free list that does not grow: the
allocation goes on with the next index, or with `-1` at the last slab or under
`XIO_MEMPOOL_FLAG_USE_SMALLEST_SLAB`. -/
theorem alloc_retry_pass (length : Nat) (ok : Nat → Bool) (fuel : Nat) (p : xio_mempool)
    (k : Nat) (s : xio_mem_slab)
    (hk : p.slab[k]? = some s) (hf : s.free_blocks_list = none)
    (hn : resize_nr_blocks (resize_clamp s) ≤ 0 ∨ region_obtained p.flags (ok k) = false) :
    xio_mempool_alloc_retry length ok (fuel + 1) p (k : Int) =
      xio_mempool_alloc_retry length ok fuel
        { p with slab := p.slab.set k (resize_clamp s), mem := p.mem }
        (if (k : Int) + 1 = (p.slabs_nr : Int) ∨ p.flags.use_smallest_slab = true then -1
         else (k : Int) + 1) := by
  simp only [xio_mempool_alloc_retry, int_index_ne, if_false, Int.toNat_ofNat, hk,
    new_block_empty _ _ _ hf, resize_fail _ _ _ _ _ _ hn]

theorem alloc_retry_invalid (length : Nat) (ok : Nat → Bool) (fuel : Nat) (p : xio_mempool) :
    xio_mempool_alloc_retry length ok (fuel + 1) p (-1) =
      .ok { ret := -1
            errno := some EINVAL
            mp_obj := { addr := none, mr := none, cache := none, length := 0 }
            pool := p } := by
  simp [xio_mempool_alloc_retry]
/-! ### `size2index` -/

theorem size2index_scan_spec (slab : List xio_mem_slab) (sz : Nat)
    (hlast : ∃ s, slab[slab.length - 1]? = some s ∧ sz ≤ s.mb_size) :
    ∀ (k i : Nat), i + (k + 1) = slab.length →
      ∃ j s, size2index_scan slab sz (k + 1) i = some j ∧ i ≤ j ∧ j < slab.length ∧
        slab[j]? = some s ∧ sz ≤ s.mb_size ∧
        ∀ m t, i ≤ m → m < j → slab[m]? = some t → t.mb_size < sz := by
  intro k
  induction k with
  | zero =>
    intro i hi
    obtain ⟨s, hs, hle⟩ := hlast
    have : slab.length - 1 = i := by omega
    rw [this] at hs
    refine ⟨i, s, ?_, Nat.le_refl _, by omega, hs, hle, ?_⟩
    · simp [size2index_scan, hs, hle]
    · intro m t h1 h2; omega
  | succ k ih =>
    intro i hi
    have hlt : i < slab.length := by omega
    have hsome : slab[i]? = some slab[i] := List.getElem?_eq_getElem hlt
    by_cases hle : sz ≤ slab[i].mb_size
    · refine ⟨i, slab[i], ?_, Nat.le_refl _, hlt, hsome, hle, ?_⟩
      · rw [size2index_scan, hsome]; simp [hle]
      · intro m t h1 h2; omega
    · obtain ⟨j, s, hj, hij, hjl, hjs, hjle, hmin⟩ := ih (i + 1) (by omega)
      refine ⟨j, s, ?_, by omega, hjl, hjs, hjle, ?_⟩
      · rw [size2index_scan, hsome]; simp only [hle, if_false]; exact hj
      · intro m t h1 h2 hm
        by_cases hmi : m = i
        · subst hmi
          rw [hsome] at hm; cases hm
          omega
        · exact hmin m t (by omega) h2 hm

/-- On an ordered slab array `size2index` returns the least index whose slab is large
enough, and `-1` exactly when every slab is too small. -/
theorem size2index_spec (p : xio_mempool) (sz : Nat) (hp : slabs_ordered p)
    (hsz : sz ≤ SIZE_MAX) :
    (∃ (i : Nat) (s : xio_mem_slab), size2index p sz = some (i : Int) ∧ i < p.slabs_nr ∧ p.slab[i]? = some s ∧
        sz ≤ s.mb_size ∧ ∀ (m : Nat) (t : xio_mem_slab), m < i → p.slab[m]? = some t → t.mb_size < sz) ∨
    (size2index p sz = some (-1) ∧
        ∀ (m : Nat) (t : xio_mem_slab), m < p.slabs_nr → p.slab[m]? = some t →
          t.mb_size < sz) := by
  obtain ⟨hlen, _, hsent⟩ := hp
  have hlast : ∃ s, p.slab[p.slab.length - 1]? = some s ∧ sz ≤ s.mb_size := by
    have : p.slab.length - 1 = p.slabs_nr := by omega
    rw [this]
    cases hs : p.slab[p.slabs_nr]? with
    | none => rw [hs] at hsent; simp at hsent
    | some s =>
      rw [hs] at hsent
      simp only [Option.map_some', Option.some.injEq] at hsent
      exact ⟨s, rfl, by omega⟩
  obtain ⟨j, s, hj, _, hjl, hjs, hjle, hmin⟩ :=
    size2index_scan_spec p.slab sz hlast p.slabs_nr 0 (by omega)
  by_cases hjn : j = p.slabs_nr
  · right
    refine ⟨by simp [size2index, hj, hjn], ?_⟩
    intro m t hm ht
    exact hmin m t (Nat.zero_le _) (by omega) ht
  · left
    refine ⟨j, s, by simp [size2index, hj, hjn], by omega, hjs, hjle, ?_⟩
    intro m t hm ht
    exact hmin m t (Nat.zero_le _) hm ht

/-! ### No fall-through under `XIO_MEMPOOL_FLAG_USE_SMALLEST_SLAB` -/

theorem resize_nr_blocks_full (s : xio_mem_slab) (h : s.curr_mb_nr = s.max_mb_nr) :
    resize_nr_blocks (resize_clamp s) ≤ 0 := by
  obtain ⟨_, _, _, h4, h5, _⟩ := resize_clamp_fields s
  unfold resize_nr_blocks
  rw [h4, h5]
  by_cases h0 : s.curr_mb_nr = 0
  · rw [if_pos h0]
    have hm : s.max_mb_nr = 0 := by omega
    by_cases h2 : (resize_clamp s).init_mb_nr = 0
    · rw [if_pos h2, hm]; exact min_le_left _ _
    · rw [if_neg h2]
      unfold resize_clamp
      by_cases h1 : s.curr_mb_nr = 0 ∧ s.init_mb_nr > s.max_mb_nr
      · rw [if_pos h1]; show s.max_mb_nr ≤ 0; omega
      · rw [if_neg h1]
        have : ¬ s.init_mb_nr > s.max_mb_nr := fun hh => h1 ⟨h0, hh⟩
        omega
  · rw [if_neg h0, h, sub_self]; exact min_le_left _ _

theorem set_clamp_alloc_state (l : List xio_mem_slab) (i : Nat) (s : xio_mem_slab)
    (hs : l[i]? = some s) (j : Nat) :
    ((l.set i (resize_clamp s))[j]?).map slab_alloc_state = (l[j]?).map slab_alloc_state := by
  have hlt : i < l.length := (List.getElem?_eq_some.mp hs).1
  obtain ⟨_, h2, h3, h4, _, h6, _⟩ := resize_clamp_fields s
  rw [List.getElem?_set]
  by_cases hij : i = j
  · subst hij
    simp [hlt, hs, slab_alloc_state, h2, h3, h4, h6]
  · simp [hij]

/-- C4 (as amended): in a pool created with `XIO_MEMPOOL_FLAG_USE_SMALLEST_SLAB`,
when the slab `i` selected by `size2index` has an empty free list and cannot grow,
`xio_mempool_alloc` returns `-1` with `errno = EINVAL`, the output object has `addr`,
`mr` and `cache` `NULL` and length 0, the block memory is untouched and no slab's
free list, used count, block count or block list changes (the only field written
is the clamped `init_mb_nr` of slab `i`), whatever the state of the larger slabs. -/
theorem C4_use_smallest_slab_fails_with_EINVAL (p : xio_mempool) (length : Nat)
    (ok : Nat → Bool) (i : Nat) (s : xio_mem_slab)
    (hflag : p.flags.use_smallest_slab = true)
    (hidx : size2index p length = some (i : Int)) (hi : i < p.slabs_nr)
    (hs : p.slab[i]? = some s)
    (hfree : s.free_blocks_list = none)
    (hgrow : slab_cannot_grow s (region_obtained p.flags (ok i))) :
    ∃ res, xio_mempool_alloc p length ok = .ok res ∧
      res.ret = -1 ∧ res.errno = some EINVAL ∧
      res.mp_obj = { addr := none, mr := none, cache := none, length := 0 } ∧
      res.pool.mem = p.mem ∧
      (∀ j : Nat, (res.pool.slab[j]?).map slab_alloc_state = (p.slab[j]?).map slab_alloc_state) := by
  obtain ⟨n, hn⟩ : ∃ n, p.slabs_nr = n + 1 := ⟨p.slabs_nr - 1, by omega⟩
  refine ⟨{ ret := -1, errno := some EINVAL
            mp_obj := { addr := none, mr := none, cache := none, length := 0 }
            pool := { p with slab := p.slab.set i (resize_clamp s), mem := p.mem } },
    ?_, rfl, rfl, rfl, rfl, ?_⟩
  · simp only [xio_mempool_alloc, hidx]
    rw [alloc_retry_pass length ok p.slabs_nr p i s hs hfree hgrow]
    simp only [hflag, or_true, if_true]
    rw [hn, alloc_retry_invalid]
  · intro j
    exact set_clamp_alloc_state p.slab i s hs j
/-! ### Re-parenting of the blocks by `xio_mempool_add_slab` -/

theorem reparent_read (ix : Nat) (l : List BlockPtr) :
    ∀ (mem : BlockMem) (ptr : BlockPtr),
      mem_read (reparent mem ix l) ptr =
        if ptr ∈ l then (mem_read mem ptr).map (fun b => { b with parent_slab := ix })
        else mem_read mem ptr := by
  induction l with
  | nil => intro mem ptr; simp [reparent]
  | cons q rest ih =>
    intro mem ptr
    cases hq : mem_read mem q with
    | none =>
      simp only [reparent, hq, ih, List.mem_cons]
      by_cases hp : ptr = q
      · subst hp; simp [hq]
      · simp [hp]
    | some blk =>
      simp only [reparent, hq, ih, List.mem_cons, mem_read_write_of_some _ _ _ _ _ hq]
      by_cases hp : ptr = q
      · subst hp
        by_cases hr : ptr ∈ rest
        · simp [hr, hq]
        · simp [hr, hq]
      · simp [hp]

theorem reparent_length (ix : Nat) (l : List BlockPtr) :
    ∀ (mem : BlockMem), (reparent mem ix l).length = mem.length := by
  induction l with
  | nil => intro mem; rfl
  | cons q rest ih =>
    intro mem
    cases hq : mem_read mem q with
    | none => simp only [reparent, hq, ih]
    | some blk => simp only [reparent, hq, ih, mem_write_length]

theorem reparent_slabs_length (l : List xio_mem_slab) :
    ∀ (mem : BlockMem) (ix : Nat), (reparent_slabs mem l ix).length = mem.length := by
  induction l with
  | nil => intro mem ix; rfl
  | cons s rest ih => intro mem ix; simp only [reparent_slabs, ih, reparent_length]

theorem reparent_slabs_read (l : List xio_mem_slab) :
    ∀ (mem : BlockMem) (ix : Nat) (ptr : BlockPtr),
      mem_read (reparent_slabs mem l ix) ptr = (mem_read mem ptr).map (reparent_of l ix ptr) := by
  induction l with
  | nil => intro mem ix ptr; simp [reparent_slabs, reparent_of]
  | cons s rest ih =>
    intro mem ix ptr
    simp only [reparent_slabs, ih, reparent_read, reparent_of]
    by_cases hp : ptr ∈ s.blocks_list
    · simp only [hp, if_true, Option.map_map]; rfl
    · simp only [hp, if_false]

theorem reparent_of_fields (l : List xio_mem_slab) :
    ∀ (ix : Nat) (ptr : BlockPtr) (b : xio_mem_block),
      (reparent_of l ix ptr b).next = b.next ∧ (reparent_of l ix ptr b).omr = b.omr ∧
      (reparent_of l ix ptr b).buf = b.buf ∧
      (reparent_of l ix ptr b).refcnt_claim = b.refcnt_claim := by
  induction l with
  | nil => intro ix ptr b; exact ⟨rfl, rfl, rfl, rfl⟩
  | cons s rest ih =>
    intro ix ptr b
    simp only [reparent_of]
    by_cases hp : ptr ∈ s.blocks_list
    · simp only [hp, if_true]; exact ih _ _ _
    · simp only [hp, if_false]; exact ih _ _ _

theorem reparent_of_out (l : List xio_mem_slab) :
    ∀ (ix : Nat) (ptr : BlockPtr) (b : xio_mem_block),
      (∀ s ∈ l, ptr ∉ s.blocks_list) → reparent_of l ix ptr b = b := by
  induction l with
  | nil => intro ix ptr b _; rfl
  | cons s rest ih =>
    intro ix ptr b h
    have h1 : ptr ∉ s.blocks_list := h s (List.mem_cons_self _ _)
    simp only [reparent_of, h1, if_false]
    exact ih _ _ _ (fun t ht => h t (List.mem_cons_of_mem _ ht))

theorem reparent_of_in (l : List xio_mem_slab) :
    ∀ (ix : Nat) (ptr : BlockPtr) (b : xio_mem_block) (j : Nat) (s : xio_mem_slab),
      l[j]? = some s → ptr ∈ s.blocks_list →
      (∀ (m : Nat) (t : xio_mem_slab), m ≠ j → l[m]? = some t → ptr ∉ t.blocks_list) →
      reparent_of l ix ptr b = { b with parent_slab := ix + j } := by
  induction l with
  | nil => intro ix ptr b j s h; simp at h
  | cons s0 rest ih =>
    intro ix ptr b j s hj hin huniq
    cases j with
    | zero =>
      simp only [List.getElem?_cons_zero, Option.some.injEq] at hj
      subst hj
      simp only [reparent_of, hin, if_true, Nat.add_zero]
      apply reparent_of_out
      intro t ht
      obtain ⟨m, hm⟩ := List.getElem?_of_mem ht
      exact huniq (m + 1) t (by omega) (by simpa using hm)
    | succ j =>
      have h0 : ptr ∉ s0.blocks_list := huniq 0 s0 (by omega) (by simp)
      simp only [reparent_of, h0, if_false]
      rw [ih (ix + 1) ptr b j s (by simpa using hj) hin]
      · congr 1; omega
      · intro m t hm ht
        exact huniq (m + 1) t (by omega) (by simpa using ht)
/-! ### `xio_mempool_alloc` and `xio_mempool_free` keep a pool well-formed -/

theorem alloc_retry_dangling (length : Nat) (ok : Nat → Bool) (fuel : Nat) (p : xio_mempool)
    (k : Nat) (s : xio_mem_slab) (q : BlockPtr)
    (hk : p.slab[k]? = some s) (hf : s.free_blocks_list = some q)
    (hq : mem_read p.mem q = none) :
    xio_mempool_alloc_retry length ok (fuel + 1) p (k : Int) = .error .invalid_deref := by
  cases hs : p.safe_mt <;>
    simp [xio_mempool_alloc_retry, int_index_ne, hk, new_block, hs, safe_new_block,
      non_safe_new_block, hf, hq]

theorem pool_wf_slab_exists (p : xio_mempool) (k : Nat) (hwf : pool_wf p) (hk : k < p.slabs_nr) :
    ∃ s, p.slab[k]? = some s := by
  rcases hwf.1 with h | h
  · omega
  · exact ⟨_, List.getElem?_eq_getElem (by rw [h.1]; omega)⟩

theorem alloc_retry_wf (length : Nat) (ok : Nat → Bool) :
    ∀ (fuel : Nat) (p : xio_mempool) (index : Int) (res : alloc_result),
      pool_wf p → (index = -1 ∨ ∃ k : Nat, index = (k : Int) ∧ k < p.slabs_nr) →
      xio_mempool_alloc_retry length ok fuel p index = .ok res → pool_wf res.pool := by
  intro fuel
  induction fuel with
  | zero => intro p index res _ _ h; simp [xio_mempool_alloc_retry] at h
  | succ fuel ih =>
    intro p index res hwf hidx h
    rcases hidx with rfl | ⟨k, rfl, hkn⟩
    · rw [alloc_retry_invalid] at h
      cases h; exact hwf
    · obtain ⟨s, hk⟩ := pool_wf_slab_exists p k hwf hkn
      have hF := hwf.2.2.2.1
      have hN := hwf.2.2.2.2
      cases hf : s.free_blocks_list with
      | some q =>
        cases hq : mem_read p.mem q with
        | none => rw [alloc_retry_dangling length ok fuel p k s q hk hf hq] at h; cases h
        | some b =>
          obtain ⟨b1, hpar, hnx, _, _, he⟩ := alloc_retry_take length ok fuel p k s q b hk hf hq
          rw [he] at h
          cases h
          have hbk : b.parent_slab = k := (hF k s q hk hf).2 b hq
          apply pool_wf_write p k s _ q b b1 hwf hk hkn hq hpar
          · intro q2 h2
            rcases hnx with h3 | h3
            · rw [h3] at h2; exact hN q b q2 hq h2
            · rw [h3] at h2; cases h2
          · rfl
          · rfl
          · intro q2 h2
            have := hN q b q2 hq h2
            rw [hbk] at this
            exact this
      | none =>
        by_cases hg : 0 < resize_nr_blocks (resize_clamp s) ∧ region_obtained p.flags (ok k) = true
        · rw [alloc_retry_grow length ok fuel p k s hk hf hg.1 hg.2] at h
          cases h
          obtain ⟨hc1, hc2, hc3, _⟩ := resize_clamp_fields s
          rw [hc3]
          apply pool_wf_grow p k s _ _ _ _ true 1 hwf hk hkn
          · exact hc1
          · intro ptr
            have := mem_resize_slab (resize_clamp s) p.mem.length
              (resize_nr_blocks (resize_clamp s)).toNat (resize_nr_blocks (resize_clamp s)) true ptr
            rw [hc2] at this
            exact this
          · rfl
        · have hg2 : resize_nr_blocks (resize_clamp s) ≤ 0 ∨ region_obtained p.flags (ok k) = false := by
            by_cases h1 : 0 < resize_nr_blocks (resize_clamp s)
            · right
              cases hok : region_obtained p.flags (ok k)
              · rfl
              · exact absurd ⟨h1, hok⟩ hg
            · left; omega
          rw [alloc_retry_pass length ok fuel p k s hk hf hg2] at h
          obtain ⟨hc1, hc2, hc3, _⟩ := resize_clamp_fields s
          refine ih _ _ res (pool_wf_fields p k s _ hwf hk hkn hc1 hc2 hc3) ?_ h
          by_cases hlast : (k : Int) + 1 = (p.slabs_nr : Int) ∨ p.flags.use_smallest_slab = true
          · left; rw [if_pos hlast]
          · right
            rw [if_neg hlast]
            refine ⟨k + 1, by push_cast; rfl, ?_⟩
            show k + 1 < p.slabs_nr
            have : ¬ ((k : Int) + 1 = (p.slabs_nr : Int)) := fun hh => hlast (Or.inl hh)
            omega

theorem alloc_wf (p : xio_mempool) (length : Nat) (ok : Nat → Bool) (res : alloc_result)
    (hwf : pool_wf p) (hlen : length ≤ SIZE_MAX)
    (h : xio_mempool_alloc p length ok = .ok res) : pool_wf res.pool := by
  rcases hwf.1 with h0 | hord
  · simp [xio_mempool_alloc, size2index, size2index_scan, h0.1] at h
  · unfold xio_mempool_alloc at h
    rcases size2index_spec p length hord hlen with ⟨i, s, hi, hin, _⟩ | ⟨hi, _⟩
    · rw [hi] at h
      exact alloc_retry_wf length ok _ p _ res hwf (Or.inr ⟨i, rfl, hin⟩) h
    · rw [hi] at h
      exact alloc_retry_wf length ok _ p _ res hwf (Or.inl rfl) h

theorem free_wf (p p1 : xio_mempool) (obj : Option xio_mempool_obj)
    (hwf : pool_wf p) (h : xio_mempool_free p obj = some p1) : pool_wf p1 := by
  unfold xio_mempool_free at h
  cases obj with
  | none => simp at h; subst h; exact hwf
  | some o =>
    simp only [] at h
    cases hc : o.cache with
    | none => simp [hc] at h; subst h; exact hwf
    | some ptr =>
      simp only [hc] at h
      cases hb : mem_read p.mem ptr with
      | none => simp [hb] at h
      | some b =>
        simp only [hb] at h
        obtain ⟨hjn, s, hs, _⟩ := hwf.2.1 ptr b hb
        have hF := hwf.2.2.2.1
        have hN := hwf.2.2.2.2
        simp only [hs, Option.some.injEq] at h
        subst h
        have hself : ∀ q2, some ptr = some q2 →
            q2.region < p.mem.length ∧
              ∀ c, mem_read p.mem q2 = some c → c.parent_slab = b.parent_slab := by
          intro q2 h2
          cases h2
          exact ⟨mem_read_lt _ _ _ hb, fun c hcq => by rw [hb] at hcq; cases hcq; rfl⟩
        split
        · simp only [safe_release]
          split
          · refine pool_wf_write p b.parent_slab s _ ptr b _ hwf hs hjn hb ?_ ?_ ?_ ?_ ?_
            · rfl
            · intro q2 h2; exact hN ptr b q2 hb h2
            · rfl
            · rfl
            · intro q2 h2; exact hF _ s q2 hs h2
          · refine pool_wf_write p b.parent_slab s _ ptr b _ hwf hs hjn hb ?_ ?_ ?_ ?_ ?_
            · rfl
            · intro q2 h2; exact hF _ s q2 hs h2
            · rfl
            · rfl
            · exact hself
        · simp only [non_safe_release]
          refine pool_wf_write p b.parent_slab s _ ptr b _ hwf hs hjn hb ?_ ?_ ?_ ?_ ?_
          · rfl
          · intro q2 h2; exact hF _ s q2 hs h2
          · rfl
          · rfl
          · exact hself
/-! ### `xio_mempool_add_slab` keeps a pool well-formed -/

theorem add_slab_grow_cases (k : Nat) (flags : xio_mempool_flags) (ok : Bool)
    (fresh : xio_mem_slab) (mem : BlockMem)
    (hfl : fresh.free_blocks_list = none) (hbl : fresh.blocks_list = []) :
    ((add_slab_grow k flags ok fresh mem).2 = mem ∧
      (add_slab_grow k flags ok fresh mem).1.blocks_list = [] ∧
      (add_slab_grow k flags ok fresh mem).1.free_blocks_list = none) ∨
    (∃ n omr mbsz,
      (add_slab_grow k flags ok fresh mem).2 =
        mem ++ [resize_region_blocks k omr mbsz mem.length n false none] ∧
      (∀ ptr, ptr ∈ (add_slab_grow k flags ok fresh mem).1.blocks_list ↔
        (ptr.region = mem.length ∧ ptr.index < n)) ∧
      (add_slab_grow k flags ok fresh mem).1.free_blocks_list = some ⟨mem.length, 0⟩) := by
  obtain ⟨_, hc2, hc3, _⟩ := resize_clamp_fields fresh
  unfold add_slab_grow
  split
  · by_cases hg : 0 < resize_nr_blocks (resize_clamp fresh) ∧ region_obtained flags ok = true
    · right
      obtain ⟨hn, hok⟩ := hg
      rw [resize_grow k flags ok fresh mem false hn hok]
      refine ⟨(resize_nr_blocks (resize_clamp fresh)).toNat,
        (if flags.reg_mr then some mem.length else none), (resize_clamp fresh).mb_size, ?_, ?_, rfl⟩
      · simp only [hc3, hfl]
      · intro ptr
        rw [mem_resize_slab, hc2, hbl]
        simp
    · left
      have hg2 : resize_nr_blocks (resize_clamp fresh) ≤ 0 ∨ region_obtained flags ok = false := by
        by_cases h1 : 0 < resize_nr_blocks (resize_clamp fresh)
        · right
          cases hok : region_obtained flags ok
          · rfl
          · exact absurd ⟨h1, hok⟩ hg
        · left; omega
      rw [resize_fail k flags ok fresh mem false hg2]
      exact ⟨rfl, by rw [hc2, hbl], by rw [hc3, hfl]⟩
  · left
    exact ⟨rfl, hbl, hfl⟩

theorem block_eta (b : xio_mem_block) : { b with parent_slab := b.parent_slab } = b := by
  cases b; rfl

/-- The slab found at an index of the array built by `add_slab_at`. -/
theorem add_slab_at_lookup (p : xio_mempool) (size min max q k : Nat) (ok : Bool)
    (hlen : p.slabs_nr ≤ p.slab.length) (hk : k ≤ p.slabs_nr) (m : Nat) (t : xio_mem_slab)
    (h : (add_slab_at p k size min max q ok).slab[m]? = some t) :
    (m < k ∧ p.slab[m]? = some t) ∨
    (m = k ∧ t = (add_slab_grow k p.flags ok (add_slab_fresh size min max q)
        (reparent_slabs p.mem ((p.slab.take p.slabs_nr).take k) 0)).1) ∨
    (k < m ∧ m ≤ p.slabs_nr ∧ p.slab[m - 1]? = some t) ∨
    (m = p.slabs_nr + 1 ∧ t = sentinel_slab) := by
  by_cases h1 : m < k
  · left
    rw [add_slab_at_below p size min max q k ok hlen hk m h1] at h
    exact ⟨h1, h⟩
  · by_cases h2 : m = k
    · right; left
      subst h2
      refine ⟨rfl, ?_⟩
      simp only [add_slab_at] at h
      have hl : (List.take m (List.take p.slabs_nr p.slab)).length = m := by simp; omega
      rw [List.getElem?_append_left (by simp; omega), List.getElem?_append_right (by omega),
        hl] at h
      simp at h
      exact h.symm
    · by_cases h3 : m ≤ p.slabs_nr
      · right; right; left
        have := add_slab_at_above p size min max q k ok hlen hk (m - 1) (by omega) (by omega)
        have hm : m - 1 + 1 = m := by omega
        rw [hm] at this
        rw [this] at h
        exact ⟨by omega, h3, h⟩
      · right; right; right
        have hl2 : ((p.slab.take p.slabs_nr).take k ++
            (add_slab_grow k p.flags ok (add_slab_fresh size min max q)
              (reparent_slabs p.mem ((p.slab.take p.slabs_nr).take k) 0)).1 ::
            (p.slab.take p.slabs_nr).drop k).length = p.slabs_nr + 1 := by
          simp only [List.length_append, List.length_cons, List.length_take, List.length_drop]
          omega
        simp only [add_slab_at] at h
        rw [List.getElem?_append_right (by omega), hl2] at h
        by_cases h4 : m = p.slabs_nr + 1
        · subst h4
          simp at h
          exact ⟨rfl, h.symm⟩
        · have : m - (p.slabs_nr + 1) = (m - (p.slabs_nr + 1) - 1) + 1 := by omega
          rw [this] at h
          simp at h

theorem take_take_lookup (p : xio_mempool) (k m : Nat) (t : xio_mem_slab)
    (h : ((p.slab.take p.slabs_nr).take k)[m]? = some t) : m < k ∧ p.slab[m]? = some t := by
  simp only [List.getElem?_take] at h
  by_cases h1 : m < k
  · rw [if_pos h1] at h
    by_cases h2 : m < p.slabs_nr
    · rw [if_pos h2] at h; exact ⟨h1, h⟩
    · rw [if_neg h2] at h; cases h
  · rw [if_neg h1] at h; cases h

theorem take_drop_lookup (p : xio_mempool) (k m : Nat) (t : xio_mem_slab)
    (h : ((p.slab.take p.slabs_nr).drop k)[m]? = some t) :
    k + m < p.slabs_nr ∧ p.slab[k + m]? = some t := by
  simp only [List.getElem?_drop, List.getElem?_take] at h
  by_cases h2 : k + m < p.slabs_nr
  · rw [if_pos h2] at h; exact ⟨h2, h⟩
  · rw [if_neg h2] at h; cases h

theorem reparent_lo_read (p : xio_mempool) (hwf : pool_wf p) (k : Nat)
    (ptr : BlockPtr) :
    mem_read (reparent_slabs p.mem ((p.slab.take p.slabs_nr).take k) 0) ptr
      = mem_read p.mem ptr := by
  obtain ⟨_, hB1, hB2, _, _⟩ := hwf
  rw [reparent_slabs_read]
  cases hb : mem_read p.mem ptr with
  | none => rfl
  | some b =>
    simp only [Option.map_some', Option.some.injEq]
    obtain ⟨hpn, t, ht, hin⟩ := hB1 ptr b hb
    by_cases hpk : b.parent_slab < k
    · have hl : ((p.slab.take p.slabs_nr).take k)[b.parent_slab]? = some t := by
        simp only [List.getElem?_take, hpk, hpn, if_true]; exact ht
      rw [reparent_of_in _ 0 ptr b b.parent_slab t hl hin]
      · rw [Nat.zero_add, block_eta]
      · intro m t2 hm ht2 hin2
        obtain ⟨_, ht2'⟩ := take_take_lookup p k m t2 ht2
        obtain ⟨b2, hb2, hp2⟩ := hB2 m t2 ptr ht2' hin2
        rw [hb] at hb2; cases hb2
        exact hm hp2.symm
    · apply reparent_of_out
      intro t2 ht2 hin2
      obtain ⟨m, hm⟩ := List.getElem?_of_mem ht2
      obtain ⟨hmk, ht2'⟩ := take_take_lookup p k m t2 hm
      obtain ⟨b2, hb2, hp2⟩ := hB2 m t2 ptr ht2' hin2
      rw [hb] at hb2; cases hb2
      omega

theorem reparent_hi_read (p : xio_mempool) (hwf : pool_wf p) (k : Nat)
    (mem2 : BlockMem) (ptr : BlockPtr) (b : xio_mem_block)
    (hb : mem_read p.mem ptr = some b) (h2 : mem_read mem2 ptr = some b) :
    mem_read (reparent_slabs mem2 ((p.slab.take p.slabs_nr).drop k) (k + 1)) ptr =
      some { b with parent_slab :=
              if b.parent_slab < k then b.parent_slab else b.parent_slab + 1 } := by
  obtain ⟨_, hB1, hB2, _, _⟩ := hwf
  rw [reparent_slabs_read, h2]
  simp only [Option.map_some', Option.some.injEq]
  obtain ⟨hpn, t, ht, hin⟩ := hB1 ptr b hb
  by_cases hpk : b.parent_slab < k
  · rw [if_pos hpk, block_eta]
    apply reparent_of_out
    intro t2 ht2 hin2
    obtain ⟨m, hm⟩ := List.getElem?_of_mem ht2
    obtain ⟨hmk, ht2'⟩ := take_drop_lookup p k m t2 hm
    obtain ⟨b2, hb2, hp2⟩ := hB2 (k + m) t2 ptr ht2' hin2
    rw [hb] at hb2; cases hb2
    omega
  · rw [if_neg hpk]
    have hl : ((p.slab.take p.slabs_nr).drop k)[b.parent_slab - k]? = some t := by
      simp only [List.getElem?_drop, List.getElem?_take]
      have : k + (b.parent_slab - k) = b.parent_slab := by omega
      rw [this, if_pos hpn]; exact ht
    rw [reparent_of_in _ (k + 1) ptr b (b.parent_slab - k) t hl hin]
    · congr 1; omega
    · intro m t2 hm ht2 hin2
      obtain ⟨_, ht2'⟩ := take_drop_lookup p k m t2 ht2
      obtain ⟨b2, hb2, hp2⟩ := hB2 (k + m) t2 ptr ht2' hin2
      rw [hb] at hb2; cases hb2
      omega

theorem reparent_hi_new (p : xio_mempool) (hwf : pool_wf p) (k : Nat)
    (mem2 : BlockMem) (ptr : BlockPtr) (hreg : p.mem.length ≤ ptr.region) :
    mem_read (reparent_slabs mem2 ((p.slab.take p.slabs_nr).drop k) (k + 1)) ptr =
      mem_read mem2 ptr := by
  obtain ⟨_, _, hB2, _, _⟩ := hwf
  rw [reparent_slabs_read]
  cases h2 : mem_read mem2 ptr with
  | none => rfl
  | some c =>
    simp only [Option.map_some', Option.some.injEq]
    apply reparent_of_out
    intro t2 ht2 hin2
    obtain ⟨m, hm⟩ := List.getElem?_of_mem ht2
    obtain ⟨_, ht2'⟩ := take_drop_lookup p k m t2 hm
    obtain ⟨b2, hb2, _⟩ := hB2 (k + m) t2 ptr ht2' hin2
    have := mem_read_lt _ _ _ hb2
    omega

theorem add_slab_at_self (p : xio_mempool) (size min max q k : Nat) (ok : Bool)
    (hlen : p.slabs_nr ≤ p.slab.length) (hk : k ≤ p.slabs_nr) :
    (add_slab_at p k size min max q ok).slab[k]? =
      some (add_slab_grow k p.flags ok (add_slab_fresh size min max q)
        (reparent_slabs p.mem ((p.slab.take p.slabs_nr).take k) 0)).1 := by
  simp only [add_slab_at]
  have h1 : (List.take k (List.take p.slabs_nr p.slab)).length = k := by simp; omega
  rw [List.getElem?_append_left (by simp; omega), List.getElem?_append_right (by omega)]
  rw [h1]; simp

theorem add_slab_at_wf (p : xio_mempool) (size min max q k : Nat) (ok : Bool)
    (hwf : pool_wf p) (hk : k ≤ p.slabs_nr)
    (hord : slabs_ordered (add_slab_at p k size min max q ok)) :
    pool_wf (add_slab_at p k size min max q ok) := by
  have hwf0 := hwf
  obtain ⟨hshape, hB1, hB2, hF, hN⟩ := hwf
  have hlen : p.slabs_nr ≤ p.slab.length := by
    rcases hshape with h | h
    · rw [h.2]; omega
    · rw [h.1]; omega
  have hlen1 : (reparent_slabs p.mem ((p.slab.take p.slabs_nr).take k) 0).length = p.mem.length :=
    reparent_slabs_length _ _ _
  have hA := reparent_lo_read p hwf0 k
  have hself := add_slab_at_self p size min max q k ok hlen hk
  have hlook := add_slab_at_lookup p size min max q k ok hlen hk
  have hmem : (add_slab_at p k size min max q ok).mem =
      reparent_slabs (add_slab_grow k p.flags ok (add_slab_fresh size min max q)
        (reparent_slabs p.mem ((p.slab.take p.slabs_nr).take k) 0)).2
        ((p.slab.take p.slabs_nr).drop k) (k + 1) := rfl
  have hnr : (add_slab_at p k size min max q ok).slabs_nr = p.slabs_nr + 1 := rfl
  have hcases := add_slab_grow_cases k p.flags ok (add_slab_fresh size min max q)
    (reparent_slabs p.mem ((p.slab.take p.slabs_nr).take k) 0) rfl rfl
  generalize hG : add_slab_grow k p.flags ok (add_slab_fresh size min max q)
    (reparent_slabs p.mem ((p.slab.take p.slabs_nr).take k) 0) = G at hself hlook hmem hcases
  generalize hP : add_slab_at p k size min max q ok = P at hord hself hlook hmem hnr ⊢
  -- length of the final memory
  have hlen3 : p.mem.length ≤ P.mem.length := by
    rw [hmem]
    rcases hcases with ⟨h1, _⟩ | ⟨n, omr, mbsz, h1, _⟩
    · simp only [reparent_slabs_length, h1]; exact Nat.le_refl _
    · simp only [reparent_slabs_length, h1, List.length_append, List.length_singleton]
      omega
  -- old blocks
  have hM1 : ∀ ptr b, mem_read p.mem ptr = some b →
      mem_read P.mem ptr = some { b with parent_slab :=
        if b.parent_slab < k then b.parent_slab else b.parent_slab + 1 } := by
    intro ptr b hb
    rw [hmem]
    apply reparent_hi_read p hwf0 k _ ptr b hb
    rcases hcases with ⟨h1, _⟩ | ⟨n, omr, mbsz, h1, _⟩
    · rw [h1, hA]; exact hb
    · rw [h1, mem_read_append_lt _ _ _ (by rw [hlen1]; exact mem_read_lt _ _ _ hb), hA]
      exact hb
  -- new blocks
  have hnewread : ∀ ptr, p.mem.length ≤ ptr.region → mem_read P.mem ptr = mem_read G.2 ptr := by
    intro ptr hreg
    rw [hmem]; exact reparent_hi_new p hwf0 k _ ptr hreg
  have hM2 : ∀ ptr c, mem_read P.mem ptr = some c →
      (∃ b, mem_read p.mem ptr = some b ∧ c = { b with parent_slab :=
        if b.parent_slab < k then b.parent_slab else b.parent_slab + 1 }) ∨
      (p.mem.length ≤ ptr.region ∧ c.parent_slab = k ∧ ptr ∈ G.1.blocks_list ∧
        ∀ q2, c.next = some q2 → q2.region < P.mem.length ∧
          ∀ c2, mem_read P.mem q2 = some c2 → c2.parent_slab = k) := by
    intro ptr c hc
    cases hb : mem_read p.mem ptr with
    | some b =>
      left
      rw [hM1 ptr b hb] at hc
      cases hc
      exact ⟨b, rfl, rfl⟩
    | none =>
      right
      have hc' := hc
      rw [hmem, reparent_slabs_read] at hc'
      cases hg : mem_read G.2 ptr with
      | none => rw [hg] at hc'; cases hc'
      | some c0 =>
        rcases hcases with ⟨h1, _⟩ | ⟨n, omr, mbsz, h1, h2, _⟩
        · rw [h1, hA, hb] at hg; cases hg
        · rw [h1] at hg
          rcases mem_read_append_cases _ _ _ _ hg with ⟨_, h3⟩ | ⟨h3, h4⟩
          · rw [hA, hb] at h3; cases h3
          · rw [hlen1] at h3
            have hreg : p.mem.length ≤ ptr.region := by omega
            have hcc : c = c0 := by
              rw [hnewread ptr hreg, h1, mem_read_append_cases_new _ _ _ _ (by rw [hlen1]; exact h3) h4]
                at hc
              cases hc; rfl
            subst hcc
            obtain ⟨hi, hpar, _, _, hnext⟩ := resize_blocks _ _ _ _ _ _ _ _ _ h4
            refine ⟨hreg, hpar, (h2 ptr).mpr ⟨by rw [hlen1]; exact h3, hi⟩, ?_⟩
            intro q2 hq2
            rcases hnext with h | h | ⟨h, hi1⟩
            · rw [h] at hq2; cases hq2
            · rw [h] at hq2; cases hq2
            · rw [h] at hq2
              cases hq2
              rw [hlen1]
              have hlt : p.mem.length < P.mem.length := by
                rw [hmem]
                simp only [reparent_slabs_length, h1, List.length_append, List.length_singleton]
                omega
              refine ⟨hlt, ?_⟩
              intro c2 hc2
              rw [hnewread _ (Nat.le_refl _), h1] at hc2
              have := mem_read_append_cases _ _ _ _ hc2
              rcases this with ⟨h5, _⟩ | ⟨_, h6⟩
              · rw [hlen1] at h5; simp at h5
              · exact (resize_blocks _ _ _ _ _ _ _ _ _ h6).2.1
  have hNB : ∀ ptr ∈ G.1.blocks_list, ∃ c, mem_read P.mem ptr = some c ∧ c.parent_slab = k := by
    intro ptr hin
    rcases hcases with ⟨_, h2, _⟩ | ⟨n, omr, mbsz, h1, h2, _⟩
    · rw [h2] at hin; cases hin
    · obtain ⟨h3, h4⟩ := (h2 ptr).mp hin
      have hlt : ptr.index <
          (resize_region_blocks k omr mbsz
            (reparent_slabs p.mem ((p.slab.take p.slabs_nr).take k) 0).length n false none).length := by
        rw [resize_region_blocks_length]; exact h4
      have hget := List.getElem?_eq_getElem hlt
      refine ⟨_, ?_, (resize_blocks _ _ _ _ _ _ _ _ _ hget).2.1⟩
      rw [hnewread ptr (by rw [h3, hlen1]), h1]
      exact mem_read_append_cases_new _ _ _ _ h3 hget
  have hNF : ∀ q2, G.1.free_blocks_list = some q2 → q2.region < P.mem.length ∧
      ∀ c, mem_read P.mem q2 = some c → c.parent_slab = k := by
    intro q2 hq2
    rcases hcases with ⟨_, _, h3⟩ | ⟨n, omr, mbsz, h1, h2, h3⟩
    · rw [h3] at hq2; cases hq2
    · rw [h3] at hq2
      cases hq2
      refine ⟨by
        rw [hmem]
        simp only [reparent_slabs_length, h1, List.length_append, List.length_singleton]
        omega, ?_⟩
      intro c hc
      rcases hM2 _ c hc with ⟨b, hb, _⟩ | ⟨_, hpar, _⟩
      · have := mem_read_lt _ _ _ hb
        rw [hlen1] at this; simp at this
      · exact hpar
  -- the five parts
  refine ⟨Or.inr hord, ?_, ?_, ?_, ?_⟩
  · intro ptr c hc
    rw [hnr]
    rcases hM2 ptr c hc with ⟨b, hb, rfl⟩ | ⟨_, hpar, hin, _⟩
    · obtain ⟨hpn, t, ht, hin⟩ := hB1 ptr b hb
      by_cases hpk : b.parent_slab < k
      · simp only [hpk, if_true]
        refine ⟨by omega, t, ?_, hin⟩
        rw [← hP, add_slab_at_below p size min max q k ok hlen hk _ hpk]; exact ht
      · simp only [hpk, if_false]
        refine ⟨by omega, t, ?_, hin⟩
        rw [← hP, add_slab_at_above p size min max q k ok hlen hk _ (by omega) hpn]; exact ht
    · rw [hpar]
      exact ⟨by omega, G.1, hself, hin⟩
  · intro m t ptr ht hin
    rcases hlook m t ht with ⟨h1, h2⟩ | ⟨h1, h2⟩ | ⟨h1, h2, h3⟩ | ⟨_, h2⟩
    · obtain ⟨b, hb, hpar⟩ := hB2 m t ptr h2 hin
      exact ⟨_, hM1 ptr b hb, by simp [hpar, h1]⟩
    · subst h1; subst h2
      exact hNB ptr hin
    · obtain ⟨b, hb, hpar⟩ := hB2 (m - 1) t ptr h3 hin
      refine ⟨_, hM1 ptr b hb, ?_⟩
      have : ¬ (m - 1 < k) := by omega
      simp only [hpar, this, if_false]; omega
    · subst h2; simp [sentinel_slab] at hin
  · intro m t q2 ht hq2
    have hold : ∀ j, p.slab[j]? = some t → (if j < k then j else j + 1) = m →
        q2.region < P.mem.length ∧ ∀ c, mem_read P.mem q2 = some c → c.parent_slab = m := by
      intro j hj hjm
      obtain ⟨hreg, hown⟩ := hF j t q2 hj hq2
      refine ⟨by omega, ?_⟩
      intro c hc
      rcases hM2 q2 c hc with ⟨b, hb, rfl⟩ | ⟨hge, _⟩
      · rw [hown b hb]; exact hjm
      · omega
    rcases hlook m t ht with ⟨h1, h2⟩ | ⟨h1, h2⟩ | ⟨h1, h2, h3⟩ | ⟨_, h2⟩
    · exact hold m h2 (by simp [h1])
    · subst h1; subst h2
      exact hNF q2 hq2
    · refine hold (m - 1) h3 ?_
      have : ¬ (m - 1 < k) := by omega
      simp only [this, if_false]; omega
    · subst h2; simp [sentinel_slab] at hq2
  · intro ptr c q2 hc hnx
    rcases hM2 ptr c hc with ⟨b, hb, rfl⟩ | ⟨_, hpar, _, hnew⟩
    · obtain ⟨hreg, hown⟩ := hN ptr b q2 hb hnx
      refine ⟨by omega, ?_⟩
      intro c2 hc2
      rcases hM2 q2 c2 hc2 with ⟨b2, hb2, rfl⟩ | ⟨hge, _⟩
      · simp only [hown b2 hb2]
      · omega
    · rw [hpar]; exact hnew q2 hnx
/-! ### Every pool built through the interface is well-formed -/

theorem create_wf (nodeid cur : Int) (flags : xio_mempool_flags) :
    pool_wf (xio_mempool_create nodeid cur flags) := by
  refine ⟨Or.inl ⟨rfl, rfl⟩, ?_, ?_, ?_, ?_⟩
  · intro ptr b h; simp [xio_mempool_create, mem_read] at h
  · intro k s ptr h; simp [xio_mempool_create] at h
  · intro k s q h; simp [xio_mempool_create] at h
  · intro ptr b q h; simp [xio_mempool_create, mem_read] at h

theorem add_slab_wf (p : xio_mempool) (size min max q : Nat) (ok : Bool) (hwf : pool_wf p) :
    pool_wf (xio_mempool_add_slab p size min max q ok).2 := by
  have hlen : p.slabs_nr ≤ p.slab.length := by
    rcases hwf.1 with h | h
    · rw [h.2]; omega
    · rw [h.1]; omega
  have hs : (slab_sizes p).Pairwise (fun a b => a < b) := by
    rcases hwf.1 with h | h
    · simp [slab_sizes, h.1]
    · exact h.2.1
  have hsh : slabs_ordered p ∨ p.slabs_nr = 0 := by
    rcases hwf.1 with h | h
    · exact Or.inr h.2
    · exact Or.inl h
  have hord := add_slab_ordered p size min max q ok hlen hs hsh
  by_cases hmem : size ∈ slab_sizes p
  · rw [add_slab_exists p size min max q ok hlen hs hmem]; exact hwf
  · obtain ⟨k, hk, _, _, he⟩ := add_slab_inserts p size min max q ok hlen hs hmem
    rw [he] at hord ⊢
    exact add_slab_at_wf p size min max q k ok hwf hk hord

theorem pool_step_wf (p p1 : xio_mempool) (op : pool_op) (hwf : pool_wf p)
    (h : pool_step p op = some p1) : pool_wf p1 := by
  cases op with
  | add_slab size min max q ok =>
    simp only [pool_step, Option.some.injEq] at h
    subst h; exact add_slab_wf p size min max q ok hwf
  | alloc length ok =>
    simp only [pool_step] at h
    split at h
    · rename_i hlen
      cases hr : xio_mempool_alloc p length ok with
      | error e => simp [hr] at h
      | ok res =>
        simp only [hr, Option.some.injEq] at h
        subst h
        exact alloc_wf p length ok res hwf hlen hr
    · cases h
  | free obj => exact free_wf p p1 obj hwf h

/-- Every pool obtained from a well-formed pool by a sequence of interface calls is
well-formed; in particular every pool obtained from `xio_mempool_create`. -/
theorem pool_run_wf (ops : List pool_op) :
    ∀ (p p1 : xio_mempool), pool_wf p → pool_run p ops = some p1 → pool_wf p1 := by
  induction ops with
  | nil => intro p p1 hwf h; simp [pool_run] at h; subst h; exact hwf
  | cons op rest ih =>
    intro p p1 hwf h
    simp only [pool_run] at h
    cases hs : pool_step p op with
    | none => simp [hs] at h
    | some p2 =>
      simp only [hs] at h
      exact ih p2 p1 (pool_step_wf p p2 op hwf hs) h
/-! ### Routing and fall-through of `xio_mempool_alloc` -/

theorem slab_exhausted_of_full (u : xio_mem_slab) (mem_ok : Bool)
    (hfree : u.free_blocks_list = none) (hfull : u.curr_mb_nr = u.max_mb_nr) :
    slab_exhausted u mem_ok :=
  ⟨hfree, Or.inl (resize_nr_blocks_full u hfull)⟩

/-- Passes over `d` exhausted slabs `a, ..., a + d - 1`. -/
theorem alloc_retry_skip (length : Nat) (ok : Nat → Bool) :
    ∀ (d : Nat) (p : xio_mempool) (a fuel : Nat),
      pool_wf p → (0 < d → p.flags.use_smallest_slab = false) → a + d < p.slabs_nr →
      (∀ m, a ≤ m → m < a + d → ∃ u, p.slab[m]? = some u ∧
        slab_exhausted u (region_obtained p.flags (ok m))) →
      ∃ p1, xio_mempool_alloc_retry length ok (fuel + d + 1) p (a : Int) =
              xio_mempool_alloc_retry length ok (fuel + 1) p1 ((a + d : Nat) : Int) ∧
        pool_wf p1 ∧ p1.mem = p.mem ∧ p1.slabs_nr = p.slabs_nr ∧ p1.flags = p.flags ∧
        ∀ m, a + d ≤ m → p1.slab[m]? = p.slab[m]? := by
  intro d
  induction d with
  | zero =>
    intro p a fuel hwf _ _ _
    exact ⟨p, rfl, hwf, rfl, rfl, rfl, fun _ _ => rfl⟩
  | succ d ih =>
    intro p a fuel hwf hflag hlt hex
    obtain ⟨u, hu, hfree, hgrow⟩ := hex a (Nat.le_refl _) (by omega)
    have hfl := hflag (by omega)
    have hstep := alloc_retry_pass length ok (fuel + d + 1) p a u hu hfree hgrow
    have hidx : ¬ ((a : Int) + 1 = (p.slabs_nr : Int) ∨ p.flags.use_smallest_slab = true) := by
      rw [hfl]; simp; omega
    rw [if_neg hidx] at hstep
    obtain ⟨hc1, hc2, hc3, _⟩ := resize_clamp_fields u
    have hwf1 := pool_wf_fields p a u _ hwf hu (by omega) hc1 hc2 hc3
    have hlt1 : a < p.slab.length := (List.getElem?_eq_some.mp hu).1
    obtain ⟨p1, he, hwfp, hm, hn, hf, hsl⟩ :=
      ih { p with slab := p.slab.set a (resize_clamp u), mem := p.mem } (a + 1) fuel hwf1
        (fun _ => hfl) (by show a + 1 + d < p.slabs_nr; omega)
        (by
          intro m h1 h2
          obtain ⟨v, hv, hve⟩ := hex m (by omega) (by omega)
          refine ⟨v, ?_, hve⟩
          show (p.slab.set a (resize_clamp u))[m]? = some v
          rw [List.getElem?_set_ne (by omega)]; exact hv)
    refine ⟨p1, ?_, hwfp, hm, hn, hf, ?_⟩
    · have e1 : fuel + (d + 1) + 1 = (fuel + d + 1) + 1 := by omega
      have e2 : ((a : Int) + 1) = ((a + 1 : Nat) : Int) := by push_cast; rfl
      have e3 : a + (d + 1) = a + 1 + d := by omega
      rw [e1, hstep, e2, he, e3]
    · intro m hm2
      rw [hsl m (by omega)]
      show (p.slab.set a (resize_clamp u))[m]? = p.slab[m]?
      rw [List.getElem?_set_ne (by omega)]

/-- After passing over exhausted slabs, the allocation is served by the first slab
that yields a block. -/
theorem alloc_retry_reach (length : Nat) (ok : Nat → Bool) (d : Nat) (p : xio_mempool)
    (a fuel : Nat) (t : xio_mem_slab)
    (hwf : pool_wf p) (hflag : 0 < d → p.flags.use_smallest_slab = false)
    (hlt : a + d < p.slabs_nr)
    (hex : ∀ m, a ≤ m → m < a + d → ∃ u, p.slab[m]? = some u ∧
      slab_exhausted u (region_obtained p.flags (ok m)))
    (ht : p.slab[a + d]? = some t)
    (hav : slab_yields_block p.mem t (region_obtained p.flags (ok (a + d)))) :
    alloc_gave_block_of (xio_mempool_alloc_retry length ok (fuel + d + 1) p (a : Int))
      (a + d) length := by
  obtain ⟨p1, he, hwf1, hm, hn, hf, hsl⟩ := alloc_retry_skip length ok d p a fuel hwf hflag hlt hex
  rw [he]
  have ht1 : p1.slab[a + d]? = some t := by rw [hsl _ (Nat.le_refl _)]; exact ht
  rcases hav with ⟨q, b, hq, hb⟩ | ⟨hq, hn0, hok⟩
  · rw [← hm] at hb
    obtain ⟨b1, hpar, _, homr, hbuf, hres⟩ :=
      alloc_retry_take length ok fuel p1 (a + d) t q b ht1 hq hb
    refine ⟨_, q, b1, hres, rfl, rfl, rfl, ?_, ?_, ?_, ?_⟩
    · show mem_read (mem_write p1.mem q b1) q = some b1
      rw [mem_read_write_of_some _ _ _ _ _ hb]; simp
    · rw [hpar]; exact (hwf1.2.2.2.1 (a + d) t q ht1 hq).2 b hb
    · show some b.buf = some b1.buf
      rw [hbuf]
    · show b.omr = b1.omr
      rw [homr]
  · have hres := alloc_retry_grow length ok fuel p1 (a + d) t ht1 hq hn0
      (by rw [hf]; exact hok)
    have hpos : 0 < (resize_nr_blocks (resize_clamp t)).toNat := by omega
    have hlt2 : 0 < (resize_region_blocks (a + d)
        (if p1.flags.reg_mr then some p1.mem.length else none)
        (resize_clamp t).mb_size p1.mem.length (resize_nr_blocks (resize_clamp t)).toNat true
        (resize_clamp t).free_blocks_list).length := by
      rw [resize_region_blocks_length]; exact hpos
    have hget := List.getElem?_eq_getElem hlt2
    obtain ⟨_, hpar, homr, hbuf, _⟩ := resize_blocks _ _ _ _ _ _ _ _ _ hget
    refine ⟨_, ⟨p1.mem.length, 0⟩, _, hres, rfl, rfl, rfl, ?_, hpar, ?_, ?_⟩
    · show mem_read (p1.mem ++ [_]) ⟨p1.mem.length, 0⟩ = _
      rw [mem_read_append_new]; exact hget
    · show some (p1.mem.length, 0) = some _
      rw [hbuf, Nat.zero_mul]
    · show (if p1.flags.reg_mr then some p1.mem.length else none) = _
      rw [homr]

/-- When every slab from `a` on is exhausted the allocation fails with `-1`. -/
theorem alloc_retry_all_exhausted (length : Nat) (ok : Nat → Bool) :
    ∀ (d : Nat) (p : xio_mempool) (a fuel : Nat), a + d + 1 = p.slabs_nr →
      (∀ m, a ≤ m → m < p.slabs_nr → ∃ u, p.slab[m]? = some u ∧
        slab_exhausted u (region_obtained p.flags (ok m))) →
      ∃ res, xio_mempool_alloc_retry length ok (fuel + d + 2) p (a : Int) = .ok res ∧
        res.ret = -1 ∧ res.errno = some EINVAL := by
  intro d
  induction d with
  | zero =>
    intro p a fuel ha hex
    obtain ⟨u, hu, hfree, hgrow⟩ := hex a (Nat.le_refl _) (by omega)
    have hstep := alloc_retry_pass length ok (fuel + 1) p a u hu hfree hgrow
    have hidx : (a : Int) + 1 = (p.slabs_nr : Int) ∨ p.flags.use_smallest_slab = true := by
      left; omega
    rw [if_pos hidx, alloc_retry_invalid] at hstep
    exact ⟨_, hstep, rfl, rfl⟩
  | succ d ih =>
    intro p a fuel ha hex
    obtain ⟨u, hu, hfree, hgrow⟩ := hex a (Nat.le_refl _) (by omega)
    have hstep := alloc_retry_pass length ok (fuel + d + 2) p a u hu hfree hgrow
    have e1 : fuel + (d + 1) + 2 = (fuel + d + 2) + 1 := by omega
    rw [e1, hstep]
    by_cases hidx : (a : Int) + 1 = (p.slabs_nr : Int) ∨ p.flags.use_smallest_slab = true
    · rw [if_pos hidx]
      have e2 : fuel + d + 2 = (fuel + d + 1) + 1 := by omega
      rw [e2, alloc_retry_invalid]
      exact ⟨_, rfl, rfl, rfl⟩
    · rw [if_neg hidx]
      have e2 : ((a : Int) + 1) = ((a + 1 : Nat) : Int) := by push_cast; rfl
      rw [e2]
      apply ih { p with slab := p.slab.set a (resize_clamp u), mem := p.mem } (a + 1) fuel
      · show a + 1 + d + 1 = p.slabs_nr; omega
      · intro m h1 h2
        obtain ⟨v, hv, hve⟩ := hex m (by omega) h2
        refine ⟨v, ?_, hve⟩
        show (p.slab.set a (resize_clamp u))[m]? = some v
        rw [List.getElem?_set_ne (by omega)]; exact hv

/-- Without `XIO_MEMPOOL_FLAG_USE_SMALLEST_SLAB`, an allocation that returns a nonzero
value has found every slab from its starting index on exhausted. -/
theorem alloc_retry_fail_exhausted (length : Nat) (ok : Nat → Bool) :
    ∀ (fuel : Nat) (p : xio_mempool) (a : Nat) (res : alloc_result),
      p.flags.use_smallest_slab = false →
      xio_mempool_alloc_retry length ok fuel p (a : Int) = .ok res → res.ret ≠ 0 →
      ∀ m u, a ≤ m → m < p.slabs_nr → p.slab[m]? = some u →
        slab_exhausted u (region_obtained p.flags (ok m)) := by
  intro fuel
  induction fuel with
  | zero => intro p a res _ h; simp [xio_mempool_alloc_retry] at h
  | succ fuel ih =>
    intro p a res hfl h hret m u hm1 hm2 hu
    cases hs : p.slab[a]? with
    | none => simp [xio_mempool_alloc_retry, int_index_ne, hs] at h
    | some s =>
      cases hf : s.free_blocks_list with
      | some q =>
        cases hq : mem_read p.mem q with
        | none => rw [alloc_retry_dangling length ok fuel p a s q hs hf hq] at h; cases h
        | some b =>
          obtain ⟨b1, _, _, _, _, he⟩ := alloc_retry_take length ok fuel p a s q b hs hf hq
          rw [he] at h; cases h
          exact absurd rfl hret
      | none =>
        by_cases hg : 0 < resize_nr_blocks (resize_clamp s) ∧
            region_obtained p.flags (ok a) = true
        · rw [alloc_retry_grow length ok fuel p a s hs hf hg.1 hg.2] at h
          cases h
          exact absurd rfl hret
        · have hg2 : resize_nr_blocks (resize_clamp s) ≤ 0 ∨
              region_obtained p.flags (ok a) = false := by
            by_cases h1 : 0 < resize_nr_blocks (resize_clamp s)
            · right
              cases hok : region_obtained p.flags (ok a)
              · rfl
              · exact absurd ⟨h1, hok⟩ hg
            · left; omega
          by_cases hma : m = a
          · subst hma
            rw [hs] at hu; cases hu
            exact ⟨hf, hg2⟩
          · rw [alloc_retry_pass length ok fuel p a s hs hf hg2] at h
            have hidx : ¬ ((a : Int) + 1 = (p.slabs_nr : Int) ∨
                p.flags.use_smallest_slab = true) := by
              rw [hfl]; simp; omega
            rw [if_neg hidx] at h
            have e2 : ((a : Int) + 1) = ((a + 1 : Nat) : Int) := by push_cast; rfl
            rw [e2] at h
            refine ih { p with slab := p.slab.set a (resize_clamp s), mem := p.mem } (a + 1) res
              hfl h hret m u (by omega) hm2 ?_
            show (p.slab.set a (resize_clamp s))[m]? = some u
            rw [List.getElem?_set_ne (by omega)]; exact hu
/-! ### The pool claims -/

theorem slabs_ordered_lt (p : xio_mempool) (hp : slabs_ordered p) (m i : Nat)
    (t s : xio_mem_slab) (hmi : m < i) (hi : i < p.slabs_nr)
    (ht : p.slab[m]? = some t) (hs : p.slab[i]? = some s) : t.mb_size < s.mb_size := by
  have hpw := hp.2.1
  rw [List.pairwise_iff_getElem] at hpw
  have hl : (slab_sizes p).length = p.slabs_nr := by
    simp [slab_sizes, hp.1]
  have := hpw m i (by omega) (by omega) hmi
  have g : ∀ (j : Nat) (u : xio_mem_slab) (hj : j < (slab_sizes p).length),
      p.slab[j]? = some u → (slab_sizes p)[j] = u.mb_size := by
    intro j u hj hu
    have : (slab_sizes p)[j]? = some u.mb_size := by
      simp only [slab_sizes, List.getElem?_map, List.getElem?_take]
      rw [if_pos (by omega), hu]; rfl
    rw [List.getElem?_eq_getElem hj] at this
    exact Option.some.inj this
  rw [g m t (by omega) ht, g i s (by omega) hs] at this
  exact this

/-- Allocation routing where the selected slab yields a block: in a well-formed
pool with at least one slab, for a length that is a `size_t`: (1) `size2index`
returns the least index whose slab has `mb_size ≥ length`, and `-1` when (and only
when) the length exceeds every slab's block size; (2) when the head of the free
list of the slab `i` it returns is a block, or that free list is `NULL` and the slab
can grow, `xio_mempool_alloc` returns 0 with a block whose `parent_slab` is `i`, the
output object holding that block and the requested length; (3) in particular this
is so for the slab whose `mb_size` equals the length.  A slab that can grow but
whose free-list head is no block is not covered: there the code dereferences the
head. -/
theorem routing_to_slab_that_yields_block (p : xio_mempool) (length : Nat) (ok : Nat → Bool)
    (hwf : pool_wf p) (hslabs : 1 ≤ p.slabs_nr) (hlen : length ≤ SIZE_MAX) :
    ((∃ (i : Nat) (s : xio_mem_slab), size2index p length = some (i : Int) ∧ i < p.slabs_nr ∧
        p.slab[i]? = some s ∧ length ≤ s.mb_size ∧
        ∀ (m : Nat) (t : xio_mem_slab), m < i → p.slab[m]? = some t → t.mb_size < length) ∨
     (size2index p length = some (-1) ∧
        ∀ (m : Nat) (t : xio_mem_slab), m < p.slabs_nr → p.slab[m]? = some t →
          t.mb_size < length)) ∧
    (∀ (i : Nat) (s : xio_mem_slab), size2index p length = some (i : Int) →
        p.slab[i]? = some s → slab_yields_block p.mem s (region_obtained p.flags (ok i)) →
        alloc_gave_block_of (xio_mempool_alloc p length ok) i length) ∧
    (∀ (i : Nat) (s : xio_mem_slab), i < p.slabs_nr → p.slab[i]? = some s →
        s.mb_size = length → slab_yields_block p.mem s (region_obtained p.flags (ok i)) →
        alloc_gave_block_of (xio_mempool_alloc p length ok) i length) := by
  have hord : slabs_ordered p := by
    rcases hwf.1 with h | h
    · omega
    · exact h
  have hspec := size2index_spec p length hord hlen
  have hroute : ∀ (i : Nat) (s : xio_mem_slab), size2index p length = some (i : Int) →
      p.slab[i]? = some s → slab_yields_block p.mem s (region_obtained p.flags (ok i)) →
      alloc_gave_block_of (xio_mempool_alloc p length ok) i length := by
    intro i s hidx hs hav
    have hin : i < p.slabs_nr := by
      rcases hspec with ⟨i2, _, h2, hlt, _⟩ | ⟨h2, _⟩
      · rw [hidx] at h2
        have : (i : Int) = (i2 : Int) := Option.some.inj h2
        omega
      · rw [hidx] at h2
        have : (i : Int) = -1 := Option.some.inj h2
        omega
    simp only [xio_mempool_alloc, hidx]
    exact alloc_retry_reach length ok 0 p i p.slabs_nr s hwf (fun h => absurd h (by omega))
      hin (fun m h1 h2 => absurd h2 (by omega)) hs hav
  refine ⟨hspec, hroute, ?_⟩
  intro i s hin hs hsz hav
  apply hroute i s ?_ hs hav
  rcases hspec with ⟨i2, s2, h2, hlt, hs2, hle, hmin⟩ | ⟨_, hall⟩
  · have : i2 = i := by
      by_contra hne
      rcases Nat.lt_or_gt_of_ne hne with h | h
      · have := slabs_ordered_lt p hord i2 i s2 s h hin hs2 hs
        omega
      · have := hmin i s h hs
        omega
    rw [h2, this]
  · have := hall i s hin hs
    omega

/-- Allocation routing at a concrete pool: the slabs `{16, max 2, quantum 2}` and
`{64, max 2, quantum 2}`; the first allocation of 64 bytes grows the 64-byte slab and
returns one of its blocks. -/
theorem routing_at_two_slabs :
    alloc_gave_block_of (xio_mempool_alloc (pool_two_slabs false) 64 (fun _ => true)) 1 64 :=
  (routing_to_slab_that_yields_block (pool_two_slabs false) 64 (fun _ => true)
    (add_slab_wf _ 64 0 2 2 true (add_slab_wf _ 16 0 2 2 true (create_wf 0 0 _)))
    (by decide) (by decide)).2.2 1
    ((pool_two_slabs false).slab.getD 1 sentinel_slab) (by decide) rfl rfl
    (Or.inr ⟨rfl, by decide, rfl⟩)

/-- Fall-through where the next slab yields a block: in a well-formed pool created
without `XIO_MEMPOOL_FLAG_USE_SMALLEST_SLAB`, when the slab `i` selected for the
length has an empty free list and `curr_mb_nr = max_mb_nr`: (1) if `j` is the first
larger slab whose free-list head is a block, or whose free list is `NULL` and which
can grow (the slabs between `i` and `j` being exhausted), `xio_mempool_alloc` returns
0 with a block whose `parent_slab` is `j`; (2) if every larger slab is exhausted it
returns `-1`; (3) it returns a nonzero value only when every larger slab is
exhausted.  A larger slab that can grow but whose free-list head is no block is not
covered: there the code dereferences the head. -/
theorem fall_through_to_slab_that_yields_block (p : xio_mempool) (length : Nat) (ok : Nat → Bool) (i : Nat)
    (s : xio_mem_slab) (hwf : pool_wf p) (hflag : p.flags.use_smallest_slab = false)
    (hidx : size2index p length = some (i : Int)) (hi : i < p.slabs_nr)
    (hs : p.slab[i]? = some s) (hfree : s.free_blocks_list = none)
    (hfull : s.curr_mb_nr = s.max_mb_nr) :
    (∀ (j : Nat) (t : xio_mem_slab), i < j → j < p.slabs_nr → p.slab[j]? = some t →
        (∀ (m : Nat) (u : xio_mem_slab), i < m → m < j → p.slab[m]? = some u →
          slab_exhausted u (region_obtained p.flags (ok m))) →
        slab_yields_block p.mem t (region_obtained p.flags (ok j)) →
        alloc_gave_block_of (xio_mempool_alloc p length ok) j length) ∧
    ((∀ (m : Nat) (u : xio_mem_slab), i < m → m < p.slabs_nr → p.slab[m]? = some u →
          slab_exhausted u (region_obtained p.flags (ok m))) →
        ∃ res, xio_mempool_alloc p length ok = .ok res ∧ res.ret = -1) ∧
    (∀ res, xio_mempool_alloc p length ok = .ok res → res.ret ≠ 0 →
        ∀ (m : Nat) (u : xio_mem_slab), i < m → m < p.slabs_nr → p.slab[m]? = some u →
          slab_exhausted u (region_obtained p.flags (ok m))) := by
  have hsi : slab_exhausted s (region_obtained p.flags (ok i)) :=
    slab_exhausted_of_full s (region_obtained p.flags (ok i)) hfree hfull
  refine ⟨?_, ?_, ?_⟩
  · intro j t hij hj ht hbetween hav
    simp only [xio_mempool_alloc, hidx]
    have e1 : p.slabs_nr + 1 = (p.slabs_nr - (j - i)) + (j - i) + 1 := by omega
    have e2 : i + (j - i) = j := by omega
    rw [e1]
    have := alloc_retry_reach length ok (j - i) p i (p.slabs_nr - (j - i)) t hwf
      (fun _ => hflag) (by omega)
      (by
        intro m h1 h2
        obtain ⟨u, hu⟩ := pool_wf_slab_exists p m hwf (by omega)
        refine ⟨u, hu, ?_⟩
        by_cases hmi : m = i
        · subst hmi
          rw [hs] at hu; cases hu
          exact hsi
        · exact hbetween m u (by omega) (by omega) hu)
      (by rw [e2]; exact ht) (by rw [e2]; exact hav)
    rw [e2] at this
    exact this
  · intro hall
    simp only [xio_mempool_alloc, hidx]
    have e1 : p.slabs_nr + 1 = i + (p.slabs_nr - i - 1) + 2 := by omega
    rw [e1]
    obtain ⟨res, hres, hret, _⟩ := alloc_retry_all_exhausted length ok (p.slabs_nr - i - 1) p i i
      (by omega)
      (by
        intro m h1 h2
        obtain ⟨u, hu⟩ := pool_wf_slab_exists p m hwf h2
        refine ⟨u, hu, ?_⟩
        by_cases hmi : m = i
        · subst hmi
          rw [hs] at hu; cases hu
          exact hsi
        · exact hall m u (by omega) h2 hu)
    exact ⟨res, hres, hret⟩
  · intro res hres hret m u h1 h2 hu
    simp only [xio_mempool_alloc, hidx] at hres
    exact alloc_retry_fail_exhausted length ok _ p i res hflag hres hret m u (by omega) h2 hu

theorem pool_64k_exhausted_run :
    pool_run (xio_mempool_create 0 0 flags_none) ops_64k_exhausted = some pool_64k_exhausted := by
  rfl

/-- Fall-through at the slabs `{16K, 64K, 256K, 1M}` (each of at most two blocks):
after two allocations the 64K slab is at its maximum, and the next request of 64K
returns a block of slab 2, the 256K slab. -/
theorem fall_through_at_64k_exhausted :
    alloc_gave_block_of (xio_mempool_alloc pool_64k_exhausted 65536 (fun _ => true)) 2 65536 :=
  (fall_through_to_slab_that_yields_block pool_64k_exhausted 65536 (fun _ => true) 1
    (pool_64k_exhausted.slab.getD 1 sentinel_slab)
    (pool_run_wf ops_64k_exhausted _ _ (create_wf 0 0 flags_none) pool_64k_exhausted_run)
    rfl rfl (by decide) rfl rfl rfl).1 2
    (pool_64k_exhausted.slab.getD 2 sentinel_slab) (by decide) (by decide) rfl
    (fun m u h1 h2 => absurd h2 (by omega))
    (Or.inr ⟨rfl, by decide, rfl⟩)

/-- C4, the claim as stated fails: with `XIO_MEMPOOL_FLAG_USE_SMALLEST_SLAB`, slabs
`{16, max 2}` and `{64, max 2}` and the 16-byte slab used up, a request of 16 bytes
returns `-1` with `errno` set to `EINVAL`, not `ENOMEM` (the 64-byte slab could
still grow). -/
theorem C4_errno_is_EINVAL_not_ENOMEM :
    ∃ res, xio_mempool_alloc (pool_small_slab_exhausted true) 16 (fun _ => true) = .ok res ∧
      res.ret = -1 ∧ res.errno = some EINVAL ∧ res.errno ≠ some ENOMEM ∧
      (∃ t, (pool_small_slab_exhausted true).slab[1]? = some t ∧ slab_can_grow t true) := by
  refine ⟨_, rfl, rfl, rfl, by decide, _, rfl, by decide, rfl⟩

/-- C4, at the concrete pool of the counterexample. -/
theorem C4_use_smallest_slab_witness :
    ∃ res, xio_mempool_alloc (pool_small_slab_exhausted true) 16 (fun _ => true) = .ok res ∧
      res.ret = -1 ∧ res.errno = some EINVAL ∧
      res.mp_obj = { addr := none, mr := none, cache := none, length := 0 } ∧
      res.pool.mem = (pool_small_slab_exhausted true).mem ∧
      (∀ j : Nat, (res.pool.slab[j]?).map slab_alloc_state =
        ((pool_small_slab_exhausted true).slab[j]?).map slab_alloc_state) :=
  C4_use_smallest_slab_fails_with_EINVAL (pool_small_slab_exhausted true) 16 (fun _ => true) 0
    ((pool_small_slab_exhausted true).slab.getD 0 sentinel_slab)
    rfl rfl (by decide) rfl rfl (Or.inl (by decide))

/-! ### Allocation from a slab whose free-list head is no block -/

/-- C2, on the code: a slab that can still grow does not always serve the request.
The slab `{64, min 0, max 3, quantum 1}` is added to a new pool and one block of 64
bytes is allocated; both calls return.  The growth of one block made by that
allocation left `block + 1`, an address that is no block, as the head of the free
list.  Now `size2index` selects slab 0 for a request of 64 bytes, the slab holds 1
block of at most 3, and a growth would yield a block (`xio_mem_slab_resize` on it
returns one); yet `xio_mempool_alloc` for 64 bytes does not return a block of the
slab: it finds the head not `NULL` and dereferences it. -/
theorem C2_alloc_dereferences_dangling_head :
    pool_run (xio_mempool_create 0 0 flags_none) ops_one_taken = some pool_one_taken ∧
    pool_one_taken.slabs_nr = 1 ∧
    size2index pool_one_taken 64 = some 0 ∧
    pool_one_taken.slab.map slab_view =
      [(64, 1, 3, some ⟨0, 1⟩), (SIZE_MAX, 0, 0, none)] ∧
    pool_one_taken.mem.map (fun r => r.length) = [1] ∧
    mem_read pool_one_taken.mem ⟨0, 1⟩ = none ∧
    (xio_mem_slab_resize 0 pool_one_taken.flags true
      (pool_one_taken.slab.getD 0 sentinel_slab) pool_one_taken.mem true).2.2 = some ⟨1, 0⟩ ∧
    xio_mempool_alloc pool_one_taken 64 (fun _ => true) = .error .invalid_deref ∧
    ¬ alloc_gave_block_of (xio_mempool_alloc pool_one_taken 64 (fun _ => true)) 0 64 := by
  have h : xio_mempool_alloc pool_one_taken 64 (fun _ => true) = .error .invalid_deref := by
    rfl
  refine ⟨rfl, rfl, rfl, rfl, rfl, rfl, rfl, h, ?_⟩
  rintro ⟨res, _, _, hres, _⟩
  rw [h] at hres
  cases hres

/-- C3, on the code: the fall-through does not always reach the next larger slab
that can grow.  In a pool created without `XIO_MEMPOOL_FLAG_USE_SMALLEST_SLAB` the
slabs `{16, min 0, max 2, quantum 2}` and `{64, min 0, max 3, quantum 1}` are added,
two blocks of 16 bytes are allocated and one of 64 bytes; all calls return.  The
16-byte slab, selected for a request of 16 bytes, has an empty free list and
`curr_mb_nr = max_mb_nr = 2`; the 64-byte slab holds 1 block of at most 3 and a
growth would yield a block, but the head of its free list is `block + 1` of its
single-block region, which is no block.  `xio_mempool_alloc` for 16 bytes passes to
the 64-byte slab and dereferences that head: it returns neither a block of that
slab nor a failure. -/
theorem C3_fall_through_dereferences_dangling_head :
    pool_run (xio_mempool_create 0 0 flags_none) ops_small_used_up = some pool_small_used_up ∧
    pool_small_used_up.flags.use_smallest_slab = false ∧
    pool_small_used_up.slabs_nr = 2 ∧
    size2index pool_small_used_up 16 = some 0 ∧
    pool_small_used_up.slab.map slab_view =
      [(16, 2, 2, none), (64, 1, 3, some ⟨1, 1⟩), (SIZE_MAX, 0, 0, none)] ∧
    pool_small_used_up.mem.map (fun r => r.length) = [2, 1] ∧
    mem_read pool_small_used_up.mem ⟨1, 1⟩ = none ∧
    (xio_mem_slab_resize 1 pool_small_used_up.flags true
      (pool_small_used_up.slab.getD 1 sentinel_slab) pool_small_used_up.mem true).2.2
        = some ⟨2, 0⟩ ∧
    xio_mempool_alloc pool_small_used_up 16 (fun _ => true) = .error .invalid_deref ∧
    ¬ alloc_gave_block_of (xio_mempool_alloc pool_small_used_up 16 (fun _ => true)) 1 16 := by
  have h : xio_mempool_alloc pool_small_used_up 16 (fun _ => true) = .error .invalid_deref := by
    rfl
  refine ⟨rfl, rfl, rfl, rfl, rfl, rfl, rfl, rfl, h, ?_⟩
  rintro ⟨res, _, _, hres, _⟩
  rw [h] at hres
  cases hres
/-! ### Concrete instances -/

/-- C5, at a concrete pool: after the calls `add_slab(16, ...)` and `add_slab(64, ...)`
the array is ordered, and a further `add_slab(64, ...)` is refused with `-EEXIST`,
the pool being unchanged. -/
theorem C5_slab_size_ordering_witness :
    slabs_ordered (add_slabs (xio_mempool_create 0 0 flags_none)
      [⟨16, 0, 2, 2, true⟩, ⟨64, 0, 2, 2, true⟩]) ∧
    xio_mempool_add_slab (add_slabs (xio_mempool_create 0 0 flags_none)
      [⟨16, 0, 2, 2, true⟩, ⟨64, 0, 2, 2, true⟩]) 64 0 2 2 true =
      (-EEXIST, add_slabs (xio_mempool_create 0 0 flags_none)
        [⟨16, 0, 2, 2, true⟩, ⟨64, 0, 2, 2, true⟩]) :=
  ⟨C5_slab_size_ordering.1 0 0 flags_none ⟨16, 0, 2, 2, true⟩ [⟨64, 0, 2, 2, true⟩],
   (C5_slab_size_ordering.2 _ 64 0 2 2 true
      (C5_slab_size_ordering.1 0 0 flags_none ⟨16, 0, 2, 2, true⟩ [⟨64, 0, 2, 2, true⟩])).1
      (by decide)⟩

/-- C10, at a concrete device: after a first `xio_cq_get(dev, 1)` created the CQ at
address 7, a second `xio_cq_get(dev, 1)` returns the CQ at address 7 and the list
still holds that single CQ. -/
theorem C10_cq_sharing_witness :
    (xio_cq_get (xio_cq_get dev_fresh 1 (cq_env_ok 7)).2 1 (cq_env_ok 8)).1 = some 7 ∧
    (xio_cq_get (xio_cq_get dev_fresh 1 (cq_env_ok 7)).2 1 (cq_env_ok 8)).2.cq_list.map
        (fun x => x.id) = [7] :=
  C10_cq_sharing.2.2 dev_fresh (xio_cq_get dev_fresh 1 (cq_env_ok 7)).2
    [.get 1 (cq_env_ok 7)] 1 (cq_env_ok 8) (cq_created dev_fresh 1 7 CQE_ALLOC_SIZE)
    rfl rfl (by decide) rfl

/-! ### The reference counter of a CQ -/

theorem cq_lookup_split (ctx : Nat) (c : xio_cq) (l2 : List xio_cq) (hc : c.ctx = ctx) :
    ∀ l1 : List xio_cq, (∀ x ∈ l1, x.ctx ≠ ctx) →
      cq_lookup ctx (l1 ++ c :: l2) =
        some (c.id, l1 ++ { c with kref := kref_get c.kref } :: l2) := by
  intro l1
  induction l1 with
  | nil => intro _; simp [cq_lookup, hc]
  | cons a rest ih =>
    intro h
    have ha : a.ctx ≠ ctx := h a (List.mem_cons_self _ _)
    have := ih (fun x hx => h x (List.mem_cons_of_mem _ hx))
    simp only [List.cons_append, cq_lookup, if_neg ha, List.append_eq, this]

theorem cq_get_holds (dev : xio_device) (ctx addr : Nat) (k : Int) (env : cq_env)
    (h : cq_holds dev ctx addr k) : cq_holds (xio_cq_get dev ctx env).2 ctx addr (k + 1) := by
  obtain ⟨l1, c, l2, hl, hid, hctx, hk, hothers⟩ := h
  have hlook := cq_lookup_split ctx c l2 hctx l1
    (fun x hx => (hothers x (List.mem_append_left _ hx)).1)
  simp only [xio_cq_get, hl, hlook]
  exact ⟨l1, _, l2, rfl, hid, hctx, by simp [kref_get, hk], hothers⟩

theorem cq_get_creates (dev : xio_device) (ctx addr : Nat) (env : cq_env)
    (henv : cq_env_succeeds env addr) (hfresh : ∀ c ∈ dev.cq_list, c.ctx ≠ ctx ∧ c.id ≠ addr) :
    cq_holds (xio_cq_get dev ctx env).2 ctx addr 2 := by
  obtain ⟨h1, h2, h3, h4, h5, h6, h7⟩ := henv
  have hn : cq_lookup ctx dev.cq_list = none :=
    (cq_lookup_none ctx _).mpr (fun c hc => (hfresh c hc).1)
  obtain ⟨cqe, hcqe⟩ := Option.isSome_iff_exists.mp h6
  simp only [xio_cq_get, hn, h1, h2, h3, h4, h5, hcqe, h7]
  exact ⟨[], _, dev.cq_list, rfl, rfl, rfl, by simp [cq_created, kref_get, kref_init],
    by simpa using hfresh⟩

theorem cq_release_holds (dev : xio_device) (ctx addr : Nat) (k : Int)
    (h : cq_holds dev ctx addr k) (hk : k ≠ 1) :
    ∃ dev1, xio_cq_release dev addr = some dev1 ∧ cq_holds dev1 ctx addr (k - 1) := by
  obtain ⟨l1, c, l2, hl, hid, hctx, hkc, hothers⟩ := h
  have h1 : ∀ x ∈ l1, x.id ≠ addr := fun x hx => (hothers x (List.mem_append_left _ hx)).2
  have h2 : ∀ x ∈ l2, x.id ≠ addr := fun x hx => (hothers x (List.mem_append_right _ hx)).2
  have hfind : (l1 ++ c :: l2).find? (fun x => decide (x.id = addr)) = some c := by
    rw [List.find?_append, List.find?_eq_none.mpr (by simpa using h1)]
    simp [List.find?_cons, hid]
  have hput : (kref_put c.kref).2 = false := by
    simp only [kref_put, decide_eq_false_iff_not]; omega
  have hmap : ∀ l : List xio_cq, (∀ x ∈ l, x.id ≠ addr) →
      l.map (fun x => if x.id = addr then { x with kref := (kref_put x.kref).1 } else x) = l := by
    intro l hne
    conv_rhs => rw [← List.map_id l]
    exact List.map_congr_left (fun x hx => by simp [hne x hx])
  refine ⟨{ dev with cq_list := dev.cq_list.map fun x =>
      if x.id = addr then { x with kref := (kref_put x.kref).1 } else x }, ?_, ?_⟩
  · simp only [xio_cq_release, hl, hfind, hput]
    rfl
  · simp only [hl]
    refine ⟨l1, { c with kref := (kref_put c.kref).1 }, l2, ?_, hid, hctx, ?_, hothers⟩
    · simp only [List.map_append, List.map_cons, hmap l1 h1, hmap l2 h2, hid, if_true]
    · simp [kref_put, hkc]

theorem cq_run_holds (ctx addr : Nat) (env : cq_env) :
    ∀ (ops : List cq_op) (dev : xio_device) (k : Int), cq_holds dev ctx addr k → 1 ≤ k →
      (∀ op ∈ ops, op = .get ctx env ∨ op = .release addr) →
      (∀ n, (cq_releases (ops.take n) : Int) ≤ cq_gets (ops.take n) + (k - 1)) →
      ∃ dev1, cq_run dev ops = some dev1 ∧
        cq_holds dev1 ctx addr (k + cq_gets ops - cq_releases ops) := by
  intro ops
  induction ops with
  | nil =>
    intro dev k h _ _ _
    exact ⟨dev, rfl, by simpa [cq_gets, cq_releases] using h⟩
  | cons op rest ih =>
    intro dev k h hk hops hbal
    have hrest : ∀ op ∈ rest, op = .get ctx env ∨ op = .release addr :=
      fun o ho => hops o (List.mem_cons_of_mem _ ho)
    rcases hops op (List.mem_cons_self _ _) with rfl | rfl
    · have h1 := cq_get_holds dev ctx addr k env h
      obtain ⟨dev1, hrun, hh⟩ := ih _ (k + 1) h1 (by omega) hrest (by
        intro n
        have := hbal (n + 1)
        simp only [List.take_succ_cons, cq_gets, cq_releases] at this
        push_cast at this
        omega)
      refine ⟨dev1, by simpa [cq_run, cq_step] using hrun, ?_⟩
      have e : k + ((cq_gets (cq_op.get ctx env :: rest) : Nat) : Int) -
          ((cq_releases (cq_op.get ctx env :: rest) : Nat) : Int) =
          k + 1 + cq_gets rest - cq_releases rest := by
        simp only [cq_gets, cq_releases]; push_cast; omega
      rw [e]; exact hh
    · have hk2 : k ≠ 1 := by
        have := hbal 1
        simp only [List.take_succ_cons, List.take_zero, cq_gets, cq_releases] at this
        push_cast at this
        omega
      obtain ⟨dev0, hrel, h1⟩ := cq_release_holds dev ctx addr k h hk2
      obtain ⟨dev1, hrun, hh⟩ := ih dev0 (k - 1) h1 (by omega) hrest (by
        intro n
        have := hbal (n + 1)
        simp only [List.take_succ_cons, cq_gets, cq_releases] at this
        push_cast at this
        omega)
      refine ⟨dev1, by simpa [cq_run, cq_step, hrel] using hrun, ?_⟩
      have e : k + ((cq_gets (cq_op.release addr :: rest) : Nat) : Int) -
          ((cq_releases (cq_op.release addr :: rest) : Nat) : Int) =
          k - 1 + cq_gets rest - cq_releases rest := by
        simp only [cq_gets, cq_releases]; push_cast; omega
      rw [e]; exact hh

/-- C11 (counterexample): after the single successful `xio_cq_get` of the first
connection on a device without CQs (one get, no release) the reference counter of
the CQ is 2, not 1. -/
theorem C11_first_get_leaves_refcount_two :
    cq_gets [cq_op.get 7 (cq_env_ok 500)] - cq_releases [cq_op.get 7 (cq_env_ok 500)] = 1 ∧
    (cq_run dev_fresh [cq_op.get 7 (cq_env_ok 500)]).map
      (fun d => d.cq_list.map fun c => (c.ctx, c.kref)) = some [(7, 2)] := by
  decide

/-- C11 (as amended): on a device that has no CQ for the context `ctx`, after a
sequence of `g ≥ 1` successful `xio_cq_get(dev, ctx)` calls and `r` releases of the
CQ they return, in which every release gives back a reference obtained by an
earlier get, the device holds exactly one CQ for `ctx` and its reference counter is
`g - r + 1`: the CQ is created with one reference for the context besides the one
of the caller. -/
theorem C11_cq_refcount_counts_context_reference (dev : xio_device) (ctx addr : Nat)
    (env : cq_env) (ops : List cq_op)
    (henv : cq_env_succeeds env addr)
    (hfresh : ∀ c ∈ dev.cq_list, c.ctx ≠ ctx ∧ c.id ≠ addr)
    (hops : ∀ op ∈ ops, op = .get ctx env ∨ op = .release addr)
    (hbal : cq_balanced ops) (hg : 1 ≤ cq_gets ops) :
    ∃ dev1, cq_run dev ops = some dev1 ∧
      cq_holds dev1 ctx addr ((cq_gets ops : Int) - cq_releases ops + 1) := by
  cases ops with
  | nil => simp [cq_gets] at hg
  | cons op rest =>
    have hrest : ∀ op ∈ rest, op = .get ctx env ∨ op = .release addr :=
      fun o ho => hops o (List.mem_cons_of_mem _ ho)
    rcases hops op (List.mem_cons_self _ _) with rfl | rfl
    · have h1 := cq_get_creates dev ctx addr env henv hfresh
      obtain ⟨dev1, hrun, hh⟩ := cq_run_holds ctx addr env rest _ 2 h1 (by omega) hrest (by
        intro n
        have := hbal (n + 1)
        simp only [List.take_succ_cons, cq_gets, cq_releases] at this
        omega)
      refine ⟨dev1, by simpa [cq_run, cq_step] using hrun, ?_⟩
      have e : ((cq_gets (cq_op.get ctx env :: rest) : Nat) : Int) -
          ((cq_releases (cq_op.get ctx env :: rest) : Nat) : Int) + 1 =
          2 + cq_gets rest - cq_releases rest := by
        simp only [cq_gets, cq_releases]; push_cast; omega
      rw [e]; exact hh
    · have := hbal 1
      simp [cq_gets, cq_releases] at this

/-- Witness of C11: three gets and one release on a fresh device leave the CQ of
the context with reference counter `3 - 1 + 1 = 3`. -/
theorem C11_cq_refcount_witness :
    ∃ dev1, cq_run dev_fresh
        [.get 7 (cq_env_ok 500), .get 7 (cq_env_ok 500), .release 500, .get 7 (cq_env_ok 500)] =
          some dev1 ∧
      cq_holds dev1 7 500 3 :=
  C11_cq_refcount_counts_context_reference dev_fresh 7 500 (cq_env_ok 500)
    [.get 7 (cq_env_ok 500), .get 7 (cq_env_ok 500), .release 500, .get 7 (cq_env_ok 500)]
    ⟨rfl, rfl, rfl, rfl, rfl, rfl, rfl⟩ (by decide) (by decide)
    (by
      intro n
      rcases n with _ | _ | _ | _ | _ | n <;> simp [cq_gets, cq_releases])
    (by decide)

/-! ### Reservation of CQ slots -/

/-- C12: when `xio_cq_alloc_slots` cannot reserve `n` slots because `n ≥ cqe_avail`
and the CQ cannot be grown (`cq_depth + alloc_sz ≥ max_cqe`), it takes the
"cq overflow reached" branch, which falls through to `return 0`: the value returned
is 0 and the CQ is unchanged, no slot being reserved. -/
theorem C12_alloc_slots_returns_zero_at_overflow (tcq : xio_cq) (n : Int) (env : resize_env)
    (hn : tcq.cqe_avail ≤ n) (hfull : tcq.max_cqe ≤ tcq.cq_depth + tcq.alloc_sz) :
    xio_cq_alloc_slots tcq n env = (0, tcq) := by
  unfold xio_cq_alloc_slots
  rw [if_neg (by omega), if_neg (by omega)]

/-- Witness of C12: on a device whose `max_cqe` is the default CQ size, after nine
connections have created their QPs the CQ has 545 slots left; the reservation for
the tenth QP returns 0 without reserving, and `xio_qp_create` returns 0 with the QP
created, `cqe_avail` still 545 and ten connections on the CQ. -/
theorem C12_alloc_slots_overflow_witness :
    cq_nine_qps.cqe_avail ≤ MAX_CQE_PER_QP ∧
    cq_nine_qps.max_cqe ≤ cq_nine_qps.cq_depth + cq_nine_qps.alloc_sz ∧
    xio_cq_alloc_slots cq_nine_qps MAX_CQE_PER_QP (env_ok 0).resize = (0, cq_nine_qps) ∧
    (xio_qp_create { conn_opened 1009 with dev := some 100, cm_id := some 2009 }
        world_nine_qps (env_ok 0)).map
      (fun r => (r.1, r.2.1.qp,
        r.2.2.dev.cq_list.map fun c => (c.cq_depth, c.cqe_avail, c.trans_list.length))) =
      some (0, some 600, [(5450, 545, 10)]) :=
  ⟨by decide, by decide,
   C12_alloc_slots_returns_zero_at_overflow cq_nine_qps MAX_CQE_PER_QP (env_ok 0).resize
     (by decide) (by decide),
   by decide⟩

/-! ### Local close, disconnect and established events -/

theorem transport_kref_put_live (release : xio_rdma_transport → cm_world → cm_result)
    (t : xio_rdma_transport) (w : cm_world) (h : t.kref ≠ 1) :
    transport_kref_put release t w = some ({ t with kref := t.kref - 1 }, w) := by
  have : (kref_put t.kref).2 = false := by
    simp only [kref_put, decide_eq_false_iff_not]; omega
  simp only [transport_kref_put, this]
  rfl

theorem transport_kref_put_last (release : xio_rdma_transport → cm_world → cm_result)
    (t : xio_rdma_transport) (w : cm_world) (h : t.kref = 1) :
    transport_kref_put release t w = release { t with kref := 0 } w := by
  have : (kref_put t.kref).2 = true := by
    simp only [kref_put, decide_eq_true_eq]; omega
  simp only [transport_kref_put, this, if_true]
  congr 1
  simp only [kref_put, h]
  rfl

theorem new_calls_append (w : cm_world) (l : List cm_call) (w1 : cm_world)
    (h : w1.calls = w.calls ++ l) : new_calls w w1 = l := by
  simp [new_calls, h]

theorem new_calls_self (w : cm_world) : new_calls w w = [] := by
  simp [new_calls]

/-- C15: for a connection whose reference counter is at least 2, `xio_rdma_close`
(1) in state CLOSED changes nothing and makes no call; (2) in every other state
sets the state to CLOSED and lowers the counter by exactly one, leaving the device
and the pending events as they are; the calls it makes are `rdma_disconnect`
alone when the state was CONNECTED, and otherwise contain neither an
`rdma_disconnect` nor a beacon; (3) a second close right after changes nothing, so
that the two calls lower the counter by exactly one. -/
theorem C15_local_close (obs : xio_observer) (t : xio_rdma_transport) (w : cm_world)
    (env : cm_env) (hk : 2 ≤ t.kref) :
    (t.state = .XIO_STATE_CLOSED → xio_rdma_close obs t w env = some (t, w)) ∧
    (t.state ≠ .XIO_STATE_CLOSED →
      ∃ w1, xio_rdma_close obs t w env =
          some ({ t with state := .XIO_STATE_CLOSED, kref := t.kref - 1 }, w1) ∧
        w1.dev = w.dev ∧ w1.events = w.events ∧
        (t.state = .XIO_STATE_CONNECTED → new_calls w w1 = [.rdma_disconnect t.id]) ∧
        (t.state ≠ .XIO_STATE_CONNECTED →
          ∀ c ∈ new_calls w w1, c ≠ .rdma_disconnect t.id ∧ c ≠ .ibv_post_send_beacon t.id) ∧
        (∀ c ∈ new_calls w w1, c ≠ .ibv_post_send_beacon t.id) ∧
        ∀ env2, xio_rdma_close obs { t with state := .XIO_STATE_CLOSED, kref := t.kref - 1 }
          w1 env2 = some ({ t with state := .XIO_STATE_CLOSED, kref := t.kref - 1 }, w1)) := by
  have hk1 : t.kref ≠ 1 := by omega
  constructor
  · intro hs
    simp only [xio_rdma_close, hs]
  · intro hs
    cases hst : t.state with
    | XIO_STATE_CLOSED => exact absurd hst hs
    | XIO_STATE_CONNECTED =>
      refine ⟨(xio_rdma_disconnect { t with state := .XIO_STATE_CLOSED } w false env).2,
        ?_, ?_, ?_, ?_, ?_, ?_, ?_⟩
      · simp only [xio_rdma_close, hst]
        rw [transport_kref_put_live _ _ _ (by exact hk1)]
      · simp only [xio_rdma_disconnect, cm_emit]; split <;> rfl
      · simp only [xio_rdma_disconnect, cm_emit]; split <;> rfl
      · intro _
        apply new_calls_append
        simp only [xio_rdma_disconnect, cm_emit]; split <;> rfl
      · intro h; exact absurd rfl h
      · intro c hc
        rw [new_calls_append w [.rdma_disconnect t.id] _
          (by simp only [xio_rdma_disconnect, cm_emit]; split <;> rfl)] at hc
        simp only [List.mem_singleton] at hc
        subst hc; simp
      · intro env2; simp only [xio_rdma_close]
    | XIO_STATE_DISCONNECTED =>
      by_cases hig : t.ignore_timewait ≠ 0 ∧ t.timewait = 0
      · refine ⟨xio_set_timewait_timer { t with state := .XIO_STATE_CLOSED }
          (cm_emit w (.ctx_del_delayed_work t.id)), ?_, ?_, ?_, ?_, ?_, ?_, ?_⟩
        · simp only [xio_rdma_close, hst, hig, and_self, ne_eq, not_false_eq_true, if_true]
          rw [transport_kref_put_live _ _ _ (by exact hk1)]
        · simp only [xio_set_timewait_timer, cm_emit, hig.2]; rfl
        · simp only [xio_set_timewait_timer, cm_emit, hig.2]; rfl
        · intro h; cases h
        · intro _ c hc
          rw [new_calls_append w [.ctx_del_delayed_work t.id,
            .ctx_add_delayed_work t.id XIO_TIMEWAIT_EXIT_FAST_TIMEOUT] _
            (by simp [xio_set_timewait_timer, cm_emit, hig.1, hig.2])] at hc
          simp only [List.mem_cons, List.mem_singleton, List.not_mem_nil, or_false] at hc
          rcases hc with rfl | rfl <;> simp
        · intro c hc
          rw [new_calls_append w [.ctx_del_delayed_work t.id,
            .ctx_add_delayed_work t.id XIO_TIMEWAIT_EXIT_FAST_TIMEOUT] _
            (by simp [xio_set_timewait_timer, cm_emit, hig.1, hig.2])] at hc
          simp only [List.mem_cons, List.mem_singleton, List.not_mem_nil, or_false] at hc
          rcases hc with rfl | rfl <;> simp
        · intro env2; simp only [xio_rdma_close]
      · refine ⟨w, ?_, rfl, rfl, ?_, ?_, ?_, ?_⟩
        · simp only [xio_rdma_close, hst, hig, if_false]
          rw [transport_kref_put_live _ _ _ (by exact hk1)]
        · intro h; cases h
        · intro _ c hc; rw [new_calls_self] at hc; cases hc
        · intro c hc; rw [new_calls_self] at hc; cases hc
        · intro env2; simp only [xio_rdma_close]
    | XIO_STATE_INIT | XIO_STATE_LISTEN | XIO_STATE_CONNECTING | XIO_STATE_RECONNECT
    | XIO_STATE_DESTROYED =>
      refine ⟨w, ?_, rfl, rfl, ?_, ?_, ?_, ?_⟩
      · simp only [xio_rdma_close, hst]
        rw [transport_kref_put_live _ _ _ (by exact hk1)]
      · intro h; cases h
      · intro _ c hc; rw [new_calls_self] at hc; cases hc
      · intro c hc; rw [new_calls_self] at hc; cases hc
      · intro env2; simp only [xio_rdma_close]

/-- Witness of C15: the established client connection (counter 3, state CONNECTED)
is closed: the state becomes CLOSED, the counter 2, and the only call made is
`rdma_disconnect`. -/
theorem C15_local_close_witness :
    2 ≤ conn_connected.kref ∧
    ∃ w1, xio_rdma_close observer_none conn_connected world_connected (env_ok 1000) =
        some ({ conn_connected with state := .XIO_STATE_CLOSED, kref := 2 }, w1) ∧
      new_calls world_connected w1 = [.rdma_disconnect 1000] := by
  refine ⟨by decide, ?_⟩
  obtain ⟨w1, h1, _, _, h4, _⟩ :=
    (C15_local_close observer_none conn_connected world_connected (env_ok 1000)
      (by decide)).2 (by decide)
  exact ⟨w1, h1, h4 rfl⟩

theorem disconnect_calls (t : xio_rdma_transport) (w : cm_world) (b : Bool) (env : cm_env) :
    (xio_rdma_disconnect t w b env).2.calls =
      w.calls ++ (cm_call.rdma_disconnect t.id ::
        (if env.disconnect_ok = true ∧ b = true then [cm_call.ibv_post_send_beacon t.id]
         else [])) ∧
    (xio_rdma_disconnect t w b env).2.dev = w.dev ∧
    (xio_rdma_disconnect t w b env).2.events = w.events ∧
    (xio_rdma_disconnect t w b env).2.options = w.options := by
  cases hd : env.disconnect_ok <;> cases b <;> cases hp : env.post_send_ok <;>
    simp [xio_rdma_disconnect, cm_emit, hd, hp]

/-- C16 (counterexample): the client connection in state CONNECTING holds one
reference (ESTABLISHED has not been handled); `on_cm_disconnected`, called by the
dispatcher, drops it, the deleter runs and the state it leaves is DESTROYED, not
DISCONNECTED. -/
theorem C16_connecting_with_one_reference_is_destroyed :
    (conn_connecting_in_handler.state, conn_connecting_in_handler.kref) =
      (.XIO_STATE_CONNECTING, 1) ∧
    (on_cm_disconnected observer_none conn_connecting_in_handler world_connecting
        (env_ok 1000)).map (fun r => (r.1.state, r.1.kref, new_calls world_connecting r.2)) =
      some (.XIO_STATE_DESTROYED, 0,
        [.rdma_disconnect 1000, .notify_observer 1000 .XIO_TRANSPORT_CLOSED]) := by
  decide

/-- C16 (as amended): `on_cm_disconnected` (1) from CONNECTED sets the state to
DISCONNECTED, calls `xio_rdma_disconnect` with the beacon (the beacon is posted
once `rdma_disconnect` has succeeded) and leaves the reference counter unchanged;
(2) from CONNECTING, when the counter is at least 2, sets the state to
DISCONNECTED, calls `rdma_disconnect` without a beacon and lowers the counter by
exactly one; (3) from CLOSED leaves the state CLOSED, calls `xio_rdma_disconnect`
with the beacon and leaves the counter unchanged.  In the three cases the timewait
flag is cleared and nothing else changes. -/
theorem C16_disconnected_in_active_states (obs : xio_observer) (t : xio_rdma_transport)
    (w : cm_world) (env : cm_env) :
    (t.state = .XIO_STATE_CONNECTED →
      ∃ w1, on_cm_disconnected obs t w env =
          some ({ t with timewait := 0, state := .XIO_STATE_DISCONNECTED }, w1) ∧
        new_calls w w1 = .rdma_disconnect t.id ::
          (if env.disconnect_ok = true then [.ibv_post_send_beacon t.id] else [])) ∧
    (t.state = .XIO_STATE_CONNECTING → 2 ≤ t.kref →
      ∃ w1, on_cm_disconnected obs t w env =
          some ({ t with timewait := 0, state := .XIO_STATE_DISCONNECTED
                         kref := t.kref - 1 }, w1) ∧
        new_calls w w1 = [.rdma_disconnect t.id]) ∧
    (t.state = .XIO_STATE_CLOSED →
      ∃ w1, on_cm_disconnected obs t w env = some ({ t with timewait := 0 }, w1) ∧
        new_calls w w1 = .rdma_disconnect t.id ::
          (if env.disconnect_ok = true then [.ibv_post_send_beacon t.id] else [])) := by
  refine ⟨?_, ?_, ?_⟩
  · intro hs
    refine ⟨_, by simp only [on_cm_disconnected, hs]; rfl, ?_⟩
    apply new_calls_append
    rw [(disconnect_calls _ w true env).1]
    simp
  · intro hs hk
    refine ⟨(xio_rdma_disconnect
      { t with timewait := 0, state := .XIO_STATE_DISCONNECTED } w false env).2, ?_, ?_⟩
    · simp only [on_cm_disconnected, hs]
      rw [transport_kref_put_live _ _ _ (by show t.kref ≠ 1; omega)]
    · apply new_calls_append
      rw [(disconnect_calls _ w false env).1]
      simp
  · intro hs
    refine ⟨_, by simp only [on_cm_disconnected, hs]; rfl, ?_⟩
    apply new_calls_append
    rw [(disconnect_calls _ w true env).1]
    simp

/-- Witness of C16: the established connection in state CONNECTED (counter 3) gets
a DISCONNECTED event: state DISCONNECTED, counter 3, disconnect and beacon. -/
theorem C16_disconnected_witness :
    conn_connected.state = .XIO_STATE_CONNECTED ∧
    ∃ w1, on_cm_disconnected observer_none conn_connected world_connected (env_ok 1000) =
        some ({ conn_connected with timewait := 0, state := .XIO_STATE_DISCONNECTED }, w1) ∧
      new_calls world_connected w1 = [.rdma_disconnect 1000, .ibv_post_send_beacon 1000] :=
  ⟨rfl, (C16_disconnected_in_active_states observer_none conn_connected world_connected
    (env_ok 1000)).1 rfl⟩

/-- C17 (counterexample): a connection in state DISCONNECTED whose timewait exit has
run has its timewait flag set; a further DISCONNECTED or ADDR_CHANGE event clears
the flag. -/
theorem C17_timewait_flag_is_cleared :
    conn_after_timewait.isSome = true ∧
    (conn_timewait_done.state, conn_timewait_done.timewait) = (.XIO_STATE_DISCONNECTED, 1) ∧
    (on_cm_disconnected observer_none conn_timewait_done world_timewait_done
        (env_ok 1000)).map (fun r => (r.1.state, r.1.timewait)) =
      some (.XIO_STATE_DISCONNECTED, 0) := by
  decide

/-- C17 (as amended): in state INIT, LISTEN, DISCONNECTED, RECONNECT or DESTROYED,
`on_cm_disconnected` makes no call and leaves the shared state and every field of
the connection unchanged except the timewait flag, which it clears. -/
theorem C17_disconnected_ignored_in_other_states (obs : xio_observer)
    (t : xio_rdma_transport) (w : cm_world) (env : cm_env)
    (hs : t.state = .XIO_STATE_INIT ∨ t.state = .XIO_STATE_LISTEN ∨
      t.state = .XIO_STATE_DISCONNECTED ∨ t.state = .XIO_STATE_RECONNECT ∨
      t.state = .XIO_STATE_DESTROYED) :
    on_cm_disconnected obs t w env = some ({ t with timewait := 0 }, w) := by
  rcases hs with h | h | h | h | h <;> simp only [on_cm_disconnected, h]

/-- Witness of C17: the further event of the counterexample leaves the state
DISCONNECTED and the counter 2, and makes no call. -/
theorem C17_disconnected_ignored_witness :
    conn_timewait_done.state = .XIO_STATE_DISCONNECTED ∧
    on_cm_disconnected observer_none conn_timewait_done world_timewait_done (env_ok 1000) =
      some ({ conn_timewait_done with timewait := 0 }, world_timewait_done) :=
  ⟨by decide, C17_disconnected_ignored_in_other_states observer_none conn_timewait_done
    world_timewait_done (env_ok 1000) (Or.inr (Or.inr (Or.inl (by decide))))⟩

/-- C18: for a connection that has its CM id, with an observer that only records,
(1) `on_cm_established` raises the reference counter by exactly 2, makes exactly
one call, the ESTABLISHED upcall, and leaves the state as it is; (2) the dispatch
of an ESTABLISHED event by `xio_handle_cm_event` raises the counter by exactly 2
and makes exactly one upcall for the connection, ESTABLISHED; (3) a connection
returned by `xio_rdma_open` has the counter 1, and a connection with the counter
1 has the counter 3 once ESTABLISHED has been handled. -/
theorem C18_established_references (t : xio_rdma_transport) (w : cm_world) (env : cm_env)
    (ev : rdma_cm_event) (c : Nat) (hcm : t.cm_id = some c)
    (hev : ev.event = .RDMA_CM_EVENT_ESTABLISHED) :
    (∃ t1 w1, on_cm_established observer_none t w env = some (t1, w1) ∧
      t1.kref = t.kref + 2 ∧ t1.state = t.state ∧
      new_calls w w1 = [.notify_observer t.id .XIO_TRANSPORT_ESTABLISHED]) ∧
    (∃ o, xio_handle_cm_event observer_none ev t w env = some o ∧
      o.hndl.kref = t.kref + 2 ∧ o.hndl.handler_nesting = t.handler_nesting ∧
      upcalls_of t.id (new_calls w o.world) = [.XIO_TRANSPORT_ESTABLISHED]) ∧
    (∀ (w0 w1 : cm_world) (ctx : Nat) (observer tos : Bool) (env0 : cm_env)
        (t0 : xio_rdma_transport),
      xio_rdma_open w0 ctx observer tos env0 = (some t0, w1) → t0.kref = 1) ∧
    (t.kref = 1 → ∃ o, xio_handle_cm_event observer_none ev t w env = some o ∧
      o.hndl.kref = 3) := by
  have h1 : on_cm_established observer_none t w env =
      some ({ t with peer_addr := env.dst_storage, local_addr := env.src_storage
                     kref := t.kref + 2 },
        cm_emit w (.notify_observer t.id .XIO_TRANSPORT_ESTABLISHED)) := by
    simp only [on_cm_established, hcm, xio_transport_notify_observer, observer_none, kref_get]
    congr 3
    omega
  have h2 : ∃ o, xio_handle_cm_event observer_none ev t w env = some o ∧
      o.hndl.kref = t.kref + 2 ∧ o.hndl.handler_nesting = t.handler_nesting ∧
      upcalls_of t.id (new_calls w o.world) = [.XIO_TRANSPORT_ESTABLISHED] := by
    have hd : cm_dispatch observer_none ev { t with handler_nesting := t.handler_nesting + 1 }
        w env =
        some { hndl := { t with handler_nesting := t.handler_nesting + 1
                                peer_addr := env.dst_storage, local_addr := env.src_storage
                                kref := t.kref + 2 }
               child := none
               world := cm_emit w (.notify_observer t.id .XIO_TRANSPORT_ESTABLISHED) } := by
      simp only [cm_dispatch, hev, on_cm_established, hcm, xio_transport_notify_observer,
        observer_none, kref_get, cm_outcome_of]
      congr 3
      omega
    simp only [xio_handle_cm_event, hd]
    by_cases hst : t.state = .XIO_STATE_DESTROYED
    · rw [if_pos hst]
      refine ⟨_, rfl, rfl, by simp, ?_⟩
      have : (xio_ctx_add_event (cm_emit w (.notify_observer t.id .XIO_TRANSPORT_ESTABLISHED))
          t.id .ev_data_close).calls = w.calls ++
          [.notify_observer t.id .XIO_TRANSPORT_ESTABLISHED, .ctx_add_event t.id .ev_data_close] := by
        simp only [xio_ctx_add_event, cm_emit]
        simp
      rw [new_calls_append w _ _ this]
      simp [upcalls_of]
    · rw [if_neg hst]
      refine ⟨_, rfl, rfl, by simp, ?_⟩
      rw [new_calls_append w [.notify_observer t.id .XIO_TRANSPORT_ESTABLISHED] _ rfl]
      simp [upcalls_of]
  refine ⟨⟨_, _, h1, rfl, rfl, new_calls_append w _ _ rfl⟩, h2, ?_, ?_⟩
  · intro w0 w1 ctx observer tos env0 t0 hopen
    simp only [xio_rdma_open] at hopen
    split at hopen
    · cases hopen
    · split at hopen
      · cases hopen
      · split at hopen
        · cases hopen
        · simp only [Prod.mk.injEq, Option.some.injEq] at hopen
          rw [← hopen.1]
          rfl
  · intro hk
    obtain ⟨o, ho, hkr, _⟩ := h2
    exact ⟨o, ho, by rw [hkr, hk]; rfl⟩

/-- Witness of C18: the client connection opened by `xio_rdma_open`, connected and
taken through ADDR_RESOLVED and ROUTE_RESOLVED holds one reference; after the
ESTABLISHED event it holds three. -/
theorem C18_established_witness :
    conn_connecting.cm_id = some 70 ∧
    ∃ o, xio_handle_cm_event observer_none (cm_event_of .RDMA_CM_EVENT_ESTABLISHED)
        conn_connecting world_connecting (env_ok 1000) = some o ∧
      o.hndl.kref = 3 :=
  ⟨by decide, (C18_established_references conn_connecting world_connecting
    (env_ok 1000) (cm_event_of .RDMA_CM_EVENT_ESTABLISHED) 70 (by decide) rfl).2.2.2
    (by decide)⟩

/-! ### The three references of an established connection -/

theorem upcalls_of_append (h : Nat) (l1 l2 : List cm_call) :
    upcalls_of h (l1 ++ l2) = upcalls_of h l1 ++ upcalls_of h l2 := by
  induction l1 with
  | nil => rfl
  | cons c rest ih =>
    cases c with
    | notify_observer h1 ev =>
      simp only [List.cons_append, upcalls_of]
      split <;> simp [ih]
    | _ => simpa only [List.cons_append, upcalls_of] using ih

theorem upcalls_of_quiet (h : Nat) (l : List cm_call)
    (hq : ∀ c ∈ l, ∀ ev, c ≠ .notify_observer h ev) : upcalls_of h l = [] := by
  induction l with
  | nil => rfl
  | cons c rest ih =>
    have hr := ih (fun c hc => hq c (List.mem_cons_of_mem _ hc))
    have hc := hq c (List.mem_cons_self _ _)
    cases c with
    | notify_observer h1 ev =>
      simp only [upcalls_of, hr]
      by_cases he : h1 = h
      · subst he; exact absurd rfl (hc ev)
      · rw [if_neg he]
    | _ => simpa only [upcalls_of] using hr

theorem close_live (obs : xio_observer) (t : xio_rdma_transport) (w : cm_world) (env : cm_env)
    (hs : t.state ≠ .XIO_STATE_CLOSED) (hk : t.kref ≠ 1) :
    xio_rdma_close obs t w env =
      some ({ t with state := .XIO_STATE_CLOSED, kref := t.kref - 1 }, close_world t w env) := by
  cases hst : t.state <;>
    first
    | exact absurd hst hs
    | (simp only [xio_rdma_close, close_world, hst]
       rw [transport_kref_put_live _ _ _ (by exact hk)])

theorem close_last (obs : xio_observer) (t : xio_rdma_transport) (w : cm_world) (env : cm_env)
    (hs : t.state ≠ .XIO_STATE_CLOSED) (hk : t.kref = 1) :
    xio_rdma_close obs t w env =
      xio_rdma_close_cb obs { t with state := .XIO_STATE_CLOSED, kref := 0 }
        (close_world t w env) := by
  cases hst : t.state <;>
    first
    | exact absurd hst hs
    | (simp only [xio_rdma_close, close_world, hst]
       rw [transport_kref_put_last _ _ _ (by exact hk)])

theorem timewait_live (t : xio_rdma_transport) (w : cm_world)
    (htw : t.timewait = 0) (hk : t.kref ≠ 1) :
    on_cm_timewait_exit observer_none t w =
      some ({ timewait_conn t with kref := t.kref - 1 }, timewait_world t w) := by
  simp only [on_cm_timewait_exit, htw, xio_rdma_flush_all_tasks, timewait_world, timewait_conn,
    xio_transport_notify_observer, observer_none]
  by_cases hst : t.state = .XIO_STATE_DISCONNECTED
  · simp only [hst, if_true]
    rw [transport_kref_put_live _ _ _ (by exact hk)]
    simp [hst]
  · simp only [hst, if_false]
    rw [transport_kref_put_live _ _ _ (by exact hk)]
    simp

theorem timewait_last (t : xio_rdma_transport) (w : cm_world)
    (htw : t.timewait = 0) (hk : t.kref = 1) :
    on_cm_timewait_exit observer_none t w =
      xio_rdma_close_cb observer_none { timewait_conn t with kref := 0 }
        (timewait_world t w) := by
  simp only [on_cm_timewait_exit, htw, xio_rdma_flush_all_tasks, timewait_world, timewait_conn,
    xio_transport_notify_observer, observer_none]
  by_cases hst : t.state = .XIO_STATE_DISCONNECTED
  · simp only [hst, if_true]
    rw [transport_kref_put_last _ _ _ (by exact hk)]
    simp [hst]
  · simp only [hst, if_false]
    rw [transport_kref_put_last _ _ _ (by exact hk)]
    simp

theorem close_world_eq (t : xio_rdma_transport) (w : cm_world) (env : cm_env) :
    close_world t w env = { w with calls := w.calls ++ close_calls t } := by
  cases hst : t.state <;> simp only [close_world, close_calls, hst, List.append_nil]
  · cases hd : env.disconnect_ok <;> simp [xio_rdma_disconnect, cm_emit, hd]
  · by_cases hig : t.ignore_timewait ≠ 0 ∧ t.timewait = 0
    · simp [hig, xio_set_timewait_timer, cm_emit, hig.1, hig.2]
    · rw [if_neg hig, if_neg hig]; simp

theorem timewait_world_eq (t : xio_rdma_transport) (w : cm_world) :
    timewait_world t w = { w with calls := w.calls ++ timewait_calls t } := by
  by_cases hst : t.state = .XIO_STATE_DISCONNECTED <;>
    simp [timewait_world, timewait_calls, cm_emit, hst]

theorem upcalls_close_calls (t : xio_rdma_transport) :
    upcalls_of t.id (close_calls t) = [] := by
  cases hst : t.state <;> simp only [close_calls, hst, upcalls_of]
  split <;> simp [upcalls_of]

theorem upcalls_timewait_calls (t : xio_rdma_transport) :
    upcalls_of t.id (timewait_calls t) =
      if t.state = .XIO_STATE_DISCONNECTED then [.XIO_TRANSPORT_DISCONNECTED] else [] := by
  by_cases hst : t.state = .XIO_STATE_DISCONNECTED <;> simp [timewait_calls, upcalls_of, hst]

theorem qp_release_some (t : xio_rdma_transport) (w : cm_world) (r : xio_rdma_transport × cm_world)
    (h : xio_qp_release t w = some r) :
    r.1 = { t with qp := none } ∧ r.2.events = w.events ∧ r.2.options = w.options ∧
    (r.2.calls = w.calls ∨ r.2.calls = w.calls ++ [.rdma_destroy_qp t.id]) := by
  unfold xio_qp_release at h
  split at h
  · cases h
    rename_i hq
    refine ⟨?_, rfl, rfl, Or.inl rfl⟩
    cases t; simp_all
  · split at h
    · cases h
    · split at h
      · cases h
      · simp only [] at h
        split at h
        · cases h
        · cases h
          exact ⟨rfl, rfl, rfl, Or.inr rfl⟩

theorem qp_release_fst (t : xio_rdma_transport) (w w2 : cm_world) (hdev : w2.dev = w.dev) :
    (xio_qp_release t w2).map (fun r => (r.1, r.2.dev)) =
      (xio_qp_release t w).map (fun r => (r.1, r.2.dev)) := by
  unfold xio_qp_release
  cases t.qp with
  | none => simp [hdev]
  | some q =>
    cases t.tcq with
    | none => rfl
    | some tcq =>
      simp only [hdev, cm_emit]
      cases cq_deref w.dev tcq with
      | none => rfl
      | some c =>
        simp only []
        cases xio_cq_release (cq_store w.dev tcq
          { (xio_cq_free_slots c MAX_CQE_PER_QP).2 with
            trans_list := (xio_cq_free_slots c MAX_CQE_PER_QP).2.trans_list.erase t.id }) tcq with
        | none => rfl
        | some d => rfl

/-- The shared state in which `xio_rdma_post_close` releases the QP. -/
theorem post_close_unfold (t : xio_rdma_transport) (w : cm_world)
    (hn : t.handler_nesting = 0) :
    ∃ w5 : cm_world, w5.dev = w.dev ∧
      (∃ l, w5.calls = w.calls ++ l ∧ upcalls_of t.id l = []) ∧
      xio_rdma_post_close t w =
        match xio_qp_release t w5 with
        | none => none
        | some (t1, w6) =>
          match t1.cm_channel with
          | none => none
          | some ch =>
            some ({ t1 with cm_id := none, rkey_tbl := none, peer_rkey_tbl := none
                            portal_uri := none },
              cm_emit (cm_emit (cm_emit
                (match t1.cm_id with
                 | some c => cm_emit w6 (.rdma_destroy_id t1.id c)
                 | none => w6) (.cm_channel_release ch)) (.context_destroy_resume t1.ctx))
                (.ufree t1.id)) := by
  refine ⟨if t.phantom_tasks_pool.isSome then
      cm_emit (cm_emit (xio_ctx_remove_event (xio_ctx_remove_event
        (cm_emit w (.ctx_del_delayed_work t.id)) t.id .ev_data_timewait_exit) t.id
        .ev_data_close) (.unreg_all_observers t.id)) (.tasks_pool_destroy t.id)
    else cm_emit (xio_ctx_remove_event (xio_ctx_remove_event
        (cm_emit w (.ctx_del_delayed_work t.id)) t.id .ev_data_timewait_exit) t.id
        .ev_data_close) (.unreg_all_observers t.id), ?_, ?_, ?_⟩
  · split <;> rfl
  · split
    · exact ⟨[.ctx_del_delayed_work t.id, .ctx_remove_event t.id .ev_data_timewait_exit,
        .ctx_remove_event t.id .ev_data_close, .unreg_all_observers t.id,
        .tasks_pool_destroy t.id], by simp [cm_emit, xio_ctx_remove_event], by simp [upcalls_of]⟩
    · exact ⟨[.ctx_del_delayed_work t.id, .ctx_remove_event t.id .ev_data_timewait_exit,
        .ctx_remove_event t.id .ev_data_close, .unreg_all_observers t.id],
        by simp [cm_emit, xio_ctx_remove_event], by simp [upcalls_of]⟩
  · simp only [xio_rdma_post_close, hn, ne_eq, not_true_eq_false, if_false]

theorem post_close_some (t : xio_rdma_transport) (w : cm_world)
    (r : xio_rdma_transport × cm_world) (hn : t.handler_nesting = 0)
    (h : xio_rdma_post_close t w = some r) :
    ∃ l, r.2.calls = w.calls ++ l ∧ upcalls_of t.id l = [] ∧ cm_call.ufree t.id ∈ l := by
  obtain ⟨w5, _, ⟨l5, hl5, hu5⟩, heq⟩ := post_close_unfold t w hn
  rw [heq] at h
  cases hq : xio_qp_release t w5 with
  | none => simp [hq] at h
  | some v =>
    obtain ⟨t1, w6⟩ := v
    obtain ⟨ht1, _, _, hc6⟩ := qp_release_some t w5 (t1, w6) hq
    simp only [hq] at h
    cases hch : t1.cm_channel with
    | none => simp [hch] at h
    | some ch =>
      simp only [hch, Option.some.injEq] at h
      have hid : t1.id = t.id := by
        have e : t1 = { t with qp := none } := ht1
        rw [e]
      subst h
      have h6 : ∃ l6, w6.calls = w.calls ++ l6 ∧ upcalls_of t.id l6 = [] := by
        rcases hc6 with e | e
        · exact ⟨l5, by rw [e, hl5], hu5⟩
        · exact ⟨l5 ++ [.rdma_destroy_qp t.id], by rw [e, hl5]; simp,
            by rw [upcalls_of_append, hu5]; rfl⟩
      obtain ⟨l6, hl6, hu6⟩ := h6
      cases hcm : t1.cm_id with
      | none =>
        refine ⟨l6 ++ [.cm_channel_release ch, .context_destroy_resume t1.ctx, .ufree t.id],
          ?_, ?_, by simp⟩
        · simp [cm_emit, hl6, hid]
        · rw [upcalls_of_append, hu6]; rfl
      | some c =>
        refine ⟨l6 ++ [.rdma_destroy_id t.id c, .cm_channel_release ch,
          .context_destroy_resume t1.ctx, .ufree t.id], ?_, ?_, by simp⟩
        · simp [cm_emit, hl6, hid]
        · rw [upcalls_of_append, hu6]; rfl

theorem post_close_fst (t : xio_rdma_transport) (w w2 : cm_world) (hn : t.handler_nesting = 0)
    (hdev : w2.dev = w.dev) :
    (xio_rdma_post_close t w2).map Prod.fst = (xio_rdma_post_close t w).map Prod.fst := by
  obtain ⟨w5, hd5, _, heq⟩ := post_close_unfold t w hn
  obtain ⟨w5b, hd5b, _, heqb⟩ := post_close_unfold t w2 hn
  rw [heq, heqb]
  have hfst := qp_release_fst t w5 w5b (by rw [hd5b, hd5, hdev])
  cases hq : xio_qp_release t w5 with
  | none =>
    cases hqb : xio_qp_release t w5b with
    | none => rfl
    | some v => rw [hq, hqb] at hfst; cases hfst
  | some v =>
    cases hqb : xio_qp_release t w5b with
    | none => rw [hq, hqb] at hfst; cases hfst
    | some vb =>
      rw [hq, hqb] at hfst
      simp only [Option.map_some', Option.some.injEq, Prod.mk.injEq] at hfst
      obtain ⟨t1, w6⟩ := v
      obtain ⟨t1b, w6b⟩ := vb
      simp only at hfst
      obtain ⟨rfl, _⟩ := hfst
      simp only []
      cases t1b.cm_channel <;> rfl

theorem apply_drop_live (env : cm_env) (d : conn_drop) (t : xio_rdma_transport) (w : cm_world)
    (hr : drop_ready d t) (hk : t.kref ≠ 1) :
    apply_drop env d t w =
      some (drop_conn d t, { w with calls := w.calls ++ drop_calls d t }) := by
  cases d with
  | owner_close =>
    simp only [apply_drop, drop_conn, drop_calls]
    rw [close_live _ _ _ _ hr hk, close_world_eq]
  | beacon =>
    simp only [apply_drop, drop_conn, drop_calls, beacon_drop, List.append_nil]
    rw [transport_kref_put_live _ _ _ hk]
  | timewait_exit =>
    simp only [apply_drop, drop_conn, drop_calls]
    rw [timewait_live _ _ hr hk, timewait_world_eq]

theorem apply_drop_last (env : cm_env) (d : conn_drop) (t : xio_rdma_transport) (w : cm_world)
    (hr : drop_ready d t) (hk : t.kref = 1) :
    apply_drop env d t w =
      xio_rdma_post_close { drop_conn d t with kref := 0 }
        { w with calls := w.calls ++ drop_calls d t ++
            [.notify_observer t.id .XIO_TRANSPORT_CLOSED] } := by
  cases d with
  | owner_close =>
    simp only [apply_drop, drop_conn, drop_calls]
    rw [close_last _ _ _ _ hr hk, close_world_eq]
    simp [xio_rdma_close_cb, xio_transport_notify_observer, observer_none, cm_emit]
  | beacon =>
    simp only [apply_drop, drop_conn, drop_calls, beacon_drop, List.append_nil]
    rw [transport_kref_put_last _ _ _ hk]
    simp [xio_rdma_close_cb, xio_transport_notify_observer, observer_none, cm_emit]
  | timewait_exit =>
    simp only [apply_drop, drop_conn, drop_calls]
    rw [timewait_last _ _ hr hk, timewait_world_eq]
    simp [xio_rdma_close_cb, xio_transport_notify_observer, observer_none, cm_emit, timewait_conn]

theorem drop_conn_id (d : conn_drop) (t : xio_rdma_transport) : (drop_conn d t).id = t.id := by
  cases d <;> rfl

theorem drop_conn_kref (d : conn_drop) (t : xio_rdma_transport) :
    (drop_conn d t).kref = t.kref - 1 := by
  cases d <;> rfl

theorem upcalls_drop_calls (d : conn_drop) (t : xio_rdma_transport) :
    upcalls_of t.id (drop_calls d t) =
      if d = .timewait_exit ∧ t.state = .XIO_STATE_DISCONNECTED then
        [.XIO_TRANSPORT_DISCONNECTED]
      else [] := by
  cases d with
  | owner_close => simp [drop_calls, upcalls_close_calls]
  | beacon => simp [drop_calls, upcalls_of]
  | timewait_exit => simp [drop_calls, upcalls_timewait_calls]

theorem drop_calls_no_teardown (d : conn_drop) (t : xio_rdma_transport) (h : Nat) :
    ∀ c ∈ drop_calls d t, c ≠ .ufree h ∧ (∀ id, c ≠ .rdma_destroy_id h id) ∧
      c ≠ .notify_observer h .XIO_TRANSPORT_CLOSED := by
  intro c hc
  cases d with
  | owner_close =>
    simp only [drop_calls, close_calls] at hc
    split at hc
    · simp only [List.mem_singleton] at hc; subst hc; simp
    · split at hc
      · simp only [List.mem_cons, List.mem_singleton, List.not_mem_nil, or_false] at hc
        rcases hc with rfl | rfl <;> simp
      · cases hc
    · cases hc
  | beacon => simp [drop_calls] at hc
  | timewait_exit =>
    simp only [drop_calls, timewait_calls] at hc
    split at hc
    · simp only [List.cons_append, List.nil_append, List.mem_cons, List.mem_singleton,
        List.not_mem_nil, or_false] at hc
      rcases hc with rfl | rfl | rfl <;> simp
    · simp only [List.append_nil, List.mem_cons, List.mem_singleton, List.not_mem_nil,
        or_false] at hc
      rcases hc with rfl | rfl <;> simp

theorem apply_drops_cons_some (env : cm_env) (d : conn_drop) (rest : List conn_drop)
    (t t1 : xio_rdma_transport) (w w1 : cm_world) (h : apply_drop env d t w = some (t1, w1)) :
    apply_drops env (d :: rest) t w = apply_drops env rest t1 w1 := by
  simp only [apply_drops, h]

theorem apply_drops_single (env : cm_env) (d : conn_drop) (t : xio_rdma_transport)
    (w : cm_world) : apply_drops env [d] t w = apply_drop env d t w := by
  simp only [apply_drops]
  cases apply_drop env d t w <;> rfl

/-- Three drops on a connection that holds three references: the first two lower
the counter, the third runs the deleter. -/
theorem three_drops (env : cm_env) (d1 d2 d3 : conn_drop) (t : xio_rdma_transport)
    (w : cm_world) (hk : t.kref = 3)
    (h1 : drop_ready d1 t) (h2 : drop_ready d2 (drop_conn d1 t))
    (h3 : drop_ready d3 (drop_conn d2 (drop_conn d1 t))) :
    apply_drops env [d1] t w =
      some (drop_conn d1 t, { w with calls := w.calls ++ drop_calls d1 t }) ∧
    apply_drops env [d1, d2] t w =
      some (drop_conn d2 (drop_conn d1 t),
        { w with calls := w.calls ++ (drop_calls d1 t ++ drop_calls d2 (drop_conn d1 t)) }) ∧
    apply_drops env [d1, d2, d3] t w =
      xio_rdma_post_close { drop_conn d3 (drop_conn d2 (drop_conn d1 t)) with kref := 0 }
        { w with calls := w.calls ++ (drop_calls d1 t ++ drop_calls d2 (drop_conn d1 t) ++
            drop_calls d3 (drop_conn d2 (drop_conn d1 t)) ++
            [.notify_observer t.id .XIO_TRANSPORT_CLOSED]) } := by
  have e1 := apply_drop_live env d1 t w h1 (by omega)
  have k1 : (drop_conn d1 t).kref = 2 := by rw [drop_conn_kref, hk]; rfl
  have e2 := apply_drop_live env d2 (drop_conn d1 t)
    { w with calls := w.calls ++ drop_calls d1 t } h2 (by omega)
  have k2 : (drop_conn d2 (drop_conn d1 t)).kref = 1 := by rw [drop_conn_kref, k1]; rfl
  have e3 := apply_drop_last env d3 (drop_conn d2 (drop_conn d1 t))
    { w with calls := w.calls ++ drop_calls d1 t ++ drop_calls d2 (drop_conn d1 t) } h3 k2
  refine ⟨?_, ?_, ?_⟩
  · rw [apply_drops_single, e1]
  · rw [apply_drops_cons_some env d1 [d2] _ _ _ _ e1, apply_drops_single, e2]
    simp only [List.append_assoc]
  · rw [apply_drops_cons_some env d1 [d2, d3] _ _ _ _ e1,
      apply_drops_cons_some env d2 [d3] _ _ _ _ e2, apply_drops_single]
    simp only [List.append_assoc] at e3 ⊢
    rw [e3]
    simp only [drop_conn_id]

theorem three_drops_props (env : cm_env) (d1 d2 d3 : conn_drop) (t : xio_rdma_transport)
    (w : cm_world) (hk : t.kref = 3) (hn : t.handler_nesting = 0)
    (h1 : drop_ready d1 t) (h2 : drop_ready d2 (drop_conn d1 t))
    (h3 : drop_ready d3 (drop_conn d2 (drop_conn d1 t)))
    (hfinal : { drop_conn d3 (drop_conn d2 (drop_conn d1 t)) with kref := 0 } = conn_drained t)
    (U : List xio_transport_event)
    (hU : upcalls_of t.id (drop_calls d1 t) ++
        upcalls_of t.id (drop_calls d2 (drop_conn d1 t)) ++
        upcalls_of t.id (drop_calls d3 (drop_conn d2 (drop_conn d1 t))) = U) :
    (∀ n : Nat, n < 3 → ∃ r, apply_drops env ([d1, d2, d3].take n) t w = some r ∧
      r.1.kref = 3 - (n : Int) ∧
      ∀ c ∈ new_calls w r.2, c ≠ .ufree t.id ∧ (∀ id, c ≠ .rdma_destroy_id t.id id) ∧
        c ≠ .notify_observer t.id .XIO_TRANSPORT_CLOSED) ∧
    (apply_drops env [d1, d2, d3] t w).map Prod.fst =
      (xio_rdma_post_close (conn_drained t) w).map Prod.fst ∧
    (∀ r, apply_drops env [d1, d2, d3] t w = some r →
      upcalls_of t.id (new_calls w r.2) = U ++ [.XIO_TRANSPORT_CLOSED] ∧
      .ufree t.id ∈ new_calls w r.2) := by
  obtain ⟨e1, e2, e3⟩ := three_drops env d1 d2 d3 t w hk h1 h2 h3
  refine ⟨?_, ?_, ?_⟩
  · intro n hn3
    rcases n with _ | _ | _ | n
    · refine ⟨(t, w), rfl, by simpa using hk, ?_⟩
      intro c hc; rw [new_calls_self] at hc; cases hc
    · refine ⟨_, e1, by rw [drop_conn_kref, hk]; rfl, ?_⟩
      intro c hc
      rw [new_calls_append w (drop_calls d1 t) _ rfl] at hc
      exact drop_calls_no_teardown d1 t t.id c hc
    · refine ⟨_, e2, by rw [drop_conn_kref, drop_conn_kref, hk]; rfl, ?_⟩
      intro c hc
      rw [new_calls_append w _ _ rfl, List.mem_append] at hc
      rcases hc with hc | hc
      · exact drop_calls_no_teardown d1 t t.id c hc
      · exact drop_calls_no_teardown d2 _ t.id c hc
    · omega
  · rw [e3, hfinal]
    exact post_close_fst (conn_drained t) w _ hn rfl
  · intro r hr
    rw [e3, hfinal] at hr
    obtain ⟨l, hl, hu, hmem⟩ := post_close_some (conn_drained t) _ r hn hr
    have hid : (conn_drained t).id = t.id := rfl
    rw [hid] at hu hmem
    have hnew : new_calls w r.2 = drop_calls d1 t ++ drop_calls d2 (drop_conn d1 t) ++
        drop_calls d3 (drop_conn d2 (drop_conn d1 t)) ++
        [.notify_observer t.id .XIO_TRANSPORT_CLOSED] ++ l := by
      apply new_calls_append
      rw [hl]
      simp only [List.append_assoc]
    rw [hnew]
    refine ⟨?_, by simp [hmem]⟩
    simp only [upcalls_of_append, hu, hU, List.append_nil]
    simp [upcalls_of]

theorem upcalls_three (d1 d2 d3 : conn_drop) (t : xio_rdma_transport) :
    upcalls_of t.id (drop_calls d1 t) ++
        upcalls_of t.id (drop_calls d2 (drop_conn d1 t)) ++
        upcalls_of t.id (drop_calls d3 (drop_conn d2 (drop_conn d1 t))) =
      (if d1 = .timewait_exit ∧ t.state = .XIO_STATE_DISCONNECTED then
          [xio_transport_event.XIO_TRANSPORT_DISCONNECTED] else []) ++
        (if d2 = .timewait_exit ∧ (drop_conn d1 t).state = .XIO_STATE_DISCONNECTED then
          [xio_transport_event.XIO_TRANSPORT_DISCONNECTED] else []) ++
        (if d3 = .timewait_exit ∧
            (drop_conn d2 (drop_conn d1 t)).state = .XIO_STATE_DISCONNECTED then
          [xio_transport_event.XIO_TRANSPORT_DISCONNECTED] else []) := by
  have u1 := upcalls_drop_calls d1 t
  have u2 := upcalls_drop_calls d2 (drop_conn d1 t)
  have u3 := upcalls_drop_calls d3 (drop_conn d2 (drop_conn d1 t))
  rw [drop_conn_id] at u2
  rw [drop_conn_id, drop_conn_id] at u3
  rw [u1, u2, u3]

/-- C19 (counterexample): the established connection after the peer has
disconnected (state DISCONNECTED, three references).  When the timewait exit runs
before the owner closes, the upcalls are DISCONNECTED then CLOSED; when the owner
closes first, CLOSED alone. -/
theorem C19_upcalls_depend_on_the_order :
    ({ conn_connected with state := .XIO_STATE_DISCONNECTED }.kref = 3) ∧
    (apply_drops (env_ok 1000) [.timewait_exit, .owner_close, .beacon]
        { conn_connected with state := .XIO_STATE_DISCONNECTED } world_connected).map
      (fun r => upcalls_of 1000 (new_calls world_connected r.2)) =
      some [.XIO_TRANSPORT_DISCONNECTED, .XIO_TRANSPORT_CLOSED] ∧
    (apply_drops (env_ok 1000) [.owner_close, .timewait_exit, .beacon]
        { conn_connected with state := .XIO_STATE_DISCONNECTED } world_connected).map
      (fun r => upcalls_of 1000 (new_calls world_connected r.2)) =
      some [.XIO_TRANSPORT_CLOSED] := by
  decide

/-- C19 (as amended): for a connection that holds three references, is not
closed, has not had its timewait exit and is outside the CM handlers, and for
each of the six orders of the three drops (owner close, beacon drop, timewait
exit), with an observer that only records:
(1) before the third drop the two first drops only lower the counter: no CLOSED
upcall, no `rdma_destroy_id` and no release of the object is made;
(2) the connection object left by the three drops is the same for the six orders:
the one `xio_rdma_post_close` leaves of the closed, drained connection;
(3) the third drop runs the teardown: the CLOSED upcall is the last upcall and the
object is released; the only other upcall is DISCONNECTED, made before it exactly
when the state is DISCONNECTED and the timewait exit comes before the owner's
close. -/
theorem C19_graceful_shutdown_references (env : cm_env) (t : xio_rdma_transport)
    (w : cm_world) (hk : t.kref = 3) (hn : t.handler_nesting = 0) (htw : t.timewait = 0)
    (hs : t.state ≠ .XIO_STATE_CLOSED) (ds : List conn_drop) (hds : ds ∈ drop_orders) :
    (∀ n : Nat, n < 3 → ∃ r, apply_drops env (ds.take n) t w = some r ∧
      r.1.kref = 3 - (n : Int) ∧
      ∀ c ∈ new_calls w r.2, c ≠ .ufree t.id ∧ (∀ id, c ≠ .rdma_destroy_id t.id id) ∧
        c ≠ .notify_observer t.id .XIO_TRANSPORT_CLOSED) ∧
    (apply_drops env ds t w).map Prod.fst =
      (xio_rdma_post_close (conn_drained t) w).map Prod.fst ∧
    (∀ r, apply_drops env ds t w = some r →
      upcalls_of t.id (new_calls w r.2) =
        (if t.state = .XIO_STATE_DISCONNECTED ∧ timewait_before_close ds = true then
          [.XIO_TRANSPORT_DISCONNECTED] else []) ++ [.XIO_TRANSPORT_CLOSED] ∧
      .ufree t.id ∈ new_calls w r.2) := by
  simp only [drop_orders, List.mem_cons, List.mem_singleton, List.not_mem_nil, or_false] at hds
  rcases hds with rfl | rfl | rfl | rfl | rfl | rfl
  · exact three_drops_props env .owner_close .beacon .timewait_exit t w hk hn hs trivial htw
      rfl _ (by rw [upcalls_three]; simp [drop_conn, timewait_before_close])
  · exact three_drops_props env .owner_close .timewait_exit .beacon t w hk hn hs htw trivial
      rfl _ (by rw [upcalls_three]; simp [drop_conn, timewait_before_close])
  · exact three_drops_props env .beacon .owner_close .timewait_exit t w hk hn trivial hs htw
      rfl _ (by rw [upcalls_three]; simp [drop_conn, timewait_before_close])
  · exact three_drops_props env .beacon .timewait_exit .owner_close t w hk hn trivial htw hs
      rfl _ (by rw [upcalls_three]; simp [drop_conn, timewait_conn, timewait_before_close])
  · exact three_drops_props env .timewait_exit .owner_close .beacon t w hk hn htw hs trivial
      rfl _ (by rw [upcalls_three]; simp [drop_conn, timewait_conn, timewait_before_close])
  · exact three_drops_props env .timewait_exit .beacon .owner_close t w hk hn htw trivial hs
      rfl _ (by rw [upcalls_three]; simp [drop_conn, timewait_conn, timewait_before_close])

/-- Witness of C19: the established connection in state CONNECTED, with the order
timewait exit, beacon drop, owner close: the teardown of the drained connection
succeeds, and the three drops leave the object it leaves. -/
theorem C19_graceful_shutdown_witness :
    conn_connected.kref = 3 ∧ conn_connected.handler_nesting = 0 ∧
    conn_connected.timewait = 0 ∧ conn_connected.state ≠ .XIO_STATE_CLOSED ∧
    (xio_rdma_post_close (conn_drained conn_connected) world_connected).isSome = true ∧
    (apply_drops (env_ok 1000) [.timewait_exit, .beacon, .owner_close] conn_connected
        world_connected).map Prod.fst =
      (xio_rdma_post_close (conn_drained conn_connected) world_connected).map Prod.fst :=
  ⟨by decide, by decide, by decide, by decide, by decide,
   (C19_graceful_shutdown_references (env_ok 1000) conn_connected world_connected
     (by decide) (by decide) (by decide) (by decide)
     [.timewait_exit, .beacon, .owner_close] (by decide)).2.1⟩

/-! ### Teardown and the CM handlers -/

/-- C14: a listener in state LISTEN gets a connect request; the child connection is
opened, `rdma_create_qp` fails for it, and the child is rejected and closed from
within the handler of the listener.  The child holds one reference and its
`handler_nesting` is 0, so `xio_rdma_close` runs its teardown at once: before
`xio_handle_cm_event` returns, `rdma_destroy_id` has been called on the CM id of the
event and the child object released; no close event has been scheduled on the
context. -/
theorem C14_child_cm_id_destroyed_inside_the_handler :
    (xio_handle_cm_event observer_none connect_request_71 conn_listening world_listening
        env_create_qp_fails).map
      (fun o => (o.hndl.state, o.hndl.handler_nesting, o.child.map fun c => (c.state, c.cm_id),
        teardown_calls (new_calls world_listening o.world), o.world.events)) =
      some (xio_transport_state.XIO_STATE_LISTEN, (0 : Int),
        some (xio_transport_state.XIO_STATE_CLOSED, (none : Option Nat)),
        [cm_call.rdma_destroy_id 2000 71, cm_call.ufree 2000],
        ([] : List (Nat × xio_ev_data))) := by
  rfl

theorem valid_in_scan_count : ∀ (l : List xio_sg_entry) (k m : Int),
    valid_in_scan l k = some m →
      m = k + mr_count l ∧ ∀ e ∈ l, ¬ (e.addr ≠ none ∧ e.length = 0) := by
  intro l
  induction l with
  | nil =>
    intro k m h
    simp only [valid_in_scan, Option.some.injEq] at h
    exact ⟨by simp [mr_count, h], by simp⟩
  | cons e rest ih =>
    intro k m h
    simp only [valid_in_scan] at h
    by_cases ha : e.addr = none
    · rw [if_pos ha] at h
      by_cases hm : e.mr.isSome = true
      · rw [if_pos hm] at h; cases h
      · rw [if_neg hm] at h
        obtain ⟨h1, h2⟩ := ih _ m h
        have hmr : e.mr = none := by
          cases h0 : e.mr with
          | none => rfl
          | some v => rw [h0] at hm; exact absurd rfl hm
        refine ⟨by simp [mr_count, hmr] at h1 ⊢; omega, ?_⟩
        intro x hx
        rcases List.mem_cons.mp hx with rfl | hx
        · simp [ha]
        · exact h2 x hx
    · rw [if_neg ha] at h
      by_cases hl : e.length = 0
      · rw [if_pos hl] at h; cases h
      · rw [if_neg hl] at h
        obtain ⟨h1, h2⟩ := ih _ m h
        refine ⟨?_, ?_⟩
        · cases hmr : e.mr <;> simp [mr_count, hmr] at h1 ⊢ <;> omega
        · intro x hx
          rcases List.mem_cons.mp hx with rfl | hx
          · simp [hl]
          · exact h2 x hx

theorem valid_out_scan_count : ∀ (l : List xio_sg_entry) (k m : Int),
    valid_out_scan l k = some m →
      m = k + mr_count l ∧ ∀ e ∈ l, ¬ (e.addr ≠ none ∧ e.length = 0) := by
  intro l
  induction l with
  | nil =>
    intro k m h
    simp only [valid_out_scan, Option.some.injEq] at h
    exact ⟨by simp [mr_count, h], by simp⟩
  | cons e rest ih =>
    intro k m h
    simp only [valid_out_scan] at h
    by_cases ha : e.addr = none ∨ e.length = 0
    · rw [if_pos ha] at h; cases h
    · rw [if_neg ha] at h
      obtain ⟨h1, h2⟩ := ih _ m h
      refine ⟨?_, ?_⟩
      · cases hmr : e.mr <;> simp [mr_count, hmr] at h1 ⊢ <;> omega
      · intro x hx
        rcases List.mem_cons.mp hx with rfl | hx
        · intro hc; exact ha (Or.inr hc.2)
        · exact h2 x hx

theorem mr_count_le (l : List xio_sg_entry) : mr_count l ≤ l.length := by
  induction l with
  | nil => simp [mr_count]
  | cons e rest ih => simp only [mr_count, List.length_cons]; split <;> omega

theorem mr_count_pos (l : List xio_sg_entry) (h : ∃ e ∈ l, e.mr.isSome = true) :
    0 < mr_count l := by
  induction l with
  | nil => simp at h
  | cons e rest ih =>
    obtain ⟨x, hx, hm⟩ := h
    rcases List.mem_cons.mp hx with rfl | hx
    · simp [mr_count, hm]
    · have := ih ⟨x, hx, hm⟩
      simp only [mr_count]; omega

theorem mr_count_lt (l : List xio_sg_entry) (h : ∃ e ∈ l, e.mr = none) :
    mr_count l < l.length := by
  induction l with
  | nil => simp at h
  | cons e rest ih =>
    obtain ⟨x, hx, hm⟩ := h
    rcases List.mem_cons.mp hx with rfl | hx
    · have := mr_count_le rest
      simp only [mr_count, hm, Option.isSome_none, Bool.false_eq_true, if_false,
        List.length_cons]
      omega
    · have := ih ⟨x, hx, hm⟩
      simp only [mr_count, List.length_cons]; split <;> omega

/-- C20: for every message side, (a) when the number of entries exceeds the
configured maximum (`max_in_iovsz`, resp. `max_out_iovsz`) or the capacity of the
table, `xio_rdma_is_valid_in_req`, resp. `xio_rdma_is_valid_out_msg`, returns 0;
and for a table that holds its `nents` entries, both return 0 (b) when some but
not all of the entries carry a memory region, and (c) when some entry has a
non-null address and zero length. -/
theorem C20_validation_rejects (options : xio_rdma_options) (iovlen max_inline_hdr : Int)
    (vmsg : xio_vmsg) :
    (vmsg.nents > options.max_in_iovsz ∨ vmsg.nents > vmsg.max_nents →
      xio_rdma_is_valid_in_req options iovlen vmsg = some 0) ∧
    (vmsg.nents > options.max_out_iovsz ∨ vmsg.nents > vmsg.max_nents →
      xio_rdma_is_valid_out_msg options iovlen max_inline_hdr vmsg = some 0) ∧
    (∀ l, sge_visited vmsg = some l →
      ((∃ e ∈ l, e.mr.isSome = true) ∧ (∃ e ∈ l, e.mr = none)) ∨
        (∃ e ∈ l, e.addr ≠ none ∧ e.length = 0) →
      xio_rdma_is_valid_in_req options iovlen vmsg = some 0 ∧
      xio_rdma_is_valid_out_msg options iovlen max_inline_hdr vmsg = some 0) := by
  refine ⟨?_, ?_, ?_⟩
  · intro h
    simp only [xio_rdma_is_valid_in_req, h, if_true]
  · intro h
    simp only [xio_rdma_is_valid_out_msg, h, if_true]
  · intro l hl hbad
    have hlen : (l.length : Int) = vmsg.nents := by
      simp only [sge_visited] at hl
      split at hl
      · cases hl
      · rename_i hn
        simp only [Option.some.injEq] at hl
        rw [← hl, List.length_take]
        omega
    have key : ∀ m : Int, m = 0 + mr_count l →
        (∀ e ∈ l, ¬ (e.addr ≠ none ∧ e.length = 0)) → m ≠ vmsg.nents ∧ m ≠ 0 := by
      intro m hm hno
      rcases hbad with ⟨h1, h2⟩ | h3
      · have := mr_count_pos l h1
        have := mr_count_lt l h2
        omega
      · obtain ⟨e, he, hz⟩ := h3
        exact absurd hz (hno e he)
    constructor
    · simp only [xio_rdma_is_valid_in_req, hl]
      split
      · rfl
      · split
        · rfl
        · split
          · rfl
          · cases hs : valid_in_scan l 0 with
            | none => rfl
            | some m =>
              obtain ⟨h1, h2⟩ := valid_in_scan_count l 0 m hs
              simp only [if_pos (key m h1 h2)]
    · simp only [xio_rdma_is_valid_out_msg, hl]
      split
      · rfl
      · split
        · rfl
        · split
          · rfl
          · split
            · rfl
            · cases hs : valid_out_scan l 0 with
              | none => rfl
              | some m =>
                obtain ⟨h1, h2⟩ := valid_out_scan_count l 0 m hs
                simp only [if_pos (key m h1 h2)]

/-- Witness of C20: a message side whose first entry carries a memory region and
whose second does not is rejected by both validators. -/
theorem C20_validation_rejects_witness :
    sge_visited vmsg_mixed = some vmsg_mixed.sglist ∧
    xio_rdma_is_valid_in_req world_init.options 4 vmsg_mixed = some 0 ∧
    xio_rdma_is_valid_out_msg world_init.options 4 256 vmsg_mixed = some 0 :=
  ⟨by decide,
   (C20_validation_rejects world_init.options 4 256 vmsg_mixed).2.2 vmsg_mixed.sglist
     (by decide) (Or.inl ⟨⟨_, List.mem_cons_self _ _, rfl⟩,
       ⟨_, List.mem_cons_of_mem _ (List.mem_cons_self _ _), rfl⟩⟩)⟩

/-! ### Validation of the header length, options -/

/-- C21, the claim fails for `xio_rdma_is_valid_in_req`: a message side whose header
is 70000 bytes long, above the inline-header limit 256, is rejected by
`xio_rdma_is_valid_out_msg` and accepted by `xio_rdma_is_valid_in_req`. -/
theorem C21_in_req_accepts_long_header :
    (256 : Int) < (vmsg_long_header.header_iov_len : Int) ∧
    xio_rdma_is_valid_out_msg world_init.options 4 256 vmsg_long_header = some 0 ∧
    xio_rdma_is_valid_in_req world_init.options 4 vmsg_long_header = some 1 := by
  decide

/-- C21 (amended): for every message, options and limit `max_inline_hdr` in the
non-negative range of `int`, `xio_rdma_is_valid_out_msg` returns 0 when the header
length is above the limit; `xio_rdma_is_valid_in_req` makes no such test: its
result is the same for any two header lengths that are not zero. -/
theorem C21_out_msg_rejects_long_header (options : xio_rdma_options) (iovlen : Int)
    (max_inline_hdr : Int) (vmsg : xio_vmsg) (h0 : 0 ≤ max_inline_hdr)
    (h1 : max_inline_hdr < 2 ^ 31) (hlen : max_inline_hdr < (vmsg.header_iov_len : Int)) :
    xio_rdma_is_valid_out_msg options iovlen max_inline_hdr vmsg = some 0 ∧
    ∀ n m : Nat, n ≠ 0 → m ≠ 0 →
      xio_rdma_is_valid_in_req options iovlen { vmsg with header_iov_len := n } =
      xio_rdma_is_valid_in_req options iovlen { vmsg with header_iov_len := m } := by
  constructor
  · have hs : size_t_of_int max_inline_hdr < vmsg.header_iov_len := by
      unfold size_t_of_int
      have : max_inline_hdr % 2 ^ 64 = max_inline_hdr := Int.emod_eq_of_lt h0 (by omega)
      rw [this]
      omega
    unfold xio_rdma_is_valid_out_msg
    split_ifs <;> rfl
  · intro n m hn hm
    simp only [xio_rdma_is_valid_in_req, sge_visited, hn, hm]

/-- Witness of C21: the header of 70000 bytes against the limit 256. -/
theorem C21_out_msg_rejects_witness :
    xio_rdma_is_valid_out_msg world_init.options 4 256 vmsg_long_header = some 0 :=
  (C21_out_msg_rejects_long_header world_init.options 4 256 vmsg_long_header
    (by decide) (by decide) (by decide)).1

/-- C25: when the size check lets a length of `sizeof(int)` pass, then for each of
the four stored options and every value `v`, `xio_rdma_set_opt` with
`optlen = sizeof(int)` returns 0, a following `xio_rdma_get_opt` of the same name
returns 0 with `*optval = v` and `*optlen = sizeof(int)`, the other three options,
`rdma_num_devices` and the recorded error being unchanged; `xio_rdma_set_opt` of
`XIO_OPTNAME_RDMA_NUM_DEVICES` and `xio_rdma_set_opt` / `xio_rdma_get_opt` of any
other name return -1, record `XIO_E_NOT_SUPPORTED` and change no option (the get
leaves `*optval` and `*optlen` as they were). -/
theorem C25_options (validate_sz : Int → Int → Option xio_error) (st : opt_state)
    (v optlen optval0 optlen0 fork_retval fork_errno : Int)
    (hv : validate_sz sizeof_int sizeof_int = none) :
    (∀ name ∈ stored_optnames,
      (xio_rdma_set_opt validate_sz st name v sizeof_int fork_retval fork_errno).1 = 0 ∧
      xio_rdma_get_opt
          (xio_rdma_set_opt validate_sz st name v sizeof_int fork_retval fork_errno).2
          name optval0 optlen0 =
        { ret := 0, optval := v, optlen := sizeof_int
          state := (xio_rdma_set_opt validate_sz st name v sizeof_int fork_retval
                      fork_errno).2 } ∧
      (∀ other ∈ stored_optnames, other ≠ name →
        (xio_rdma_get_opt
            (xio_rdma_set_opt validate_sz st name v sizeof_int fork_retval fork_errno).2
            other optval0 optlen0).optval =
          (xio_rdma_get_opt st other optval0 optlen0).optval) ∧
      (xio_rdma_set_opt validate_sz st name v sizeof_int fork_retval
          fork_errno).2.rdma_num_devices = st.rdma_num_devices ∧
      (xio_rdma_set_opt validate_sz st name v sizeof_int fork_retval
          fork_errno).2.error = st.error) ∧
    xio_rdma_set_opt validate_sz st .XIO_OPTNAME_RDMA_NUM_DEVICES v optlen fork_retval
        fork_errno =
      (-1, { st with error := some (.status .XIO_E_NOT_SUPPORTED) }) ∧
    ∀ n : Int,
      xio_rdma_set_opt validate_sz st (.other n) v optlen fork_retval fork_errno =
        (-1, { st with error := some (.status .XIO_E_NOT_SUPPORTED) }) ∧
      xio_rdma_get_opt st (.other n) optval0 optlen0 =
        { ret := -1, optval := optval0, optlen := optlen0
          state := { st with error := some (.status .XIO_E_NOT_SUPPORTED) } } := by
  refine ⟨?_, rfl, fun n => ⟨rfl, rfl⟩⟩
  intro name hname
  simp only [stored_optnames, List.mem_cons, List.mem_singleton, List.not_mem_nil,
    or_false] at hname
  rcases hname with h | h | h | h <;> subst h <;>
    simp only [xio_rdma_set_opt, hv, xio_rdma_get_opt, true_and, and_true] <;>
    (intro other ho hne
     simp only [stored_optnames, List.mem_cons, List.mem_singleton, List.not_mem_nil,
       or_false] at ho
     rcases ho with h | h | h | h <;> subst h <;> first | rfl | exact absurd rfl hne)

/-- Witness of C25: with a size check that answers `EINVAL` to a wrong length,
setting `MAX_IN_IOVLEN` to 7 returns 0 and the value read back is 7. -/
theorem C25_options_witness :
    validate_sz_einval sizeof_int sizeof_int = none ∧
    (xio_rdma_set_opt validate_sz_einval opt_state_init .XIO_OPTNAME_MAX_IN_IOVLEN 7
        sizeof_int 0 0).1 = 0 ∧
    (xio_rdma_get_opt
        (xio_rdma_set_opt validate_sz_einval opt_state_init .XIO_OPTNAME_MAX_IN_IOVLEN 7
          sizeof_int 0 0).2 .XIO_OPTNAME_MAX_IN_IOVLEN 0 0).optval = 7 :=
  have h := (C25_options validate_sz_einval opt_state_init 7 sizeof_int 0 0 0 0
    (by decide)).1 .XIO_OPTNAME_MAX_IN_IOVLEN (by decide)
  ⟨by decide, h.1, by rw [h.2.1]⟩

/-! ### `xio_rdma_dup2` -/

/-- What `xio_rkey_table_create` leaves in `*htbl` and `*len`: on failure the table
pointer is untouched and the length is 0; with `mr_num = 0` it succeeds with the
table pointer untouched and the length 0; a success with `mr_num ≠ 0` stores a
table of `mr_num` entries. -/
theorem rkey_table_create_out (mr_num : Nat) (old new : xio_device)
    (htbl : Option (List xio_rkey_tbl)) (tbl_ok : Bool) (tr : rkey_table_result)
    (h : xio_rkey_table_create mr_num old new htbl tbl_ok = .ok tr) :
    (tr.ret ≠ 0 → tr.htbl = htbl ∧ tr.len = 0) ∧
    (tr.ret = 0 → mr_num = 0 → tr.htbl = htbl ∧ tr.len = 0) ∧
    (tr.ret = 0 → mr_num ≠ 0 → ∃ tbl, tr.htbl = some tbl ∧ tbl.length = mr_num) := by
  unfold xio_rkey_table_create at h
  split at h
  · cases h
    rename_i h0
    exact ⟨fun hc => absurd rfl hc, fun _ _ => ⟨rfl, rfl⟩, fun _ hc => absurd h0 hc⟩
  · split at h
    · cases h
      refine ⟨fun _ => ⟨rfl, rfl⟩, fun hc => ?_, fun hc => ?_⟩ <;>
        simp [ENOMEM] at hc
    · split at h
      rename_i old_n new_n entries _
      split at h
      · cases h
      · split at h
        · cases h
          refine ⟨fun _ => ⟨rfl, rfl⟩, fun hc => ?_, fun hc => ?_⟩ <;> simp at hc
        · cases h
          rename_i hlen _
          refine ⟨fun hc => absurd rfl hc, fun _ h0 => absurd h0 ‹_›, fun _ _ => ⟨_, rfl, ?_⟩⟩
          simp only [List.length_append, List.length_replicate]
          omega

/-- When `xio_rkey_table_create` returns 0 with `mr_num ≠ 0`, the `ucalloc` has
succeeded, both element lists are empty, and the table stored is the zeroed array
of `mr_num` entries with `*len = mr_num` (as a `uint16_t`): with an element on
either list the loop, which resets its second cursor, ends in the error path. -/
theorem rkey_table_create_zero (mr_num : Nat) (old new : xio_device)
    (htbl : Option (List xio_rkey_tbl)) (tbl_ok : Bool) (tr : rkey_table_result)
    (h : xio_rkey_table_create mr_num old new htbl tbl_ok = .ok tr) (hret : tr.ret = 0)
    (hnum : mr_num ≠ 0) :
    tbl_ok = true ∧ old.xm_list = [] ∧ new.xm_list = [] ∧
    tr.htbl = some (List.replicate mr_num ⟨0, 0⟩) ∧ tr.len = mr_num % 2 ^ 16 := by
  unfold xio_rkey_table_create at h
  rw [if_neg hnum] at h
  cases tbl_ok with
  | false =>
    simp only [if_true] at h
    cases h
    simp [ENOMEM] at hret
  | true =>
    simp only [Bool.true_eq_false, if_false] at h
    cases hn : new.xm_list with
    | cons n ns =>
      obtain ⟨entries, he, _⟩ :=
        rkey_table_loop_nonempty new.xm_list (by rw [hn]; simp) old.xm_list []
      rw [he] at h
      simp only [hn] at h
      split at h
      · cases h
      · simp only [ne_eq, not_true_eq_false, false_or, reduceCtorEq, not_false_eq_true,
          if_true] at h
        cases h
        simp at hret
    | nil =>
      cases ho : old.xm_list with
      | cons o os =>
        simp only [hn, ho, rkey_table_loop] at h
        simp at h
        cases h
        simp at hret
      | nil =>
        simp only [hn, ho, rkey_table_loop] at h
        simp at h
        cases h
        exact ⟨rfl, rfl, rfl, rfl, rfl⟩

/-- When `xio_rkey_table_create` returns a value other than 0, memory is registered
(`mr_num ≠ 0`) and the `ucalloc` has failed or one of the element lists is not
empty. -/
theorem rkey_table_create_nonzero (mr_num : Nat) (old new : xio_device)
    (htbl : Option (List xio_rkey_tbl)) (tbl_ok : Bool) (tr : rkey_table_result)
    (h : xio_rkey_table_create mr_num old new htbl tbl_ok = .ok tr) (hret : tr.ret ≠ 0) :
    mr_num ≠ 0 ∧ (tbl_ok = false ∨ old.xm_list ≠ [] ∨ new.xm_list ≠ []) := by
  unfold xio_rkey_table_create at h
  by_cases hnum : mr_num = 0
  · rw [if_pos hnum] at h
    cases h
    exact absurd rfl hret
  · refine ⟨hnum, ?_⟩
    rw [if_neg hnum] at h
    cases tbl_ok with
    | false => exact Or.inl rfl
    | true =>
      right
      by_contra hcon
      simp only [not_or, not_not] at hcon
      simp only [Bool.true_eq_false, if_false, hcon.1, hcon.2, rkey_table_loop] at h
      simp at h
      cases h
      exact hret rfl

/-- What a returning `xio_rdma_dup2` leaves behind, for two connection objects with
a CQ attached on the devices `od` and `nd`. -/
theorem dup2_result_props (obs : xio_observer) (st : mr_registry) (tbl_ok : Bool)
    (old_hndl new_hndl : xio_rdma_transport) (w : cm_world) (env : cm_env) (od nd : Nat)
    (r : dup2_result) (hold : tcq_dev st old_hndl.tcq = some od)
    (hnew : tcq_dev st new_hndl.tcq = some nd)
    (hr : xio_rdma_dup2 obs st tbl_ok old_hndl new_hndl w env = some r) :
    (r.ret = 0 ∨ r.ret = -1) ∧
    (r.ret = 0 →
      xio_rdma_close obs new_hndl w env = some (r.new_hndl, r.world) ∧
      r.new_trans_hndl = old_hndl.id ∧ r.old_hndl.kref = old_hndl.kref + 1 ∧
      (od = nd → r.old_hndl = { old_hndl with kref := old_hndl.kref + 1 }) ∧
      (od ≠ nd → st.mr_num = 0 →
        r.old_hndl = { old_hndl with rkey_tbl_size := 0, kref := old_hndl.kref + 1 }) ∧
      (od ≠ nd → st.mr_num ≠ 0 →
        tbl_ok = true ∧
        (∃ ndev odev, find_dev st nd = some ndev ∧ find_dev st od = some odev ∧
          ndev.xm_list = [] ∧ odev.xm_list = []) ∧
        r.old_hndl = { old_hndl with rkey_tbl := some (List.replicate st.mr_num ⟨0, 0⟩)
                                     rkey_tbl_size := st.mr_num % 2 ^ 16
                                     kref := old_hndl.kref + 1 })) ∧
    (r.ret = -1 →
      od ≠ nd ∧ st.mr_num ≠ 0 ∧
      (∃ ndev odev, find_dev st nd = some ndev ∧ find_dev st od = some odev ∧
        (tbl_ok = false ∨ ndev.xm_list ≠ [] ∨ odev.xm_list ≠ [])) ∧
      r.new_hndl = new_hndl ∧ r.world = w ∧ r.new_trans_hndl = new_hndl.id ∧
      r.old_hndl = { old_hndl with rkey_tbl_size := 0 }) := by
  have hfin : ∀ (o1 : xio_rdma_transport) (r1 : dup2_result),
      dup2_finish obs o1 new_hndl w env = some r1 →
      r1.ret = 0 ∧ xio_rdma_close obs new_hndl w env = some (r1.new_hndl, r1.world) ∧
      r1.new_trans_hndl = o1.id ∧ r1.old_hndl = { o1 with kref := o1.kref + 1 } := by
    intro o1 r1 h1
    unfold dup2_finish at h1
    cases hc : xio_rdma_close obs new_hndl w env with
    | none => simp [hc] at h1
    | some c =>
      obtain ⟨n1, w1⟩ := c
      simp only [hc, Option.some.injEq] at h1
      subst h1
      exact ⟨rfl, rfl, rfl, rfl⟩
  simp only [xio_rdma_dup2, hold, hnew] at hr
  by_cases hd : od = nd
  · rw [if_neg (by simpa using hd)] at hr
    obtain ⟨h0, hc, hp, ho⟩ := hfin _ _ hr
    refine ⟨Or.inl h0, fun _ => ⟨hc, hp, by rw [ho], fun _ => ho, fun hne => absurd hd hne,
      fun hne => absurd hd hne⟩, ?_⟩
    intro hm
    rw [h0] at hm
    cases hm
  · rw [if_pos (by simpa using hd)] at hr
    cases hn : find_dev st nd with
    | none => simp [hn] at hr
    | some ndev =>
      cases ho : find_dev st od with
      | none => simp [hn, ho] at hr
      | some odev =>
        simp only [hn, ho] at hr
        cases ht : xio_rkey_table_create st.mr_num ndev odev old_hndl.rkey_tbl tbl_ok with
        | error e => simp [ht] at hr
        | ok tr =>
          simp only [ht] at hr
          have hout := rkey_table_create_out _ _ _ _ _ _ ht
          by_cases hret : tr.ret = 0
          · rw [if_neg (by simpa using hret)] at hr
            obtain ⟨h0, hc, hp, hoo⟩ := hfin _ _ hr
            refine ⟨Or.inl h0, fun _ => ⟨hc, hp, by rw [hoo], fun he => absurd he hd,
              fun _ hz => ?_, fun _ hnz => ?_⟩, ?_⟩
            · obtain ⟨h1, h2⟩ := hout.2.1 hret hz
              rw [hoo, h1, h2]
            · obtain ⟨hok, hl1, hl2, h1, h2⟩ :=
                rkey_table_create_zero _ _ _ _ _ _ ht hret hnz
              refine ⟨hok, ⟨ndev, odev, rfl, rfl, hl1, hl2⟩, ?_⟩
              rw [hoo, h1, h2]
            · intro hm
              rw [h0] at hm
              cases hm
          · rw [if_pos hret] at hr
            simp only [Option.some.injEq] at hr
            subst hr
            obtain ⟨hnz, hwhy⟩ := rkey_table_create_nonzero _ _ _ _ _ _ ht hret
            obtain ⟨h1, h2⟩ := hout.1 hret
            refine ⟨Or.inr rfl, fun h0 => ?_, fun _ => ⟨hd, hnz, ⟨ndev, odev, rfl, rfl, hwhy⟩,
              rfl, rfl, rfl, ?_⟩⟩
            · simp at h0
            · show { old_hndl with rkey_tbl := tr.htbl, rkey_tbl_size := tr.len } = _
              rw [h1, h2]

/-- C22, the claim fails when no memory is registered: the established connection
(CQ 500 on device 100, no rkey table) and a second connection whose CQ 501 lies on
device 200, with `mr_num = 0`: `xio_rdma_dup2` returns 0, the devices differ, and no
table is built: `rkey_tbl` is still `NULL` and `rkey_tbl_size` is 0. -/
theorem C22_no_table_without_registered_memory :
    (registry_dup2 0).mr_num = 0 ∧
    tcq_dev (registry_dup2 0) conn_connected.tcq = some 100 ∧
    tcq_dev (registry_dup2 0) conn_second.tcq = some 200 ∧
    xio_rdma_dup2 observer_none (registry_dup2 0) true conn_connected conn_second
      world_connected (env_ok 1000) = some dup2_two_devices ∧
    dup2_two_devices.ret = 0 ∧
    conn_connected.rkey_tbl = none ∧
    dup2_two_devices.old_hndl.rkey_tbl = none ∧
    dup2_two_devices.old_hndl.rkey_tbl_size = 0 := by
  refine ⟨rfl, ?_, ?_, rfl, ?_, rfl, ?_, ?_⟩ <;> decide

/-- C22 (amended): for two connection objects with a CQ attached (on the devices
`od` and `nd`).  (1) Every `xio_rdma_dup2(old, &new)` that returns gives 0 or -1.
When it gives 0, the new handle has been closed by `xio_rdma_close`, `*new` holds
the address of the old handle and the old handle's reference counter is one
higher; a table is built exactly when the devices differ and memory is registered
(`mr_num ≠ 0`): with the same device nothing else of the old handle changes, with
different devices and `mr_num = 0` only `rkey_tbl_size` is set to 0 and `rkey_tbl`
is left as it was, and with different devices and `mr_num ≠ 0` the new table of
`mr_num` entries is stored in `rkey_tbl` with `rkey_tbl_size = mr_num`; that table
holds no rkey pair, since the creation succeeds only when the element lists of both
devices are empty.  When it gives -1, the devices differ, memory is registered and
the creation of the table has failed (no memory for it, or an element on one of the
lists); the new handle and the shared state are unchanged (no close), `*new` still
holds the new handle, and the old handle is unchanged but for `rkey_tbl_size = 0`.
(2) The results are produced: when `xio_rdma_close` of the new handle returns,
`xio_rdma_dup2` returns 0 for equal devices, and for different devices when no
memory is registered or the table can be built; it returns -1, whatever the close
would do, when memory is registered and the `ucalloc` fails or a list holds an
element (the entries written staying inside the table). -/
theorem C22_dup2 (obs : xio_observer) (st : mr_registry) (tbl_ok : Bool)
    (old_hndl new_hndl : xio_rdma_transport) (w : cm_world) (env : cm_env) (od nd : Nat)
    (hold : tcq_dev st old_hndl.tcq = some od) (hnew : tcq_dev st new_hndl.tcq = some nd) :
    (∀ r, xio_rdma_dup2 obs st tbl_ok old_hndl new_hndl w env = some r →
      (r.ret = 0 ∨ r.ret = -1) ∧
      (r.ret = 0 →
        xio_rdma_close obs new_hndl w env = some (r.new_hndl, r.world) ∧
        r.new_trans_hndl = old_hndl.id ∧ r.old_hndl.kref = old_hndl.kref + 1 ∧
        (od = nd → r.old_hndl = { old_hndl with kref := old_hndl.kref + 1 }) ∧
        (od ≠ nd → st.mr_num = 0 →
          r.old_hndl = { old_hndl with rkey_tbl_size := 0, kref := old_hndl.kref + 1 }) ∧
        (od ≠ nd → st.mr_num ≠ 0 →
          tbl_ok = true ∧
          (∃ ndev odev, find_dev st nd = some ndev ∧ find_dev st od = some odev ∧
            ndev.xm_list = [] ∧ odev.xm_list = []) ∧
          r.old_hndl = { old_hndl with rkey_tbl := some (List.replicate st.mr_num ⟨0, 0⟩)
                                       rkey_tbl_size := st.mr_num % 2 ^ 16
                                       kref := old_hndl.kref + 1 })) ∧
      (r.ret = -1 →
        od ≠ nd ∧ st.mr_num ≠ 0 ∧
        (∃ ndev odev, find_dev st nd = some ndev ∧ find_dev st od = some odev ∧
          (tbl_ok = false ∨ ndev.xm_list ≠ [] ∨ odev.xm_list ≠ [])) ∧
        r.new_hndl = new_hndl ∧ r.world = w ∧ r.new_trans_hndl = new_hndl.id ∧
        r.old_hndl = { old_hndl with rkey_tbl_size := 0 })) ∧
    (∀ c, xio_rdma_close obs new_hndl w env = some c → od = nd →
      ∃ r, xio_rdma_dup2 obs st tbl_ok old_hndl new_hndl w env = some r ∧ r.ret = 0) ∧
    (∀ c ndev odev, xio_rdma_close obs new_hndl w env = some c →
      find_dev st nd = some ndev → find_dev st od = some odev → od ≠ nd →
      (st.mr_num = 0 ∨ (tbl_ok = true ∧ ndev.xm_list = [] ∧ odev.xm_list = [])) →
      ∃ r, xio_rdma_dup2 obs st tbl_ok old_hndl new_hndl w env = some r ∧ r.ret = 0) ∧
    (∀ ndev odev, find_dev st nd = some ndev → find_dev st od = some odev → od ≠ nd →
      st.mr_num ≠ 0 →
      (tbl_ok = false ∨ (odev.xm_list ≠ [] ∧ ndev.xm_list.length ≤ st.mr_num) ∨
        (odev.xm_list = [] ∧ ndev.xm_list ≠ [])) →
      xio_rdma_dup2 obs st tbl_ok old_hndl new_hndl w env =
        some { ret := -1, old_hndl := { old_hndl with rkey_tbl_size := 0 }
               new_hndl := new_hndl, new_trans_hndl := new_hndl.id, world := w }) := by
  refine ⟨fun r hr => dup2_result_props obs st tbl_ok old_hndl new_hndl w env od nd r hold
    hnew hr, ?_, ?_, ?_⟩
  · intro c hc hd
    simp only [xio_rdma_dup2, hold, hnew, hd, ne_eq, not_true_eq_false, if_false, dup2_finish,
      hc]
    exact ⟨_, rfl, rfl⟩
  · intro c ndev odev hc hn ho hd hcase
    have hcr : ∃ tr, xio_rkey_table_create st.mr_num ndev odev old_hndl.rkey_tbl tbl_ok =
        .ok tr ∧ tr.ret = 0 := by
      rcases hcase with h0 | ⟨hok, h1, h2⟩
      · exact ⟨{ ret := 0, htbl := old_hndl.rkey_tbl, len := 0 },
          by simp only [xio_rkey_table_create, h0, if_true], rfl⟩
      · by_cases h0 : st.mr_num = 0
        · exact ⟨{ ret := 0, htbl := old_hndl.rkey_tbl, len := 0 },
            by simp only [xio_rkey_table_create, h0, if_true], rfl⟩
        · refine ⟨{ ret := 0, htbl := some (List.replicate st.mr_num ⟨0, 0⟩)
                    len := st.mr_num % 2 ^ 16 }, ?_, rfl⟩
          simp only [xio_rkey_table_create, h0, if_false, hok, h1, h2, rkey_table_loop]
          simp
    obtain ⟨tr, htr, hret⟩ := hcr
    simp only [xio_rdma_dup2, hold, hnew, ne_eq, hd, not_false_eq_true, if_true, hn, ho, htr,
      hret, not_true_eq_false, if_false, dup2_finish, hc]
    exact ⟨_, rfl, rfl⟩
  · intro ndev odev hn ho hd hnz hcase
    have hcr : xio_rkey_table_create st.mr_num ndev odev old_hndl.rkey_tbl tbl_ok =
        .ok { ret := (if tbl_ok = false then -ENOMEM else -1), htbl := old_hndl.rkey_tbl
              len := 0 } := by
      rcases hcase with hok | ⟨h1, h2⟩ | ⟨h1, h2⟩
      · simp only [xio_rkey_table_create, hnz, if_false, hok, if_true]
      · cases tbl_ok with
        | false => simp only [xio_rkey_table_create, hnz, if_false, if_true]
        | true =>
          rw [rkey_table_create_nonempty st.mr_num ndev odev _ hnz h1 h2]
          simp
      · cases tbl_ok with
        | false => simp only [xio_rkey_table_create, hnz, if_false, if_true]
        | true =>
          obtain ⟨n, ns, hnn⟩ := List.exists_cons_of_ne_nil h2
          simp only [xio_rkey_table_create, hnz, if_false, h1, hnn, rkey_table_loop]
          simp
    have hne : (if tbl_ok = false then -ENOMEM else (-1 : Int)) ≠ 0 := by
      split <;> simp [ENOMEM]
    simp only [xio_rdma_dup2, hold, hnew, ne_eq, hd, not_false_eq_true, if_true, hn, ho, hcr,
      hne]

/-- Witness of C22: the established connection (CQ 500 on device 100, three
references) and a second connection (CQ 501 on device 200), two memory regions
having been registered and deregistered (`mr_num = 2`, no element left on a list):
`xio_rdma_dup2` returns 0, the second connection is closed, `*new` is the address
1000 of the first, the first holds four references and has got a table of two
zeroed entries with `rkey_tbl_size = 2`. -/
theorem C22_dup2_witness :
    tcq_dev registry_regions_gone conn_connected.tcq = some 100 ∧
    tcq_dev registry_regions_gone conn_second.tcq = some 200 ∧
    registry_regions_gone.mr_num = 2 ∧
    xio_rdma_dup2 observer_none registry_regions_gone true conn_connected conn_second
      world_connected (env_ok 1000) = some dup2_table_built ∧
    dup2_table_built.ret = 0 ∧
    xio_rdma_close observer_none conn_second world_connected (env_ok 1000) =
      some (dup2_table_built.new_hndl, dup2_table_built.world) ∧
    dup2_table_built.new_hndl.state = .XIO_STATE_CLOSED ∧
    dup2_table_built.new_trans_hndl = conn_connected.id ∧
    dup2_table_built.old_hndl =
      { conn_connected with rkey_tbl := some [⟨0, 0⟩, ⟨0, 0⟩], rkey_tbl_size := 2
                            kref := conn_connected.kref + 1 } :=
  have h := ((C22_dup2 observer_none registry_regions_gone true conn_connected conn_second
    world_connected (env_ok 1000) 100 200 (by decide) (by decide)).1 dup2_table_built rfl).2.1
    (by decide)
  ⟨by decide, by decide, by decide, rfl, by decide, h.1, by decide, h.2.1,
    (h.2.2.2.2.2 (by decide) (by decide)).2.2⟩

/-- With a memory region registered on both devices the table creation fails (the
loop of `xio_rkey_table_create` resets its second cursor), so `xio_rdma_dup2`
between two devices returns -1. -/
theorem dup2_fails_with_registered_region :
    (xio_rdma_dup2 observer_none (registry_dup2 1) true conn_connected conn_second
        world_connected (env_ok 1000)).map
      (fun r => (r.ret, r.new_hndl.state, r.new_trans_hndl, r.old_hndl.kref)) =
      some (-1, .XIO_STATE_CONNECTED, 1001, 3) := by
  decide

/-! ### Round trip of the CQ slots -/

/-- Outside the overflow branch the round trip holds: when `n` slots are available
(`n < cqe_avail`) or the CQ can be grown, a reservation that returns 0 followed by
`xio_cq_free_slots` brings the number of reserved slots back. -/
theorem cq_slots_round_trip (tcq : xio_cq) (n : Int) (env : resize_env)
    (h1 : tcq.cqe_avail ≤ tcq.cq_depth)
    (hb : n < tcq.cqe_avail ∨ tcq.cq_depth + tcq.alloc_sz < tcq.max_cqe)
    (hr : (xio_cq_alloc_slots tcq n env).1 = 0) :
    cq_reserved (xio_cq_alloc_slots tcq n env).2 = cq_reserved tcq + n ∧
    cq_reserved (xio_cq_free_slots (xio_cq_alloc_slots tcq n env).2 n).2 = cq_reserved tcq := by
  unfold xio_cq_alloc_slots at hr ⊢
  by_cases ha : n < tcq.cqe_avail
  · simp only [if_pos ha, cq_reserved, xio_cq_free_slots]
    rw [if_pos (by show _ - _ + _ ≤ _; omega)]
    constructor <;> (try simp only []) <;> omega
  · have hg : tcq.cq_depth + tcq.alloc_sz < tcq.max_cqe := by
      rcases hb with hb | hb
      · exact absurd hb ha
      · exact hb
    simp only [if_neg ha, if_pos hg] at hr ⊢
    by_cases hf : env.retval ≠ 0 ∨ tcq.cqe = env.cqe
    · rw [if_pos hf] at hr
      simp at hr
    · simp only [if_neg hf, cq_reserved, xio_cq_free_slots]
      rw [if_pos (by show _ + _ - _ + _ ≤ _ + _; omega)]
      constructor <;> (try simp only []) <;> omega

/-- C29, the claim fails in the overflow branch: for a CQ with
`0 ≤ cqe_avail ≤ cq_depth` and `n > 0`, when `n ≥ cqe_avail` and the CQ cannot be
grown, `xio_cq_alloc_slots` returns 0 without reserving a slot, and the following
`xio_cq_free_slots(n)` (which finds room for `n` more free slots) leaves `n` slots
fewer reserved than before the reservation. -/
theorem C29_round_trip_breaks_at_overflow (tcq : xio_cq) (n : Int) (env : resize_env)
    (hn : tcq.cqe_avail ≤ n) (hfull : tcq.max_cqe ≤ tcq.cq_depth + tcq.alloc_sz)
    (hroom : tcq.cqe_avail + n ≤ tcq.cq_depth) :
    (xio_cq_alloc_slots tcq n env).1 = 0 ∧
    cq_reserved (xio_cq_alloc_slots tcq n env).2 = cq_reserved tcq ∧
    cq_reserved (xio_cq_free_slots (xio_cq_alloc_slots tcq n env).2 n).2 =
      cq_reserved tcq - n := by
  have h : xio_cq_alloc_slots tcq n env = (0, tcq) := by
    unfold xio_cq_alloc_slots
    rw [if_neg (by omega), if_neg (by omega)]
  rw [h]
  refine ⟨rfl, rfl, ?_⟩
  simp only [xio_cq_free_slots, if_pos hroom, cq_reserved]
  omega

/-- Witness of C29: on a device whose `max_cqe` is the default CQ size, nine QPs
have reserved 9 * 545 = 4905 of the 5450 slots; the reservation for the tenth
returns 0 and reserves nothing, the free that follows leaves 4360 slots reserved,
and after the tenth `xio_qp_create` ten QPs live on a CQ with 4905 slots reserved. -/
theorem C29_round_trip_overflow_witness :
    0 ≤ cq_nine_qps.cqe_avail ∧ cq_nine_qps.cqe_avail ≤ cq_nine_qps.cq_depth ∧
    cq_reserved cq_nine_qps = 9 * MAX_CQE_PER_QP ∧
    (xio_cq_alloc_slots cq_nine_qps MAX_CQE_PER_QP (env_ok 0).resize).1 = 0 ∧
    cq_reserved (xio_cq_free_slots
      (xio_cq_alloc_slots cq_nine_qps MAX_CQE_PER_QP (env_ok 0).resize).2
      MAX_CQE_PER_QP).2 = 8 * MAX_CQE_PER_QP ∧
    (xio_qp_create { conn_opened 1009 with dev := some 100, cm_id := some 2009 }
        world_nine_qps (env_ok 0)).map
      (fun r => (r.1, r.2.2.dev.cq_list.map fun c => (cq_reserved c, c.trans_list.length))) =
      some (0, [(9 * MAX_CQE_PER_QP, 10)]) :=
  have h := C29_round_trip_breaks_at_overflow cq_nine_qps MAX_CQE_PER_QP (env_ok 0).resize
    (by decide) (by decide) (by decide)
  ⟨by decide, by decide, by decide, h.1, h.2.2, by decide⟩

/-! ### The timewait exit -/

theorem timewait_exit_repeat_done (obs : xio_observer) (n : Nat) (t : xio_rdma_transport)
    (w : cm_world) (h : t.timewait ≠ 0) : timewait_exit_repeat obs n t w = some (t, w) := by
  induction n with
  | zero => rfl
  | succ n ih => simp only [timewait_exit_repeat, on_cm_timewait_exit, h, ne_eq,
      not_false_eq_true, if_true, ih]

/-- C30: for every connection whose timewait flag is clear (as `on_cm_disconnected`
leaves it), the first invocation of `on_cm_timewait_exit`, with an upper layer that
only records the upcall, sets the flag, cancels the deadline, flushes the task
lists, emits the DISCONNECTED upcall exactly when the state is DISCONNECTED, and
drops exactly one reference: when that was not the last reference the connection
is returned with the counter one lower, otherwise the deleter `xio_rdma_close_cb`
runs on it with the counter at 0.  Every later invocation, whatever the upper layer
and however many there are, returns with the connection and the shared state
unchanged: no reference is dropped, no call and no upcall is made. -/
theorem C30_timewait_exit_runs_once (t : xio_rdma_transport) (w : cm_world)
    (htw : t.timewait = 0) :
    (t.kref ≠ 1 →
      on_cm_timewait_exit observer_none t w =
        some ({ t with timewait := 1, kick_rdma_rd := 0, rdma_in_flight := 0
                       reqs_in_flight_nr := 0, rsps_in_flight_nr := 0
                       tx_ready_tasks_num := 0, kref := t.kref - 1 },
              { w with calls := w.calls ++
                  ([.ctx_del_delayed_work t.id, .flush_task_lists t.id] ++
                    if t.state = .XIO_STATE_DISCONNECTED then
                      [.notify_observer t.id .XIO_TRANSPORT_DISCONNECTED]
                    else []) })) ∧
    (t.kref = 1 →
      on_cm_timewait_exit observer_none t w =
        xio_rdma_close_cb observer_none
          { t with timewait := 1, kick_rdma_rd := 0, rdma_in_flight := 0
                   reqs_in_flight_nr := 0, rsps_in_flight_nr := 0
                   tx_ready_tasks_num := 0, kref := 0 }
          { w with calls := w.calls ++
              ([.ctx_del_delayed_work t.id, .flush_task_lists t.id] ++
                if t.state = .XIO_STATE_DISCONNECTED then
                  [.notify_observer t.id .XIO_TRANSPORT_DISCONNECTED]
                else []) }) ∧
    ∀ (obs : xio_observer) (n : Nat) (t1 : xio_rdma_transport) (w1 : cm_world),
      on_cm_timewait_exit observer_none t w = some (t1, w1) → t.kref ≠ 1 →
      t1.timewait = 1 ∧ timewait_exit_repeat obs n t1 w1 = some (t1, w1) := by
  refine ⟨?_, ?_, ?_⟩
  · intro hk
    rw [timewait_live t w htw hk, timewait_world_eq]
    rfl
  · intro hk
    rw [timewait_last t w htw hk, timewait_world_eq]
    rfl
  · intro obs n t1 w1 h1 hk
    rw [timewait_live t w htw hk] at h1
    simp only [Option.some.injEq, Prod.mk.injEq] at h1
    obtain ⟨rfl, rfl⟩ := h1
    exact ⟨rfl, timewait_exit_repeat_done obs n _ _ (by simp [timewait_conn])⟩

/-- Witness of C30: the established connection (three references) after the peer
has disconnected has its timewait flag clear; the first timewait exit leaves two
references and the flag set, and three further invocations with an upper layer
that would close the connection change nothing. -/
theorem C30_timewait_exit_witness :
    conn_disconnected.timewait = 0 ∧ conn_disconnected.kref = 3 ∧
    on_cm_timewait_exit observer_none conn_disconnected world_disconnected =
      some conn_timewait_first ∧
    conn_timewait_first.1.kref = 2 ∧ conn_timewait_first.1.timewait = 1 ∧
    timewait_exit_repeat (observer_closes (fun _ => true) (env_ok 1000)) 3
      conn_timewait_first.1 conn_timewait_first.2 = some conn_timewait_first :=
  have h := (C30_timewait_exit_runs_once conn_disconnected world_disconnected
    (by decide)).2.2 (observer_closes (fun _ => true) (env_ok 1000)) 3
    conn_timewait_first.1 conn_timewait_first.2 rfl (by decide)
  ⟨by decide, by decide, rfl, by decide, h.1, h.2⟩

/-! ### Deregistration and retroactive registration -/

/-- Unlinking the elements of a list one after the other takes out, of every
device list and of every region list, the elements whose address is in the list. -/
theorem unlink_fold (l : List xio_mr_elem) :
    ∀ st : mr_registry, l.foldl (fun s e => unlink_elem s e.id) st =
      { st with
        dev_list := st.dev_list.map fun d =>
          { d with xm_list := d.xm_list.filter fun x => decide (x.id ∉ l.map fun e => e.id) }
        other_devs := st.other_devs.map fun d =>
          { d with xm_list := d.xm_list.filter fun x => decide (x.id ∉ l.map fun e => e.id) }
        mr_list := st.mr_list.map fun m =>
          { m with dm_list := m.dm_list.filter fun x => decide (x.id ∉ l.map fun e => e.id) } } := by
  induction l with
  | nil =>
    intro st
    simp
  | cons a l ih =>
    intro st
    rw [List.foldl_cons, ih]
    simp only [unlink_elem, List.map_map, List.map_cons, List.mem_cons, not_or]
    congr 1 <;>
      (apply List.map_congr_left
       intro d _
       simp only [Function.comp, List.filter_filter]
       congr 1
       apply List.filter_congr
       intro x _
       simp only [ne_eq, decide_not, Bool.decide_and, Bool.and_comm])

/-- C23: for a memory region `m` kept on `mr_list` at the address `tmr`,
`xio_dereg_mr` returns 0, clears the caller's handle, takes the region off
`mr_list` and takes each of its elements out of the `xm_list` of every device (the
other elements of the device lists stay, in order); the other regions keep their
elements when no element address is shared with `m`.  A second `xio_dereg_mr` on
the cleared handle, or on the stale address `tmr`, and a call for any address that
is not on `mr_list`, return 0 and leave the registry and every device list
unchanged. -/
theorem C23_dereg_mr_idempotent (st : mr_registry) (tmr : Nat) (m : xio_mr)
    (hm : st.mr_list.find? (fun x => x.id = tmr) = some m) :
    (xio_dereg_mr st (some tmr)).1 = 0 ∧ (xio_dereg_mr st (some tmr)).2.1 = none ∧
    (∀ x ∈ (xio_dereg_mr st (some tmr)).2.2.mr_list, x.id ≠ tmr) ∧
    (xio_dereg_mr st (some tmr)).2.2.mr_list.map (fun x => x.id) =
      (st.mr_list.map fun x => x.id).filter (fun i => i ≠ tmr) ∧
    (xio_dereg_mr st (some tmr)).2.2.dev_list = st.dev_list.map (fun d =>
      { d with xm_list := d.xm_list.filter fun x => decide (x.id ∉ m.dm_list.map fun e => e.id) }) ∧
    (xio_dereg_mr st (some tmr)).2.2.other_devs = st.other_devs.map (fun d =>
      { d with xm_list := d.xm_list.filter fun x => decide (x.id ∉ m.dm_list.map fun e => e.id) }) ∧
    ((∀ x ∈ st.mr_list, x.id ≠ tmr → ∀ e ∈ x.dm_list, e.id ∉ m.dm_list.map fun e => e.id) →
      (xio_dereg_mr st (some tmr)).2.2.mr_list = st.mr_list.filter fun x => x.id ≠ tmr) ∧
    xio_dereg_mr (xio_dereg_mr st (some tmr)).2.2 none =
      (0, none, (xio_dereg_mr st (some tmr)).2.2) ∧
    xio_dereg_mr (xio_dereg_mr st (some tmr)).2.2 (some tmr) =
      (0, some tmr, (xio_dereg_mr st (some tmr)).2.2) ∧
    ∀ (st0 : mr_registry) (x : Nat), (∀ y ∈ st0.mr_list, y.id ≠ x) →
      xio_dereg_mr st0 (some x) = (0, some x, st0) := by
  have hnot : ∀ (st0 : mr_registry) (x : Nat), (∀ y ∈ st0.mr_list, y.id ≠ x) →
      xio_dereg_mr st0 (some x) = (0, some x, st0) := by
    intro st0 x hx
    have : st0.mr_list.find? (fun y => decide (y.id = x)) = none := by
      rw [List.find?_eq_none]
      intro y hy
      simpa using hx y hy
    simp only [xio_dereg_mr, this]
  have hres : xio_dereg_mr st (some tmr) =
      (0, none, m.dm_list.foldl (fun s e => unlink_elem s e.id)
        { st with mr_list := st.mr_list.filter fun x => x.id ≠ tmr }) := by
    simp only [xio_dereg_mr, hm]
  rw [hres, unlink_fold]
  simp only []
  have hgone : ∀ (f : xio_mr → xio_mr), (∀ y, (f y).id = y.id) →
      ∀ x ∈ List.map f (st.mr_list.filter fun x => x.id ≠ tmr), x.id ≠ tmr := by
    intro f hf x hx
    simp only [List.mem_map, List.mem_filter] at hx
    obtain ⟨y, ⟨_, hy⟩, rfl⟩ := hx
    rw [hf]
    simpa using hy
  refine ⟨trivial, trivial, hgone _ (fun _ => rfl), ?_, trivial, trivial, ?_, rfl,
    hnot _ _ (hgone _ (fun _ => rfl)), hnot⟩
  · simp only [List.map_map, Function.comp, List.filter_map]
    rfl
  · intro hdis
    conv_rhs => rw [← List.map_id (List.filter _ st.mr_list)]
    apply List.map_congr_left
    intro x hx
    simp only [List.mem_filter] at hx
    have hall : x.dm_list.filter (fun e => decide (e.id ∉ m.dm_list.map fun e => e.id)) =
        x.dm_list := by
      rw [List.filter_eq_self]
      intro e he
      simpa using hdis x hx.1 (by simpa using hx.2) e he
    simp only [hall, id]

/-- Witness of C23: in the registry of two regions (at 3 and 1) on two devices, the
region at 3 holds the elements 5 and 4; after `xio_dereg_mr` only the region at 1
is registered and the device lists hold its elements 2 and 6 alone; a second call
with the cleared handle changes nothing. -/
theorem C23_dereg_mr_witness :
    registry_after_add_dev.2.mr_list.find? (fun x => x.id = 3) =
      some (region_at registry_after_add_dev.2 3) ∧
    xm_ids registry_after_add_dev.2 = [(100, [4, 2]), (200, [6, 5])] ∧
    (xio_dereg_mr registry_after_add_dev.2 (some 3)).1 = 0 ∧
    (xio_dereg_mr registry_after_add_dev.2 (some 3)).2.1 = none ∧
    dm_ids (xio_dereg_mr registry_after_add_dev.2 (some 3)).2.2 = [(1, [6, 2])] ∧
    xm_ids (xio_dereg_mr registry_after_add_dev.2 (some 3)).2.2 = [(100, [2]), (200, [6])] ∧
    xio_dereg_mr (xio_dereg_mr registry_after_add_dev.2 (some 3)).2.2 none =
      (0, none, (xio_dereg_mr registry_after_add_dev.2 (some 3)).2.2) :=
  have h := C23_dereg_mr_idempotent registry_after_add_dev.2 3
    (region_at registry_after_add_dev.2 3) (by decide)
  ⟨by decide, by decide, h.1, h.2.1, by decide, by decide, h.2.2.2.2.2.2.2.1⟩

theorem add_elems_nil (dev : Nat) (d : xio_device) : add_elems dev [] d = d := by
  unfold add_elems
  split <;> rfl

theorem add_elems_id (dev : Nat) (news : List xio_mr_elem) (d : xio_device) :
    (add_elems dev news d).id = d.id := by
  unfold add_elems
  split <;> rfl

/-- The loop of `xio_reg_mr_add_dev`: the regions `done` registered before the loop
ends each gain one element of `news`, the new elements go to the head of the
device's list, and nothing else changes. -/
theorem add_dev_loop_spec (dev : Nat) (reg : Nat → Option ibv_mr) :
    ∀ (ids : List Nat) (st : mr_registry), ids.Nodup →
    ∃ (done : List Nat) (news : List xio_mr_elem),
      done <+: ids ∧
      ((reg_mr_add_dev_loop dev reg ids st).1 = true ↔ done = ids) ∧
      ((reg_mr_add_dev_loop dev reg ids st).1 = true ↔ ∀ i ∈ ids, reg i ≠ none) ∧
      news.length = done.length ∧
      (∀ e ∈ news, e.dev = dev ∧ st.next_id ≤ e.id) ∧
      (reg_mr_add_dev_loop dev reg ids st).2.dev_list = st.dev_list.map (add_elems dev news) ∧
      (reg_mr_add_dev_loop dev reg ids st).2.other_devs =
        st.other_devs.map (add_elems dev news) ∧
      (reg_mr_add_dev_loop dev reg ids st).2.mr_num = st.mr_num ∧
      List.Forall₂ (fun m m1 => (m.id ∈ done → gained_elem reg news m m1) ∧
          (m.id ∉ done → m1 = m)) st.mr_list (reg_mr_add_dev_loop dev reg ids st).2.mr_list := by
  intro ids
  induction ids with
  | nil =>
    intro st _
    refine ⟨[], [], List.prefix_refl _, by simp [reg_mr_add_dev_loop],
      by simp [reg_mr_add_dev_loop], rfl, by simp, ?_, ?_, rfl, ?_⟩
    · simp only [reg_mr_add_dev_loop]
      rw [List.map_congr_left (fun d _ => add_elems_nil dev d), List.map_id'']
      intro x; rfl
    · simp only [reg_mr_add_dev_loop]
      rw [List.map_congr_left (fun d _ => add_elems_nil dev d), List.map_id'']
      intro x; rfl
    · simp only [reg_mr_add_dev_loop]
      rw [List.forall₂_same]
      intro x _
      exact ⟨fun h => absurd h (List.not_mem_nil _), fun _ => rfl⟩
  | cons tmr rest ih =>
    intro st hnd
    cases hreg : reg tmr with
    | none =>
      refine ⟨[], [], List.nil_prefix, ?_, ?_, rfl, by simp, ?_, ?_, ?_, ?_⟩
      · simp [reg_mr_add_dev_loop, hreg]
      · simp only [reg_mr_add_dev_loop, hreg, Bool.false_eq_true, false_iff, not_forall]
        exact ⟨tmr, List.mem_cons_self _ _, by simp [hreg]⟩
      · simp only [reg_mr_add_dev_loop, hreg]
        rw [List.map_congr_left (fun d _ => add_elems_nil dev d), List.map_id'']
        intro x; rfl
      · simp only [reg_mr_add_dev_loop, hreg]
        rw [List.map_congr_left (fun d _ => add_elems_nil dev d), List.map_id'']
        intro x; rfl
      · simp only [reg_mr_add_dev_loop, hreg]
      · simp only [reg_mr_add_dev_loop, hreg]
        rw [List.forall₂_same]
        intro x _
        exact ⟨fun h => absurd h (List.not_mem_nil _), fun _ => rfl⟩
    | some mr =>
      have hnd1 : rest.Nodup := (List.nodup_cons.mp hnd).2
      have htmr : tmr ∉ rest := (List.nodup_cons.mp hnd).1
      obtain ⟨done1, news1, hpre, hok, hall, hlen, hnew, hdev, hoth, hnum, hfa⟩ :=
        ih (link_elem { st with next_id := st.next_id + 1 } tmr
          { id := st.next_id, dev := dev, mr := mr }) hnd1
      have hloop : reg_mr_add_dev_loop dev reg (tmr :: rest) st =
          reg_mr_add_dev_loop dev reg rest (link_elem { st with next_id := st.next_id + 1 } tmr
            { id := st.next_id, dev := dev, mr := mr }) := by
        simp only [reg_mr_add_dev_loop, hreg]
      rw [hloop]
      have hnotin : tmr ∉ done1 := fun h => htmr (hpre.subset h)
      refine ⟨tmr :: done1, news1 ++ [{ id := st.next_id, dev := dev, mr := mr }],
        ?_, ?_, ?_, ?_, ?_, ?_, ?_, ?_, ?_⟩
      · exact (List.prefix_cons_inj tmr).mpr hpre
      · rw [hok]; simp
      · rw [hall]
        simp only [List.mem_cons, forall_eq_or_imp, hreg, ne_eq, not_false_eq_true, true_and,
          reduceCtorEq]
      · simp [hlen]
      · intro e he
        simp only [List.mem_append, List.mem_singleton] at he
        rcases he with he | he
        · have := hnew e he
          simp only [link_elem, update_dev] at this
          exact ⟨this.1, by omega⟩
        · subst he
          exact ⟨rfl, Nat.le_refl _⟩
      · rw [hdev]
        simp only [link_elem, update_dev, List.map_map]
        apply List.map_congr_left
        intro d _
        simp only [Function.comp, add_elems]
        by_cases hd : d.id = dev
        · simp [hd]
        · simp [hd]
      · rw [hoth]
        simp only [link_elem, update_dev, List.map_map]
        apply List.map_congr_left
        intro d _
        simp only [Function.comp, add_elems]
        by_cases hd : d.id = dev
        · simp [hd]
        · simp [hd]
      · rw [hnum]
        simp only [link_elem, update_dev]
      · have hml : (link_elem { st with next_id := st.next_id + 1 } tmr
            { id := st.next_id, dev := dev, mr := mr }).mr_list =
            st.mr_list.map fun m =>
              if m.id = tmr then
                { m with dm_list := { id := st.next_id, dev := dev, mr := mr } :: m.dm_list }
              else m := by
          simp only [link_elem, update_dev]
        rw [hml, List.forall₂_map_left_iff] at hfa
        refine List.Forall₂.imp ?_ hfa
        intro m m1 ⟨h1, h2⟩
        by_cases hm : m.id = tmr
        · simp only [hm, if_true] at h1 h2
          have hid : ({ m with dm_list :=
              { id := st.next_id, dev := dev, mr := mr } :: m.dm_list } : xio_mr).id = tmr := hm
          have := h2 hnotin
          refine ⟨fun _ => ⟨{ id := st.next_id, dev := dev, mr := mr }, by simp, ?_, ?_⟩,
            fun h => absurd (by simp [hm]) h⟩
          · rw [hm, hreg]
          · rw [this]; simp only [hm]
        · simp only [hm, if_false] at h1 h2
          refine ⟨fun hin => ?_, fun hout => h2 (fun h => hout (List.mem_cons_of_mem _ h))⟩
          have hin1 : m.id ∈ done1 := by
            rcases List.mem_cons.mp hin with h | h
            · exact absurd h hm
            · exact h
          obtain ⟨e, he, hr, hm1⟩ := h1 hin1
          exact ⟨e, List.mem_append_left _ he, hr, hm1⟩

theorem filter_keeps_old (l news : List xio_mr_elem) (n : Nat) (hl : ∀ e ∈ l, e.id < n)
    (hn : ∀ e ∈ news, n ≤ e.id) :
    l.filter (fun x => decide (x.id ∉ news.map fun e => e.id)) = l := by
  rw [List.filter_eq_self]
  intro a ha
  simp only [List.mem_map, not_exists, not_and, decide_eq_true_eq]
  intro e he hid
  have := hl a ha
  have := hn e he
  omega

theorem filter_drops_new (news : List xio_mr_elem) :
    news.filter (fun x => decide (x.id ∉ news.map fun e => e.id)) = [] := by
  rw [List.filter_eq_nil_iff]
  intro a ha
  simp only [List.mem_map, not_exists, not_and, decide_eq_true_eq, not_forall, not_not]
  exact ⟨a, ha, rfl⟩

theorem map_eq_of_forall₂ {α β : Type} (f : β → α) (l : List α) (l1 : List β)
    (h : List.Forall₂ (fun a b => f b = a) l l1) : l1.map f = l := by
  induction h with
  | nil => rfl
  | cons hab _ ih => simp [hab, ih]

/-- C24: for a registry whose regions have distinct addresses and whose elements
all lie below the next address handed out, and a device whose element list is
empty: when the registration of some region on the device fails,
`xio_reg_mr_add_dev` returns -1 and the region list, with every region's element
list, and every device's element list (the new device's is empty) are exactly as
before the call; when every registration succeeds it returns 0, every region has
gained exactly one element at the head of its list, that element belongs to the
device and holds the registration of the region, the device's list holds the new
elements, as many as there are regions, and no other device list has changed. -/
theorem C24_add_dev_rolls_back (st : mr_registry) (dev : Nat) (reg : Nat → Option ibv_mr)
    (d : xio_device) (hd : find_dev st dev = some d) (hempty : d.xm_list = [])
    (hbelow : elems_below_next st) (hnd : (st.mr_list.map fun m => m.id).Nodup) :
    ((∃ m ∈ st.mr_list, reg m.id = none) →
      (xio_reg_mr_add_dev st dev reg).1 = -1 ∧
      (xio_reg_mr_add_dev st dev reg).2.mr_list = st.mr_list ∧
      (xio_reg_mr_add_dev st dev reg).2.dev_list = st.dev_list ∧
      (xio_reg_mr_add_dev st dev reg).2.other_devs = st.other_devs ∧
      (xio_reg_mr_add_dev st dev reg).2.mr_num = st.mr_num ∧
      find_dev (xio_reg_mr_add_dev st dev reg).2 dev = some d) ∧
    ((∀ m ∈ st.mr_list, reg m.id ≠ none) →
      (xio_reg_mr_add_dev st dev reg).1 = 0 ∧
      ∃ news : List xio_mr_elem, news.length = st.mr_list.length ∧
        (∀ e ∈ news, e.dev = dev ∧ st.next_id ≤ e.id) ∧
        List.Forall₂ (gained_elem reg news) st.mr_list
          (xio_reg_mr_add_dev st dev reg).2.mr_list ∧
        (xio_reg_mr_add_dev st dev reg).2.dev_list = st.dev_list.map (add_elems dev news) ∧
        (xio_reg_mr_add_dev st dev reg).2.other_devs =
          st.other_devs.map (add_elems dev news) ∧
        find_dev (xio_reg_mr_add_dev st dev reg).2 dev = some { d with xm_list := news }) := by
  obtain ⟨done, news, hpre, hok, hall, hlen, hnew, hdev, hoth, hnum, hfa⟩ :=
    add_dev_loop_spec dev reg (st.mr_list.map fun m => m.id) st hnd
  have hdid : d.id = dev := by
    have := List.find?_some hd
    simpa using this
  have hfind : ∀ st1 : mr_registry, st1.dev_list = st.dev_list.map (add_elems dev news) →
      st1.other_devs = st.other_devs.map (add_elems dev news) →
      find_dev st1 dev = some { d with xm_list := news } := by
    intro st1 h1 h2
    unfold find_dev at hd ⊢
    rw [h1, h2, ← List.map_append, List.find?_map]
    have : ((fun d => decide (d.id = dev)) ∘ add_elems dev news) =
        fun d => decide (d.id = dev) := by
      funext x
      simp [add_elems_id]
    rw [this, hd]
    simp [add_elems, hdid, hempty]
  constructor
  · intro ⟨m, hm, hmreg⟩
    have hb : (reg_mr_add_dev_loop dev reg (st.mr_list.map fun m => m.id) st).1 = false := by
      cases hbv : (reg_mr_add_dev_loop dev reg (st.mr_list.map fun m => m.id) st).1 with
      | false => rfl
      | true =>
        have := hall.mp hbv m.id (List.mem_map.mpr ⟨m, hm, rfl⟩)
        exact absurd hmreg this
    have hres : xio_reg_mr_add_dev st dev reg =
        (-1, (xio_dereg_mr_by_dev
          (reg_mr_add_dev_loop dev reg (st.mr_list.map fun m => m.id) st).2 dev).2) := by
      unfold xio_reg_mr_add_dev
      generalize reg_mr_add_dev_loop dev reg (st.mr_list.map fun m => m.id) st = r at hb
      obtain ⟨b, s⟩ := r
      simp only at hb
      subst hb
      rfl
    have hroll : (xio_dereg_mr_by_dev
        (reg_mr_add_dev_loop dev reg (st.mr_list.map fun m => m.id) st).2 dev).2 =
        { (reg_mr_add_dev_loop dev reg (st.mr_list.map fun m => m.id) st).2 with
          dev_list := st.dev_list, other_devs := st.other_devs, mr_list := st.mr_list } := by
      simp only [xio_dereg_mr_by_dev, hfind _ hdev hoth, unlink_fold, hdev, hoth, List.map_map]
      have hdevs : ∀ l : List xio_device, (∀ x ∈ l, ∀ e ∈ x.xm_list, e.id < st.next_id) →
          List.map ((fun (x : xio_device) =>
            ({ x with xm_list := List.filter (fun y => decide (y.id ∉ news.map fun e => e.id)) x.xm_list } : xio_device)) ∘
            add_elems dev news) l = l := by
        intro l hl
        conv_rhs => rw [← List.map_id l]
        apply List.map_congr_left
        intro x hx
        simp only [Function.comp, add_elems, id]
        by_cases hxd : x.id = dev
        · rw [if_pos hxd]
          simp only [List.filter_append, filter_drops_new, List.nil_append,
            filter_keeps_old _ _ _ (hl x hx) (fun e he => (hnew e he).2)]
        · rw [if_neg hxd]
          simp only [filter_keeps_old _ _ _ (hl x hx) (fun e he => (hnew e he).2)]
      congr 1
      · exact hdevs _ (fun x hx => hbelow.2 x (List.mem_append_left _ hx))
      · exact hdevs _ (fun x hx => hbelow.2 x (List.mem_append_right _ hx))
      · apply map_eq_of_forall₂
        have hmem : List.Forall₂ (fun (m m1 : xio_mr) => m ∈ st.mr_list ∧
            ((m.id ∈ done → gained_elem reg news m m1) ∧ (m.id ∉ done → m1 = m)))
            st.mr_list (reg_mr_add_dev_loop dev reg (st.mr_list.map fun m => m.id) st).2.mr_list := by
          rw [List.forall₂_iff_get] at hfa ⊢
          exact ⟨hfa.1, fun i h1 h2 => ⟨List.get_mem _ _ _, hfa.2 i h1 h2⟩⟩
        refine List.Forall₂.imp ?_ hmem
        intro m0 m1 ⟨hin, h1, h2⟩
        by_cases hdn : m0.id ∈ done
        · obtain ⟨e, he, _, rfl⟩ := h1 hdn
          have hp : decide (e.id ∉ news.map fun e => e.id) = false := by
            simp only [decide_eq_false_iff_not, not_not, List.mem_map]
            exact ⟨e, he, rfl⟩
          simp only [List.filter_cons, hp, Bool.false_eq_true, if_false,
            filter_keeps_old _ _ _ (hbelow.1 m0 hin) (fun e he => (hnew e he).2)]
        · rw [h2 hdn]
          simp only [filter_keeps_old _ _ _ (hbelow.1 m0 hin) (fun e he => (hnew e he).2)]
    rw [hres, hroll]
    refine ⟨rfl, rfl, rfl, rfl, hnum, ?_⟩
    exact hd
  · intro hallreg
    have hb : (reg_mr_add_dev_loop dev reg (st.mr_list.map fun m => m.id) st).1 = true := by
      rw [hall]
      intro i hi
      obtain ⟨m, hm, rfl⟩ := List.mem_map.mp hi
      exact hallreg m hm
    have hdone : done = st.mr_list.map fun m => m.id := hok.mp hb
    have hres : xio_reg_mr_add_dev st dev reg =
        (0, (reg_mr_add_dev_loop dev reg (st.mr_list.map fun m => m.id) st).2) := by
      unfold xio_reg_mr_add_dev
      generalize reg_mr_add_dev_loop dev reg (st.mr_list.map fun m => m.id) st = r at hb
      obtain ⟨b, s⟩ := r
      simp only at hb
      subst hb
      rfl
    rw [hres]
    refine ⟨rfl, news, by rw [hlen, hdone, List.length_map], hnew, ?_, hdev, hoth,
      hfind _ hdev hoth⟩
    have hmem : List.Forall₂ (fun (m m1 : xio_mr) => m ∈ st.mr_list ∧
        ((m.id ∈ done → gained_elem reg news m m1) ∧ (m.id ∉ done → m1 = m)))
        st.mr_list (reg_mr_add_dev_loop dev reg (st.mr_list.map fun m => m.id) st).2.mr_list := by
      rw [List.forall₂_iff_get] at hfa ⊢
      exact ⟨hfa.1, fun i h1 h2 => ⟨List.get_mem _ _ _, hfa.2 i h1 h2⟩⟩
    refine List.Forall₂.imp ?_ hmem
    intro m0 m1 ⟨hin, h1, _⟩
    exact h1 (by rw [hdone]; exact List.mem_map.mpr ⟨m0, hin, rfl⟩)

/-- Witness of C24: two regions (at 3 and 1) are registered on device 100 and
device 200 is added; the registration of the second region visited (at 1) fails:
`xio_reg_mr_add_dev` returns -1, and the regions and both device lists are as
before, the list of device 200 being empty. -/
theorem C24_add_dev_witness :
    find_dev registry_two_regions 200 =
      some { id := 200, max_cqe := 1000, cq_list := [], xm_list := [] } ∧
    dm_ids registry_two_regions = [(3, [4]), (1, [2])] ∧
    (xio_reg_mr_add_dev registry_two_regions 200 reg_fails_at_1).1 = -1 ∧
    (xio_reg_mr_add_dev registry_two_regions 200 reg_fails_at_1).2.mr_list =
      registry_two_regions.mr_list ∧
    xm_ids (xio_reg_mr_add_dev registry_two_regions 200 reg_fails_at_1).2 =
      [(100, [4, 2]), (200, [])] :=
  have h := (C24_add_dev_rolls_back registry_two_regions 200 reg_fails_at_1
    { id := 200, max_cqe := 1000, cq_list := [], xm_list := [] } (by decide) rfl
    ⟨by decide, by decide⟩ (by decide)).1
    ⟨region_at registry_two_regions 1, by decide, by decide⟩
  ⟨by decide, by decide, h.1, h.2.1, by decide⟩

/-! ### The amount of a growth -/

theorem nr_blocks_eq_amount (s : xio_mem_slab)
    (hn : 0 < resize_nr_blocks (resize_clamp s) ∨ 0 < growth_amount s) :
    resize_nr_blocks (resize_clamp s) = growth_amount s := by
  by_cases h0 : s.curr_mb_nr = 0
  · by_cases hi : s.init_mb_nr > s.max_mb_nr
    · have hcl : resize_clamp s = { s with init_mb_nr := s.max_mb_nr } := by
        simp only [resize_clamp, h0, hi, and_self, if_true]
      rw [hcl] at hn ⊢
      simp only [resize_nr_blocks, h0, if_true] at hn ⊢
      simp only [growth_amount, h0, true_and, min_def] at hn ⊢
      split_ifs at hn ⊢ <;> omega
    · have hcl : resize_clamp s = s := by
        simp only [resize_clamp, h0, hi, and_false, if_false]
      rw [hcl] at hn ⊢
      simp only [resize_nr_blocks, h0, if_true] at hn ⊢
      simp only [growth_amount, h0, true_and, min_def] at hn ⊢
      split_ifs at hn ⊢ <;> omega
  · have hcl : resize_clamp s = s := by
      simp only [resize_clamp, h0, false_and, if_false]
    rw [hcl] at hn ⊢
    simp only [resize_nr_blocks, h0, if_false] at hn ⊢
    simp only [growth_amount, h0, false_and, if_false, min_def] at hn ⊢
    split_ifs at hn ⊢ <;> omega

/-- What `xio_mem_slab_resize` does to the counters of the slab. -/
theorem resize_counters (self : Nat) (flags : xio_mempool_flags) (ok : Bool)
    (s : xio_mem_slab) (mem : BlockMem) (alloc : Bool) :
    (xio_mem_slab_resize self flags ok s mem alloc).1.max_mb_nr = s.max_mb_nr ∧
    ((xio_mem_slab_resize self flags ok s mem alloc).2.2 = none →
      (xio_mem_slab_resize self flags ok s mem alloc).1.curr_mb_nr = s.curr_mb_nr ∧
      (xio_mem_slab_resize self flags ok s mem alloc).1.mem_regions_list = s.mem_regions_list ∧
      (xio_mem_slab_resize self flags ok s mem alloc).2.1 = mem) ∧
    ((xio_mem_slab_resize self flags ok s mem alloc).2.2 ≠ none →
      0 < growth_amount s ∧
      (xio_mem_slab_resize self flags ok s mem alloc).1.curr_mb_nr =
        s.curr_mb_nr + growth_amount s ∧
      (xio_mem_slab_resize self flags ok s mem alloc).1.curr_mb_nr ≤ s.max_mb_nr ∧
      (xio_mem_slab_resize self flags ok s mem alloc).1.mem_regions_list =
        mem.length :: s.mem_regions_list ∧
      ∃ blocks, (xio_mem_slab_resize self flags ok s mem alloc).2.1 = mem ++ [blocks] ∧
        (blocks.length : Int) = growth_amount s) := by
  obtain ⟨_, _, _, hc, hm, _, hq, hr⟩ := resize_clamp_fields s
  by_cases hg : 0 < resize_nr_blocks (resize_clamp s) ∧ region_obtained flags ok = true
  · obtain ⟨hn, hok⟩ := hg
    rw [resize_grow self flags ok s mem alloc hn hok]
    have hamt := nr_blocks_eq_amount s (Or.inl hn)
    refine ⟨hm, fun h => by simp at h, fun _ => ⟨by omega, ?_, ?_, ?_, _, rfl, ?_⟩⟩
    · simp only [resize_slab, hc, hamt]
    · simp only [resize_slab, hc, hamt]
      unfold growth_amount
      simp only [min_def]
      split_ifs <;> omega
    · simp only [resize_slab, hr]
    · rw [resize_region_blocks_length, ← hamt]
      omega
  · have hg2 : resize_nr_blocks (resize_clamp s) ≤ 0 ∨ region_obtained flags ok = false := by
      by_cases h1 : 0 < resize_nr_blocks (resize_clamp s)
      · right
        cases hok : region_obtained flags ok
        · rfl
        · exact absurd ⟨h1, hok⟩ hg
      · left; omega
    rw [resize_fail self flags ok s mem alloc hg2]
    exact ⟨hm, fun _ => ⟨hc, hr, rfl⟩, fun h => absurd rfl h⟩

theorem slabs_bounded_set (p : xio_mempool) (i : Nat) (s1 : xio_mem_slab) (mem1 : BlockMem)
    (hb : slabs_bounded p) (h1 : s1.curr_mb_nr ≤ s1.max_mb_nr) :
    slabs_bounded { p with slab := p.slab.set i s1, mem := mem1 } := by
  intro s hs
  rcases List.mem_or_eq_of_mem_set hs with h | h
  · exact hb s h
  · rw [h]; exact h1

theorem new_block_counters (safe_mt : Bool) (s : xio_mem_slab) (mem : BlockMem)
    (r : xio_mem_slab × BlockMem × Option BlockPtr) (h : new_block safe_mt s mem = some r) :
    r.1.curr_mb_nr = s.curr_mb_nr ∧ r.1.max_mb_nr = s.max_mb_nr := by
  rcases new_block_cases safe_mt s mem r h with ⟨_, rfl⟩ | ⟨q, b, b1, _, _, _, _, _, _, rfl⟩
  · exact ⟨rfl, rfl⟩
  · exact ⟨rfl, rfl⟩

theorem alloc_finish_bounded (p : xio_mempool) (i : Nat) (s : xio_mem_slab) (mem : BlockMem)
    (block : BlockPtr) (length : Nat) (res : alloc_result) (hb : slabs_bounded p)
    (hs : s.curr_mb_nr ≤ s.max_mb_nr) (h : alloc_finish p i s mem block length = .ok res) :
    slabs_bounded res.pool := by
  unfold alloc_finish at h
  split at h
  · cases h
  · cases h
    exact slabs_bounded_set p i _ _ hb hs

theorem alloc_retry_bounded (length : Nat) (ok : Nat → Bool) :
    ∀ (fuel : Nat) (p : xio_mempool) (index : Int) (res : alloc_result), slabs_bounded p →
      xio_mempool_alloc_retry length ok fuel p index = .ok res → slabs_bounded res.pool := by
  intro fuel
  induction fuel with
  | zero =>
    intro p index res _ h
    simp [xio_mempool_alloc_retry] at h
  | succ n ih =>
    intro p index res hb h
    rw [xio_mempool_alloc_retry] at h
    split at h
    · cases h
      exact hb
    · cases hs : p.slab[index.toNat]? with
      | none => simp [hs] at h
      | some slab =>
        simp only [hs] at h
        have hslab : slab.curr_mb_nr ≤ slab.max_mb_nr := hb slab (List.getElem?_mem hs)
        cases hn1 : new_block p.safe_mt slab p.mem with
        | none => simp [hn1] at h
        | some r1 =>
          obtain ⟨slab1, mem1, ob1⟩ := r1
          obtain ⟨hc1, hm1⟩ := new_block_counters _ _ _ _ hn1
          simp only at hc1 hm1
          cases ob1 with
          | some block =>
            simp only [hn1] at h
            exact alloc_finish_bounded p _ slab1 mem1 block length res hb (by omega) h
          | none =>
            simp only [hn1] at h
            cases hn2 : new_block p.safe_mt slab1 mem1 with
            | none => simp [hn2] at h
            | some r2 =>
              obtain ⟨slab2, mem2, ob2⟩ := r2
              obtain ⟨hc2, hm2⟩ := new_block_counters _ _ _ _ hn2
              simp only at hc2 hm2
              cases ob2 with
              | some block =>
                simp only [hn2] at h
                exact alloc_finish_bounded p _ slab2 mem2 block length res hb (by omega) h
              | none =>
                simp only [hn2] at h
                obtain ⟨hmx, hnone, hsome⟩ :=
                  resize_counters index.toNat p.flags (ok index.toNat) slab2 mem2 true
                generalize hrz : xio_mem_slab_resize index.toNat p.flags (ok index.toNat)
                  slab2 mem2 true = rz at h hmx hnone hsome
                obtain ⟨slab3, mem3, ob3⟩ := rz
                simp only at hmx hnone hsome
                cases ob3 with
                | some block =>
                  simp only at h
                  have := (hsome (by simp)).2.2.1
                  exact alloc_finish_bounded p _ slab3 mem3 block length res hb (by omega) h
                | none =>
                  simp only at h
                  have := (hnone rfl).1
                  exact ih _ _ res (slabs_bounded_set p _ slab3 mem3 hb (by omega)) h

theorem alloc_bounded (p : xio_mempool) (length : Nat) (ok : Nat → Bool) (res : alloc_result)
    (hb : slabs_bounded p) (h : xio_mempool_alloc p length ok = .ok res) :
    slabs_bounded res.pool := by
  unfold xio_mempool_alloc at h
  split at h
  · cases h
  · exact alloc_retry_bounded length ok _ _ _ res hb h

theorem free_bounded (p p1 : xio_mempool) (obj : Option xio_mempool_obj)
    (hb : slabs_bounded p) (h : xio_mempool_free p obj = some p1) : slabs_bounded p1 := by
  unfold xio_mempool_free at h
  split at h
  · cases h; exact hb
  · split at h
    · cases h; exact hb
    · split at h
      · cases h
      · split at h
        · cases h
        · rename_i slab hsl
          simp only [Option.some.injEq] at h
          subst h
          have hslab := hb slab (List.getElem?_mem hsl)
          apply slabs_bounded_set p _ _ _ hb
          split
          · simp only [safe_release]
            split <;> exact hslab
          · exact hslab

theorem add_slab_bounded (p : xio_mempool) (size min max q : Nat) (ok : Bool)
    (hb : slabs_bounded p) (hmax : 0 ≤ int_of_size_t max) :
    slabs_bounded (xio_mempool_add_slab p size min max q ok).2 := by
  unfold xio_mempool_add_slab
  split
  · exact hb
  · rename_i k _
    intro s hs
    simp only [add_slab_at, List.mem_append, List.mem_cons, List.mem_singleton] at hs
    rcases hs with (hs | hs | hs) | hs
    · exact hb s (List.mem_of_mem_take (List.mem_of_mem_take hs))
    · subst hs
      unfold add_slab_grow
      split
      · obtain ⟨hmx, hnone, hsome⟩ := resize_counters k p.flags ok
          (add_slab_fresh size min max q)
          (reparent_slabs p.mem (List.take k (List.take p.slabs_nr p.slab)) 0) false
        simp only []
        rw [hmx]
        cases hres : (xio_mem_slab_resize k p.flags ok (add_slab_fresh size min max q)
          (reparent_slabs p.mem (List.take k (List.take p.slabs_nr p.slab)) 0) false).2.2 with
        | none =>
          rw [(hnone hres).1]
          exact hmax
        | some b => exact (hsome (by rw [hres]; simp)).2.2.1
      · exact hmax
    · exact hb s (List.mem_of_mem_take (List.mem_of_mem_drop hs))
    · rcases hs with hs | hs
      · subst hs
        simp [sentinel_slab]
      · cases hs

theorem pool_run_bounded (ops : List pool_op) :
    ∀ (p p1 : xio_mempool), slabs_bounded p → (∀ op ∈ ops, op_max_ok op) →
      pool_run p ops = some p1 → slabs_bounded p1 := by
  induction ops with
  | nil =>
    intro p p1 hb _ h
    simp only [pool_run, Option.some.injEq] at h
    subst h
    exact hb
  | cons op rest ih =>
    intro p p1 hb hops h
    simp only [pool_run] at h
    cases hst : pool_step p op with
    | none => simp [hst] at h
    | some p2 =>
      simp only [hst] at h
      refine ih p2 p1 ?_ (fun o ho => hops o (List.mem_cons_of_mem _ ho)) h
      have hop := hops op (List.mem_cons_self _ _)
      cases op with
      | add_slab size min max q ok =>
        simp only [pool_step, Option.some.injEq] at hst
        subst hst
        exact add_slab_bounded p size min max q ok hb hop
      | alloc length ok =>
        simp only [pool_step] at hst
        split at hst
        · split at hst
          · simp only [Option.some.injEq] at hst
            subst hst
            rename_i res hres
            exact alloc_bounded p length ok res hb hres
          · cases hst
        · cases hst
      | free obj =>
        simp only [pool_step] at hst
        exact free_bounded p p2 obj hb hst

/-- C26, the claim fails on the first growth of a slab that has an initial count,
and its bound fails for a maximum that is negative as an `int`: the new slab
`{64, min 5, max 10, quantum 2}` has no block and an empty free list, and its first
growth, made by `xio_mempool_add_slab`, adds 5 blocks where
`min(quantum, max - current)` is 2; the slab added with `max = 2^31` has
`max_mb_nr = -2^31` and `curr_mb_nr = 0`. -/
theorem C26_first_growth_adds_the_initial_count :
    slab_init_5.curr_mb_nr = 0 ∧ slab_init_5.free_blocks_list = none ∧
    min slab_init_5.alloc_quantum_nr (slab_init_5.max_mb_nr - slab_init_5.curr_mb_nr) = 2 ∧
    (xio_mem_slab_resize 0 (xio_mempool_create 0 0 flags_none).flags true slab_init_5 []
      false).1.curr_mb_nr = 5 ∧
    (xio_mempool_add_slab (xio_mempool_create 0 0 flags_none) 64 5 10 2 true).2.slab.map
      (fun s => (s.curr_mb_nr, s.max_mb_nr)) = [(5, 10), (0, 0)] ∧
    pool_huge_max.slab.map (fun s => (s.curr_mb_nr, s.max_mb_nr)) =
      [(0, -2147483648), (0, 0)] := by
  decide

/-- C26 (amended): a growth performed by `xio_mem_slab_resize` (a block is
returned) adds `growth_amount` blocks to `curr_mb_nr`: `min(quantum, max - current)`
when the slab already has blocks or its initial count is 0, and
`min(init_mb_nr, max_mb_nr)` on the first growth of a slab with an initial count;
it records one new region, which holds that many blocks, at the head of the
region list.  With `curr_mb_nr = max_mb_nr` no block is returned and the counter,
the region list and the memory are unchanged.  After every sequence of
`xio_mempool_add_slab`, `xio_mempool_alloc` and `xio_mempool_free` calls on a new
pool in which every maximum is not negative as an `int`, every slab has
`curr_mb_nr ≤ max_mb_nr`. -/
theorem C26_growth_amount (self : Nat) (flags : xio_mempool_flags) (ok : Bool)
    (s : xio_mem_slab) (mem : BlockMem) (alloc : Bool) :
    ((xio_mem_slab_resize self flags ok s mem alloc).2.2 ≠ none →
      (xio_mem_slab_resize self flags ok s mem alloc).1.curr_mb_nr =
        s.curr_mb_nr + growth_amount s ∧
      (xio_mem_slab_resize self flags ok s mem alloc).1.mem_regions_list =
        mem.length :: s.mem_regions_list ∧
      ∃ blocks, (xio_mem_slab_resize self flags ok s mem alloc).2.1 = mem ++ [blocks] ∧
        (blocks.length : Int) = growth_amount s) ∧
    ((s.curr_mb_nr ≠ 0 ∨ s.init_mb_nr = 0) →
      growth_amount s = min s.alloc_quantum_nr (s.max_mb_nr - s.curr_mb_nr)) ∧
    ((s.curr_mb_nr = 0 ∧ s.init_mb_nr ≠ 0) →
      growth_amount s = min s.init_mb_nr s.max_mb_nr) ∧
    (0 < growth_amount s → region_obtained flags ok = true →
      (xio_mem_slab_resize self flags ok s mem alloc).2.2 = some ⟨mem.length, 0⟩) ∧
    (s.curr_mb_nr = s.max_mb_nr →
      (xio_mem_slab_resize self flags ok s mem alloc).2.2 = none ∧
      (xio_mem_slab_resize self flags ok s mem alloc).1.curr_mb_nr = s.curr_mb_nr ∧
      (xio_mem_slab_resize self flags ok s mem alloc).1.mem_regions_list = s.mem_regions_list ∧
      (xio_mem_slab_resize self flags ok s mem alloc).2.1 = mem) ∧
    ∀ (nodeid cur : Int) (flags0 : xio_mempool_flags) (ops : List pool_op) (p1 : xio_mempool),
      (∀ op ∈ ops, op_max_ok op) →
      pool_run (xio_mempool_create nodeid cur flags0) ops = some p1 → slabs_bounded p1 := by
  obtain ⟨_, hnone, hsome⟩ := resize_counters self flags ok s mem alloc
  refine ⟨fun h => ⟨(hsome h).2.1, (hsome h).2.2.2.1, (hsome h).2.2.2.2⟩, ?_, ?_, ?_, ?_, ?_⟩
  · intro h
    unfold growth_amount
    rw [if_neg]
    rintro ⟨h0, h1⟩
    rcases h with h | h
    · exact h h0
    · exact h1 h
  · intro h
    unfold growth_amount
    rw [if_pos h]
  · intro hpos hok
    have hn : 0 < resize_nr_blocks (resize_clamp s) := by
      rw [nr_blocks_eq_amount s (Or.inr hpos)]
      exact hpos
    rw [resize_grow self flags ok s mem alloc hn hok]
  · intro hfull
    have hf := resize_fail self flags ok s mem alloc (Or.inl (resize_nr_blocks_full s hfull))
    have hn : (xio_mem_slab_resize self flags ok s mem alloc).2.2 = none := by rw [hf]
    exact ⟨hn, (hnone hn).1, (hnone hn).2.1, (hnone hn).2.2⟩
  · intro nodeid cur flags0 ops p1 hops hrun
    refine pool_run_bounded ops _ p1 ?_ hops hrun
    intro x hx
    simp [xio_mempool_create] at hx

/-- Witness of C26: the first growth of the slab `{64, min 5, max 10, quantum 2}`
returns a block and adds 5 blocks in one region; after the slab is added and one
block is allocated, the slab holds 5 blocks of at most 10. -/
theorem C26_growth_amount_witness :
    growth_amount slab_init_5 = 5 ∧
    (xio_mem_slab_resize 0 (xio_mempool_create 0 0 flags_none).flags true slab_init_5 []
      true).1.curr_mb_nr = slab_init_5.curr_mb_nr + growth_amount slab_init_5 ∧
    pool_run (xio_mempool_create 0 0 flags_none) ops_init_5 = some pool_init_5 ∧
    slabs_bounded pool_init_5 ∧
    pool_init_5.slab.map (fun s => (s.curr_mb_nr, s.max_mb_nr, s.used_mb_nr)) =
      [(5, 10, 1), (0, 0, 0)] :=
  have h := C26_growth_amount 0 (xio_mempool_create 0 0 flags_none).flags true slab_init_5 []
    true
  ⟨by decide, (h.1 (by decide)).1, rfl,
    h.2.2.2.2.2 0 0 flags_none ops_init_5 pool_init_5
      (by
        intro op hop
        simp only [ops_init_5, List.mem_cons, List.mem_singleton, List.not_mem_nil,
          or_false] at hop
        rcases hop with rfl | rfl
        · show 0 ≤ int_of_size_t 10
          decide
        · trivial) rfl, by decide⟩

/-! ### The claim-bit counter of the blocks -/

theorem decrement_other (c : Int) (h : c ≠ 2) : decrement_and_test_and_set c = (c - 2, 0) := by
  unfold decrement_and_test_and_set
  have h0 : ¬ (c - 2 = 0) := by omega
  simp only [h0, if_false, Prod.mk.injEq, true_and]
  omega

theorem decrement_last : decrement_and_test_and_set 2 = (1, 1) := by decide

/-- A memory with the same length that shows the same links and counters holds the
same chains. -/
theorem chain_congr (mem mem1 : BlockMem) (hlen : mem1.length = mem.length)
    (hv : ∀ ptr, (mem_read mem1 ptr).map block_view = (mem_read mem ptr).map block_view) :
    ∀ (l : List BlockPtr) (h : Option BlockPtr), is_chain mem h l → is_chain mem1 h l := by
  intro l
  induction l with
  | nil =>
    intro h hc
    rcases hc with hc | ⟨q, hq, hreg, hr⟩
    · exact Or.inl hc
    · refine Or.inr ⟨q, hq, by rw [hlen]; exact hreg, ?_⟩
      have := hv q
      rw [hr] at this
      cases h1 : mem_read mem1 q with
      | none => rfl
      | some b => rw [h1] at this; cases this
  | cons q l ih =>
    intro h hc
    obtain ⟨hq, b, hb, hr, hrest⟩ := hc
    have := hv q
    rw [hb] at this
    cases h1 : mem_read mem1 q with
    | none => rw [h1] at this; cases this
    | some b1 =>
      rw [h1] at this
      simp only [Option.map_some', Option.some.injEq, block_view, Prod.mk.injEq] at this
      refine ⟨hq, b1, h1, by rw [this.2]; exact hr, ?_⟩
      rw [this.1]
      exact ih _ hrest

/-- A write to a block that is not on the chain leaves the chain as it is. -/
theorem chain_write (mem : BlockMem) (q : BlockPtr) (b0 b1 : xio_mem_block)
    (hq : mem_read mem q = some b0) :
    ∀ (l : List BlockPtr) (h : Option BlockPtr), q ∉ l → is_chain mem h l →
      is_chain (mem_write mem q b1) h l := by
  intro l
  induction l with
  | nil =>
    intro h _ hc
    rcases hc with hc | ⟨q1, hq1, hreg, hr⟩
    · exact Or.inl hc
    · refine Or.inr ⟨q1, hq1, by rw [mem_write_length]; exact hreg, ?_⟩
      rw [mem_read_write_of_some _ _ _ _ _ hq]
      have : q1 ≠ q := by
        intro he
        rw [he, hq] at hr
        cases hr
      simp only [this, if_false]
      exact hr
  | cons q1 l ih =>
    intro h hnot hc
    obtain ⟨hq1, b, hb, hr, hrest⟩ := hc
    have hne : q1 ≠ q := fun he => hnot (by rw [he]; exact List.mem_cons_self _ _)
    refine ⟨hq1, b, ?_, hr, ih _ (fun hin => hnot (List.mem_cons_of_mem _ hin)) hrest⟩
    rw [mem_read_write_of_some _ _ _ _ _ hq]
    simp only [hne, if_false]
    exact hb

/-- A new region leaves the chains as they are. -/
theorem chain_append (mem : BlockMem) (blocks : List xio_mem_block) :
    ∀ (l : List BlockPtr) (h : Option BlockPtr), is_chain mem h l →
      is_chain (mem ++ [blocks]) h l := by
  intro l
  induction l with
  | nil =>
    intro h hc
    rcases hc with hc | ⟨q1, hq1, hreg, hr⟩
    · exact Or.inl hc
    · refine Or.inr ⟨q1, hq1, by simp; omega, ?_⟩
      rw [mem_read_append_lt _ _ _ hreg]
      exact hr
  | cons q1 l ih =>
    intro h hc
    obtain ⟨hq1, b, hb, hr, hrest⟩ := hc
    refine ⟨hq1, b, ?_, hr, ih _ hrest⟩
    rw [mem_read_append_lt _ _ _ (mem_read_lt _ _ _ hb)]
    exact hb

/-- The blocks of a chain have the counter 1. -/
theorem chain_refcnt (mem : BlockMem) :
    ∀ (l : List BlockPtr) (h : Option BlockPtr), is_chain mem h l →
      ∀ q ∈ l, ∃ b, mem_read mem q = some b ∧ b.refcnt_claim = 1 := by
  intro l
  induction l with
  | nil => intro h _ q hq; cases hq
  | cons q1 l ih =>
    intro h hc q hq
    obtain ⟨_, b, hb, hr, hrest⟩ := hc
    rcases List.mem_cons.mp hq with rfl | hin
    · exact ⟨b, hb, hr⟩
    · exact ih _ hrest q hin

/-- The walk along a free list finds the blocks of its chain only. -/
theorem free_chain_sub (mem : BlockMem) :
    ∀ (l : List BlockPtr) (h : Option BlockPtr) (fuel : Nat), is_chain mem h l →
      free_chain mem fuel h = l.take fuel := by
  intro l
  induction l with
  | nil =>
    intro h fuel hc
    cases fuel with
    | zero => rfl
    | succ n =>
      rcases hc with rfl | ⟨q, rfl, _, hr⟩
      · rfl
      · simp only [free_chain, hr, List.take_nil]
  | cons q l ih =>
    intro h fuel hc
    obtain ⟨rfl, b, hb, _, hrest⟩ := hc
    cases fuel with
    | zero => rfl
    | succ n => simp only [free_chain, hb, List.take_succ_cons, ih _ n hrest]

/-- In a well-formed pool the blocks of the free list of slab `k` belong to slab `k`. -/
theorem chain_parent (p : xio_mempool) (k : Nat) (hwf : pool_wf p) :
    ∀ (l : List BlockPtr) (h : Option BlockPtr),
      (∀ q, h = some q → ∀ c, mem_read p.mem q = some c → c.parent_slab = k) →
      is_chain p.mem h l → ∀ q ∈ l, ∃ b, mem_read p.mem q = some b ∧ b.parent_slab = k := by
  have hN := hwf.2.2.2.2
  intro l
  induction l with
  | nil => intro h _ _ q hq; cases hq
  | cons q1 l ih =>
    intro h hh hc q hq
    obtain ⟨rfl, b, hb, _, hrest⟩ := hc
    have hpar : b.parent_slab = k := hh q1 rfl b hb
    rcases List.mem_cons.mp hq with rfl | hin
    · exact ⟨b, hb, hpar⟩
    · refine ih b.next ?_ hrest q hin
      intro q2 h2 c hc2
      rw [(hN q1 b q2 hb h2).2 c hc2, hpar]

/-- The counter and the link of each block of a new region. -/
theorem resize_blocks_exact (self : Nat) (omr : Option Nat) (mb_size r n : Nat) (alloc : Bool)
    (old_head : Option BlockPtr) (i : Nat) (b : xio_mem_block)
    (h : (resize_region_blocks self omr mb_size r n alloc old_head)[i]? = some b) :
    b.refcnt_claim = (if alloc = true ∧ i = 0 then 2 else 1) ∧
    b.next = (if i = n - 1 then old_head
              else if alloc = true ∧ i = 0 then none else some ⟨r, i + 1⟩) := by
  have hi : i < n := (resize_blocks _ _ _ _ _ _ _ _ _ h).1
  unfold resize_region_blocks at h
  rw [List.getElem?_modify] at h
  have h0 : ∀ j, (resize_init_blocks self omr mb_size r n)[j]? =
      if j < n then some { parent_slab := self, omr := omr, buf := (r, j * mb_size),
                           next := if j + 1 < n then some ⟨r, j + 1⟩ else none,
                           refcnt_claim := 1 } else none := by
    intro j
    simp only [resize_init_blocks, List.getElem?_map]
    by_cases hj : j < n
    · simp [List.getElem?_range hj, hj]
    · rw [if_neg hj, List.getElem?_eq_none (by simp; omega)]; rfl
  cases alloc
  · simp only [Bool.false_eq_true, if_false, h0, hi, if_true, Option.map_eq_map,
      Option.map_some', Option.some.injEq] at h
    subst h
    by_cases h1 : n - 1 = i
    · simp [h1]
    · have h1' : ¬ (i = n - 1) := fun hh => h1 hh.symm
      have h2 : i + 1 < n := by omega
      simp [h1, h1', h2]
  · simp only [if_true, List.getElem?_modifyHead, h0, hi, Option.map_eq_map] at h
    by_cases hz : i = 0
    · subst hz
      simp only [if_true, Option.map_some', Option.some.injEq] at h
      subst h
      by_cases h1 : n - 1 = 0
      · simp [h1]
      · have h1' : ¬ (0 = n - 1) := fun hh => h1 hh.symm
        simp [h1, h1']
    · simp only [hz, if_false, Option.map_some', Option.some.injEq] at h
      subst h
      by_cases h1 : n - 1 = i
      · simp [h1, hz]
      · have h1' : ¬ (i = n - 1) := fun hh => h1 hh.symm
        have h2 : i + 1 < n := by omega
        simp [h1, h1', h2, hz]

/-- The free part of a new region is a chain: with the old list empty, the blocks
from index `j` on are linked in order, up to the last block of the region. -/
theorem chain_range (mem : BlockMem) (self : Nat) (omr : Option Nat) (mb_size n : Nat)
    (alloc : Bool) :
    ∀ (d j : Nat), j + d = n → (alloc = true → 0 < j) →
      is_chain (mem ++ [resize_region_blocks self omr mb_size mem.length n alloc none])
        (some ⟨mem.length, j⟩) ((List.range' j d).map fun i => (⟨mem.length, i⟩ : BlockPtr)) := by
  intro d
  induction d with
  | zero =>
    intro j hj _
    refine Or.inr ⟨_, rfl, by simp, ?_⟩
    rw [mem_read_append_new]
    apply List.getElem?_eq_none
    rw [resize_region_blocks_length]
    omega
  | succ d ih =>
    intro j hj hpos
    have hlt : j < (resize_region_blocks self omr mb_size mem.length n alloc none).length := by
      rw [resize_region_blocks_length]; omega
    obtain ⟨hr, hnx⟩ := resize_blocks_exact self omr mb_size mem.length n alloc none j _
      (List.getElem?_eq_getElem hlt)
    have hj0 : ¬ (alloc = true ∧ j = 0) := by
      rintro ⟨ha, hz⟩
      have := hpos ha
      omega
    rw [if_neg hj0] at hr
    simp only [List.range'_succ, List.map_cons]
    refine ⟨rfl, _, ?_, hr, ?_⟩
    · rw [mem_read_append_new]
      exact List.getElem?_eq_getElem hlt
    · rw [hnx]
      by_cases hl : j = n - 1
      · rw [if_pos hl]
        have hd : d = 0 := by omega
        subst hd
        exact Or.inl rfl
      · rw [if_neg hl, if_neg hj0]
        exact ih (j + 1) (by omega) (fun _ => by omega)

theorem range_ptr_nodup (r j d : Nat) :
    ((List.range' j d).map fun i => (⟨r, i⟩ : BlockPtr)).Nodup := by
  apply List.Nodup.map
  · intro a b hab
    simpa using hab
  · exact List.nodup_range' j d

theorem set_lookup (l : List xio_mem_slab) (k j : Nat) (s1 t : xio_mem_slab)
    (h : (l.set k s1)[j]? = some t) : (j = k ∧ t = s1) ∨ (j ≠ k ∧ l[j]? = some t) := by
  rw [List.getElem?_set] at h
  by_cases hkj : k = j
  · simp only [hkj, if_true] at h
    left
    split at h
    · cases h; exact ⟨hkj.symm, rfl⟩
    · cases h
  · simp only [hkj, if_false] at h
    exact Or.inr ⟨fun hh => hkj hh.symm, h⟩

/-- The head of the free list of a slab is not held by a caller. -/
theorem head_not_held (p : xio_mempool) (held : List BlockPtr) (k : Nat) (s : xio_mem_slab)
    (q : BlockPtr) (hinv : claim_inv p held) (hk : p.slab[k]? = some s)
    (hf : s.free_blocks_list = some q) (b : xio_mem_block) (hq : mem_read p.mem q = some b) :
    q ∉ held ∧ b.refcnt_claim = 1 ∧
    ∃ l, is_chain p.mem b.next l ∧ l.Nodup ∧ q ∉ l ∧
      ∀ x ∈ l, ∃ c, mem_read p.mem x = some c ∧ c.parent_slab = k := by
  obtain ⟨_, hwf, _, hheld, hch⟩ := hinv
  obtain ⟨l, hl, hnd⟩ := hch k s hk
  rw [hf] at hl
  cases l with
  | nil =>
    rcases hl with hl | ⟨q1, hq1, _, hr⟩
    · cases hl
    · cases hq1
      rw [hq] at hr
      cases hr
  | cons q1 l1 =>
    obtain ⟨hq1, b1, hb1, hr1, hrest⟩ := hl
    cases hq1
    rw [hq] at hb1
    cases hb1
    have hpar := chain_parent p k hwf (q :: l1) (some q)
      (fun x hx c hc => (hwf.2.2.2.1 k s x hk (by rw [hf]; exact hx)).2 c hc)
      ⟨rfl, b, hq, hr1, hrest⟩
    refine ⟨?_, hr1, l1, hrest, (List.nodup_cons.mp hnd).2, (List.nodup_cons.mp hnd).1,
      fun x hx => hpar x (List.mem_cons_of_mem _ hx)⟩
    intro hin
    obtain ⟨b2, hb2, hr2⟩ := hheld q hin
    rw [hq] at hb2
    cases hb2
    omega

/-- The blocks of the free list of another slab belong to that slab. -/
theorem other_chain (p : xio_mempool) (held : List BlockPtr) (j : Nat) (t : xio_mem_slab)
    (hinv : claim_inv p held) (hj : p.slab[j]? = some t) :
    ∃ l, is_chain p.mem t.free_blocks_list l ∧ l.Nodup ∧
      ∀ x ∈ l, ∃ c, mem_read p.mem x = some c ∧ c.parent_slab = j ∧ c.refcnt_claim = 1 := by
  obtain ⟨_, hwf, _, _, hch⟩ := hinv
  obtain ⟨l, hl, hnd⟩ := hch j t hj
  refine ⟨l, hl, hnd, ?_⟩
  intro x hx
  obtain ⟨c, hc, hp⟩ := chain_parent p j hwf l t.free_blocks_list
    (fun y hy c hc => (hwf.2.2.2.1 j t y hj hy).2 c hc) hl x hx
  obtain ⟨c1, hc1, hr⟩ := chain_refcnt p.mem l _ hl x hx
  rw [hc] at hc1
  cases hc1
  exact ⟨c, hc, hp, hr⟩

/-- Taking the head of a free list keeps the invariant, the block becoming held. -/
theorem inv_take (p : xio_mempool) (held : List BlockPtr) (k : Nat) (s s1 : xio_mem_slab)
    (q : BlockPtr) (b : xio_mem_block) (hinv : claim_inv p held) (hk : p.slab[k]? = some s)
    (hf : s.free_blocks_list = some q) (hq : mem_read p.mem q = some b)
    (hs1 : s1.free_blocks_list = b.next)
    (hwf1 : pool_wf { p with slab := p.slab.set k s1
                             mem := mem_write p.mem q
                               { b with refcnt_claim := clear_lowest_bit (b.refcnt_claim + 2) } }) :
    claim_inv { p with slab := p.slab.set k s1
                       mem := mem_write p.mem q
                         { b with refcnt_claim := clear_lowest_bit (b.refcnt_claim + 2) } }
      (q :: held) := by
  obtain ⟨hnh, hr1, l1, hl1, hnd1, hql1, hpar1⟩ := head_not_held p held k s q hinv hk hf b hq
  have hinv0 := hinv
  obtain ⟨hsafe, hwf, hnd, hheld, hch⟩ := hinv
  have hrw := fun ptr => mem_read_write_of_some p.mem q ptr b
    { b with refcnt_claim := clear_lowest_bit (b.refcnt_claim + 2) } hq
  have hbk : b.parent_slab = k := (hwf.2.2.2.1 k s q hk hf).2 b hq
  refine ⟨hsafe, hwf1, List.nodup_cons.mpr ⟨hnh, hnd⟩, ?_, ?_⟩
  · intro x hx
    rcases List.mem_cons.mp hx with rfl | hin
    · refine ⟨{ b with refcnt_claim := clear_lowest_bit (b.refcnt_claim + 2) },
        by rw [hrw]; simp, ?_⟩
      simp only [clear_lowest_bit, hr1]
      rfl
    · obtain ⟨c, hc, hr⟩ := hheld x hin
      have hne : x ≠ q := fun he => hnh (by rw [← he]; exact hin)
      exact ⟨c, by rw [hrw]; simp [hne, hc], hr⟩
  · intro j t hj
    rcases set_lookup _ _ _ _ _ hj with ⟨_, rfl⟩ | ⟨hne, hj0⟩
    · refine ⟨l1, ?_, hnd1⟩
      rw [hs1]
      exact chain_write p.mem q b _ hq l1 _ hql1 hl1
    · obtain ⟨l, hl, hndl, hparl⟩ := other_chain p held j t hinv0 hj0
      refine ⟨l, chain_write p.mem q b _ hq l _ ?_ hl, hndl⟩
      intro hin
      obtain ⟨c, hc, hp, _⟩ := hparl q hin
      rw [hq] at hc
      cases hc
      omega

/-- A growth for an allocation keeps the invariant, the first block of the new
region becoming held. -/
theorem inv_grow (p : xio_mempool) (held : List BlockPtr) (k : Nat) (s2 : xio_mem_slab)
    (n : Nat) (omr : Option Nat) (mbsz : Nat) (hinv : claim_inv p held)
    (hn : 0 < n) (hs2 : s2.free_blocks_list = some ⟨p.mem.length, 1⟩)
    (hwf1 : pool_wf { p with slab := p.slab.set k s2
                             mem := p.mem ++ [resize_region_blocks k omr mbsz p.mem.length n
                               true none] }) :
    claim_inv { p with slab := p.slab.set k s2
                       mem := p.mem ++ [resize_region_blocks k omr mbsz p.mem.length n
                         true none] }
      (⟨p.mem.length, 0⟩ :: held) := by
  obtain ⟨hsafe, hwf, hnd, hheld, hch⟩ := hinv
  have hlt : 0 < (resize_region_blocks k omr mbsz p.mem.length n true none).length := by
    rw [resize_region_blocks_length]; exact hn
  refine ⟨hsafe, hwf1, List.nodup_cons.mpr ⟨?_, hnd⟩, ?_, ?_⟩
  · intro hin
    obtain ⟨c, hc, _⟩ := hheld _ hin
    have := mem_read_lt _ _ _ hc
    simp at this
  · intro x hx
    rcases List.mem_cons.mp hx with rfl | hin
    · refine ⟨_, by rw [mem_read_append_new]; exact List.getElem?_eq_getElem hlt, ?_⟩
      have := (resize_blocks_exact k omr mbsz p.mem.length n true none 0 _
        (List.getElem?_eq_getElem hlt)).1
      simpa using this
    · obtain ⟨c, hc, hr⟩ := hheld x hin
      exact ⟨c, by rw [mem_read_append_lt _ _ _ (mem_read_lt _ _ _ hc)]; exact hc, hr⟩
  · intro j t hj
    rcases set_lookup _ _ _ _ _ hj with ⟨_, rfl⟩ | ⟨_, hj0⟩
    · refine ⟨(List.range' 1 (n - 1)).map fun i => (⟨p.mem.length, i⟩ : BlockPtr), ?_,
        range_ptr_nodup _ _ _⟩
      rw [hs2]
      exact chain_range p.mem k omr mbsz n true (n - 1) 1 (by omega) (fun _ => by omega)
    · obtain ⟨l, hl, hndl⟩ := hch j t hj0
      exact ⟨l, chain_append p.mem _ l _ hl, hndl⟩

/-- A slab update that leaves the free list and the memory alone keeps the
invariant. -/
theorem inv_pass (p : xio_mempool) (held : List BlockPtr) (k : Nat) (s s1 : xio_mem_slab)
    (hinv : claim_inv p held) (hk : p.slab[k]? = some s)
    (hs1 : s1.free_blocks_list = s.free_blocks_list)
    (hwf1 : pool_wf { p with slab := p.slab.set k s1, mem := p.mem }) :
    claim_inv { p with slab := p.slab.set k s1, mem := p.mem } held := by
  obtain ⟨hsafe, hwf, hnd, hheld, hch⟩ := hinv
  refine ⟨hsafe, hwf1, hnd, hheld, ?_⟩
  intro j t hj
  rcases set_lookup _ _ _ _ _ hj with ⟨_, rfl⟩ | ⟨_, hj0⟩
  · rw [hs1]
    exact hch k s hk
  · exact hch j t hj0

/-- Pass through `retry` in safe mode at a slab whose free list starts with a
block: the block is taken with its counter raised by 2 and its claim bit cleared. -/
theorem alloc_retry_take_safe (length : Nat) (ok : Nat → Bool) (fuel : Nat) (p : xio_mempool)
    (k : Nat) (s : xio_mem_slab) (q : BlockPtr) (b : xio_mem_block) (hs : p.safe_mt = true)
    (hk : p.slab[k]? = some s) (hf : s.free_blocks_list = some q)
    (hq : mem_read p.mem q = some b) :
    xio_mempool_alloc_retry length ok (fuel + 1) p (k : Int) =
      .ok { ret := 0
            errno := none
            mp_obj := { addr := some b.buf, mr := b.omr, cache := some q, length := length }
            pool := { p with
                      slab := p.slab.set k { s with free_blocks_list := b.next
                                                    used_mb_nr := s.used_mb_nr + 1 }
                      mem := mem_write p.mem q
                        { b with refcnt_claim := clear_lowest_bit (b.refcnt_claim + 2) } } } := by
  simp only [xio_mempool_alloc_retry, int_index_ne, if_false, Int.toNat_ofNat, hk, new_block,
    hs, if_true, safe_new_block, hf, hq, alloc_finish,
    mem_read_write_of_some _ _ _ _ _ hq]

/-- The allocation loop keeps the invariant; a block it returns becomes held. -/
theorem alloc_retry_inv (length : Nat) (ok : Nat → Bool) :
    ∀ (fuel : Nat) (p : xio_mempool) (held : List BlockPtr) (index : Int) (res : alloc_result),
      claim_inv p held → (index = -1 ∨ ∃ k : Nat, index = (k : Int) ∧ k < p.slabs_nr) →
      xio_mempool_alloc_retry length ok fuel p index = .ok res →
      claim_inv res.pool (match res.mp_obj.cache with
                          | some b => b :: held
                          | none => held) := by
  intro fuel
  induction fuel with
  | zero => intro p held index res _ _ h; simp [xio_mempool_alloc_retry] at h
  | succ fuel ih =>
    intro p held index res hinv hidx h
    have hwf := hinv.2.1
    have hwfres := alloc_retry_wf length ok (fuel + 1) p index res hwf hidx h
    rcases hidx with rfl | ⟨k, rfl, hkn⟩
    · rw [alloc_retry_invalid] at h
      cases h; exact hinv
    · obtain ⟨s, hk⟩ := pool_wf_slab_exists p k hwf hkn
      cases hf : s.free_blocks_list with
      | some q =>
        cases hq : mem_read p.mem q with
        | none => rw [alloc_retry_dangling length ok fuel p k s q hk hf hq] at h; cases h
        | some b =>
          rw [alloc_retry_take_safe length ok fuel p k s q b hinv.1 hk hf hq] at h
          cases h
          exact inv_take p held k s _ q b hinv hk hf hq rfl hwfres
      | none =>
        by_cases hg : 0 < resize_nr_blocks (resize_clamp s) ∧ region_obtained p.flags (ok k) = true
        · rw [alloc_retry_grow length ok fuel p k s hk hf hg.1 hg.2] at h
          cases h
          obtain ⟨_, _, hc3, _⟩ := resize_clamp_fields s
          have hnone : (resize_clamp s).free_blocks_list = none := by rw [hc3, hf]
          simp only [hnone] at hwfres ⊢
          exact inv_grow p held k _ _ _ _ hinv (by omega) rfl hwfres
        · have hg2 : resize_nr_blocks (resize_clamp s) ≤ 0 ∨ region_obtained p.flags (ok k) = false := by
            by_cases h1 : 0 < resize_nr_blocks (resize_clamp s)
            · right
              cases hok : region_obtained p.flags (ok k)
              · rfl
              · exact absurd ⟨h1, hok⟩ hg
            · left; omega
          rw [alloc_retry_pass length ok fuel p k s hk hf hg2] at h
          obtain ⟨hc1, hc2, hc3, _⟩ := resize_clamp_fields s
          have hwf2 := pool_wf_fields p k s _ hwf hk hkn hc1 hc2 hc3
          refine ih _ held _ res (inv_pass p held k s _ hinv hk hc3 hwf2) ?_ h
          by_cases hlast : (k : Int) + 1 = (p.slabs_nr : Int) ∨ p.flags.use_smallest_slab = true
          · left; rw [if_pos hlast]
          · right
            rw [if_neg hlast]
            refine ⟨k + 1, by push_cast; rfl, ?_⟩
            show k + 1 < p.slabs_nr
            have : ¬ ((k : Int) + 1 = (p.slabs_nr : Int)) := fun hh => hlast (Or.inl hh)
            omega

theorem alloc_inv (p : xio_mempool) (held : List BlockPtr) (length : Nat) (ok : Nat → Bool)
    (res : alloc_result) (hinv : claim_inv p held) (hlen : length ≤ SIZE_MAX)
    (h : xio_mempool_alloc p length ok = .ok res) :
    claim_inv res.pool (match res.mp_obj.cache with
                        | some b => b :: held
                        | none => held) := by
  rcases hinv.2.1.1 with h0 | hord
  · simp [xio_mempool_alloc, size2index, size2index_scan, h0.1] at h
  · unfold xio_mempool_alloc at h
    rcases size2index_spec p length hord hlen with ⟨i, s, hi, hin, _⟩ | ⟨hi, _⟩
    · rw [hi] at h
      exact alloc_retry_inv length ok _ p held _ res hinv (Or.inr ⟨i, rfl, hin⟩) h
    · rw [hi] at h
      exact alloc_retry_inv length ok _ p held _ res hinv (Or.inl rfl) h

/-- Giving back a held block keeps the invariant, the block being held no more. -/
theorem free_inv (p p1 : xio_mempool) (held : List BlockPtr) (o : xio_mempool_obj)
    (ptr : BlockPtr) (hinv : claim_inv p held) (hc : o.cache = some ptr) (hin : ptr ∈ held)
    (h : xio_mempool_free p (some o) = some p1) : claim_inv p1 (held.erase ptr) := by
  have hwf1 := free_wf p p1 (some o) hinv.2.1 h
  have hinv0 := hinv
  obtain ⟨hsafe, hwf, hnd, hheld, hch⟩ := hinv
  obtain ⟨b, hb, hr⟩ := hheld ptr hin
  obtain ⟨hjn, s, hs, _⟩ := hwf.2.1 ptr b hb
  have hres : p1 = { p with
      slab := p.slab.set b.parent_slab
        { s with used_mb_nr := s.used_mb_nr - 1, free_blocks_list := some ptr }
      mem := mem_write p.mem ptr { b with refcnt_claim := 1, next := s.free_blocks_list } } := by
    simp only [xio_mempool_free, hc, hb, hs, hsafe, if_true, safe_release, hr, decrement_last,
      Option.some.injEq] at h
    rw [← h]
    simp [hsafe]
  subst hres
  have hrw := fun x => mem_read_write_of_some p.mem ptr x b
    { b with refcnt_claim := 1, next := s.free_blocks_list } hb
  have hnotin : ∀ (l : List BlockPtr) (hd : Option BlockPtr), is_chain p.mem hd l → ptr ∉ l := by
    intro l hd hl hx
    obtain ⟨c, hc1, hr1⟩ := chain_refcnt p.mem l hd hl ptr hx
    rw [hb] at hc1
    cases hc1
    omega
  refine ⟨hsafe, hwf1, hnd.erase ptr, ?_, ?_⟩
  · intro x hx
    have hx1 := (List.Nodup.mem_erase_iff hnd).mp hx
    obtain ⟨c, hc1, hr1⟩ := hheld x hx1.2
    exact ⟨c, by rw [hrw]; simp [hx1.1, hc1], hr1⟩
  · intro j t hj
    rcases set_lookup _ _ _ _ _ hj with ⟨_, rfl⟩ | ⟨_, hj0⟩
    · obtain ⟨l, hl, hndl⟩ := hch b.parent_slab s hs
      refine ⟨ptr :: l, ⟨rfl, { b with refcnt_claim := 1, next := s.free_blocks_list },
        by rw [hrw]; simp, rfl, ?_⟩, List.nodup_cons.mpr ⟨hnotin l _ hl, hndl⟩⟩
      exact chain_write p.mem ptr b _ hb l _ (hnotin l _ hl) hl
    · obtain ⟨l, hl, hndl⟩ := hch j t hj0
      exact ⟨l, chain_write p.mem ptr b _ hb l _ (hnotin l _ hl) hl, hndl⟩

theorem reparent_view (l : List xio_mem_slab) (mem : BlockMem) (ix : Nat) (ptr : BlockPtr) :
    (mem_read (reparent_slabs mem l ix) ptr).map block_view =
      (mem_read mem ptr).map block_view := by
  rw [reparent_slabs_read]
  cases mem_read mem ptr with
  | none => rfl
  | some b =>
    obtain ⟨h1, _, _, h4⟩ := reparent_of_fields l ix ptr b
    simp only [Option.map_some', block_view, h1, h4]

theorem view_refcnt (mem mem1 : BlockMem) (ptr : BlockPtr) (b : xio_mem_block)
    (hv : (mem_read mem1 ptr).map block_view = (mem_read mem ptr).map block_view)
    (hb : mem_read mem ptr = some b) :
    ∃ b1, mem_read mem1 ptr = some b1 ∧ b1.refcnt_claim = b.refcnt_claim := by
  rw [hb] at hv
  cases h1 : mem_read mem1 ptr with
  | none => rw [h1] at hv; cases hv
  | some b1 =>
    rw [h1] at hv
    simp only [Option.map_some', Option.some.injEq, block_view, Prod.mk.injEq] at hv
    exact ⟨b1, rfl, hv.2⟩

/-- Adding a slab keeps the invariant. -/
theorem add_slab_inv (p : xio_mempool) (held : List BlockPtr) (size min max q : Nat) (ok : Bool)
    (hinv : claim_inv p held) :
    claim_inv (xio_mempool_add_slab p size min max q ok).2 held := by
  have hwf1 := add_slab_wf p size min max q ok hinv.2.1
  obtain ⟨hsafe, hwf, hnd, hheld, hch⟩ := hinv
  have hlen : p.slabs_nr ≤ p.slab.length := by
    rcases hwf.1 with h | h
    · rw [h.2]; omega
    · rw [h.1]; omega
  have hs : (slab_sizes p).Pairwise (fun a b => a < b) := by
    rcases hwf.1 with h | h
    · simp [slab_sizes, h.1]
    · exact h.2.1
  by_cases hmem : size ∈ slab_sizes p
  · rw [add_slab_exists p size min max q ok hlen hs hmem] at hwf1 ⊢
    exact ⟨hsafe, hwf, hnd, hheld, hch⟩
  · obtain ⟨k, hk, _, _, he⟩ := add_slab_inserts p size min max q ok hlen hs hmem
    rw [he] at hwf1 ⊢
    have hlook := add_slab_at_lookup p size min max q k ok hlen hk
    have hmem3 : (add_slab_at p k size min max q ok).mem =
        reparent_slabs (add_slab_grow k p.flags ok (add_slab_fresh size min max q)
          (reparent_slabs p.mem ((p.slab.take p.slabs_nr).take k) 0)).2
          ((p.slab.take p.slabs_nr).drop k) (k + 1) := rfl
    have hcases := add_slab_grow_cases k p.flags ok (add_slab_fresh size min max q)
      (reparent_slabs p.mem ((p.slab.take p.slabs_nr).take k) 0) rfl rfl
    generalize hG : add_slab_grow k p.flags ok (add_slab_fresh size min max q)
      (reparent_slabs p.mem ((p.slab.take p.slabs_nr).take k) 0) = G at hlook hmem3 hcases
    have hsafe1 : (add_slab_at p k size min max q ok).safe_mt = true := hsafe
    generalize hP : add_slab_at p k size min max q ok = P at hwf1 hlook hmem3 hsafe1 ⊢
    -- chains of the old memory are chains of the new one
    have hold : ∀ (l : List BlockPtr) (hd : Option BlockPtr), is_chain p.mem hd l →
        is_chain P.mem hd l := by
      intro l hd hl
      have h1 : is_chain (reparent_slabs p.mem ((p.slab.take p.slabs_nr).take k) 0) hd l :=
        chain_congr p.mem _ (reparent_slabs_length _ _ _) (reparent_view _ _ _) l hd hl
      have h2 : is_chain G.2 hd l := by
        rcases hcases with ⟨hm, _⟩ | ⟨n, omr, mbsz, hm, _⟩
        · rw [hm]; exact h1
        · rw [hm]; exact chain_append _ _ l hd h1
      rw [hmem3]
      exact chain_congr G.2 _ (reparent_slabs_length _ _ _) (reparent_view _ _ _) l hd h2
    refine ⟨hsafe1, hwf1, hnd, ?_, ?_⟩
    · intro x hx
      obtain ⟨b, hb, hr⟩ := hheld x hx
      obtain ⟨b1, hb1, hr1⟩ := view_refcnt p.mem _ x b
        (reparent_view ((p.slab.take p.slabs_nr).take k) p.mem 0 x) hb
      have h2 : ∃ b2, mem_read G.2 x = some b2 ∧ b2.refcnt_claim = b.refcnt_claim := by
        rcases hcases with ⟨hm, _⟩ | ⟨n, omr, mbsz, hm, _⟩
        · rw [hm]; exact ⟨b1, hb1, hr1⟩
        · rw [hm, mem_read_append_lt _ _ _ (mem_read_lt _ _ _ hb1)]
          exact ⟨b1, hb1, hr1⟩
      obtain ⟨b2, hb2, hr2⟩ := h2
      obtain ⟨b3, hb3, hr3⟩ := view_refcnt G.2 _ x b2
        (reparent_view ((p.slab.take p.slabs_nr).drop k) G.2 (k + 1) x) hb2
      rw [hmem3]
      exact ⟨b3, hb3, by rw [hr3, hr2, hr]⟩
    · intro m t hm
      rcases hlook m t hm with ⟨_, h0⟩ | ⟨_, rfl⟩ | ⟨_, _, h0⟩ | ⟨_, rfl⟩
      · obtain ⟨l, hl, hndl⟩ := hch m t h0
        exact ⟨l, hold l _ hl, hndl⟩
      · rcases hcases with ⟨_, _, hfree⟩ | ⟨n, omr, mbsz, hmG, _, hfree⟩
        · exact ⟨[], by rw [hfree]; exact Or.inl rfl, List.nodup_nil⟩
        · refine ⟨(List.range' 0 n).map fun i =>
            (⟨(reparent_slabs p.mem ((p.slab.take p.slabs_nr).take k) 0).length, i⟩ : BlockPtr),
            ?_, range_ptr_nodup _ _ _⟩
          rw [hfree, hmem3]
          apply chain_congr G.2 _ (reparent_slabs_length _ _ _) (reparent_view _ _ _)
          rw [hmG]
          exact chain_range _ k omr mbsz n false n 0 (by omega) (fun h => by cases h)
      · obtain ⟨l, hl, hndl⟩ := hch (m - 1) t h0
        exact ⟨l, hold l _ hl, hndl⟩
      · exact ⟨[], Or.inl rfl, List.nodup_nil⟩

theorem create_inv (nodeid cur : Int) (flags : xio_mempool_flags) :
    claim_inv (xio_mempool_create nodeid cur flags) [] := by
  refine ⟨rfl, create_wf nodeid cur flags, List.nodup_nil, ?_, ?_⟩
  · intro q hq; cases hq
  · intro k s h; simp [xio_mempool_create] at h

theorem claim_step_inv (st st1 : xio_mempool × List BlockPtr) (op : pool_op)
    (hinv : claim_inv st.1 st.2) (h : claim_step st op = some st1) :
    claim_inv st1.1 st1.2 := by
  cases op with
  | add_slab size min max q ok =>
    simp only [claim_step, Option.some.injEq] at h
    subst h
    exact add_slab_inv st.1 st.2 size min max q ok hinv
  | alloc length ok =>
    simp only [claim_step] at h
    split at h
    · rename_i hlen
      split at h
      · rename_i res hres
        simp only [Option.some.injEq] at h
        subst h
        exact alloc_inv st.1 st.2 length ok res hinv hlen hres
      · cases h
    · cases h
  | free obj =>
    cases obj with
    | none =>
      simp only [claim_step, Option.some.injEq] at h
      subst h
      exact hinv
    | some o =>
      cases hc : o.cache with
      | none =>
        simp only [claim_step, hc, Option.some.injEq] at h
        subst h
        exact hinv
      | some b =>
        simp only [claim_step, hc] at h
        by_cases hin : b ∈ st.2
        · rw [if_pos hin] at h
          cases hfree : xio_mempool_free st.1 (some o) with
          | none => simp [hfree] at h
          | some p1 =>
            simp only [hfree, Option.some.injEq] at h
            subst h
            exact free_inv st.1 p1 st.2 o b hinv hc hin hfree
        · rw [if_neg hin] at h
          cases h

theorem claim_run_inv (ops : List pool_op) :
    ∀ (st st1 : xio_mempool × List BlockPtr), claim_inv st.1 st.2 →
      claim_run st ops = some st1 → claim_inv st1.1 st1.2 := by
  induction ops with
  | nil =>
    intro st st1 hinv h
    simp only [claim_run, Option.some.injEq] at h
    subst h
    exact hinv
  | cons op rest ih =>
    intro st st1 hinv h
    simp only [claim_run] at h
    cases hs : claim_step st op with
    | none => simp [hs] at h
    | some st2 =>
      simp only [hs] at h
      exact ih st2 st1 (claim_step_inv st st2 op hinv hs) h

/-- C28: `decrement_and_test_and_set` on a counter `c` stores `c - 2` and returns 0
when `c ≠ 2`, and stores 1 and returns 1 when `c = 2`; `safe_release` puts the
block at the head of the free list exactly in that case.  For every pool made by
`xio_mempool_create` (safe mode) and every single-threaded sequence of
`xio_mempool_add_slab`, `xio_mempool_alloc` and `xio_mempool_free` calls that stays
inside the model and frees held blocks only, every block met on the free list of
a slab, however far the list is followed, has `refcnt_claim = 1`, and every block
held by a caller has `refcnt_claim = 2`. -/
theorem C28_claim_bit_protocol (c : Int) (nodeid cur : Int) (flags : xio_mempool_flags)
    (ops : List pool_op) (p : xio_mempool) (held : List BlockPtr)
    (hrun : claim_run (xio_mempool_create nodeid cur flags, []) ops = some (p, held)) :
    (c ≠ 2 → decrement_and_test_and_set c = (c - 2, 0)) ∧
    decrement_and_test_and_set 2 = (1, 1) ∧
    (∀ (slab : xio_mem_slab) (mem : BlockMem) (q : BlockPtr) (b : xio_mem_block),
      (safe_release slab mem q b).1.free_blocks_list =
        if b.refcnt_claim = 2 then some q else slab.free_blocks_list) ∧
    (∀ (k : Nat) (s : xio_mem_slab), p.slab[k]? = some s →
      ∀ (fuel : Nat), ∀ q ∈ free_chain p.mem fuel s.free_blocks_list,
        ∃ b, mem_read p.mem q = some b ∧ b.refcnt_claim = 1) ∧
    (∀ q ∈ held, ∃ b, mem_read p.mem q = some b ∧ b.refcnt_claim = 2) := by
  have hinv := claim_run_inv ops _ (p, held) (create_inv nodeid cur flags) hrun
  obtain ⟨_, _, _, hheld, hch⟩ := hinv
  refine ⟨decrement_other c, decrement_last, ?_, ?_, hheld⟩
  · intro slab mem q b
    by_cases h2 : b.refcnt_claim = 2
    · simp only [safe_release, h2, decrement_last, if_true]
      rfl
    · simp only [safe_release, decrement_other _ h2, h2, if_false, if_true]
  · intro k s hk fuel q hq
    obtain ⟨l, hl, _⟩ := hch k s hk
    rw [free_chain_sub p.mem l _ fuel hl] at hq
    exact chain_refcnt p.mem l _ hl q (List.mem_of_mem_take hq)

/-- Witness of C28: a slab `{64, min 2, max 4, quantum 2}` is added, two blocks are
allocated, the first is given back, two more are allocated (the second from a new
region): three blocks are held, each with `refcnt_claim = 2`, and the free list
holds the one block left, with `refcnt_claim = 1`. -/
theorem C28_claim_bit_witness :
    claim_run (xio_mempool_create 0 0 flags_none, []) ops_claim_demo = some claim_demo ∧
    claim_demo.2 = [⟨1, 0⟩, ⟨0, 0⟩, ⟨0, 1⟩] ∧
    claim_demo.1.slab.map (fun s => free_chain claim_demo.1.mem 10 s.free_blocks_list) =
      [[⟨1, 1⟩], []] ∧
    (∃ b, mem_read claim_demo.1.mem ⟨1, 0⟩ = some b ∧ b.refcnt_claim = 2) ∧
    (∃ b, mem_read claim_demo.1.mem ⟨1, 1⟩ = some b ∧ b.refcnt_claim = 1) ∧
    decrement_and_test_and_set 4 = (2, 0) :=
  have h := C28_claim_bit_protocol 4 0 0 flags_none ops_claim_demo claim_demo.1 claim_demo.2 rfl
  ⟨rfl, by decide, by decide, h.2.2.2.2 ⟨1, 0⟩ (by decide),
    h.2.2.2.1 0 (claim_demo.1.slab.getD 0 sentinel_slab) rfl 10 ⟨1, 1⟩ (by decide),
    h.1 (by decide)⟩

/-! ## Allocation and release by two threads -/

/-- A thread that runs `xio_mempool_alloc` alone goes through the steps of the
interleaved model to the pool the call itself produces: when the free list holds a
block (first conjunct), and when the slab has to grow (second conjunct). -/
theorem mt_alone_agrees :
    (mt_run (fun _ => true) mt_init [(0, .start_alloc 64), (0, .step)]).map (fun st => st.pool)
        = alloc_pool (xio_mempool_alloc mt_init.pool 64 (fun _ => true)) ∧
      ((mt_run (fun _ => true) mt_init (mt_schedule.take 2)).bind fun st =>
          (mt_run (fun _ => true) st
            [(1, .start_alloc 64), (1, .step), (1, .step), (1, .step), (1, .step)]).map
            (fun st1 => st1.pool))
        = ((mt_run (fun _ => true) mt_init (mt_schedule.take 2)).bind fun st =>
            alloc_pool (xio_mempool_alloc st.pool 64 (fun _ => true))) := by
  constructor <;> rfl

/-- No list followed from an address that is not a block meets a block. -/
theorem free_chain_dangling (mem : BlockMem) (q : BlockPtr) (h : mem_read mem q = none)
    (fuel : Nat) : free_chain mem fuel (some q) = [] := by
  cases fuel with
  | zero => rfl
  | succ n => simp only [free_chain, h]

/-- C27, on the code: a release that runs between the second `safe_new_block` and
`xio_mem_slab_resize` of another thread loses a block.  On the pool of
`xio_mempool_create` with the slab `{64, min 1, max 2, quantum 1}` in safe mode,
thread 0 allocates the only block; thread 1 finds the free list empty twice;
thread 0 gives its block back; thread 1 grows the slab by one block.  The growth
stores the old head, the block of thread 0, in the `next` field of the block it
hands out and makes `block + 1`, which is no block, the head.  Every step is a step
of the code on objects (the schedule runs to `mt_final`), both calls returned 0,
no lock is held, the only held block is the new one, and the block at region 0 is
lost: marked free (`refcnt_claim = 1`), held by no caller, on no free list.  It is
still lost after thread 1 gave its block back (`mt_final_all`): then no caller
holds a block, the slab counts two blocks, and its free list meets one. -/
theorem C27_release_during_growth_loses_a_block :
    mt_run (fun _ => true) mt_init mt_schedule = some mt_final ∧
      mt_init.pool.safe_mt = true ∧
      mt_final.threads.map (fun t => t.phase)
        = [.done 0 (some ⟨0, 0⟩), .done 0 (some ⟨1, 0⟩)] ∧
      mt_final.locks = [] ∧
      mt_final.held = [(1, ⟨1, 0⟩)] ∧
      (mem_read mt_final.pool.mem ⟨0, 0⟩).map block_view = some (none, 1) ∧
      (mem_read mt_final.pool.mem ⟨1, 0⟩).map block_view = some (some ⟨0, 0⟩, 2) ∧
      block_lost mt_final ⟨0, 0⟩ ∧
      mt_run (fun _ => true) mt_init mt_schedule_all = some mt_final_all ∧
      mt_final_all.held = [] ∧
      mt_final_all.pool.slab.map (fun s => s.curr_mb_nr) = [2, 0] ∧
      mt_final_all.pool.slab.map (fun s => free_chain mt_final_all.pool.mem 10 s.free_blocks_list)
        = [[⟨1, 0⟩], []] ∧
      block_lost mt_final_all ⟨0, 0⟩ := by
  have hslab : mt_final.pool.slab.map (fun s => s.free_blocks_list) = [some ⟨1, 1⟩, none] := by
    rfl
  have hslab2 : mt_final_all.pool.slab.map (fun s => s.free_blocks_list)
      = [some ⟨1, 0⟩, none] := by rfl
  have hd : mem_read mt_final.pool.mem ⟨1, 1⟩ = none := by rfl
  have hd2 : mem_read mt_final_all.pool.mem ⟨1, 1⟩ = none := by rfl
  have hb2 : (mem_read mt_final_all.pool.mem ⟨1, 0⟩).map (fun b => b.next)
      = some (some ⟨1, 1⟩) := by rfl
  have hlist : ∀ fuel : Nat, free_chain mt_final_all.pool.mem (fuel + 1) (some ⟨1, 0⟩)
      = [⟨1, 0⟩] := by
    intro fuel
    cases hb : mem_read mt_final_all.pool.mem ⟨1, 0⟩ with
    | none => rw [hb] at hb2; cases hb2
    | some b =>
      rw [hb] at hb2
      have hn : b.next = some ⟨1, 1⟩ := by
        simpa using hb2
      simp only [free_chain, hb, hn, free_chain_dangling _ _ hd2]
  refine ⟨rfl, rfl, rfl, rfl, rfl, rfl, rfl, ⟨rfl, ?_, ?_⟩, rfl, rfl, rfl, rfl, ⟨rfl, ?_, ?_⟩⟩
  · intro h hh
    have : h = (1, ⟨1, 0⟩) := by
      have hheld : mt_final.held = [(1, ⟨1, 0⟩)] := rfl
      rw [hheld] at hh
      simpa using hh
    rw [this]
    decide
  · intro s hs fuel
    have hmem : s.free_blocks_list ∈ mt_final.pool.slab.map (fun s => s.free_blocks_list) :=
      List.mem_map_of_mem _ hs
    rw [hslab] at hmem
    simp only [List.mem_cons, List.mem_singleton, List.not_mem_nil, or_false] at hmem
    rcases hmem with h | h
    · rw [h, free_chain_dangling _ _ hd]
      exact List.not_mem_nil _
    · rw [h]
      cases fuel <;> exact List.not_mem_nil _
  · intro h hh
    have hheld : mt_final_all.held = [] := rfl
    rw [hheld] at hh
    exact absurd hh (List.not_mem_nil _)
  · intro s hs fuel
    have hmem : s.free_blocks_list ∈ mt_final_all.pool.slab.map (fun s => s.free_blocks_list) :=
      List.mem_map_of_mem _ hs
    rw [hslab2] at hmem
    simp only [List.mem_cons, List.mem_singleton, List.not_mem_nil, or_false] at hmem
    rcases hmem with h | h
    · rw [h]
      cases fuel with
      | zero => exact List.not_mem_nil _
      | succ n =>
        rw [hlist n]
        decide
    · rw [h]
      cases fuel <;> exact List.not_mem_nil _
end Accelio
